import Mathlib

/-!
Event-sourcing core: events, aggregates and the three event stores.

A shallow embedding of `events/*.go`, `aggregates/*.go`,
`serializer/json_serializer.go`, `store/event_store.go`,
`store/memory_event_store.go` and of the write paths of
`store/eventstoredb_event_store.go` and `store/cassandra_event_store.go`,
followed by theorems about the embedded operations.

Conventions of the embedding:

* `[]*events.Event` is a `List Event` (events are immutable values here);
* a Go `int` is an `Int`; where the code does arithmetic on it (`version++`,
  `GetVersion() + 1`, `firstEventVersion - len(eventList)`) the result is
  wrapped to 64 bits with `wrapInt64`;
* a `float64` is given by its IEEE 754 bits;
* a `time.Time` is the instant it denotes, in nanoseconds since the Unix
  epoch; `After` and `Before` compare instants;
* the Go `error` interface is `GoError`, whose constructor `nil` is the nil
  error;
* a Go map `map[string][]int` is a function `String → Option (List Nat)`,
  `none` standing for an absent key; a `map[string]interface{}` is an
  association list;
* JSON texts are given by the documents they denote; `json.Marshal` and
  `json.Unmarshal` are modelled on documents, for the Go types of this
  package, with the struct tags of the sources; a `json.RawMessage` also tells
  the compact text of its document from the other texts of that document;
* a method that changes its receiver returns the new receiver; `uuid.New()`
  and `time.Now()` are arguments of the operations that call them;
* the clients of the two databases are given by the answers they return, and
  the functions of the adapters return the requests they issue;
* the mutex is not modelled: every operation runs as one atomic step;
* a nil slice and an empty slice of events are both the empty list, and event
  lists hold no nil pointer; for the slices and maps whose nil value the code
  tells apart (`tags`, `modalities`, `Config`), nil is `none`, and the nil
  `json.RawMessage` is `RawMessage.nil`;
* an operation that can index a slice out of range returns an `Option`,
  `none` standing for the run-time panic.
-/

namespace EventSourcing

/-! ## Go errors -/

/-- The Go `error` interface as far as this package can tell values apart:
the nil error, an error without an `Unwrap` method (such as
`*time.ParseError`), an `*EventStoreError` with its wrapped error, and an
error made by `fmt.Errorf` with `%w`. -/
inductive GoError where
  | nil : GoError
  | native (msg : String) : GoError
  | eventStore (Code Message : String) (Err : GoError) : GoError
  | wrapped (msg : String) (err : GoError) : GoError
  deriving DecidableEq, Repr

/-- Go `err.Error()`, the message of a non-nil error. -/
def GoError.Error : GoError → String
  | GoError.nil => ""
  | GoError.native msg => msg
  | GoError.eventStore _ message GoError.nil => message
  | GoError.eventStore _ message err => message ++ ": " ++ err.Error
  | GoError.wrapped msg _ => msg

/-- Go `errors.New(msg)`. -/
def errorsNew (msg : String) : GoError := GoError.native msg

/-- The error of `json.Marshal` (a value that JSON cannot hold). -/
def jsonMarshalError : GoError := GoError.native "json: unsupported value"

/-- The error of `json.Unmarshal` (malformed text, or a value of the wrong
JSON type for its target). -/
def jsonUnmarshalError : GoError := GoError.native "json: cannot unmarshal"

/-! ## events/event.go -/

/-- The type tag of an event (`type EventType string`). -/
abbrev EventType := String

/-- An instant (`time.Time`), in nanoseconds since the Unix epoch. -/
abbrev Time := Int

/-- Go `t.After(u)`: the instant `t` is strictly later than `u`. -/
def Time.After (t u : Time) : Bool := decide (u < t)

/-- Go `t.Before(u)`: the instant `t` is strictly earlier than `u`. -/
def Time.Before (t u : Time) : Bool := decide (t < u)

/-! ### Values of `encoding/json`

A JSON text is given by the document it denotes, members of an object in the
order of the text; of the byte level, only the difference between the compact
text of a document and its other texts is kept (`RawMessage`). The same type
holds the dynamically typed Go values (`interface{}`) that `encoding/json`
writes and produces. -/

/-- A Go `float64`, given by its IEEE 754 bit pattern. -/
structure Float64 where
  bits : Nat
  deriving DecidableEq

/-- A JSON document, or a Go value held in an `interface{}`: `int` is a number
written without fraction or exponent (a Go integer), `float` any other number
(a Go `float64`), `array` a slice, `object` the members of a JSON object or
the entries of a `map[string]interface{}`. -/
inductive JSONValue where
  | null : JSONValue
  | bool (b : Bool) : JSONValue
  | int (n : Int) : JSONValue
  | float (f : Float64) : JSONValue
  | string (s : String) : JSONValue
  | array (items : List JSONValue) : JSONValue
  | object (members : List (String × JSONValue)) : JSONValue

mutual
/-- Decidable equality of JSON values. -/
def JSONValue.decEq : (a b : JSONValue) → Decidable (a = b)
  | JSONValue.null, JSONValue.null => isTrue rfl
  | JSONValue.bool x, JSONValue.bool y =>
    if h : x = y then isTrue (by rw [h]) else isFalse (fun h2 => h (by injection h2))
  | JSONValue.int x, JSONValue.int y =>
    if h : x = y then isTrue (by rw [h]) else isFalse (fun h2 => h (by injection h2))
  | JSONValue.float x, JSONValue.float y =>
    if h : x = y then isTrue (by rw [h]) else isFalse (fun h2 => h (by injection h2))
  | JSONValue.string x, JSONValue.string y =>
    if h : x = y then isTrue (by rw [h]) else isFalse (fun h2 => h (by injection h2))
  | JSONValue.array xs, JSONValue.array ys =>
    match JSONValue.decEqList xs ys with
    | isTrue h => isTrue (by rw [h])
    | isFalse h => isFalse (fun h2 => h (by injection h2))
  | JSONValue.object xs, JSONValue.object ys =>
    match JSONValue.decEqMembers xs ys with
    | isTrue h => isTrue (by rw [h])
    | isFalse h => isFalse (fun h2 => h (by injection h2))
  | JSONValue.null, JSONValue.bool _ => isFalse (fun h => by cases h)
  | JSONValue.null, JSONValue.int _ => isFalse (fun h => by cases h)
  | JSONValue.null, JSONValue.float _ => isFalse (fun h => by cases h)
  | JSONValue.null, JSONValue.string _ => isFalse (fun h => by cases h)
  | JSONValue.null, JSONValue.array _ => isFalse (fun h => by cases h)
  | JSONValue.null, JSONValue.object _ => isFalse (fun h => by cases h)
  | JSONValue.bool _, JSONValue.null => isFalse (fun h => by cases h)
  | JSONValue.bool _, JSONValue.int _ => isFalse (fun h => by cases h)
  | JSONValue.bool _, JSONValue.float _ => isFalse (fun h => by cases h)
  | JSONValue.bool _, JSONValue.string _ => isFalse (fun h => by cases h)
  | JSONValue.bool _, JSONValue.array _ => isFalse (fun h => by cases h)
  | JSONValue.bool _, JSONValue.object _ => isFalse (fun h => by cases h)
  | JSONValue.int _, JSONValue.null => isFalse (fun h => by cases h)
  | JSONValue.int _, JSONValue.bool _ => isFalse (fun h => by cases h)
  | JSONValue.int _, JSONValue.float _ => isFalse (fun h => by cases h)
  | JSONValue.int _, JSONValue.string _ => isFalse (fun h => by cases h)
  | JSONValue.int _, JSONValue.array _ => isFalse (fun h => by cases h)
  | JSONValue.int _, JSONValue.object _ => isFalse (fun h => by cases h)
  | JSONValue.float _, JSONValue.null => isFalse (fun h => by cases h)
  | JSONValue.float _, JSONValue.bool _ => isFalse (fun h => by cases h)
  | JSONValue.float _, JSONValue.int _ => isFalse (fun h => by cases h)
  | JSONValue.float _, JSONValue.string _ => isFalse (fun h => by cases h)
  | JSONValue.float _, JSONValue.array _ => isFalse (fun h => by cases h)
  | JSONValue.float _, JSONValue.object _ => isFalse (fun h => by cases h)
  | JSONValue.string _, JSONValue.null => isFalse (fun h => by cases h)
  | JSONValue.string _, JSONValue.bool _ => isFalse (fun h => by cases h)
  | JSONValue.string _, JSONValue.int _ => isFalse (fun h => by cases h)
  | JSONValue.string _, JSONValue.float _ => isFalse (fun h => by cases h)
  | JSONValue.string _, JSONValue.array _ => isFalse (fun h => by cases h)
  | JSONValue.string _, JSONValue.object _ => isFalse (fun h => by cases h)
  | JSONValue.array _, JSONValue.null => isFalse (fun h => by cases h)
  | JSONValue.array _, JSONValue.bool _ => isFalse (fun h => by cases h)
  | JSONValue.array _, JSONValue.int _ => isFalse (fun h => by cases h)
  | JSONValue.array _, JSONValue.float _ => isFalse (fun h => by cases h)
  | JSONValue.array _, JSONValue.string _ => isFalse (fun h => by cases h)
  | JSONValue.array _, JSONValue.object _ => isFalse (fun h => by cases h)
  | JSONValue.object _, JSONValue.null => isFalse (fun h => by cases h)
  | JSONValue.object _, JSONValue.bool _ => isFalse (fun h => by cases h)
  | JSONValue.object _, JSONValue.int _ => isFalse (fun h => by cases h)
  | JSONValue.object _, JSONValue.float _ => isFalse (fun h => by cases h)
  | JSONValue.object _, JSONValue.string _ => isFalse (fun h => by cases h)
  | JSONValue.object _, JSONValue.array _ => isFalse (fun h => by cases h)
/-- Decidable equality of lists of JSON values. -/
def JSONValue.decEqList : (xs ys : List JSONValue) → Decidable (xs = ys)
  | [], [] => isTrue rfl
  | [], _ :: _ => isFalse (fun h => by cases h)
  | _ :: _, [] => isFalse (fun h => by cases h)
  | a :: xs, b :: ys =>
    match JSONValue.decEq a b, JSONValue.decEqList xs ys with
    | isTrue h₁, isTrue h₂ => isTrue (by rw [h₁, h₂])
    | isFalse h₁, _ => isFalse (fun h => h₁ (by injection h))
    | _, isFalse h₂ => isFalse (fun h => h₂ (by injection h))
/-- Decidable equality of member lists. -/
def JSONValue.decEqMembers :
    (xs ys : List (String × JSONValue)) → Decidable (xs = ys)
  | [], [] => isTrue rfl
  | [], _ :: _ => isFalse (fun h => by cases h)
  | _ :: _, [] => isFalse (fun h => by cases h)
  | (k, a) :: xs, (l, b) :: ys =>
    if hk : k = l then
      match JSONValue.decEq a b, JSONValue.decEqMembers xs ys with
      | isTrue h₁, isTrue h₂ => isTrue (by rw [hk, h₁, h₂])
      | isFalse h₁, _ => isFalse (fun h => h₁ (by injection h with h3 h4; injection h3))
      | _, isFalse h₂ => isFalse (fun h => h₂ (by injection h))
    else isFalse (fun h => hk (by injection h with h3 h4; injection h3))
end

instance : DecidableEq JSONValue := JSONValue.decEq

/-- A loosely typed metadata value (`interface{}` holding JSON-like data). -/
abbrev MetaValue := JSONValue

/-- Go `json.RawMessage`, as the JSON decoder reads its bytes. The document
`doc` has one compact text, the one `json.Marshal` writes for it (no
insignificant whitespace, the characters `<`, `>` and `&` of strings escaped):
`document doc` is that text. Its other texts (with insignificant whitespace,
or with `<`, `>`, `&` written as they are, ...) are numbered: `respelled doc n`
is the n-th of them. Bytes that are not a JSON text are `malformed` (the empty
byte string is `malformed []`), and `nil` is the nil slice. -/
inductive RawMessage where
  | nil : RawMessage
  | document (doc : JSONValue) : RawMessage
  | respelled (doc : JSONValue) (spelling : Nat) : RawMessage
  | malformed (bytes : List UInt8) : RawMessage
  deriving DecidableEq

/-- The `Event` struct of `events/event.go` (`Type_` is its field `Type`, a
reserved word here). -/
structure Event where
  ID : String
  Type_ : EventType
  AggregateID : String
  Version : Int
  Timestamp : Time
  Payload : RawMessage := RawMessage.nil
  Metadata : List (String × MetaValue) := []
  deriving DecidableEq

/-! ### Numbers -/

/-- The result of Go `int` (64-bit) arithmetic: the two's complement wrap of
the mathematical result. -/
def wrapInt64 (n : Int) : Int := (n + 2 ^ 63) % 2 ^ 64 - 2 ^ 63

/-- The biased exponent field of a `float64`. -/
def Float64.exponent (f : Float64) : Nat := (f.bits / 2 ^ 52) % 2048

/-- The fraction field of a `float64`. -/
def Float64.fraction (f : Float64) : Nat := f.bits % 2 ^ 52

/-- The sign bit of a `float64`. -/
def Float64.negative (f : Float64) : Bool := decide ((f.bits / 2 ^ 63) % 2 = 1)

/-- Neither NaN nor an infinity. -/
def Float64.isFinite (f : Float64) : Bool := decide (f.exponent ≠ 2047)

/-- The integer a finite `float64` is equal to, if any. -/
def Float64.toInt? (f : Float64) : Option Int :=
  if f.exponent = 2047 then none
  else if f.exponent = 0 then (if f.fraction = 0 then some 0 else none)
  else
    let m := 2 ^ 52 + f.fraction
    let magnitude : Option Nat :=
      if 1075 ≤ f.exponent then some (m * 2 ^ (f.exponent - 1075))
      else if m % 2 ^ (1075 - f.exponent) = 0 then some (m / 2 ^ (1075 - f.exponent))
      else none
    magnitude.map fun n => if f.negative then -(n : Int) else (n : Int)

/-- The number of binary digits of `m`, computed with `fuel` steps. -/
def bitLengthAux : Nat → Nat → Nat
  | 0, _ => 0
  | fuel + 1, m => if m = 0 then 0 else bitLengthAux fuel (m / 2) + 1

/-- The number of binary digits of `m`. -/
def bitLength (m : Nat) : Nat := bitLengthAux m m

/-- The `float64` nearest to `±m` (ties to even), `none` when it is beyond the
largest finite `float64`. -/
def Float64.ofMagnitude (neg : Bool) (m : Nat) : Option Float64 :=
  if m = 0 then some ⟨0⟩
  else
    let len := bitLength m
    let sign := if neg then 2 ^ 63 else 0
    if len ≤ 53 then
      some ⟨sign + (len - 1 + 1023) * 2 ^ 52 + (m * 2 ^ (53 - len) - 2 ^ 52)⟩
    else
      let shift := len - 53
      let q := m / 2 ^ shift
      let r := m % 2 ^ shift
      let half := 2 ^ (shift - 1)
      let q1 := if half < r ∨ (r = half ∧ q % 2 = 1) then q + 1 else q
      let q2 := if q1 = 2 ^ 53 then 2 ^ 52 else q1
      let e := if q1 = 2 ^ 53 then len else len - 1
      if 1023 < e then none else some ⟨sign + (e + 1023) * 2 ^ 52 + (q2 - 2 ^ 52)⟩

/-- Go `float64(n)` for an integer `n`, and the value `strconv.ParseFloat`
gives to an integer literal. -/
def Float64.ofInt (n : Int) : Option Float64 :=
  Float64.ofMagnitude (decide (n < 0)) n.natAbs

/-- Go `int(f)` for a `float64` `f`: truncation towards zero; for a value
outside the range of `int` (and for NaN) the Go specification leaves the
result to the implementation, and amd64 gives the least `int`. -/
def Float64.toGoInt (f : Float64) : Int :=
  if f.exponent = 2047 then -(2 ^ 63)
  else if f.exponent < 1023 then 0
  else
    let m := 2 ^ 52 + f.fraction
    let magnitude : Nat :=
      if 1075 ≤ f.exponent then m * 2 ^ (f.exponent - 1075) else m / 2 ^ (1075 - f.exponent)
    let v : Int := if f.negative then -(magnitude : Int) else (magnitude : Int)
    if -(2 ^ 63) ≤ v ∧ v < 2 ^ 63 then v else -(2 ^ 63)

/-! ### Go maps with string keys, as association lists -/

/-- Go `m[k]`, with the `ok` of the two-valued form as `Option`. -/
def mapGet {α : Type} : List (String × α) → String → Option α
  | [], _ => none
  | (k, v) :: rest, key => if k = key then some v else mapGet rest key

/-- Go `m[k] = v`. -/
def mapSet {α : Type} : List (String × α) → String → α → List (String × α)
  | [], key, v => [(key, v)]
  | (k, w) :: rest, key, v =>
    if k = key then (key, v) :: rest else (k, w) :: mapSet rest key v

/-- Go `delete(m, k)`. -/
def mapDelete {α : Type} (m : List (String × α)) (key : String) : List (String × α) :=
  m.filter fun kv => decide (kv.1 ≠ key)

/-- Lexicographic order on code points (the order of the UTF-8 bytes). -/
def charsLT : List Char → List Char → Bool
  | _, [] => false
  | [], _ :: _ => true
  | a :: as, b :: bs =>
    if a.toNat < b.toNat then true
    else if b.toNat < a.toNat then false
    else charsLT as bs

/-- Go `a < b` on strings. -/
def keyLT (a b : String) : Bool := charsLT a.toList b.toList

/-- One step of sorting members by key. -/
def insertMember {α : Type} (kv : String × α) : List (String × α) → List (String × α)
  | [] => [kv]
  | x :: xs => if keyLT kv.1 x.1 then kv :: x :: xs else x :: insertMember kv xs

/-- The members sorted by key, as `json.Marshal` writes the entries of a map. -/
def sortMembers {α : Type} (m : List (String × α)) : List (String × α) :=
  m.foldr insertMember []

/-! ### `json.Marshal` and `json.Unmarshal` on `interface{}` values -/

/-- The number `json.Marshal` writes for a finite `float64`: without fraction
or exponent when the value is an integer of magnitude below `1e21` (negative
zero is written `-0` and is kept as a float here). -/
def marshalFloat (f : Float64) : JSONValue :=
  match f.toInt? with
  | some n =>
    if n.natAbs < 10 ^ 21 ∧ ¬ (n = 0 ∧ f.negative = true) then JSONValue.int n
    else JSONValue.float f
  | none => JSONValue.float f

mutual
/-- Go `json.Marshal(v)` for a value held in an `interface{}`: `none` is the
error (`*json.UnsupportedValueError`) for a NaN or infinite float. -/
def marshalValue : JSONValue → Option JSONValue
  | JSONValue.null => some JSONValue.null
  | JSONValue.bool b => some (JSONValue.bool b)
  | JSONValue.int n => some (JSONValue.int n)
  | JSONValue.float f => if f.isFinite then some (marshalFloat f) else none
  | JSONValue.string s => some (JSONValue.string s)
  | JSONValue.array items =>
    match marshalValues items with
    | some docs => some (JSONValue.array docs)
    | none => none
  | JSONValue.object entries =>
    match marshalEntries entries with
    | some docs => some (JSONValue.object (sortMembers docs))
    | none => none
/-- The elements of a slice, marshalled in order. -/
def marshalValues : List JSONValue → Option (List JSONValue)
  | [] => some []
  | v :: rest =>
    match marshalValue v, marshalValues rest with
    | some d, some ds => some (d :: ds)
    | _, _ => none
/-- The entries of a map, marshalled. -/
def marshalEntries : List (String × JSONValue) → Option (List (String × JSONValue))
  | [] => some []
  | (k, v) :: rest =>
    match marshalValue v, marshalEntries rest with
    | some d, some ds => some ((k, d) :: ds)
    | _, _ => none
end

/-- Go `json.Marshal(m)` for a `json.RawMessage`: the document written, which
is `null` for the nil slice (`MarshalJSON` returns `null` for it); `none` is
the error for bytes that are not a JSON text. The text written is the compact
one, whatever the text held by `m`. -/
def RawMessage.marshal : RawMessage → Option JSONValue
  | RawMessage.nil => some JSONValue.null
  | RawMessage.document doc => some doc
  | RawMessage.respelled doc _ => some doc
  | RawMessage.malformed _ => none

/-- Go `json.Marshal(m)` for a `map[string]interface{}`. -/
def marshalMap (m : List (String × JSONValue)) : Option JSONValue :=
  marshalValue (JSONValue.object m)

mutual
/-- Go `json.Unmarshal` of a document into an `interface{}`: every number
becomes a `float64`, an object becomes a map (a later member of the same key
replacing an earlier one); `none` is the error for a number too large for a
`float64`. -/
def unmarshalValue : JSONValue → Option JSONValue
  | JSONValue.null => some JSONValue.null
  | JSONValue.bool b => some (JSONValue.bool b)
  | JSONValue.int n =>
    match Float64.ofInt n with
    | some f => some (JSONValue.float f)
    | none => none
  | JSONValue.float f => some (JSONValue.float f)
  | JSONValue.string s => some (JSONValue.string s)
  | JSONValue.array items =>
    match unmarshalValues items with
    | some vs => some (JSONValue.array vs)
    | none => none
  | JSONValue.object members =>
    match unmarshalMembers members with
    | some entries => some (JSONValue.object (entries.foldl (fun m kv => mapSet m kv.1 kv.2) []))
    | none => none
/-- The elements of an array, decoded in order. -/
def unmarshalValues : List JSONValue → Option (List JSONValue)
  | [] => some []
  | v :: rest =>
    match unmarshalValue v, unmarshalValues rest with
    | some d, some ds => some (d :: ds)
    | _, _ => none
/-- The members of an object, decoded in order. -/
def unmarshalMembers : List (String × JSONValue) → Option (List (String × JSONValue))
  | [] => some []
  | (k, v) :: rest =>
    match unmarshalValue v, unmarshalMembers rest with
    | some d, some ds => some ((k, d) :: ds)
    | _, _ => none
end

/-! ### Decoding a JSON object into a struct -/

/-- The case folding under which the decoder matches the key of a member to
the (lower-case ASCII) name of a struct field: ASCII letters, and the two
letters that Unicode folds to `s` and `k`. -/
def foldChar (c : Char) : Char :=
  if c.toNat = 383 then 's'
  else if c.toNat = 8490 then 'k'
  else if 65 ≤ c.toNat ∧ c.toNat ≤ 90 then Char.ofNat (c.toNat + 32)
  else c

/-- The key of a member, folded. -/
def foldKey (key : String) : String := String.mk (key.toList.map foldChar)

/-- The value of one struct field after decoding an object: the members
addressed to the field are decoded in the order of the text, starting from
the zero value; `none` when one of them has the wrong JSON type. -/
def decodeField {α : Type} (step : α → JSONValue → Option α) (zero : α) (name : String)
    (members : List (String × JSONValue)) : Option α :=
  members.foldl
    (fun acc kv => if foldKey kv.1 = name then acc.bind (fun a => step a kv.2) else acc)
    (some zero)

/-- Decoding into a `string`. -/
def stepString (cur : String) : JSONValue → Option String
  | JSONValue.null => some cur
  | JSONValue.string s => some s
  | _ => none

/-- Decoding into an `int`. -/
def stepInt (cur : Int) : JSONValue → Option Int
  | JSONValue.null => some cur
  | JSONValue.int n => if -(2 ^ 63) ≤ n ∧ n < 2 ^ 63 then some n else none
  | _ => none

/-- Decoding into a `bool`. -/
def stepBool (cur : Bool) : JSONValue → Option Bool
  | JSONValue.null => some cur
  | JSONValue.bool b => some b
  | _ => none

/-- Decoding into a `float64`. -/
def stepFloat (cur : Float64) : JSONValue → Option Float64
  | JSONValue.null => some cur
  | JSONValue.int n => Float64.ofInt n
  | JSONValue.float f => some f
  | _ => none

/-- The elements of an array decoded into strings. -/
def decodeStrings : List JSONValue → Option (List String)
  | [] => some []
  | v :: rest =>
    match stepString "" v, decodeStrings rest with
    | some s, some ss => some (s :: ss)
    | _, _ => none

/-- Decoding into a `[]string` (`none` is the nil slice). -/
def stepStrings (_cur : Option (List String)) : JSONValue → Option (Option (List String))
  | JSONValue.null => some none
  | JSONValue.array items =>
    match decodeStrings items with
    | some ss => some (some ss)
    | none => none
  | _ => none

/-- Decoding into a `map[string]interface{}` (`none` is the nil map): an
existing map is kept and added to. -/
def stepMap (cur : Option (List (String × JSONValue))) :
    JSONValue → Option (Option (List (String × JSONValue)))
  | JSONValue.null => some none
  | JSONValue.object members =>
    match unmarshalMembers members with
    | some entries => some (some (entries.foldl (fun m kv => mapSet m kv.1 kv.2) (cur.getD [])))
    | none => none
  | _ => none

/-- A member written unless the string is empty (`omitempty`). -/
def omitEmptyString (name value : String) : List (String × JSONValue) :=
  if value = "" then [] else [(name, JSONValue.string value)]

/-- A member written unless the integer is zero (`omitempty`). -/
def omitEmptyInt (name : String) (value : Int) : List (String × JSONValue) :=
  if value = 0 then [] else [(name, JSONValue.int value)]

/-- A `[]string` as a JSON value: `null` for the nil slice. -/
def marshalStrings : Option (List String) → JSONValue
  | none => JSONValue.null
  | some ss => JSONValue.array (ss.map JSONValue.string)

/-- A `[]string` member written unless the slice has length zero
(`omitempty`). -/
def omitEmptyStrings (name : String) (value : Option (List String)) : List (String × JSONValue) :=
  match value with
  | none => []
  | some [] => []
  | some (s :: ss) => [(name, marshalStrings (some (s :: ss)))]

/-- What `json.Marshal` does with a Go value: `none` is its error. -/
class JSONMarshal (α : Type) where
  marshalJSON : α → Option JSONValue

/-- What `json.Unmarshal` does with a document and a pointer to a zero value
of a Go type: `none` is its error. -/
class JSONUnmarshal (α : Type) where
  unmarshalJSON : JSONValue → Option α

/-! ### Event types and `NewEvent` -/

def UserRegisteredEvent : EventType := "UserRegistered"
def UserProfileUpdatedEvent : EventType := "UserProfileUpdated"
def UserArchetypeAssignedEvent : EventType := "UserArchetypeAssigned"
def UserArchetypeUpdatedEvent : EventType := "UserArchetypeUpdated"
def UserModalitiesUpdatedEvent : EventType := "UserModalitiesUpdated"
def DiaryEntryCreatedEvent : EventType := "DiaryEntryCreated"
def DiaryEntryUpdatedEvent : EventType := "DiaryEntryUpdated"
def DiaryEntryDeletedEvent : EventType := "DiaryEntryDeleted"
def DiarySessionStartedEvent : EventType := "DiarySessionStarted"
def DiarySessionEndedEvent : EventType := "DiarySessionEnded"
def MoodAnalyzedEvent : EventType := "MoodAnalyzed"

/-- Go `NewEvent(eventType, aggregateID, version, payload, metadata)`; `newID`
stands for `uuid.New().String()` and `now` for `time.Now()`. A nil `metadata`
(`none`) becomes the empty map. -/
def NewEvent {α : Type} [JSONMarshal α] (newID : String) (now : Time) (eventType : EventType)
    (aggregateID : String) (version : Int) (payload : α)
    (metadata : Option (List (String × MetaValue))) : Except GoError Event :=
  match JSONMarshal.marshalJSON payload with
  | none => Except.error jsonMarshalError
  | some payloadBytes =>
    Except.ok
      { ID := newID
        Type_ := eventType
        AggregateID := aggregateID
        Version := version
        Timestamp := now
        Payload := RawMessage.document payloadBytes
        Metadata := metadata.getD [] }

/-- Go `e.UnmarshalPayload(&v)` for a zero-valued `v`: the decoded value, or
the error of `json.Unmarshal`. -/
def Event.UnmarshalPayload {α : Type} [JSONUnmarshal α] (e : Event) : Except GoError α :=
  match e.Payload with
  | RawMessage.nil | RawMessage.malformed _ => Except.error jsonUnmarshalError
  | RawMessage.document doc | RawMessage.respelled doc _ =>
    match JSONUnmarshal.unmarshalJSON doc with
    | some v => Except.ok v
    | none => Except.error jsonUnmarshalError

/-- The `EventMetadata` struct. -/
structure EventMetadata where
  CorrelationID : String
  CausationID : String
  UserID : String
  Extra : List (String × MetaValue)
  deriving DecidableEq

/-- Go `NewEventMetadata(correlationID, causationID, userID)`. -/
def NewEventMetadata (correlationID causationID userID : String) : EventMetadata :=
  { CorrelationID := correlationID, CausationID := causationID, UserID := userID, Extra := [] }

/-- Go `m.ToMap()`: the two identifiers, `user_id` when it is not empty, then
the entries of `Extra`, each assigned to the result. -/
def EventMetadata.ToMap (m : EventMetadata) : List (String × MetaValue) :=
  m.Extra.foldl (fun result kv => mapSet result kv.1 kv.2)
    (if m.UserID ≠ "" then
      mapSet
        [("correlation_id", JSONValue.string m.CorrelationID),
         ("causation_id", JSONValue.string m.CausationID)]
        "user_id" (JSONValue.string m.UserID)
    else
      [("correlation_id", JSONValue.string m.CorrelationID),
       ("causation_id", JSONValue.string m.CausationID)])

/-! ## events/diary_events.go -/

/-- The struct `DiaryEntryCreatedPayload`; a `[]string` is `none` when nil. -/
structure DiaryEntryCreatedPayload where
  UserID : String := ""
  Title : String := ""
  Content : String := ""
  TokenCount : Int := 0
  SessionID : String := ""
  Tags : Option (List String) := none
  deriving DecidableEq

/-- The struct `DiaryEntryUpdatedPayload`. -/
structure DiaryEntryUpdatedPayload where
  Title : String := ""
  Content : String := ""
  TokenCount : Int := 0
  Tags : Option (List String) := none
  deriving DecidableEq

/-- The struct `DiaryEntryDeletedPayload`. -/
structure DiaryEntryDeletedPayload where
  Reason : String := ""
  deriving DecidableEq

instance : JSONMarshal DiaryEntryCreatedPayload where
  marshalJSON p :=
    some (JSONValue.object
      ([("user_id", JSONValue.string p.UserID),
        ("title", JSONValue.string p.Title),
        ("content", JSONValue.string p.Content),
        ("token_count", JSONValue.int p.TokenCount),
        ("session_id", JSONValue.string p.SessionID)]
        ++ omitEmptyStrings "tags" p.Tags))

instance : JSONMarshal DiaryEntryUpdatedPayload where
  marshalJSON p :=
    some (JSONValue.object
      (omitEmptyString "title" p.Title ++ omitEmptyString "content" p.Content
        ++ omitEmptyInt "token_count" p.TokenCount ++ omitEmptyStrings "tags" p.Tags))

instance : JSONMarshal DiaryEntryDeletedPayload where
  marshalJSON p := some (JSONValue.object (omitEmptyString "reason" p.Reason))

instance : JSONUnmarshal DiaryEntryCreatedPayload where
  unmarshalJSON
    | JSONValue.null => some {}
    | JSONValue.object members =>
      match decodeField stepString "" "user_id" members,
        decodeField stepString "" "title" members,
        decodeField stepString "" "content" members,
        decodeField stepInt 0 "token_count" members,
        decodeField stepString "" "session_id" members,
        decodeField stepStrings none "tags" members with
      | some userID, some title, some content, some tokenCount, some sessionID, some tags =>
        some { UserID := userID, Title := title, Content := content, TokenCount := tokenCount,
               SessionID := sessionID, Tags := tags }
      | _, _, _, _, _, _ => none
    | _ => none

instance : JSONUnmarshal DiaryEntryUpdatedPayload where
  unmarshalJSON
    | JSONValue.null => some {}
    | JSONValue.object members =>
      match decodeField stepString "" "title" members,
        decodeField stepString "" "content" members,
        decodeField stepInt 0 "token_count" members,
        decodeField stepStrings none "tags" members with
      | some title, some content, some tokenCount, some tags =>
        some { Title := title, Content := content, TokenCount := tokenCount, Tags := tags }
      | _, _, _, _ => none
    | _ => none

instance : JSONUnmarshal DiaryEntryDeletedPayload where
  unmarshalJSON
    | JSONValue.null => some {}
    | JSONValue.object members =>
      match decodeField stepString "" "reason" members with
      | some reason => some { Reason := reason }
      | none => none
    | _ => none

/-! ## events/user_events.go and the `Archetype` of events/mood_events.go -/

/-- The struct `UserRegisteredPayload`. -/
structure UserRegisteredPayload where
  Username : String := ""
  Email : String := ""
  FirstName : String := ""
  LastName : String := ""
  DateOfBirth : String := ""
  deriving DecidableEq

/-- The struct `UserProfileUpdatedPayload`. -/
structure UserProfileUpdatedPayload where
  FirstName : String := ""
  LastName : String := ""
  DateOfBirth : String := ""
  Avatar : String := ""
  Bio : String := ""
  deriving DecidableEq

/-- The struct `UserArchetypeAssignedPayload`. -/
structure UserArchetypeAssignedPayload where
  ArchetypeID : String := ""
  ArchetypeName : String := ""
  Confidence : Float64 := ⟨0⟩
  Description : String := ""
  deriving DecidableEq

/-- The struct `UserArchetypeUpdatedPayload`. -/
structure UserArchetypeUpdatedPayload where
  ArchetypeID : String := ""
  ArchetypeName : String := ""
  Confidence : Float64 := ⟨0⟩
  Description : String := ""
  deriving DecidableEq

/-- The struct `UserModality`; a `map[string]interface{}` is `none` when nil. -/
structure UserModality where
  ID : String := ""
  Name : String := ""
  Type_ : String := ""
  Enabled : Bool := false
  Weight : Float64 := ⟨0⟩
  Config : Option (List (String × JSONValue)) := none
  deriving DecidableEq

/-- The struct `UserModalitiesUpdatedPayload`; the slice is `none` when nil. -/
structure UserModalitiesUpdatedPayload where
  Modalities : Option (List UserModality) := none
  deriving DecidableEq

/-- The struct `Archetype`. -/
structure Archetype where
  ID : String := ""
  Name : String := ""
  Description : String := ""
  Score : Float64 := ⟨0⟩
  Traits : Option (List String) := none
  deriving DecidableEq

instance : JSONMarshal UserRegisteredPayload where
  marshalJSON p :=
    some (JSONValue.object
      ([("username", JSONValue.string p.Username),
        ("email", JSONValue.string p.Email),
        ("first_name", JSONValue.string p.FirstName),
        ("last_name", JSONValue.string p.LastName)]
        ++ omitEmptyString "date_of_birth" p.DateOfBirth))

instance : JSONMarshal UserProfileUpdatedPayload where
  marshalJSON p :=
    some (JSONValue.object
      (omitEmptyString "first_name" p.FirstName ++ omitEmptyString "last_name" p.LastName
        ++ omitEmptyString "date_of_birth" p.DateOfBirth ++ omitEmptyString "avatar" p.Avatar
        ++ omitEmptyString "bio" p.Bio))

/-- The document of the two archetype payloads, which have the same fields. -/
def marshalArchetypePayload (archetypeID archetypeName : String) (confidence : Float64)
    (description : String) : Option JSONValue :=
  if confidence.isFinite then
    some (JSONValue.object
      [("archetype_id", JSONValue.string archetypeID),
       ("archetype_name", JSONValue.string archetypeName),
       ("confidence", marshalFloat confidence),
       ("description", JSONValue.string description)])
  else none

instance : JSONMarshal UserArchetypeAssignedPayload where
  marshalJSON p := marshalArchetypePayload p.ArchetypeID p.ArchetypeName p.Confidence p.Description

instance : JSONMarshal UserArchetypeUpdatedPayload where
  marshalJSON p := marshalArchetypePayload p.ArchetypeID p.ArchetypeName p.Confidence p.Description

/-- The document of one `UserModality`. -/
def marshalModality (m : UserModality) : Option JSONValue :=
  if m.Weight.isFinite then
    match (match m.Config with
      | none => some []
      | some [] => some []
      | some (kv :: rest) =>
        match marshalMap (kv :: rest) with
        | some doc => some [("config", doc)]
        | none => none) with
    | some config =>
      some (JSONValue.object
        ([("id", JSONValue.string m.ID),
          ("name", JSONValue.string m.Name),
          ("type", JSONValue.string m.Type_),
          ("enabled", JSONValue.bool m.Enabled),
          ("weight", marshalFloat m.Weight)] ++ config))
    | none => none
  else none

/-- The documents of the elements of a `[]UserModality`. -/
def marshalModalities : List UserModality → Option (List JSONValue)
  | [] => some []
  | m :: rest =>
    match marshalModality m, marshalModalities rest with
    | some d, some ds => some (d :: ds)
    | _, _ => none

instance : JSONMarshal UserModalitiesUpdatedPayload where
  marshalJSON p :=
    match p.Modalities with
    | none => some (JSONValue.object [("modalities", JSONValue.null)])
    | some ms =>
      match marshalModalities ms with
      | some docs => some (JSONValue.object [("modalities", JSONValue.array docs)])
      | none => none

instance : JSONUnmarshal UserRegisteredPayload where
  unmarshalJSON
    | JSONValue.null => some {}
    | JSONValue.object members =>
      match decodeField stepString "" "username" members,
        decodeField stepString "" "email" members,
        decodeField stepString "" "first_name" members,
        decodeField stepString "" "last_name" members,
        decodeField stepString "" "date_of_birth" members with
      | some username, some email, some firstName, some lastName, some dateOfBirth =>
        some { Username := username, Email := email, FirstName := firstName,
               LastName := lastName, DateOfBirth := dateOfBirth }
      | _, _, _, _, _ => none
    | _ => none

instance : JSONUnmarshal UserProfileUpdatedPayload where
  unmarshalJSON
    | JSONValue.null => some {}
    | JSONValue.object members =>
      match decodeField stepString "" "first_name" members,
        decodeField stepString "" "last_name" members,
        decodeField stepString "" "date_of_birth" members,
        decodeField stepString "" "avatar" members,
        decodeField stepString "" "bio" members with
      | some firstName, some lastName, some dateOfBirth, some avatar, some bio =>
        some { FirstName := firstName, LastName := lastName, DateOfBirth := dateOfBirth,
               Avatar := avatar, Bio := bio }
      | _, _, _, _, _ => none
    | _ => none

/-- The fields of the two archetype payloads, decoded. -/
def unmarshalArchetypePayload :
    JSONValue → Option (String × String × Float64 × String)
  | JSONValue.null => some ("", "", ⟨0⟩, "")
  | JSONValue.object members =>
    match decodeField stepString "" "archetype_id" members,
      decodeField stepString "" "archetype_name" members,
      decodeField stepFloat ⟨0⟩ "confidence" members,
      decodeField stepString "" "description" members with
    | some archetypeID, some archetypeName, some confidence, some description =>
      some (archetypeID, archetypeName, confidence, description)
    | _, _, _, _ => none
  | _ => none

instance : JSONUnmarshal UserArchetypeAssignedPayload where
  unmarshalJSON doc :=
    (unmarshalArchetypePayload doc).map fun r =>
      { ArchetypeID := r.1, ArchetypeName := r.2.1, Confidence := r.2.2.1, Description := r.2.2.2 }

instance : JSONUnmarshal UserArchetypeUpdatedPayload where
  unmarshalJSON doc :=
    (unmarshalArchetypePayload doc).map fun r =>
      { ArchetypeID := r.1, ArchetypeName := r.2.1, Confidence := r.2.2.1, Description := r.2.2.2 }

/-- One element of a JSON array decoded into a zero `UserModality`. -/
def unmarshalModality : JSONValue → Option UserModality
  | JSONValue.null => some {}
  | JSONValue.object members =>
    match decodeField stepString "" "id" members,
      decodeField stepString "" "name" members,
      decodeField stepString "" "type" members,
      decodeField stepBool false "enabled" members,
      decodeField stepFloat ⟨0⟩ "weight" members,
      decodeField stepMap none "config" members with
    | some id, some name, some type, some enabled, some weight, some config =>
      some { ID := id, Name := name, Type_ := type, Enabled := enabled, Weight := weight,
             Config := config }
    | _, _, _, _, _, _ => none
  | _ => none

/-- The elements of a JSON array decoded into modalities. -/
def unmarshalModalities : List JSONValue → Option (List UserModality)
  | [] => some []
  | v :: rest =>
    match unmarshalModality v, unmarshalModalities rest with
    | some m, some ms => some (m :: ms)
    | _, _ => none

/-- Decoding into a `[]UserModality` (`none` is the nil slice). -/
def stepModalities (_cur : Option (List UserModality)) :
    JSONValue → Option (Option (List UserModality))
  | JSONValue.null => some none
  | JSONValue.array items =>
    match unmarshalModalities items with
    | some ms => some (some ms)
    | none => none
  | _ => none

instance : JSONUnmarshal UserModalitiesUpdatedPayload where
  unmarshalJSON
    | JSONValue.null => some {}
    | JSONValue.object members =>
      match decodeField stepModalities none "modalities" members with
      | some modalities => some { Modalities := modalities }
      | none => none
    | _ => none

/-! ## serializer/json_serializer.go

`json.Marshal` and `json.Unmarshal` call the JSON methods of `time.Time` for
the field `Timestamp`. These two methods of the standard library are
arguments: `timeMarshalJSON t` is the text that `t.MarshalJSON()` writes
between the quotes (RFC 3339 with nanoseconds), `none` for its error (a year
outside 0..9999); `timeUnmarshalJSON s` is the instant that `UnmarshalJSON`
reads from the string `s`, `none` for its error. A byte string holding a JSON
text (the result of `Serialize`, the argument of `Deserialize`) is a
`RawMessage`. -/

/-- The `JSONSerializer` struct (it has no field). -/
structure JSONSerializer where
  deriving DecidableEq

/-- Go `NewJSONSerializer()`. -/
def NewJSONSerializer : JSONSerializer := {}

/-- The zero `time.Time`: January 1 of year 1, 00:00:00 UTC. -/
def zeroTime : Time := -62135596800000000000

/-- Go `json.Marshal(event)` for an `*Event`, on documents: the members are
the fields in the order of the struct, under the names of their tags; `none`
is the error of `json.Marshal` (from the timestamp, from a payload that is not
a JSON text, or from a metadata value that JSON cannot hold). -/
def marshalEvent (timeMarshalJSON : Time → Option String) (event : Event) : Option JSONValue :=
  match timeMarshalJSON event.Timestamp, event.Payload.marshal, marshalMap event.Metadata with
  | some timestamp, some payload, some metadata =>
    some (JSONValue.object
      [("id", JSONValue.string event.ID),
       ("type", JSONValue.string event.Type_),
       ("aggregate_id", JSONValue.string event.AggregateID),
       ("version", JSONValue.int event.Version),
       ("timestamp", JSONValue.string timestamp),
       ("payload", payload),
       ("metadata", metadata)])
  | _, _, _ => none

/-- Decoding into a `time.Time`: `null` leaves the value as it is, a string is
read by `UnmarshalJSON`, every other value is its error. -/
def stepTime (timeUnmarshalJSON : String → Option Time) (cur : Time) : JSONValue → Option Time
  | JSONValue.null => some cur
  | JSONValue.string s => timeUnmarshalJSON s
  | _ => none

/-- Decoding into a `json.RawMessage`: the bytes of the value as the text
being decoded writes them (`raw v`), whatever the value, `null` included. -/
def stepRaw (raw : JSONValue → RawMessage) (_cur : RawMessage) (v : JSONValue) :
    Option RawMessage :=
  some (raw v)

/-- Go `json.Unmarshal(data, &event)` for a zero `Event`, on the document of
`data`; `raw v` is the text of the value `v` inside `data`. `none` is the error
of `json.Unmarshal`. -/
def unmarshalEvent (timeUnmarshalJSON : String → Option Time) (raw : JSONValue → RawMessage) :
    JSONValue → Option Event
  | JSONValue.null =>
    some { ID := "", Type_ := "", AggregateID := "", Version := 0, Timestamp := zeroTime }
  | JSONValue.object members =>
    match decodeField stepString "" "id" members,
      decodeField stepString "" "type" members,
      decodeField stepString "" "aggregate_id" members,
      decodeField stepInt 0 "version" members,
      decodeField (stepTime timeUnmarshalJSON) zeroTime "timestamp" members,
      decodeField (stepRaw raw) RawMessage.nil "payload" members,
      decodeField stepMap none "metadata" members with
    | some id, some type, some aggregateID, some version, some timestamp, some payload,
        some metadata =>
      some { ID := id, Type_ := type, AggregateID := aggregateID, Version := version,
             Timestamp := timestamp, Payload := payload, Metadata := metadata.getD [] }
    | _, _, _, _, _, _, _ => none
  | _ => none

/-- Go `j.Serialize(event)`: the bytes written by `json.Marshal(event)`, which
are the compact text of the document, or its error. -/
def JSONSerializer.Serialize (_j : JSONSerializer) (timeMarshalJSON : Time → Option String)
    (event : Event) : Except GoError RawMessage :=
  match marshalEvent timeMarshalJSON event with
  | some doc => Except.ok (RawMessage.document doc)
  | none => Except.error jsonMarshalError

/-- Go `j.Deserialize(data)`: the event decoded by `json.Unmarshal(data, &event)`,
or its error. In the compact text of a document every value is written in its
own compact text; `payloadText n v` is the text of the value `v` inside the
n-th other text. -/
def JSONSerializer.Deserialize (_j : JSONSerializer) (timeUnmarshalJSON : String → Option Time)
    (payloadText : Nat → JSONValue → RawMessage) (data : RawMessage) : Except GoError Event :=
  match data with
  | RawMessage.nil | RawMessage.malformed _ => Except.error jsonUnmarshalError
  | RawMessage.document doc =>
    match unmarshalEvent timeUnmarshalJSON RawMessage.document doc with
    | some event => Except.ok event
    | none => Except.error jsonUnmarshalError
  | RawMessage.respelled doc n =>
    match unmarshalEvent timeUnmarshalJSON (payloadText n) doc with
    | some event => Except.ok event
    | none => Except.error jsonUnmarshalError

/-! ## store/event_store.go -/

/-- Go `NewEventStoreError(code, message, err)`. -/
def NewEventStoreError (code message : String) (err : GoError) : GoError :=
  GoError.eventStore code message err

def ErrCodeConnectionFailed : String := "CONNECTION_FAILED"
def ErrCodeEventNotFound : String := "EVENT_NOT_FOUND"
def ErrCodeVersionConflict : String := "VERSION_CONFLICT"
def ErrCodeSerialization : String := "SERIALIZATION_ERROR"
def ErrCodeStorage : String := "STORAGE_ERROR"

def ErrConnectionFailed : GoError :=
  NewEventStoreError ErrCodeConnectionFailed "failed to connect to event store" GoError.nil

def ErrEventNotFound : GoError :=
  NewEventStoreError ErrCodeEventNotFound "event not found" GoError.nil

def ErrVersionConflict : GoError :=
  NewEventStoreError ErrCodeVersionConflict "version conflict" GoError.nil

def ErrSerialization : GoError :=
  NewEventStoreError ErrCodeSerialization "serialization error" GoError.nil

def ErrStorage : GoError :=
  NewEventStoreError ErrCodeStorage "storage error" GoError.nil

/-- Go `errors.Unwrap(err)`: the result of the `Unwrap` method of `err` (for an
`*EventStoreError`, its field `Err`), nil for an error without that method. -/
def GoError.Unwrap : GoError → GoError
  | GoError.nil => GoError.nil
  | GoError.native _ => GoError.nil
  | GoError.eventStore _ _ err => err
  | GoError.wrapped _ err => err

/-- Go `errors.As(err, &e)` for `e : *EventStoreError`: the first
`*EventStoreError` on the unwrap chain of `err`, as (code, message, cause). -/
def asEventStoreError : GoError → Option (String × String × GoError)
  | GoError.nil => none
  | GoError.native _ => none
  | GoError.eventStore c m e => some (c, m, e)
  | GoError.wrapped _ e => asEventStoreError e

/-- Go `IsEventStoreError(err)`. -/
def IsEventStoreError (err : GoError) : Bool :=
  (asEventStoreError err).isSome

/-- Go `GetEventStoreErrorCode(err)`. -/
def GetEventStoreErrorCode (err : GoError) : String :=
  match asEventStoreError err with
  | some (c, _, _) => c
  | none => ""

/-! ## store/memory_event_store.go -/

/-- The `MemoryEventStore` struct: the log and the per-aggregate index of
positions in the log. -/
structure MemoryEventStore where
  events : List Event
  index : String → Option (List Nat)

/-- Go `NewMemoryEventStore()`. -/
def NewMemoryEventStore : MemoryEventStore :=
  { events := [], index := fun _ => none }

/-- The statement `index[id] = append(index[id], pos)` on a Go map: a missing
key reads as the nil slice. -/
def indexAppend (index : String → Option (List Nat)) (id : String) (pos : Nat) :
    String → Option (List Nat) :=
  fun k => if k = id then some ((index id).getD [] ++ [pos]) else index k

/-- The inner loop of `SaveEvents`: does the log hold an event with the same
`(AggregateID, Version)` pair as `event`? -/
def versionConflict (existing : List Event) (event : Event) : Bool :=
  existing.any fun existingEvent =>
    existingEvent.AggregateID == event.AggregateID && existingEvent.Version == event.Version

/-- Go `MemoryEventStore.SaveEvents`: the store after the call and the returned
error. The loop checks and appends one event at a time and returns from inside
the loop at the first conflict. -/
def SaveEvents (m : MemoryEventStore) : List Event → MemoryEventStore × GoError
  | [] => (m, GoError.nil)
  | event :: rest =>
    if versionConflict m.events event then
      (m, ErrVersionConflict)
    else
      SaveEvents
        { events := m.events ++ [event]
          index := indexAppend m.index event.AggregateID m.events.length }
        rest

/-- The loop `for _, idx := range indices { ... m.events[idx] ... }`, keeping
the events accepted by `keep`; `none` when an index is out of range. -/
def collectIndexed (events : List Event) (keep : Event → Bool) :
    List Nat → Option (List Event)
  | [] => some []
  | idx :: rest =>
    match events[idx]? with
    | none => none
    | some event =>
      match collectIndexed events keep rest with
      | none => none
      | some result => some (if keep event then event :: result else result)

/-- The order used by `sort.Slice(result, ...)`: ascending `Version`. -/
def versionLE (a b : Event) : Prop := a.Version ≤ b.Version

instance : DecidableRel versionLE := fun a b => inferInstanceAs (Decidable (a.Version ≤ b.Version))

/-- Go `sort.Slice(result, func(i, j) bool { return result[i].Version < result[j].Version })`.
`sort.Slice` is not stable, so the order it gives to events of equal version is
not specified; whenever the versions are pairwise distinct every sorting
algorithm returns the list computed here. -/
def sortByVersion (result : List Event) : List Event :=
  result.insertionSort versionLE

instance : IsTotal Event versionLE := ⟨fun a b => Int.le_total a.Version b.Version⟩

instance : IsTrans Event versionLE := ⟨fun _ _ _ h₁ h₂ => Int.le_trans h₁ h₂⟩

/-- Strictly ascending `Version`. -/
def versionLT (a b : Event) : Prop := a.Version < b.Version

instance : IsAntisymm Event versionLT :=
  ⟨fun a b h₁ h₂ => absurd h₁ (by unfold versionLT at *; omega)⟩

/-- Pairwise distinct versions. -/
def DistinctVersions (l : List Event) : Prop :=
  l.Pairwise fun a b => a.Version ≠ b.Version

/-- Go `MemoryEventStore.GetEventsByAggregateID`. -/
def GetEventsByAggregateID (m : MemoryEventStore) (aggregateID : String) :
    Option (List Event × GoError) :=
  match m.index aggregateID with
  | none => some ([], GoError.nil)
  | some indices =>
    match collectIndexed m.events (fun _ => true) indices with
    | none => none
    | some result => some (sortByVersion result, GoError.nil)

/-- Go `MemoryEventStore.GetEventsByType`. -/
def GetEventsByType (m : MemoryEventStore) (eventType : EventType) : List Event × GoError :=
  (m.events.foldl (fun result event => if event.Type_ == eventType then result ++ [event] else result) [],
    GoError.nil)

/-- Go `MemoryEventStore.GetEventsByAggregateIDAndVersion`. -/
def GetEventsByAggregateIDAndVersion (m : MemoryEventStore) (aggregateID : String)
    (version : Int) : Option (List Event × GoError) :=
  match m.index aggregateID with
  | none => some ([], GoError.nil)
  | some indices =>
    match collectIndexed m.events (fun event => decide (event.Version ≤ version)) indices with
    | none => none
    | some result => some (sortByVersion result, GoError.nil)

/-- The error `time.Parse` returns for a malformed `value`: a
`*time.ParseError`, which has no `Unwrap` method and is not an
`*EventStoreError`. -/
def timeParseError (value : String) : GoError :=
  GoError.native ("parsing time " ++ value)

/-- Go `MemoryEventStore.GetEventsByTimeRange`. `parse` stands for
`time.Parse(time.RFC3339, ·)` of the Go standard library, `none` being a parse
error. -/
def GetEventsByTimeRange (parse : String → Option Time) (m : MemoryEventStore)
    (startTime endTime : String) : List Event × GoError :=
  match parse startTime with
  | none => ([], timeParseError startTime)
  | some start =>
    match parse endTime with
    | none => ([], timeParseError endTime)
    | some end_ =>
      (m.events.foldl
          (fun result event =>
            if event.Timestamp.After start && event.Timestamp.Before end_ then result ++ [event]
            else result)
          [],
        GoError.nil)

/-- Go `MemoryEventStore.Clear`. -/
def Clear (_m : MemoryEventStore) : MemoryEventStore :=
  { events := [], index := fun _ => none }

/-- Go `MemoryEventStore.Len`. -/
def Len (m : MemoryEventStore) : Nat := m.events.length

/-- The states a `MemoryEventStore` can be in: those obtained from
`NewMemoryEventStore()` by `SaveEvents` calls (whatever they return) and
`Clear` calls. -/
inductive Reachable : MemoryEventStore → Prop
  | init : Reachable NewMemoryEventStore
  | save {m : MemoryEventStore} (eventList : List Event) :
      Reachable m → Reachable (SaveEvents m eventList).1
  | clear {m : MemoryEventStore} : Reachable m → Reachable (Clear m)

/-! ## store/eventstoredb_event_store.go

The stream database is reached through a client library. The client is given
by the answers it returns; every function of the adapter also returns the
requests it has issued, in order. -/

/-- The `client.EventData` struct: an event proposed for appending. -/
structure EventData where
  EventID : String
  ContentType : String
  EventType : String
  Data : RawMessage
  Metadata : JSONValue
  deriving DecidableEq

/-- The `client.RecordedEvent` struct, as far as the adapter reads it. -/
structure RecordedEvent where
  EventID : String
  EventType : String
  Data : RawMessage
  UserMetadata : RawMessage
  EventNumber : Nat
  CreatedDate : Time
  deriving DecidableEq

/-- The values of `client.ExpectedRevision` the adapter uses. -/
inductive ExpectedRevision where
  | NoStream : ExpectedRevision
  | Revision (n : Nat) : ExpectedRevision
  deriving DecidableEq

/-- A request issued to the stream database. -/
inductive BackendCall where
  | ReadStream (streamName : String) (count : Nat) : BackendCall
  | AppendToStream (streamName : String) (expected : ExpectedRevision)
      (events : List EventData) : BackendCall
  | ReadAll (count : Nat) : BackendCall
  deriving DecidableEq

/-- The answers of the client: for a read, an error or the entries that
`Recv` yields before its first error (an entry is `none` when its `Event`
field is nil); for an append, the returned error. -/
structure Client where
  ReadStream : String → Nat → Except GoError (List (Option RecordedEvent))
  AppendToStream : String → ExpectedRevision → List EventData → GoError
  ReadAll : Nat → Except GoError (List (Option RecordedEvent))

/-- The functions of the standard library and of the UUID packages that the
adapters call: `time.Parse(time.RFC3339, ·)`, `t.Format(time.RFC3339)`,
`uuid.FromString` and `uuid.Parse` (their result in canonical text, `none`
for an error), and `uuid.New().String()` for the n-th fresh identifier. -/
structure Library where
  timeParse : String → Option Time
  timeFormat : Time → String
  uuidParse : String → Option String
  uuidNew : Nat → String

/-- The recorded event that the stream database returns for a proposed event
it has appended: the same identifier, type, data and metadata, with the
position `eventNumber` in the stream and the date `created` of the append. -/
def EventData.recorded (data : EventData) (eventNumber : Nat) (created : Time) :
    RecordedEvent :=
  { EventID := data.EventID
    EventType := data.EventType
    Data := data.Data
    UserMetadata := RawMessage.document data.Metadata
    EventNumber := eventNumber
    CreatedDate := created }

/-- The error of `uuid.FromString` and `uuid.Parse`. -/
def uuidError : GoError := GoError.native "uuid: incorrect UUID format"

/-- The `EventStoreDBEventStore` struct. -/
structure EventStoreDBEventStore where
  client : Client
  streamPrefix : String

/-- Go `NewEventStoreDBEventStore(connectionString, streamPrefix)`. The two
functions of the client library it calls, `client.ParseConnectionString` and
`client.NewClient`, are arguments; `Configuration` is the type of the parsed
connection string. -/
def NewEventStoreDBEventStore {Configuration : Type}
    (ParseConnectionString : String → Except GoError Configuration)
    (NewClient : Configuration → Except GoError Client)
    (connectionString streamPrefix : String) : Except GoError EventStoreDBEventStore :=
  match ParseConnectionString connectionString with
  | Except.error err =>
    Except.error
      (NewEventStoreError ErrCodeConnectionFailed "failed to parse connection string" err)
  | Except.ok config =>
    match NewClient config with
    | Except.error err =>
      Except.error
        (NewEventStoreError ErrCodeConnectionFailed "failed to create EventStoreDB client" err)
    | Except.ok dbClient =>
      Except.ok
        { client := dbClient
          streamPrefix := if streamPrefix = "" then "metachat" else streamPrefix }

/-- The largest `uint64`, `^uint64(0)`. -/
def maxUint64 : Nat := 2 ^ 64 - 1

/-- Go `e.getStreamName(aggregateID)`. -/
def EventStoreDBEventStore.getStreamName (e : EventStoreDBEventStore) (aggregateID : String) :
    String :=
  e.streamPrefix ++ "-" ++ aggregateID

/-- Go `e.convertFromEventStoreEvent(event)`. -/
def EventStoreDBEventStore.convertFromEventStoreEvent (lib : Library)
    (event : RecordedEvent) : Except GoError Event :=
  let decoded : Except GoError (Option (List (String × JSONValue))) :=
    match event.UserMetadata with
    | RawMessage.nil | RawMessage.malformed [] => Except.ok none
    | RawMessage.malformed _ => Except.error jsonUnmarshalError
    | RawMessage.document doc | RawMessage.respelled doc _ =>
      match stepMap none doc with
      | some m => Except.ok m
      | none => Except.error jsonUnmarshalError
  match decoded with
  | Except.error err => Except.error err
  | Except.ok metadata =>
    match mapGet (metadata.getD []) "aggregate_id" with
    | some (JSONValue.string aggregateID) =>
      let version : Float64 :=
        match mapGet (metadata.getD []) "version" with
        | some (JSONValue.float f) => f
        | _ => (Float64.ofInt event.EventNumber).getD ⟨0⟩
      let timestamp : Time :=
        match mapGet (metadata.getD []) "timestamp" with
        | some (JSONValue.string timestampStr) =>
          match lib.timeParse timestampStr with
          | some t => t
          | none => event.CreatedDate
        | _ => event.CreatedDate
      Except.ok
        { ID := event.EventID
          Type_ := event.EventType
          AggregateID := aggregateID
          Version := version.toGoInt
          Timestamp := timestamp
          Payload := event.Data
          Metadata :=
            mapDelete (mapDelete (mapDelete (mapDelete (metadata.getD []) "type") "aggregate_id")
              "version") "timestamp" }
    | _ => Except.error (GoError.native "aggregate_id not found in metadata")

/-- The receive loop of the stream reads: entries without an event are
skipped, the first event that cannot be converted ends the read. -/
def EventStoreDBEventStore.convertAll (lib : Library) :
    List (Option RecordedEvent) → Except GoError (List Event)
  | [] => Except.ok []
  | none :: rest => EventStoreDBEventStore.convertAll lib rest
  | some event :: rest =>
    match EventStoreDBEventStore.convertFromEventStoreEvent lib event with
    | Except.error err => Except.error err
    | Except.ok domainEvent =>
      match EventStoreDBEventStore.convertAll lib rest with
      | Except.error err => Except.error err
      | Except.ok result => Except.ok (domainEvent :: result)

/-- Go `e.GetEventsByAggregateID(ctx, aggregateID)`: the result, the error and
the requests issued. -/
def EventStoreDBEventStore.GetEventsByAggregateID (lib : Library) (e : EventStoreDBEventStore)
    (aggregateID : String) : List Event × GoError × List BackendCall :=
  if aggregateID = "" then
    ([], NewEventStoreError ErrCodeSerialization "aggregate ID cannot be empty" GoError.nil, [])
  else
    match e.client.ReadStream (e.getStreamName aggregateID) maxUint64 with
    | Except.error err =>
      if err.Error = "stream not found" then
        ([], GoError.nil, [BackendCall.ReadStream (e.getStreamName aggregateID) maxUint64])
      else
        ([], NewEventStoreError ErrCodeStorage "failed to read stream" err,
          [BackendCall.ReadStream (e.getStreamName aggregateID) maxUint64])
    | Except.ok stream =>
      match EventStoreDBEventStore.convertAll lib stream with
      | Except.error err =>
        ([], NewEventStoreError ErrCodeSerialization "failed to convert event" err,
          [BackendCall.ReadStream (e.getStreamName aggregateID) maxUint64])
      | Except.ok result =>
        (result, GoError.nil, [BackendCall.ReadStream (e.getStreamName aggregateID) maxUint64])

/-- The receive loop of the bounded read: entries without an event are
skipped, the first event that cannot be converted ends the read, and an event
is kept when its version is at most `version`. -/
def EventStoreDBEventStore.convertUpTo (lib : Library) (version : Int) :
    List (Option RecordedEvent) → Except GoError (List Event)
  | [] => Except.ok []
  | none :: rest => EventStoreDBEventStore.convertUpTo lib version rest
  | some event :: rest =>
    match EventStoreDBEventStore.convertFromEventStoreEvent lib event with
    | Except.error err => Except.error err
    | Except.ok domainEvent =>
      match EventStoreDBEventStore.convertUpTo lib version rest with
      | Except.error err => Except.error err
      | Except.ok result =>
        Except.ok (if domainEvent.Version ≤ version then domainEvent :: result else result)

/-- Go `uint64(version+1)`, the number of entries the bounded read asks for. -/
def boundedReadCount (version : Int) : Nat :=
  (wrapInt64 (version + 1) % 2 ^ 64).toNat

/-- Go `e.GetEventsByAggregateIDAndVersion(ctx, aggregateID, version)`: the
result, the error and the requests issued. -/
def EventStoreDBEventStore.GetEventsByAggregateIDAndVersion (lib : Library)
    (e : EventStoreDBEventStore) (aggregateID : String) (version : Int) :
    List Event × GoError × List BackendCall :=
  if aggregateID = "" then
    ([], NewEventStoreError ErrCodeSerialization "aggregate ID cannot be empty" GoError.nil, [])
  else
    match e.client.ReadStream (e.getStreamName aggregateID) (boundedReadCount version) with
    | Except.error err =>
      if err.Error = "stream not found" then
        ([], GoError.nil,
          [BackendCall.ReadStream (e.getStreamName aggregateID) (boundedReadCount version)])
      else
        ([], NewEventStoreError ErrCodeStorage "failed to read stream" err,
          [BackendCall.ReadStream (e.getStreamName aggregateID) (boundedReadCount version)])
    | Except.ok stream =>
      match EventStoreDBEventStore.convertUpTo lib version stream with
      | Except.error err =>
        ([], NewEventStoreError ErrCodeSerialization "failed to convert event" err,
          [BackendCall.ReadStream (e.getStreamName aggregateID) (boundedReadCount version)])
      | Except.ok result =>
        (result, GoError.nil,
          [BackendCall.ReadStream (e.getStreamName aggregateID) (boundedReadCount version)])

/-- The metadata map that `SaveEvents` packs for one event: the four
structural entries, then the entries of the caller, which replace a structural
entry of the same key. -/
def EventStoreDBEventStore.packMetadata (lib : Library) (event : Event) :
    List (String × JSONValue) :=
  event.Metadata.foldl (fun metadata kv => mapSet metadata kv.1 kv.2)
    [("type", JSONValue.string event.Type_),
     ("aggregate_id", JSONValue.string event.AggregateID),
     ("version", JSONValue.int event.Version),
     ("timestamp", JSONValue.string (lib.timeFormat event.Timestamp))]

/-- The first loop of `SaveEvents`: the events proposed for appending, or the
error of the first event that is rejected. -/
def EventStoreDBEventStore.proposedEvents (lib : Library) (aggregateID : String) :
    List Event → Except GoError (List EventData)
  | [] => Except.ok []
  | event :: rest =>
    if event.AggregateID ≠ aggregateID then
      Except.error (NewEventStoreError ErrCodeSerialization
        "all events must have the same aggregate ID" GoError.nil)
    else
      match marshalMap (EventStoreDBEventStore.packMetadata lib event) with
      | none =>
        Except.error (NewEventStoreError ErrCodeSerialization "failed to marshal metadata"
          jsonMarshalError)
      | some metadataBytes =>
        match lib.uuidParse event.ID with
        | none =>
          Except.error (NewEventStoreError ErrCodeSerialization
            "failed to parse event ID as UUID" uuidError)
        | some eventUUID =>
          match EventStoreDBEventStore.proposedEvents lib aggregateID rest with
          | Except.error err => Except.error err
          | Except.ok proposed =>
            Except.ok
              ({ EventID := eventUUID
                 ContentType := "application/json"
                 EventType := event.Type_
                 Data := event.Payload
                 Metadata := metadataBytes } :: proposed)

/-- The version pre-check of `SaveEvents` (the statements between the read of
the existing events and the append): the expected revision to append with, or
`ErrVersionConflict`. -/
def EventStoreDBEventStore.expectedRevision (existingEvents eventList : List Event)
    (firstEventVersion : Int) : Except GoError ExpectedRevision :=
  match existingEvents.getLast? with
  | none =>
    if firstEventVersion ≠ 1 then Except.error ErrVersionConflict
    else Except.ok ExpectedRevision.NoStream
  | some last =>
    if last.Version ≠ wrapInt64 (firstEventVersion - eventList.length) then
      Except.error ErrVersionConflict
    else Except.ok (ExpectedRevision.Revision (last.Version % 2 ^ 64).toNat)

/-- Go `e.SaveEvents(ctx, eventList)`: the returned error and the requests
issued to the backend. -/
def EventStoreDBEventStore.SaveEvents (lib : Library) (e : EventStoreDBEventStore) :
    List Event → GoError × List BackendCall
  | [] => (GoError.nil, [])
  | first :: rest =>
    if first.AggregateID = "" then
      (NewEventStoreError ErrCodeSerialization "aggregate ID cannot be empty" GoError.nil, [])
    else
      match EventStoreDBEventStore.proposedEvents lib first.AggregateID (first :: rest) with
      | Except.error err => (err, [])
      | Except.ok proposed =>
        match EventStoreDBEventStore.GetEventsByAggregateID lib e first.AggregateID with
        | (existingEvents, err, calls) =>
          if err ≠ GoError.nil then
            (NewEventStoreError ErrCodeStorage "failed to get existing events" err, calls)
          else
            match EventStoreDBEventStore.expectedRevision existingEvents (first :: rest)
                first.Version with
            | Except.error conflict => (conflict, calls)
            | Except.ok expected =>
              let appendErr :=
                e.client.AppendToStream (e.getStreamName first.AggregateID) expected proposed
              let calls2 :=
                calls ++ [BackendCall.AppendToStream (e.getStreamName first.AggregateID)
                  expected proposed]
              if appendErr ≠ GoError.nil then
                if appendErr.Error = "wrong expected stream revision" then
                  (ErrVersionConflict, calls2)
                else
                  (NewEventStoreError ErrCodeStorage "failed to append events to stream"
                    appendErr, calls2)
              else (GoError.nil, calls2)

/-! ## store/cassandra_event_store.go -/

/-- One `INSERT INTO events (...)` of a batch: the values bound to the
columns. -/
structure Row where
  aggregate_type : String
  aggregate_id : String
  version : Int
  event_id : String
  event_type : String
  payload : JSONValue
  metadata : JSONValue
  created_at : Time
  deriving DecidableEq

/-- The answers of the `gocql` session, as far as `SaveEvents` uses it: the
error of `ExecuteBatch` for a batch. -/
structure Session where
  ExecuteBatch : List Row → GoError

/-- The `CassandraEventStore` struct. -/
structure CassandraEventStore where
  session : Session

/-- Go `c.getAggregateType(aggregateID)`. -/
def CassandraEventStore.getAggregateType (_c : CassandraEventStore) (_aggregateID : String) :
    String :=
  "default"

/-- The loop of `SaveEvents`: the queries added to the batch, or the error of
the first event that is rejected; `n` counts the events seen so far. -/
def CassandraEventStore.batchRows (lib : Library) (c : CassandraEventStore) (n : Nat) :
    List Event → Except GoError (List Row)
  | [] => Except.ok []
  | event :: rest =>
    match event.Payload.marshal with
    | none =>
      Except.error (NewEventStoreError ErrCodeSerialization "failed to marshal payload"
        jsonMarshalError)
    | some payloadJSON =>
      match marshalMap event.Metadata with
      | none =>
        Except.error (NewEventStoreError ErrCodeSerialization "failed to marshal metadata"
          jsonMarshalError)
      | some metadataJSON =>
        match lib.uuidParse event.AggregateID with
        | none =>
          Except.error (NewEventStoreError ErrCodeSerialization "invalid aggregate ID" uuidError)
        | some aggregateID =>
          match CassandraEventStore.batchRows lib c (n + 1) rest with
          | Except.error err => Except.error err
          | Except.ok rows =>
            Except.ok
              ({ aggregate_type := c.getAggregateType event.AggregateID
                 aggregate_id := aggregateID
                 version := event.Version
                 event_id := (lib.uuidParse event.ID).getD (lib.uuidNew n)
                 event_type := event.Type_
                 payload := payloadJSON
                 metadata := metadataJSON
                 created_at := event.Timestamp } :: rows)

/-- Go `c.SaveEvents(ctx, eventList)`: the returned error and the batches
submitted to the session. -/
def CassandraEventStore.SaveEvents (lib : Library) (c : CassandraEventStore)
    (eventList : List Event) : GoError × List (List Row) :=
  match CassandraEventStore.batchRows lib c 0 eventList with
  | Except.error err => (err, [])
  | Except.ok batch =>
    if c.session.ExecuteBatch batch ≠ GoError.nil then
      (NewEventStoreError ErrCodeStorage "failed to save events" (c.session.ExecuteBatch batch),
        [batch])
    else (GoError.nil, [batch])

/-! ## aggregates/aggregate.go -/

/-- The `BaseAggregate` struct. -/
structure BaseAggregate where
  id : String
  version : Int
  uncommittedEvents : List Event
  deriving DecidableEq

/-- Go `NewBaseAggregate(id)`. -/
def NewBaseAggregate (id : String) : BaseAggregate :=
  { id := id, version := 0, uncommittedEvents := [] }

/-- Go `a.GetID()`. -/
def BaseAggregate.GetID (a : BaseAggregate) : String := a.id

/-- Go `a.GetVersion()`. -/
def BaseAggregate.GetVersion (a : BaseAggregate) : Int := a.version

/-- Go `a.IncrementVersion()`: `a.version++` on a Go `int`. -/
def BaseAggregate.IncrementVersion (a : BaseAggregate) : BaseAggregate :=
  { a with version := wrapInt64 (a.version + 1) }

/-- Go `a.AddUncommittedEvent(event)`. -/
def BaseAggregate.AddUncommittedEvent (a : BaseAggregate) (event : Event) : BaseAggregate :=
  { a with uncommittedEvents := a.uncommittedEvents ++ [event] }

/-- Go `a.GetUncommittedEvents()`. -/
def BaseAggregate.GetUncommittedEvents (a : BaseAggregate) : List Event := a.uncommittedEvents

/-- Go `a.ClearUncommittedEvents()`. -/
def BaseAggregate.ClearUncommittedEvents (a : BaseAggregate) : BaseAggregate :=
  { a with uncommittedEvents := [] }

/-- Go `a.LoadFromHistory(eventList)`: the aggregate after the call and the
returned error. The loop returns at the first event of another aggregate; for
the others it only records the version. -/
def BaseAggregate.LoadFromHistory (a : BaseAggregate) : List Event → BaseAggregate × GoError
  | [] => (a, GoError.nil)
  | event :: rest =>
    if event.AggregateID ≠ a.id then
      (a, errorsNew "event aggregate ID does not match")
    else
      BaseAggregate.LoadFromHistory { a with version := event.Version } rest

/-! ## aggregates/diary_aggregate.go -/

/-- The `DiaryAggregate` struct, which embeds `*BaseAggregate`; the slice
`tags` is `none` when nil. -/
structure DiaryAggregate extends BaseAggregate where
  userID : String
  title : String
  content : String
  tokenCount : Int
  sessionID : String
  tags : Option (List String)
  deleted : Bool
  deriving DecidableEq

/-- Go `NewDiaryAggregate(id)`. -/
def NewDiaryAggregate (id : String) : DiaryAggregate :=
  { toBaseAggregate := NewBaseAggregate id
    userID := "", title := "", content := "", tokenCount := 0, sessionID := ""
    tags := some [], deleted := false }

/-- Go `d.LoadFromHistory(eventList)`: the method of the embedded
`*BaseAggregate`, which `DiaryAggregate` does not redefine. -/
def DiaryAggregate.LoadFromHistory (d : DiaryAggregate) (eventList : List Event) :
    DiaryAggregate × GoError :=
  ({ d with toBaseAggregate := (d.toBaseAggregate.LoadFromHistory eventList).1 },
    (d.toBaseAggregate.LoadFromHistory eventList).2)

/-- The common end of the three business operations: the result of `NewEvent`
is returned when it is an error, and staged otherwise. -/
def DiaryAggregate.stage (d : DiaryAggregate) : Except GoError Event → DiaryAggregate × GoError
  | Except.error err => (d, err)
  | Except.ok event =>
    ({ d with toBaseAggregate := d.toBaseAggregate.AddUncommittedEvent event }, GoError.nil)

/-- Go `d.CreateEntry(userID, title, content, tokenCount, sessionID, tags)`. -/
def DiaryAggregate.CreateEntry (d : DiaryAggregate) (newID : String) (now : Time)
    (userID title content : String) (tokenCount : Int) (sessionID : String)
    (tags : Option (List String)) : DiaryAggregate × GoError :=
  if d.title ≠ "" then (d, errorsNew "diary entry already exists")
  else
    d.stage
      (NewEvent newID now DiaryEntryCreatedEvent d.GetID (wrapInt64 (d.GetVersion + 1))
        ({ UserID := userID, Title := title, Content := content, TokenCount := tokenCount,
           SessionID := sessionID, Tags := tags } : DiaryEntryCreatedPayload)
        none)

/-- Go `d.UpdateEntry(title, content, tokenCount, tags)`. -/
def DiaryAggregate.UpdateEntry (d : DiaryAggregate) (newID : String) (now : Time)
    (title content : String) (tokenCount : Int) (tags : Option (List String)) :
    DiaryAggregate × GoError :=
  if d.deleted then (d, errorsNew "diary entry has been deleted")
  else if d.title = "" then (d, errorsNew "diary entry does not exist")
  else
    d.stage
      (NewEvent newID now DiaryEntryUpdatedEvent d.GetID (wrapInt64 (d.GetVersion + 1))
        ({ Title := title, Content := content, TokenCount := tokenCount, Tags := tags } :
          DiaryEntryUpdatedPayload)
        none)

/-- Go `d.DeleteEntry(reason)`. -/
def DiaryAggregate.DeleteEntry (d : DiaryAggregate) (newID : String) (now : Time)
    (reason : String) : DiaryAggregate × GoError :=
  if d.deleted then (d, errorsNew "diary entry has already been deleted")
  else if d.title = "" then (d, errorsNew "diary entry does not exist")
  else
    d.stage
      (NewEvent newID now DiaryEntryDeletedEvent d.GetID (wrapInt64 (d.GetVersion + 1))
        ({ Reason := reason } : DiaryEntryDeletedPayload)
        none)

/-- Go `d.applyDiaryEntryCreated(event)`. -/
def DiaryAggregate.applyDiaryEntryCreated (d : DiaryAggregate) (event : Event) :
    DiaryAggregate × GoError :=
  match (event.UnmarshalPayload : Except GoError DiaryEntryCreatedPayload) with
  | Except.error err => (d, err)
  | Except.ok payload =>
    ({ d with
        userID := payload.UserID
        title := payload.Title
        content := payload.Content
        tokenCount := payload.TokenCount
        sessionID := payload.SessionID
        tags := payload.Tags
        deleted := false
        toBaseAggregate := d.toBaseAggregate.IncrementVersion }, GoError.nil)

/-- Go `d.applyDiaryEntryUpdated(event)`. -/
def DiaryAggregate.applyDiaryEntryUpdated (d : DiaryAggregate) (event : Event) :
    DiaryAggregate × GoError :=
  match (event.UnmarshalPayload : Except GoError DiaryEntryUpdatedPayload) with
  | Except.error err => (d, err)
  | Except.ok payload =>
    ({ d with
        title := if payload.Title ≠ "" then payload.Title else d.title
        content := if payload.Content ≠ "" then payload.Content else d.content
        tokenCount := if payload.TokenCount > 0 then payload.TokenCount else d.tokenCount
        tags := if payload.Tags ≠ none then payload.Tags else d.tags
        toBaseAggregate := d.toBaseAggregate.IncrementVersion }, GoError.nil)

/-- Go `d.applyDiaryEntryDeleted(event)`. -/
def DiaryAggregate.applyDiaryEntryDeleted (d : DiaryAggregate) (event : Event) :
    DiaryAggregate × GoError :=
  match (event.UnmarshalPayload : Except GoError DiaryEntryDeletedPayload) with
  | Except.error err => (d, err)
  | Except.ok _ =>
    ({ d with deleted := true, toBaseAggregate := d.toBaseAggregate.IncrementVersion },
      GoError.nil)

/-- Go `d.ApplyEvent(event)`. -/
def DiaryAggregate.ApplyEvent (d : DiaryAggregate) (event : Event) : DiaryAggregate × GoError :=
  if event.Type_ = DiaryEntryCreatedEvent then d.applyDiaryEntryCreated event
  else if event.Type_ = DiaryEntryUpdatedEvent then d.applyDiaryEntryUpdated event
  else if event.Type_ = DiaryEntryDeletedEvent then d.applyDiaryEntryDeleted event
  else (d, errorsNew "unknown event type")

/-- Go `d.GetTitle()`. -/
def DiaryAggregate.GetTitle (d : DiaryAggregate) : String := d.title

/-- Go `d.IsDeleted()`. -/
def DiaryAggregate.IsDeleted (d : DiaryAggregate) : Bool := d.deleted

/-! ## aggregates/user_aggregate.go -/

/-- The `UserAggregate` struct, which embeds `*BaseAggregate`; the pointer
`archetype` and the slice `modalities` are `none` when nil. -/
structure UserAggregate extends BaseAggregate where
  username : String
  email : String
  firstName : String
  lastName : String
  dateOfBirth : String
  archetype : Option Archetype
  modalities : Option (List UserModality)
  deriving DecidableEq

/-- Go `NewUserAggregate(id)`. -/
def NewUserAggregate (id : String) : UserAggregate :=
  { toBaseAggregate := NewBaseAggregate id
    username := "", email := "", firstName := "", lastName := "", dateOfBirth := ""
    archetype := none, modalities := some [] }

/-- Go `u.LoadFromHistory(eventList)`: the method of the embedded
`*BaseAggregate`, which `UserAggregate` does not redefine. -/
def UserAggregate.LoadFromHistory (u : UserAggregate) (eventList : List Event) :
    UserAggregate × GoError :=
  ({ u with toBaseAggregate := (u.toBaseAggregate.LoadFromHistory eventList).1 },
    (u.toBaseAggregate.LoadFromHistory eventList).2)

/-- The common end of the five business operations: the result of `NewEvent`
is returned when it is an error, and staged otherwise. -/
def UserAggregate.stage (u : UserAggregate) : Except GoError Event → UserAggregate × GoError
  | Except.error err => (u, err)
  | Except.ok event =>
    ({ u with toBaseAggregate := u.toBaseAggregate.AddUncommittedEvent event }, GoError.nil)

/-- Go `u.CreateUser(username, email, firstName, lastName, dateOfBirth)`. -/
def UserAggregate.CreateUser (u : UserAggregate) (newID : String) (now : Time)
    (username email firstName lastName dateOfBirth : String) : UserAggregate × GoError :=
  if u.username ≠ "" then (u, errorsNew "user already exists")
  else
    u.stage
      (NewEvent newID now UserRegisteredEvent u.GetID (wrapInt64 (u.GetVersion + 1))
        ({ Username := username, Email := email, FirstName := firstName, LastName := lastName,
           DateOfBirth := dateOfBirth } : UserRegisteredPayload)
        none)

/-- Go `u.UpdateProfile(firstName, lastName, dateOfBirth, avatar, bio)`. -/
def UserAggregate.UpdateProfile (u : UserAggregate) (newID : String) (now : Time)
    (firstName lastName dateOfBirth avatar bio : String) : UserAggregate × GoError :=
  if u.username = "" then (u, errorsNew "user does not exist")
  else
    u.stage
      (NewEvent newID now UserProfileUpdatedEvent u.GetID (wrapInt64 (u.GetVersion + 1))
        ({ FirstName := firstName, LastName := lastName, DateOfBirth := dateOfBirth,
           Avatar := avatar, Bio := bio } : UserProfileUpdatedPayload)
        none)

/-- Go `u.AssignArchetype(archetypeID, archetypeName, confidence, description)`. -/
def UserAggregate.AssignArchetype (u : UserAggregate) (newID : String) (now : Time)
    (archetypeID archetypeName : String) (confidence : Float64) (description : String) :
    UserAggregate × GoError :=
  if u.username = "" then (u, errorsNew "user does not exist")
  else
    u.stage
      (NewEvent newID now UserArchetypeAssignedEvent u.GetID (wrapInt64 (u.GetVersion + 1))
        ({ ArchetypeID := archetypeID, ArchetypeName := archetypeName, Confidence := confidence,
           Description := description } : UserArchetypeAssignedPayload)
        none)

/-- Go `u.UpdateArchetype(archetypeID, archetypeName, confidence, description)`. -/
def UserAggregate.UpdateArchetype (u : UserAggregate) (newID : String) (now : Time)
    (archetypeID archetypeName : String) (confidence : Float64) (description : String) :
    UserAggregate × GoError :=
  if u.username = "" then (u, errorsNew "user does not exist")
  else
    u.stage
      (NewEvent newID now UserArchetypeUpdatedEvent u.GetID (wrapInt64 (u.GetVersion + 1))
        ({ ArchetypeID := archetypeID, ArchetypeName := archetypeName, Confidence := confidence,
           Description := description } : UserArchetypeUpdatedPayload)
        none)

/-- Go `u.UpdateModalities(modalities)`. -/
def UserAggregate.UpdateModalities (u : UserAggregate) (newID : String) (now : Time)
    (modalities : Option (List UserModality)) : UserAggregate × GoError :=
  if u.username = "" then (u, errorsNew "user does not exist")
  else
    u.stage
      (NewEvent newID now UserModalitiesUpdatedEvent u.GetID (wrapInt64 (u.GetVersion + 1))
        ({ Modalities := modalities } : UserModalitiesUpdatedPayload)
        none)

/-- Go `u.applyUserRegistered(event)`. -/
def UserAggregate.applyUserRegistered (u : UserAggregate) (event : Event) :
    UserAggregate × GoError :=
  match (event.UnmarshalPayload : Except GoError UserRegisteredPayload) with
  | Except.error err => (u, err)
  | Except.ok payload =>
    ({ u with
        username := payload.Username
        email := payload.Email
        firstName := payload.FirstName
        lastName := payload.LastName
        dateOfBirth := payload.DateOfBirth
        toBaseAggregate := u.toBaseAggregate.IncrementVersion }, GoError.nil)

/-- Go `u.applyUserProfileUpdated(event)`. -/
def UserAggregate.applyUserProfileUpdated (u : UserAggregate) (event : Event) :
    UserAggregate × GoError :=
  match (event.UnmarshalPayload : Except GoError UserProfileUpdatedPayload) with
  | Except.error err => (u, err)
  | Except.ok payload =>
    ({ u with
        firstName := if payload.FirstName ≠ "" then payload.FirstName else u.firstName
        lastName := if payload.LastName ≠ "" then payload.LastName else u.lastName
        dateOfBirth := if payload.DateOfBirth ≠ "" then payload.DateOfBirth else u.dateOfBirth
        toBaseAggregate := u.toBaseAggregate.IncrementVersion }, GoError.nil)

/-- Go `u.applyUserArchetypeAssigned(event)`. -/
def UserAggregate.applyUserArchetypeAssigned (u : UserAggregate) (event : Event) :
    UserAggregate × GoError :=
  match (event.UnmarshalPayload : Except GoError UserArchetypeAssignedPayload) with
  | Except.error err => (u, err)
  | Except.ok payload =>
    ({ u with
        archetype := some
          { ID := payload.ArchetypeID, Name := payload.ArchetypeName,
            Description := payload.Description, Score := payload.Confidence }
        toBaseAggregate := u.toBaseAggregate.IncrementVersion }, GoError.nil)

/-- Go `u.applyUserArchetypeUpdated(event)`. -/
def UserAggregate.applyUserArchetypeUpdated (u : UserAggregate) (event : Event) :
    UserAggregate × GoError :=
  match (event.UnmarshalPayload : Except GoError UserArchetypeUpdatedPayload) with
  | Except.error err => (u, err)
  | Except.ok payload =>
    ({ u with
        archetype := some
          { ID := payload.ArchetypeID, Name := payload.ArchetypeName,
            Description := payload.Description, Score := payload.Confidence }
        toBaseAggregate := u.toBaseAggregate.IncrementVersion }, GoError.nil)

/-- Go `u.applyUserModalitiesUpdated(event)`. -/
def UserAggregate.applyUserModalitiesUpdated (u : UserAggregate) (event : Event) :
    UserAggregate × GoError :=
  match (event.UnmarshalPayload : Except GoError UserModalitiesUpdatedPayload) with
  | Except.error err => (u, err)
  | Except.ok payload =>
    ({ u with
        modalities := payload.Modalities
        toBaseAggregate := u.toBaseAggregate.IncrementVersion }, GoError.nil)

/-- Go `u.ApplyEvent(event)`. -/
def UserAggregate.ApplyEvent (u : UserAggregate) (event : Event) : UserAggregate × GoError :=
  if event.Type_ = UserRegisteredEvent then u.applyUserRegistered event
  else if event.Type_ = UserProfileUpdatedEvent then u.applyUserProfileUpdated event
  else if event.Type_ = UserArchetypeAssignedEvent then u.applyUserArchetypeAssigned event
  else if event.Type_ = UserArchetypeUpdatedEvent then u.applyUserArchetypeUpdated event
  else if event.Type_ = UserModalitiesUpdatedEvent then u.applyUserModalitiesUpdated event
  else (u, errorsNew "unknown event type")

/-! ## Business operations as data, live runs and replay -/

/-- The fields of a `DiaryAggregate` other than those of the embedded
`BaseAggregate`. -/
def DiaryAggregate.domainState (d : DiaryAggregate) :
    String × String × String × Int × String × Option (List String) × Bool :=
  (d.userID, d.title, d.content, d.tokenCount, d.sessionID, d.tags, d.deleted)

/-- The fields of a `UserAggregate` other than those of the embedded
`BaseAggregate`. -/
def UserAggregate.domainState (u : UserAggregate) :
    String × String × String × String × String × Option Archetype × Option (List UserModality) :=
  (u.username, u.email, u.firstName, u.lastName, u.dateOfBirth, u.archetype, u.modalities)

/-- The domain fields and the version of two diary aggregates agree. -/
def DiaryAggregate.Agree (d r : DiaryAggregate) : Prop :=
  d.domainState = r.domainState ∧ d.version = r.version

/-- A call of a business operation of `DiaryAggregate`, with its arguments. -/
inductive DiaryCommand where
  | CreateEntry (userID title content : String) (tokenCount : Int) (sessionID : String)
      (tags : Option (List String)) : DiaryCommand
  | UpdateEntry (title content : String) (tokenCount : Int) (tags : Option (List String)) :
      DiaryCommand
  | DeleteEntry (reason : String) : DiaryCommand
  deriving DecidableEq

/-- A call of a business operation of `UserAggregate`, with its arguments. -/
inductive UserCommand where
  | CreateUser (username email firstName lastName dateOfBirth : String) : UserCommand
  | UpdateProfile (firstName lastName dateOfBirth avatar bio : String) : UserCommand
  | AssignArchetype (archetypeID archetypeName : String) (confidence : Float64)
      (description : String) : UserCommand
  | UpdateArchetype (archetypeID archetypeName : String) (confidence : Float64)
      (description : String) : UserCommand
  | UpdateModalities (modalities : Option (List UserModality)) : UserCommand
  deriving DecidableEq

/-- The business operation named by a command, run on `d`. -/
def DiaryAggregate.execute (d : DiaryAggregate) (newID : String) (now : Time) :
    DiaryCommand → DiaryAggregate × GoError
  | DiaryCommand.CreateEntry userID title content tokenCount sessionID tags =>
    d.CreateEntry newID now userID title content tokenCount sessionID tags
  | DiaryCommand.UpdateEntry title content tokenCount tags =>
    d.UpdateEntry newID now title content tokenCount tags
  | DiaryCommand.DeleteEntry reason => d.DeleteEntry newID now reason

/-- The business operation named by a command, run on `u`. -/
def UserAggregate.execute (u : UserAggregate) (newID : String) (now : Time) :
    UserCommand → UserAggregate × GoError
  | UserCommand.CreateUser username email firstName lastName dateOfBirth =>
    u.CreateUser newID now username email firstName lastName dateOfBirth
  | UserCommand.UpdateProfile firstName lastName dateOfBirth avatar bio =>
    u.UpdateProfile newID now firstName lastName dateOfBirth avatar bio
  | UserCommand.AssignArchetype archetypeID archetypeName confidence description =>
    u.AssignArchetype newID now archetypeID archetypeName confidence description
  | UserCommand.UpdateArchetype archetypeID archetypeName confidence description =>
    u.UpdateArchetype newID now archetypeID archetypeName confidence description
  | UserCommand.UpdateModalities modalities => u.UpdateModalities newID now modalities

/-- A sequence of business operations run on `d`, none of the staged events
being applied. -/
def DiaryAggregate.runOperations (d : DiaryAggregate) :
    List (String × Time × DiaryCommand) → DiaryAggregate
  | [] => d
  | (newID, now, c) :: rest => DiaryAggregate.runOperations (d.execute newID now c).1 rest

/-- One business operation run on `d`, followed, when it is accepted, by
`ApplyEvent` of the event it staged. -/
def DiaryAggregate.executeAndApply (d : DiaryAggregate) (newID : String) (now : Time)
    (c : DiaryCommand) : DiaryAggregate :=
  if (d.execute newID now c).2 = GoError.nil then
    match (d.execute newID now c).1.uncommittedEvents.getLast? with
    | some event => ((d.execute newID now c).1.ApplyEvent event).1
    | none => (d.execute newID now c).1
  else (d.execute newID now c).1

/-- A sequence of business operations run on `d`, every staged event being
applied right after the operation that staged it. -/
def DiaryAggregate.runAndApply (d : DiaryAggregate) :
    List (String × Time × DiaryCommand) → DiaryAggregate
  | [] => d
  | (newID, now, c) :: rest => DiaryAggregate.runAndApply (d.executeAndApply newID now c) rest

/-- One business operation run on `u`, followed, when it is accepted, by
`ApplyEvent` of the event it staged. -/
def UserAggregate.executeAndApply (u : UserAggregate) (newID : String) (now : Time)
    (c : UserCommand) : UserAggregate :=
  if (u.execute newID now c).2 = GoError.nil then
    match (u.execute newID now c).1.uncommittedEvents.getLast? with
    | some event => ((u.execute newID now c).1.ApplyEvent event).1
    | none => (u.execute newID now c).1
  else (u.execute newID now c).1

/-- A sequence of business operations run on `u`, every staged event being
applied right after the operation that staged it. -/
def UserAggregate.runAndApply (u : UserAggregate) :
    List (String × Time × UserCommand) → UserAggregate
  | [] => u
  | (newID, now, c) :: rest => UserAggregate.runAndApply (u.executeAndApply newID now c) rest

/-- In the run `d.runAndApply ops`, every `ApplyEvent` of a staged event
returns nil. -/
def DiaryAggregate.appliesSucceed (d : DiaryAggregate) :
    List (String × Time × DiaryCommand) → Bool
  | [] => true
  | (newID, now, c) :: rest =>
    (if (d.execute newID now c).2 = GoError.nil then
      match (d.execute newID now c).1.uncommittedEvents.getLast? with
      | some event => decide (((d.execute newID now c).1.ApplyEvent event).2 = GoError.nil)
      | none => true
    else true) &&
      DiaryAggregate.appliesSucceed (d.executeAndApply newID now c) rest

/-- In the run `u.runAndApply ops`, every `ApplyEvent` of a staged event
returns nil. -/
def UserAggregate.appliesSucceed (u : UserAggregate) :
    List (String × Time × UserCommand) → Bool
  | [] => true
  | (newID, now, c) :: rest =>
    (if (u.execute newID now c).2 = GoError.nil then
      match (u.execute newID now c).1.uncommittedEvents.getLast? with
      | some event => decide (((u.execute newID now c).1.ApplyEvent event).2 = GoError.nil)
      | none => true
    else true) &&
      UserAggregate.appliesSucceed (u.executeAndApply newID now c) rest

/-- The events folded into `d` with `ApplyEvent`, in order. -/
def DiaryAggregate.replay (d : DiaryAggregate) : List Event → DiaryAggregate
  | [] => d
  | event :: rest => DiaryAggregate.replay (d.ApplyEvent event).1 rest

/-- The events folded into `u` with `ApplyEvent`, in order. -/
def UserAggregate.replay (u : UserAggregate) : List Event → UserAggregate
  | [] => u
  | event :: rest => UserAggregate.replay (u.ApplyEvent event).1 rest

/-! ## A concrete reading of `time.Parse(time.RFC3339, ·)`

The theorems below hold for every parser; the concrete examples use the
following one, which reads the UTC, whole-second form `YYYY-MM-DDTHH:MM:SSZ`
and rejects every other string. -/

/-- The value of a decimal digit. -/
def digitVal (c : Char) : Option Nat :=
  if 48 ≤ c.toNat ∧ c.toNat ≤ 57 then some (c.toNat - 48) else none

/-- Two decimal digits. -/
def twoDigits (a b : Char) : Option Nat :=
  match digitVal a, digitVal b with
  | some x, some y => some (10 * x + y)
  | _, _ => none

/-- The number of days of a month of the proleptic Gregorian calendar. -/
def daysIn (year month : Nat) : Nat :=
  if month = 2 then
    if year % 4 = 0 ∧ (year % 100 ≠ 0 ∨ year % 400 = 0) then 29 else 28
  else if month = 4 ∨ month = 6 ∨ month = 9 ∨ month = 11 then 30
  else 31

/-- Days from 1970-01-01 to the given civil date. -/
def daysFromCivil (year month day : Nat) : Int :=
  let y : Int := if month ≤ 2 then (year : Int) - 1 else year
  let era : Int := y / 400
  let yoe : Int := y - era * 400
  let mp : Int := ((month : Int) + 9) % 12
  let doy : Int := (153 * mp + 2) / 5 + (day : Int) - 1
  let doe : Int := yoe * 365 + yoe / 4 - yoe / 100 + doy
  era * 146097 + doe - 719468

/-- The parser used in the concrete examples. -/
def parseRFC3339 (value : String) : Option Time :=
  match value.toList with
  | [y1, y2, y3, y4, d1, m1, m2, d2, a1, a2, t, h1, h2, c1, n1, n2, c2, s1, s2, z] =>
    if d1 = '-' ∧ d2 = '-' ∧ t = 'T' ∧ c1 = ':' ∧ c2 = ':' ∧ z = 'Z' then
      match twoDigits y1 y2, twoDigits y3 y4, twoDigits m1 m2, twoDigits a1 a2,
        twoDigits h1 h2, twoDigits n1 n2, twoDigits s1 s2 with
      | some yh, some yl, some month, some day, some hour, some minute, some second =>
        let year := 100 * yh + yl
        if 1 ≤ month ∧ month ≤ 12 ∧ 1 ≤ day ∧ day ≤ daysIn year month ∧
            hour < 24 ∧ minute < 60 ∧ second < 60 then
          some ((daysFromCivil year month day * 86400 + hour * 3600 + minute * 60 + second)
            * 1000000000)
        else none
      | _, _, _, _, _, _, _ => none
    else none
  | _ => none

/-- Two decimal digits for a number below 100. -/
def pad2 (n : Nat) : String :=
  String.mk [Char.ofNat (48 + n / 10 % 10), Char.ofNat (48 + n % 10)]

/-- Four decimal digits for a number below 10000. -/
def pad4 (n : Nat) : String := pad2 (n / 100) ++ pad2 (n % 100)

/-- The formatter used in the concrete examples: the UTC, whole-second form
that `parseRFC3339` reads, for the years 0000 to 9999. -/
def formatRFC3339 (t : Time) : String :=
  let seconds : Int := t / 1000000000
  let z : Int := seconds / 86400 + 719468
  let secondOfDay : Nat := (seconds % 86400).toNat
  let era : Int := z / 146097
  let doe : Int := z - era * 146097
  let yoe : Int := (doe - doe / 1460 + doe / 36524 - doe / 146096) / 365
  let doy : Int := doe - (365 * yoe + yoe / 4 - yoe / 100)
  let mp : Int := (5 * doy + 2) / 153
  let day : Int := doy - (153 * mp + 2) / 5 + 1
  let month : Int := if mp < 10 then mp + 3 else mp - 9
  let year : Int := yoe + era * 400 + (if month ≤ 2 then 1 else 0)
  pad4 year.toNat ++ "-" ++ pad2 month.toNat ++ "-" ++ pad2 day.toNat ++ "T"
    ++ pad2 (secondOfDay / 3600) ++ ":" ++ pad2 (secondOfDay / 60 % 60) ++ ":"
    ++ pad2 (secondOfDay % 60) ++ "Z"

/-- A hexadecimal digit. -/
def isHexDigit (c : Char) : Bool :=
  (48 ≤ c.toNat ∧ c.toNat ≤ 57) ∨ (97 ≤ c.toNat ∧ c.toNat ≤ 102) ∨ (65 ≤ c.toNat ∧ c.toNat ≤ 70)

/-- The UUID parser used in the concrete examples: it reads the canonical
form `xxxxxxxx-xxxx-xxxx-xxxx-xxxxxxxxxxxx` and rejects every other string. -/
def parseUUID (value : String) : Option String :=
  if value.toList.length = 36 ∧
      (List.range 36).all (fun i =>
        if i = 8 ∨ i = 13 ∨ i = 18 ∨ i = 23 then value.toList[i]? == some '-'
        else (value.toList[i]?.map isHexDigit) == some true) then
    some (String.mk (value.toList.map foldChar))
  else none

/-- The library used in the concrete examples. -/
def exampleLibrary : Library :=
  { timeParse := parseRFC3339
    timeFormat := formatRFC3339
    uuidParse := parseUUID
    uuidNew := fun n => "00000000-0000-4000-8000-0000000000" ++ pad2 n }

/-! ## Concrete events used in the examples -/

def evA1 : Event :=
  { ID := "a-1", Type_ := "DiaryEntryCreated", AggregateID := "A", Version := 1, Timestamp := 100 }
def evA2 : Event :=
  { ID := "a-2", Type_ := "DiaryEntryUpdated", AggregateID := "A", Version := 2, Timestamp := 200 }
def evA2x : Event :=
  { ID := "x-2", Type_ := "DiaryEntryUpdated", AggregateID := "A", Version := 2, Timestamp := 250 }
def evA3 : Event :=
  { ID := "a-3", Type_ := "DiaryEntryUpdated", AggregateID := "A", Version := 3, Timestamp := 300 }
def evA4 : Event :=
  { ID := "a-4", Type_ := "DiaryEntryDeleted", AggregateID := "A", Version := 4, Timestamp := 400 }
def evB1 : Event :=
  { ID := "b-1", Type_ := "DiaryEntryCreated", AggregateID := "B", Version := 1, Timestamp := 150 }
/-- An event created at 2024-01-01T00:00:00Z. -/
def evStart : Event :=
  { ID := "b-2", Type_ := "DiaryEntryUpdated", AggregateID := "B", Version := 2,
    Timestamp := 1704067200000000000 }
/-- An event created at 2024-01-01T12:00:00Z. -/
def evNoon : Event :=
  { ID := "c-1", Type_ := "DiaryEntryCreated", AggregateID := "C", Version := 1,
    Timestamp := 1704110400000000000 }
/-- An event created at 2024-01-02T00:00:00Z. -/
def evEnd : Event :=
  { ID := "c-2", Type_ := "DiaryEntryUpdated", AggregateID := "C", Version := 2,
    Timestamp := 1704153600000000000 }

/-- The NaN `float64` that `math.NaN()` returns. -/
def float64NaN : Float64 := ⟨9221120237041090561⟩

/-- The event staged by `CreateEntry` on a fresh diary aggregate `d-1`. -/
def diaryCreated : Event :=
  { ID := "00000000-0000-4000-8000-000000000001"
    Type_ := DiaryEntryCreatedEvent
    AggregateID := "d-1"
    Version := 1
    Timestamp := 100
    Payload := RawMessage.document
      (JSONValue.object
        [("user_id", JSONValue.string "u-1"), ("title", JSONValue.string "Hello"),
         ("content", JSONValue.string "first entry"), ("token_count", JSONValue.int 2),
         ("session_id", JSONValue.string "s-1"),
         ("tags", JSONValue.array [JSONValue.string "mood"])]) }

/-- The event staged by `CreateUser` on a fresh user aggregate `u-1`. -/
def userRegistered : Event :=
  { ID := "00000000-0000-4000-8000-000000000002"
    Type_ := UserRegisteredEvent
    AggregateID := "u-1"
    Version := 1
    Timestamp := 100
    Payload := RawMessage.document
      (JSONValue.object
        [("username", JSONValue.string "bob"), ("email", JSONValue.string "bob@example.org"),
         ("first_name", JSONValue.string "Bob"), ("last_name", JSONValue.string "Ross")]) }

/-- The user aggregate `u-1` after `UserRegistered` has been applied. -/
def userBob : UserAggregate := ((NewUserAggregate "u-1").ApplyEvent userRegistered).1

/-- The diary aggregate `d-1` after `DiaryEntryCreated` has been applied. -/
def diaryHello : DiaryAggregate := ((NewDiaryAggregate "d-1").ApplyEvent diaryCreated).1

/-- The recorded event of a stream `metachat-A` that holds one event, saved at
version 1, with the metadata `SaveEvents` packs. -/
def recordedA1 : RecordedEvent :=
  { EventID := "00000000-0000-4000-8000-0000000000a1"
    EventType := "DiaryEntryCreated"
    Data := RawMessage.document (JSONValue.object [])
    UserMetadata := RawMessage.document
      (JSONValue.object
        [("aggregate_id", JSONValue.string "A"),
         ("timestamp", JSONValue.string "2024-01-01T00:00:00Z"),
         ("type", JSONValue.string "DiaryEntryCreated"),
         ("version", JSONValue.int 1)])
    EventNumber := 0
    CreatedDate := 1704067200000000000 }

/-- A client whose backend holds the stream `metachat-A` with one event and
accepts every append. -/
def exampleClient : Client :=
  { ReadStream := fun streamName _ =>
      if streamName = "metachat-A" then Except.ok [some recordedA1]
      else Except.error (GoError.native "stream not found")
    AppendToStream := fun _ _ _ => GoError.nil
    ReadAll := fun _ => Except.ok [some recordedA1] }

/-- The stream-database adapter over `exampleClient`. -/
def exampleStreamStore : EventStoreDBEventStore :=
  { client := exampleClient, streamPrefix := "metachat" }

def streamA2 : Event :=
  { ID := "00000000-0000-4000-8000-0000000000a2", Type_ := "DiaryEntryUpdated",
    AggregateID := "A", Version := 2, Timestamp := 1704110400000000000,
    Payload := RawMessage.document (JSONValue.object []) }
def streamA3 : Event :=
  { ID := "00000000-0000-4000-8000-0000000000a3", Type_ := "DiaryEntryUpdated",
    AggregateID := "A", Version := 3, Timestamp := 1704110400000000000,
    Payload := RawMessage.document (JSONValue.object []) }
def streamA4 : Event :=
  { ID := "00000000-0000-4000-8000-0000000000a4", Type_ := "DiaryEntryDeleted",
    AggregateID := "A", Version := 4, Timestamp := 1704153600000000000,
    Payload := RawMessage.document (JSONValue.object []) }
def streamB1 : Event :=
  { ID := "00000000-0000-4000-8000-0000000000b1", Type_ := "DiaryEntryCreated",
    AggregateID := "B", Version := 1, Timestamp := 1704153600000000000,
    Payload := RawMessage.document (JSONValue.object []) }

/-- The event `streamA2` with caller metadata that uses the keys
`aggregate_id` and `version`. -/
def streamA2Tagged : Event :=
  { streamA2 with
    Metadata :=
      [("aggregate_id", JSONValue.string "B"), ("version", JSONValue.string "1.0"),
       ("note", JSONValue.string "kept")] }

/-- The event `streamA2` with caller metadata that holds a Go `int`. -/
def streamA2Counted : Event :=
  { streamA2 with Metadata := [("attempt", JSONValue.int 3)] }

/-- The event `streamA2` with caller metadata that holds strings only, under
keys of its own. -/
def streamA2Traced : Event :=
  { streamA2 with
    Metadata :=
      [("user_id", JSONValue.string "u-1"), ("correlation_id", JSONValue.string "c-7")] }

/-- The event `streamA2` with a payload written with insignificant whitespace
and with the characters `<` and `&` as they are: a text of its document other
than the compact one, such as `{ "title": "a < b & c" }`. -/
def streamA2Spaced : Event :=
  { streamA2 with
    Payload := RawMessage.respelled
      (JSONValue.object [("title", JSONValue.string "a < b & c")]) 1 }

/-- The event `streamA2` with a compact payload and metadata of strings. -/
def streamA2Compact : Event :=
  { streamA2Traced with
    Payload := RawMessage.document
      (JSONValue.object [("title", JSONValue.string "a < b & c")]) }

/-- The JSON methods of `time.Time` used in the concrete examples; they write
and read the UTC, whole-second form, which is the form of the instants of the
examples. -/
def exampleTimeMarshalJSON (t : Time) : Option String := some (formatRFC3339 t)

/-- The reader that goes with `exampleTimeMarshalJSON`. -/
def exampleTimeUnmarshalJSON (s : String) : Option Time := parseRFC3339 s

/-- A recorded event whose metadata holds the aggregate id only. -/
def recordedBare : RecordedEvent :=
  { recordedA1 with
    UserMetadata := RawMessage.document
      (JSONValue.object [("aggregate_id", JSONValue.string "A")])
    EventNumber := 3
    CreatedDate := 1704153600000000000 }

/-- A recorded event whose metadata, written with whitespace, holds the
aggregate id and a timestamp that is not in RFC 3339 form. -/
def recordedUndated : RecordedEvent :=
  { recordedBare with
    UserMetadata := RawMessage.respelled
      (JSONValue.object
        [("aggregate_id", JSONValue.string "A"), ("timestamp", JSONValue.string "yesterday")])
      1 }

/-- A wide-column adapter whose session accepts every batch. -/
def exampleCassandraStore : CassandraEventStore :=
  { session := { ExecuteBatch := fun _ => GoError.nil } }

/-- An event at version 2 of the aggregate
`11111111-1111-4111-8111-111111111111`. -/
def columnA2 : Event :=
  { ID := "00000000-0000-4000-8000-0000000000c2", Type_ := "DiaryEntryUpdated",
    AggregateID := "11111111-1111-4111-8111-111111111111", Version := 2,
    Timestamp := 1704110400000000000,
    Payload := RawMessage.document (JSONValue.object [("title", JSONValue.string "overwritten")]) }

/-- The recorded event at position `n` of the stream `metachat-A`, saved at
version `n + 1`, with the metadata `SaveEvents` packs. -/
def recordedA (n : Nat) : RecordedEvent :=
  { recordedA1 with
    UserMetadata := RawMessage.document
      (JSONValue.object
        [("aggregate_id", JSONValue.string "A"),
         ("timestamp", JSONValue.string "2024-01-01T00:00:00Z"),
         ("type", JSONValue.string "DiaryEntryCreated"),
         ("version", JSONValue.int (n + 1))])
    EventNumber := n }

/-- A client whose backend holds the stream `metachat-A` with three events and
answers a read of it with the first `count` of them. -/
def exampleCountingClient : Client :=
  { ReadStream := fun streamName count =>
      if streamName = "metachat-A" then
        Except.ok (([recordedA 0, recordedA 1, recordedA 2].take count).map some)
      else Except.error (GoError.native "stream not found")
    AppendToStream := fun _ _ _ => GoError.nil
    ReadAll := fun _ => Except.ok [] }

/-- The stream-database adapter over `exampleCountingClient`. -/
def exampleCountingStore : EventStoreDBEventStore :=
  { client := exampleCountingClient, streamPrefix := "metachat" }

/-- Two `CreateEntry` calls in a row. -/
def twoCreates : List (String × Time × DiaryCommand) :=
  [("00000000-0000-4000-8000-000000000001", 100,
      DiaryCommand.CreateEntry "u-1" "Hello" "first entry" 2 "s-1" (some ["mood"])),
   ("00000000-0000-4000-8000-000000000003", 300,
      DiaryCommand.CreateEntry "u-1" "Again" "second entry" 2 "s-1" none)]

/-- A diary entry created, updated and deleted. -/
def diaryLife : List (String × Time × DiaryCommand) :=
  [("00000000-0000-4000-8000-000000000001", 100,
      DiaryCommand.CreateEntry "u-1" "Hello" "first entry" 2 "s-1" (some ["mood"])),
   ("00000000-0000-4000-8000-000000000003", 300,
      DiaryCommand.UpdateEntry "Hello again" "" 0 none),
   ("00000000-0000-4000-8000-000000000004", 400, DiaryCommand.DeleteEntry "done")]

/-- A user registered, whose profile is then updated. -/
def userLife : List (String × Time × UserCommand) :=
  [("00000000-0000-4000-8000-000000000002", 100,
      UserCommand.CreateUser "bob" "bob@example.org" "Bob" "Ross" ""),
   ("00000000-0000-4000-8000-000000000005", 500,
      UserCommand.UpdateProfile "Robert" "Ross" "" "" "")]

/-! ## Derived notions used to state the properties -/

/-- The persisted events of one aggregate, in log order. -/
def ofAggregate (events : List Event) (aggregateID : String) : List Event :=
  events.filter fun e => decide (e.AggregateID = aggregateID)

/-- The persisted versions of one aggregate, in log order. -/
def persistedVersions (m : MemoryEventStore) (aggregateID : String) : List Int :=
  (ofAggregate m.events aggregateID).map Event.Version

/-- No two events of the log share their `(AggregateID, Version)` pair. -/
def NoDupPairs (events : List Event) : Prop :=
  events.Pairwise fun a b => ¬(a.AggregateID = b.AggregateID ∧ a.Version = b.Version)

/-- The index entry of every aggregate leads the read loop to exactly the
events of that aggregate, in log order; an aggregate without an entry has no
event in the log. -/
def IndexOK (m : MemoryEventStore) : Prop :=
  ∀ id, match m.index id with
    | none => ofAggregate m.events id = []
    | some indices => collectIndexed m.events (fun _ => true) indices = some (ofAggregate m.events id)

/-- The representation invariant of the in-memory store. -/
def Inv (m : MemoryEventStore) : Prop := NoDupPairs m.events ∧ IndexOK m

/-- The highest version persisted for an aggregate, `0` when it has none. -/
def highestVersion (m : MemoryEventStore) (aggregateID : String) : Int :=
  (persistedVersions m aggregateID).foldl max 0

/-- A group made of events of the aggregate `aggregateID` only, whose
versions are `v`, `v + 1`, `v + 2`, ... in order. -/
def contiguousFrom (aggregateID : String) : Int → List Event → Bool
  | _, [] => true
  | v, e :: rest =>
    e.AggregateID == aggregateID && e.Version == v && contiguousFrom aggregateID (v + 1) rest

/-- The states reached when every `SaveEvents` call so far was given a group
of one aggregate with contiguous versions that start right after the highest
version persisted for that aggregate. -/
inductive ReachableInOrder : MemoryEventStore → Prop
  | init : ReachableInOrder NewMemoryEventStore
  | save {m : MemoryEventStore} (aggregateID : String) (eventList : List Event) :
      ReachableInOrder m →
      contiguousFrom aggregateID (highestVersion m aggregateID + 1) eventList = true →
      ReachableInOrder (SaveEvents m eventList).1

/-- The error of a result, nil for a success. -/
def errorOf {α : Type} : Except GoError α → GoError
  | Except.error err => err
  | Except.ok _ => GoError.nil

/-- Every integer of magnitude below this bound has a nearest finite
`float64`. -/
def float64IntegerBound : Nat := 2 ^ 1023

mutual
/-- The integers inside a value are within the range of `float64`: their
magnitude is below `2 ^ 1023`. Every value of a Go integer type is. -/
def integersInRange : JSONValue → Bool
  | JSONValue.null => true
  | JSONValue.bool _ => true
  | JSONValue.int n => decide (n.natAbs < float64IntegerBound)
  | JSONValue.float _ => true
  | JSONValue.string _ => true
  | JSONValue.array items => integersInRangeList items
  | JSONValue.object entries => integersInRangeEntries entries
/-- The same for the elements of a slice. -/
def integersInRangeList : List JSONValue → Bool
  | [] => true
  | v :: rest => integersInRange v && integersInRangeList rest
/-- The same for the entries of a map. -/
def integersInRangeEntries : List (String × JSONValue) → Bool
  | [] => true
  | (_, v) :: rest => integersInRange v && integersInRangeEntries rest
end

/-- The keys of the association list are pairwise distinct, as the keys of a
Go map are. -/
def DistinctKeys {α : Type} (m : List (String × α)) : Prop :=
  (m.map Prod.fst).Nodup

instance {α : Type} (m : List (String × α)) : Decidable (DistinctKeys m) :=
  inferInstanceAs (Decidable (m.map Prod.fst).Nodup)

/-- The value that `json.Unmarshal` reads, into an `interface{}`, from the
text that `json.Marshal` writes for `v`; `none` when one of the two fails. -/
def jsonRoundTrip (v : JSONValue) : Option JSONValue :=
  (marshalValue v).bind unmarshalValue

/-- The keys under which `SaveEvents` of the stream-database adapter packs the
structural fields of an event. -/
def structuralKeys : List String := ["type", "aggregate_id", "version", "timestamp"]

/-- Packing `event` as `SaveEvents` of the stream-database adapter does, then
reconstructing it from the event the backend records for it at position
`eventNumber` and date `created`; `none` when one of the two steps fails. -/
def EventStoreDBEventStore.packThenConvert (lib : Library) (event : Event) (eventNumber : Nat)
    (created : Time) : Option Event :=
  match EventStoreDBEventStore.proposedEvents lib event.AggregateID [event] with
  | Except.ok [data] =>
    (EventStoreDBEventStore.convertFromEventStoreEvent lib
      (data.recorded eventNumber created)).toOption
  | _ => none

/-- Go `Deserialize(Serialize(event))`: `none` when one of the two calls
returns an error. -/
def JSONSerializer.roundTrip (j : JSONSerializer) (timeMarshalJSON : Time → Option String)
    (timeUnmarshalJSON : String → Option Time) (payloadText : Nat → JSONValue → RawMessage)
    (event : Event) : Option Event :=
  match j.Serialize timeMarshalJSON event with
  | Except.ok data => (j.Deserialize timeUnmarshalJSON payloadText data).toOption
  | Except.error _ => none

/-- A value that JSON holds as it is: nil, a boolean or a string. -/
def isPlainValue : JSONValue → Bool
  | JSONValue.null => true
  | JSONValue.bool _ => true
  | JSONValue.string _ => true
  | _ => false

/-- The positions of the log that hold an event of the aggregate, in
increasing order. -/
def positionsOf (events : List Event) (aggregateID : String) : List Nat :=
  (List.range events.length).filter fun i =>
    (events[i]?.map Event.AggregateID) == some aggregateID

/-- The index has an entry exactly for the aggregates that have an event in
the log, and the entry of an aggregate lists the positions of its events. -/
def IndexExact (m : MemoryEventStore) : Prop :=
  ∀ id, match m.index id with
    | none => positionsOf m.events id = []
    | some indices => indices = positionsOf m.events id ∧ indices ≠ []

/-- No event of the group has the `(AggregateID, Version)` pair of a stored
event or of another event of the group. -/
def NoCollision (events group : List Event) : Prop :=
  (∀ e ∈ group, ∀ x ∈ events, ¬(x.AggregateID = e.AggregateID ∧ x.Version = e.Version)) ∧
  group.Pairwise fun a b => ¬(a.AggregateID = b.AggregateID ∧ a.Version = b.Version)

/-- Every `ApplyEvent` of the fold `d.replay history` returns nil. -/
def DiaryAggregate.replaySucceeds (d : DiaryAggregate) : List Event → Bool
  | [] => true
  | event :: rest =>
    decide ((d.ApplyEvent event).2 = GoError.nil) &&
      DiaryAggregate.replaySucceeds (d.ApplyEvent event).1 rest

/-- Every `ApplyEvent` of the fold `u.replay history` returns nil. -/
def UserAggregate.replaySucceeds (u : UserAggregate) : List Event → Bool
  | [] => true
  | event :: rest =>
    decide ((u.ApplyEvent event).2 = GoError.nil) &&
      UserAggregate.replaySucceeds (u.ApplyEvent event).1 rest

/-- The unwrap chain of an error: `err`, `errors.Unwrap(err)`, ... up to the
last non-nil error. -/
def unwrapChain : GoError → List GoError
  | GoError.nil => []
  | GoError.native msg => [GoError.native msg]
  | GoError.eventStore code message err =>
    GoError.eventStore code message err :: unwrapChain err
  | GoError.wrapped msg err => GoError.wrapped msg err :: unwrapChain err

/-- The dynamic type of the error is `*EventStoreError`. -/
def isEventStoreErrorValue : GoError → Bool
  | GoError.eventStore _ _ _ => true
  | _ => false

/-- The field `Code` of an `*EventStoreError` (the empty string for another
error). -/
def codeOf : GoError → String
  | GoError.eventStore code _ _ => code
  | _ => ""

/-! ## Lemmas on the read loop -/

theorem collectIndexed_filter (events : List Event) (keep : Event → Bool) :
    ∀ (indices : List Nat) (l : List Event),
      collectIndexed events (fun _ => true) indices = some l →
      collectIndexed events keep indices = some (l.filter keep) := by
  intro indices
  induction indices with
  | nil => intro l h; simp [collectIndexed] at h; subst h; simp [collectIndexed]
  | cons i rest ih =>
    intro l h
    unfold collectIndexed at h ⊢
    cases hi : events[i]? with
    | none => simp [hi] at h
    | some e =>
      cases hr : collectIndexed events (fun _ => true) rest with
      | none => simp [hi, hr] at h
      | some r =>
        simp [hi, hr] at h
        subst h
        simp only [ih r hr]
        by_cases hk : keep e = true <;> simp [hk]

theorem collectIndexed_append_log (events extra : List Event) (keep : Event → Bool) :
    ∀ (indices : List Nat) (l : List Event),
      collectIndexed events keep indices = some l →
      collectIndexed (events ++ extra) keep indices = some l := by
  intro indices
  induction indices with
  | nil => intro l h; simpa [collectIndexed] using h
  | cons i rest ih =>
    intro l h
    unfold collectIndexed at h ⊢
    cases hi : events[i]? with
    | none => simp [hi] at h
    | some e =>
      have hlt : i < events.length := by
        by_contra hge
        have : events[i]? = none := List.getElem?_eq_none (by omega)
        simp [this] at hi
      have hi2 : (events ++ extra)[i]? = some e := by
        rw [List.getElem?_append_left hlt]; exact hi
      cases hr : collectIndexed events keep rest with
      | none => simp [hi, hr] at h
      | some r =>
        simp only [hi, hr] at h
        simp only [hi2, ih r hr]
        exact h

theorem collectIndexed_append_indices (events : List Event) (keep : Event → Bool) :
    ∀ (xs ys : List Nat) (lx ly : List Event),
      collectIndexed events keep xs = some lx →
      collectIndexed events keep ys = some ly →
      collectIndexed events keep (xs ++ ys) = some (lx ++ ly) := by
  intro xs
  induction xs with
  | nil =>
    intro ys lx ly hx hy
    simp [collectIndexed] at hx
    subst hx
    simpa using hy
  | cons i rest ih =>
    intro ys lx ly hx hy
    rw [List.cons_append]
    unfold collectIndexed at hx ⊢
    cases hi : events[i]? with
    | none => simp [hi] at hx
    | some e =>
      cases hr : collectIndexed events keep rest with
      | none => simp [hi, hr] at hx
      | some r =>
        simp only [hi, hr] at hx
        simp only [ih ys r ly hr hy]
        by_cases hk : keep e = true
        · simp [hk] at hx ⊢; subst hx; rfl
        · simp [hk] at hx ⊢; subst hx; rfl

theorem collectIndexed_last (events : List Event) (e : Event) :
    collectIndexed (events ++ [e]) (fun _ => true) [events.length] = some [e] := by
  simp [collectIndexed]

/-! ## The representation invariant is kept by every operation -/

theorem versionConflict_iff (existing : List Event) (event : Event) :
    versionConflict existing event = true ↔
      ∃ x ∈ existing, x.AggregateID = event.AggregateID ∧ x.Version = event.Version := by
  simp [versionConflict, List.any_eq_true]

theorem ofAggregate_append (events : List Event) (e : Event) (id : String) :
    ofAggregate (events ++ [e]) id =
      ofAggregate events id ++ (if e.AggregateID = id then [e] else []) := by
  unfold ofAggregate
  rw [List.filter_append]
  by_cases h : e.AggregateID = id <;> simp [h]

theorem inv_append (m : MemoryEventStore) (e : Event) (hinv : Inv m)
    (hfree : versionConflict m.events e = false) :
    Inv { events := m.events ++ [e]
          index := indexAppend m.index e.AggregateID m.events.length } := by
  obtain ⟨hnd, hidx⟩ := hinv
  refine ⟨?_, ?_⟩
  · show NoDupPairs (m.events ++ [e])
    unfold NoDupPairs at hnd ⊢
    rw [List.pairwise_append]
    refine ⟨hnd, List.pairwise_singleton _ _, ?_⟩
    intro a ha b hb
    have hbe : b = e := by simpa using hb
    subst hbe
    intro hab
    have : versionConflict m.events b = true := (versionConflict_iff _ _).2 ⟨a, ha, hab⟩
    rw [hfree] at this
    exact Bool.noConfusion this
  · intro id
    show match indexAppend m.index e.AggregateID m.events.length id with
      | none => ofAggregate (m.events ++ [e]) id = []
      | some indices =>
        collectIndexed (m.events ++ [e]) (fun _ => true) indices
          = some (ofAggregate (m.events ++ [e]) id)
    have hold := hidx id
    rw [ofAggregate_append]
    by_cases hid : id = e.AggregateID
    · subst hid
      simp only [indexAppend, if_true]
      cases hi : m.index e.AggregateID with
      | none =>
        rw [hi] at hold
        simp only at hold
        simp only [Option.getD_none, List.nil_append, hold]
        exact collectIndexed_last m.events e
      | some indices =>
        rw [hi] at hold
        simp only at hold
        simp only [Option.getD_some]
        exact collectIndexed_append_indices _ _ _ _ _ _
          (collectIndexed_append_log _ _ _ _ _ hold) (collectIndexed_last m.events e)
    · have hne : ¬ e.AggregateID = id := fun h => hid h.symm
      simp only [indexAppend, if_neg hid, if_neg hne, List.append_nil]
      cases hi : m.index id with
      | none => rw [hi] at hold; exact hold
      | some indices =>
        rw [hi] at hold
        exact collectIndexed_append_log _ _ _ _ _ hold

theorem inv_SaveEvents : ∀ (eventList : List Event) (m : MemoryEventStore),
    Inv m → Inv (SaveEvents m eventList).1 := by
  intro eventList
  induction eventList with
  | nil => intro m h; exact h
  | cons e rest ih =>
    intro m h
    unfold SaveEvents
    by_cases hc : versionConflict m.events e = true
    · rw [if_pos hc]; exact h
    · rw [if_neg hc]
      exact ih _ (inv_append m e h (by simpa using hc))

theorem inv_new : Inv NewMemoryEventStore := by
  refine ⟨List.Pairwise.nil, ?_⟩
  intro id
  show ofAggregate [] id = []
  rfl

theorem inv_of_reachable {m : MemoryEventStore} (h : Reachable m) : Inv m := by
  induction h with
  | init => exact inv_new
  | save eventList _ ih => exact inv_SaveEvents eventList _ ih
  | clear _ _ => exact inv_new

/-! ## Sorting by version -/

theorem sortByVersion_perm (l : List Event) : (sortByVersion l).Perm l :=
  List.perm_insertionSort versionLE l

theorem sortByVersion_strict (l : List Event) (hd : DistinctVersions l) :
    (sortByVersion l).Pairwise versionLT := by
  have hs : (sortByVersion l).Pairwise versionLE := List.sorted_insertionSort versionLE l
  have hd2 : DistinctVersions (sortByVersion l) :=
    ((sortByVersion_perm l).pairwise_iff (fun h => Ne.symm h)).2 hd
  exact (hs.and hd2).imp (fun h => by
    obtain ⟨h₁, h₂⟩ := h
    unfold versionLE at h₁
    unfold versionLT
    omega)

theorem eq_of_perm_of_strict {l₁ l₂ : List Event} (hp : l₁.Perm l₂)
    (h₁ : l₁.Pairwise versionLT) (h₂ : l₂.Pairwise versionLT) : l₁ = l₂ :=
  List.eq_of_perm_of_sorted hp h₁ h₂

theorem filter_prefix_of_strict (v : Int) :
    ∀ l : List Event, l.Pairwise versionLT →
      l.filter (fun e => decide (e.Version ≤ v)) <+: l := by
  intro l
  induction l with
  | nil => intro _; exact List.prefix_refl _
  | cons x xs ih =>
    intro h
    rw [List.pairwise_cons] at h
    by_cases hx : x.Version ≤ v
    · rw [List.filter_cons_of_pos (by simpa using hx)]
      exact (List.prefix_cons_inj x).2 (ih h.2)
    · have hnil : xs.filter (fun e => decide (e.Version ≤ v)) = [] := by
        rw [List.filter_eq_nil_iff]
        intro a ha
        have := h.1 a ha
        unfold versionLT at this
        simp only [decide_eq_true_eq]
        omega
      rw [List.filter_cons_of_neg (by simpa using hx), hnil]
      exact List.nil_prefix

theorem distinctVersions_ofAggregate (events : List Event) (id : String)
    (h : NoDupPairs events) : DistinctVersions (ofAggregate events id) := by
  unfold DistinctVersions ofAggregate
  rw [List.pairwise_filter]
  unfold NoDupPairs at h
  refine h.imp ?_
  intro a b hab ha hb hv
  have ha2 : a.AggregateID = id := by simpa using ha
  have hb2 : b.AggregateID = id := by simpa using hb
  exact hab ⟨ha2.trans hb2.symm, hv⟩

theorem DistinctVersions.filter {l : List Event} (h : DistinctVersions l) (p : Event → Bool) :
    DistinctVersions (l.filter p) :=
  List.Pairwise.filter p h

/-! ## What the reads return when the invariant holds -/

theorem GetEventsByAggregateID_of_inv (m : MemoryEventStore) (h : Inv m) (id : String) :
    GetEventsByAggregateID m id
      = some (sortByVersion (ofAggregate m.events id), GoError.nil) := by
  have hid := h.2 id
  unfold GetEventsByAggregateID
  cases hi : m.index id with
  | none =>
    rw [hi] at hid
    simp only at hid
    simp [hid, sortByVersion]
  | some indices =>
    rw [hi] at hid
    simp only at hid
    simp [hid]

theorem GetEventsByAggregateIDAndVersion_of_inv (m : MemoryEventStore) (h : Inv m)
    (id : String) (v : Int) :
    GetEventsByAggregateIDAndVersion m id v
      = some (sortByVersion ((ofAggregate m.events id).filter fun e => decide (e.Version ≤ v)),
          GoError.nil) := by
  have hid := h.2 id
  unfold GetEventsByAggregateIDAndVersion
  cases hi : m.index id with
  | none =>
    rw [hi] at hid
    simp only at hid
    simp [hid, sortByVersion]
  | some indices =>
    rw [hi] at hid
    simp only at hid
    simp [collectIndexed_filter _ _ _ _ hid]

/-! ## Gap-free histories under in-order saves -/

theorem mem_persistedVersions (m : MemoryEventStore) (id : String) (v : Int) :
    v ∈ persistedVersions m id ↔ ∃ e ∈ m.events, e.AggregateID = id ∧ e.Version = v := by
  simp [persistedVersions, ofAggregate, and_assoc]

theorem foldl_max_ge_init : ∀ (l : List Int) (init : Int), init ≤ l.foldl max init := by
  intro l
  induction l with
  | nil => intro init; exact le_refl _
  | cons x xs ih =>
    intro init
    exact le_trans (le_max_left init x) (ih (max init x))

theorem foldl_max_ge_mem : ∀ (l : List Int) (init v : Int), v ∈ l → v ≤ l.foldl max init := by
  intro l
  induction l with
  | nil => intro init v h; simp at h
  | cons x xs ih =>
    intro init v h
    rcases List.mem_cons.1 h with h | h
    · subst h
      exact le_trans (le_max_right init v) (foldl_max_ge_init xs (max init v))
    · exact ih (max init x) v h

theorem foldl_max_mem : ∀ (l : List Int) (init : Int),
    l.foldl max init = init ∨ l.foldl max init ∈ l := by
  intro l
  induction l with
  | nil => intro init; exact Or.inl rfl
  | cons x xs ih =>
    intro init
    rcases ih (max init x) with h | h
    · rcases max_choice init x with hm | hm
      · left; rw [List.foldl_cons, h, hm]
      · right; rw [List.foldl_cons, h, hm]; exact List.mem_cons_self _ _
    · right; exact List.mem_cons_of_mem _ h

theorem highestVersion_of_gapFree (m : MemoryEventStore) (id : String) (N : Nat)
    (h : ∀ v : Int, v ∈ persistedVersions m id ↔ 1 ≤ v ∧ v ≤ N) :
    highestVersion m id = N := by
  unfold highestVersion
  apply le_antisymm
  · rcases foldl_max_mem (persistedVersions m id) 0 with h0 | h0
    · rw [h0]; exact Int.ofNat_nonneg N
    · exact ((h _).1 h0).2
  · rcases Nat.eq_zero_or_pos N with hN | hN
    · subst hN; exact foldl_max_ge_init _ 0
    · exact foldl_max_ge_mem _ 0 _ ((h _).2 ⟨by omega, le_refl _⟩)

theorem persistedVersions_append (m : MemoryEventStore) (e : Event) (idx : String → Option (List Nat))
    (id : String) :
    persistedVersions { events := m.events ++ [e], index := idx } id =
      persistedVersions m id ++ (if e.AggregateID = id then [e.Version] else []) := by
  unfold persistedVersions
  show List.map Event.Version (ofAggregate (m.events ++ [e]) id) = _
  rw [ofAggregate_append]
  by_cases h : e.AggregateID = id <;> simp [h]

theorem SaveEvents_contiguous (id : String) :
    ∀ (eventList : List Event) (m : MemoryEventStore) (N : Nat),
      (∀ v : Int, v ∈ persistedVersions m id ↔ 1 ≤ v ∧ v ≤ N) →
      contiguousFrom id (N + 1) eventList = true →
      (SaveEvents m eventList).2 = GoError.nil ∧
      (∀ v : Int, v ∈ persistedVersions (SaveEvents m eventList).1 id
          ↔ 1 ≤ v ∧ v ≤ ((N + eventList.length : Nat) : Int)) ∧
      ∀ other, other ≠ id →
        persistedVersions (SaveEvents m eventList).1 other = persistedVersions m other := by
  intro eventList
  induction eventList with
  | nil =>
    intro m N h _
    exact ⟨rfl, by simpa using h, fun _ _ => rfl⟩
  | cons e rest ih =>
    intro m N h hc
    simp only [contiguousFrom, Bool.and_eq_true, beq_iff_eq] at hc
    obtain ⟨⟨hid, hv⟩, hrest⟩ := hc
    have hfree : ¬ versionConflict m.events e = true := by
      rw [versionConflict_iff]
      rintro ⟨x, hx, hxa, hxv⟩
      have hmem : e.Version ∈ persistedVersions m id :=
        (mem_persistedVersions m id _).2 ⟨x, hx, hxa.trans hid, hxv⟩
      have := ((h _).1 hmem).2
      omega
    unfold SaveEvents
    rw [if_neg hfree]
    have hstep : ∀ v : Int,
        v ∈ persistedVersions
            { events := m.events ++ [e]
              index := indexAppend m.index e.AggregateID m.events.length } id
          ↔ 1 ≤ v ∧ v ≤ ((N + 1 : Nat) : Int) := by
      intro v
      rw [persistedVersions_append, if_pos hid, List.mem_append, h v, List.mem_singleton, hv]
      push_cast
      omega
    have hrest2 : contiguousFrom id (((N + 1 : Nat) : Int) + 1) rest = true := by
      push_cast; exact hrest
    obtain ⟨h1, h2, h3⟩ := ih _ (N + 1) hstep hrest2
    refine ⟨h1, ?_, ?_⟩
    · intro v
      rw [h2 v, List.length_cons]
      push_cast
      omega
    · intro other hother
      rw [h3 other hother, persistedVersions_append,
        if_neg (fun hh => hother (hh.symm.trans hid)), List.append_nil]

theorem gapFree_of_reachableInOrder {m : MemoryEventStore} (h : ReachableInOrder m) :
    ∀ id, ∃ N : Nat, ∀ v : Int, v ∈ persistedVersions m id ↔ 1 ≤ v ∧ v ≤ N := by
  induction h with
  | init =>
    intro id
    refine ⟨0, fun v => ?_⟩
    simp only [persistedVersions, ofAggregate, NewMemoryEventStore, List.filter_nil, List.map_nil,
      List.not_mem_nil, false_iff]
    push_cast
    omega
  | save a eventList _ hc ih =>
    intro id
    obtain ⟨N, hN⟩ := ih a
    rw [highestVersion_of_gapFree _ a N hN] at hc
    obtain ⟨_, h2, h3⟩ := SaveEvents_contiguous a eventList _ N hN hc
    by_cases hid : id = a
    · subst hid
      exact ⟨N + eventList.length, h2⟩
    · obtain ⟨K, hK⟩ := ih id
      exact ⟨K, fun v => by rw [h3 id hid]; exact hK v⟩

theorem reachable_of_reachableInOrder {m : MemoryEventStore} (h : ReachableInOrder m) :
    Reachable m := by
  induction h with
  | init => exact Reachable.init
  | save _ eventList _ _ ih => exact Reachable.save eventList ih

theorem persisted_of_gapFree (m : MemoryEventStore) (event : Event) (N : Nat)
    (hgap : ∀ v : Int, v ∈ persistedVersions m event.AggregateID ↔ 1 ≤ v ∧ v ≤ N)
    (h1 : 1 ≤ event.Version) (h2 : event.Version ≤ N) :
    ∃ x ∈ m.events, x.AggregateID = event.AggregateID ∧ x.Version = event.Version :=
  (mem_persistedVersions m event.AggregateID event.Version).1 ((hgap _).2 ⟨h1, h2⟩)

theorem nodup_persistedVersions (m : MemoryEventStore) (h : Inv m) (id : String) :
    (persistedVersions m id).Nodup := by
  have hd := distinctVersions_ofAggregate m.events id h.1
  unfold DistinctVersions at hd
  unfold persistedVersions List.Nodup
  rw [List.pairwise_map]
  exact hd

theorem GetEventsByType_eq_filter (m : MemoryEventStore) (t : EventType) :
    (GetEventsByType m t).1 = m.events.filter fun e => decide (e.Type_ = t) := by
  unfold GetEventsByType
  have key : ∀ (l acc : List Event),
      l.foldl (fun result event => if event.Type_ == t then result ++ [event] else result) acc
        = acc ++ l.filter (fun e => decide (e.Type_ = t)) := by
    intro l
    induction l with
    | nil => intro acc; simp
    | cons x xs ih =>
      intro acc
      rw [List.foldl_cons, ih]
      by_cases hx : x.Type_ = t <;> simp [hx]
  simpa using key m.events []

/-! ## Saving: conflicts, atomicity, version sets -/

/-- The guard of the in-memory `SaveEvents`: when the `(AggregateID, Version)`
pair of the first event of a group is already persisted, the call returns
`ErrVersionConflict`, its code is `VERSION_CONFLICT`, and the store, hence
every read, is what it was before the call. -/
theorem SaveEvents_conflict_on_first (m : MemoryEventStore) (event : Event) (rest : List Event)
    (h : ∃ x ∈ m.events, x.AggregateID = event.AggregateID ∧ x.Version = event.Version) :
    SaveEvents m (event :: rest) = (m, ErrVersionConflict) ∧
      GetEventStoreErrorCode (SaveEvents m (event :: rest)).2 = ErrCodeVersionConflict := by
  have hc : versionConflict m.events event = true := (versionConflict_iff _ _).2 h
  have hs : SaveEvents m (event :: rest) = (m, ErrVersionConflict) := by
    unfold SaveEvents
    rw [if_pos hc]
  rw [hs]
  exact ⟨rfl, rfl⟩

theorem SaveEvents_conflict_on_first_witness :
    SaveEvents (SaveEvents NewMemoryEventStore [evA1, evA2]).1 (evA2x :: [evA3])
        = ((SaveEvents NewMemoryEventStore [evA1, evA2]).1, ErrVersionConflict) ∧
      GetEventStoreErrorCode
          (SaveEvents (SaveEvents NewMemoryEventStore [evA1, evA2]).1 (evA2x :: [evA3])).2
        = ErrCodeVersionConflict :=
  SaveEvents_conflict_on_first (SaveEvents NewMemoryEventStore [evA1, evA2]).1 evA2x [evA3]
    ⟨evA2, by decide, by decide, by decide⟩

/-- C1 fails on the code: the in-memory `SaveEvents` only looks for an equal
`(AggregateID, Version)` pair and never compares the first version of the
group with the highest persisted version. A group at versions 2, 3, 4 for a
brand-new aggregate (highest persisted version 0, so the first version is not
0 + 1) is accepted with a nil error, and all three events are read back. The
stream-database `SaveEvents` does make the check: for an aggregate without a
stream it answers the group at versions 2, 3, 4 with `ErrVersionConflict`
after its read, without an append, and accepts a group that starts at
version 1. -/
theorem SaveEvents_gap_accepted :
    highestVersion NewMemoryEventStore "A" = 0 ∧
      contiguousFrom "A" 2 [evA2, evA3, evA4] = true ∧
      (SaveEvents NewMemoryEventStore [evA2, evA3, evA4]).2 = GoError.nil ∧
      (SaveEvents NewMemoryEventStore [evA2, evA3, evA4]).2 ≠ ErrVersionConflict ∧
      GetEventsByAggregateID (SaveEvents NewMemoryEventStore [evA2, evA3, evA4]).1 "A"
        = some ([evA2, evA3, evA4], GoError.nil) ∧
      (EventStoreDBEventStore.GetEventsByAggregateID exampleLibrary exampleStreamStore "B").1
        = [] ∧
      EventStoreDBEventStore.SaveEvents exampleLibrary exampleStreamStore
          [{ streamB1 with Version := 2 }, { streamB1 with Version := 3 },
           { streamB1 with Version := 4 }]
        = (ErrVersionConflict, [BackendCall.ReadStream "metachat-B" maxUint64]) ∧
      (EventStoreDBEventStore.SaveEvents exampleLibrary exampleStreamStore [streamB1]).1
        = GoError.nil := by
  decide

/-- C2 fails on the code: with `B` at version 1 persisted, saving the group
`[A@1, B@1]` returns `ErrVersionConflict` although `A@1` has already been
appended to the log and to the index, and is read back afterwards. -/
theorem SaveEvents_partial_append :
    (SaveEvents NewMemoryEventStore [evB1]).2 = GoError.nil ∧
      (SaveEvents NewMemoryEventStore [evB1]).1.events = [evB1] ∧
      GetEventsByAggregateID (SaveEvents NewMemoryEventStore [evB1]).1 "A"
        = some ([], GoError.nil) ∧
      (SaveEvents (SaveEvents NewMemoryEventStore [evB1]).1 [evA1, evB1]).2 = ErrVersionConflict ∧
      (SaveEvents (SaveEvents NewMemoryEventStore [evB1]).1 [evA1, evB1]).1.events = [evB1, evA1] ∧
      (SaveEvents (SaveEvents NewMemoryEventStore [evB1]).1 [evA1, evB1]).1.index "A" = some [1] ∧
      GetEventsByAggregateID (SaveEvents (SaveEvents NewMemoryEventStore [evB1]).1 [evA1, evB1]).1 "A"
        = some ([evA1], GoError.nil) := by
  decide

/-- What the in-memory store keeps of the version-set invariant: in every
reachable state the persisted versions of an aggregate are pairwise distinct;
and when every `SaveEvents` call was given a group of one aggregate with
contiguous versions starting right after the highest persisted version of
that aggregate, the persisted versions of every aggregate are exactly
`1, ..., N` for some `N ≥ 0`, without duplicates. -/
theorem persistedVersions_shape (m : MemoryEventStore) (id : String) :
    (Reachable m → (persistedVersions m id).Nodup) ∧
    (ReachableInOrder m →
      ∃ N : Nat, (persistedVersions m id).Nodup ∧
        ∀ v : Int, v ∈ persistedVersions m id ↔ 1 ≤ v ∧ v ≤ N) := by
  refine ⟨fun h => nodup_persistedVersions m (inv_of_reachable h) id, fun h => ?_⟩
  obtain ⟨N, hN⟩ := gapFree_of_reachableInOrder h id
  exact ⟨N, nodup_persistedVersions m (inv_of_reachable (reachable_of_reachableInOrder h)) id, hN⟩

theorem persistedVersions_shape_witness :
    (persistedVersions
        (SaveEvents (SaveEvents NewMemoryEventStore [evA1, evA2]).1 [evA3, evA4]).1 "A").Nodup ∧
    ∃ N : Nat,
      (persistedVersions
          (SaveEvents (SaveEvents NewMemoryEventStore [evA1, evA2]).1 [evA3, evA4]).1 "A").Nodup ∧
        ∀ v : Int,
          v ∈ persistedVersions
              (SaveEvents (SaveEvents NewMemoryEventStore [evA1, evA2]).1 [evA3, evA4]).1 "A"
            ↔ 1 ≤ v ∧ v ≤ N :=
  ⟨(persistedVersions_shape
        (SaveEvents (SaveEvents NewMemoryEventStore [evA1, evA2]).1 [evA3, evA4]).1 "A").1
      (Reachable.save [evA3, evA4] (Reachable.save [evA1, evA2] Reachable.init)),
    (persistedVersions_shape
        (SaveEvents (SaveEvents NewMemoryEventStore [evA1, evA2]).1 [evA3, evA4]).1 "A").2
      (ReachableInOrder.save "A" [evA3, evA4]
        (ReachableInOrder.save "A" [evA1, evA2] ReachableInOrder.init (by decide)) (by decide))⟩

/-- C3 fails on the code: the in-memory `SaveEvents` accepts a first version
other than the next one. Saving a single event at version 2 into the new store
succeeds, and the persisted versions of its aggregate are then `[2]`, which is
`{1, ..., N}` for no `N`. The stream-database `SaveEvents` rejects the same
save: for an aggregate without a stream it answers a single event at version
2 with `ErrVersionConflict`, without an append. -/
theorem persistedVersions_gap :
    Reachable (SaveEvents NewMemoryEventStore [evA2]).1 ∧
      (SaveEvents NewMemoryEventStore [evA2]).2 = GoError.nil ∧
      persistedVersions (SaveEvents NewMemoryEventStore [evA2]).1 "A" = [2] ∧
      (¬ ∃ N : Nat, ∀ v : Int,
          v ∈ persistedVersions (SaveEvents NewMemoryEventStore [evA2]).1 "A"
            ↔ 1 ≤ v ∧ v ≤ N) ∧
      EventStoreDBEventStore.SaveEvents exampleLibrary exampleStreamStore
          [{ streamB1 with Version := 2 }]
        = (ErrVersionConflict, [BackendCall.ReadStream "metachat-B" maxUint64]) := by
  have hp : persistedVersions (SaveEvents NewMemoryEventStore [evA2]).1 "A" = [2] := by decide
  refine ⟨Reachable.save _ Reachable.init, by decide, hp, ?_, by decide⟩
  rintro ⟨N, hN⟩
  rw [hp] at hN
  have h2 : (1 : Int) ≤ 2 ∧ (2 : Int) ≤ N := (hN 2).1 (by simp)
  have h1 : (1 : Int) ∈ [(2 : Int)] := (hN 1).2 ⟨le_refl _, by omega⟩
  simp at h1

/-- C4: a single-event `SaveEvents` call returns `ErrVersionConflict` exactly
when the store already holds an event with the same `(AggregateID, Version)`
pair, and nil otherwise; when it fails the store is unchanged. Scenario: on a
reachable store without events of aggregate `a`, after saving `created` at
version 1 and `updated` at version 2 in two calls, saving another event at
version 2 fails with `ErrVersionConflict` and `GetEventsByAggregateID a`
still returns exactly `[created, updated]`. -/
theorem SaveEvents_single_conflict (m : MemoryEventStore) (event : Event)
    (m₀ : MemoryEventStore) (a : String) (created updated other : Event)
    (hm₀ : Reachable m₀) (hfresh : ∀ e ∈ m₀.events, e.AggregateID ≠ a)
    (hc : created.AggregateID = a ∧ created.Version = 1)
    (hu : updated.AggregateID = a ∧ updated.Version = 2)
    (ho : other.AggregateID = a ∧ other.Version = 2) :
    ((SaveEvents m [event]).2 = ErrVersionConflict ↔
        ∃ x ∈ m.events, x.AggregateID = event.AggregateID ∧ x.Version = event.Version) ∧
    ((SaveEvents m [event]).2 = GoError.nil ↔
        ¬ ∃ x ∈ m.events, x.AggregateID = event.AggregateID ∧ x.Version = event.Version) ∧
    ((SaveEvents m [event]).2 ≠ GoError.nil → (SaveEvents m [event]).1 = m) ∧
    (SaveEvents m₀ [created]).2 = GoError.nil ∧
    (SaveEvents (SaveEvents m₀ [created]).1 [updated]).2 = GoError.nil ∧
    (SaveEvents (SaveEvents (SaveEvents m₀ [created]).1 [updated]).1 [other]).2
      = ErrVersionConflict ∧
    GetEventsByAggregateID
        (SaveEvents (SaveEvents (SaveEvents m₀ [created]).1 [updated]).1 [other]).1 a
      = some ([created, updated], GoError.nil) := by
  have single : ∀ (s : MemoryEventStore) (e : Event),
      (versionConflict s.events e = true → SaveEvents s [e] = (s, ErrVersionConflict)) ∧
      (versionConflict s.events e = false →
        SaveEvents s [e] =
          ({ events := s.events ++ [e]
             index := indexAppend s.index e.AggregateID s.events.length }, GoError.nil)) := by
    intro s e
    constructor
    · intro h; simp [SaveEvents, h]
    · intro h; simp [SaveEvents, h]
  have hne : ErrVersionConflict ≠ GoError.nil := by decide
  refine ⟨?_, ?_, ?_, ?_⟩
  · rw [← versionConflict_iff]
    cases hv : versionConflict m.events event with
    | true => rw [(single m event).1 hv]; simp
    | false => rw [(single m event).2 hv]; simp [hne.symm]
  · rw [← versionConflict_iff]
    cases hv : versionConflict m.events event with
    | true => rw [(single m event).1 hv]; simp [hne]
    | false => rw [(single m event).2 hv]; simp
  · cases hv : versionConflict m.events event with
    | true => rw [(single m event).1 hv]; intro _; rfl
    | false => rw [(single m event).2 hv]; intro h; exact absurd rfl h
  · obtain ⟨hca, hcv⟩ := hc
    obtain ⟨hua, huv⟩ := hu
    obtain ⟨hoa, hov⟩ := ho
    have h1 : versionConflict m₀.events created = false := by
      rw [Bool.eq_false_iff, Ne, versionConflict_iff]
      rintro ⟨x, hx, hxa, _⟩
      exact hfresh x hx (hxa.trans hca)
    have h2 : versionConflict (m₀.events ++ [created]) updated = false := by
      rw [Bool.eq_false_iff, Ne, versionConflict_iff]
      rintro ⟨x, hx, hxa, hxv⟩
      rcases List.mem_append.1 hx with hx | hx
      · exact hfresh x hx (hxa.trans hua)
      · have : x = created := by simpa using hx
        subst this
        omega
    have h3 : versionConflict (m₀.events ++ [created] ++ [updated]) other = true := by
      rw [versionConflict_iff]
      exact ⟨updated, by simp, hua.trans hoa.symm, huv.trans hov.symm⟩
    have e1 : SaveEvents m₀ [created] =
        ({ events := m₀.events ++ [created]
           index := indexAppend m₀.index created.AggregateID m₀.events.length }, GoError.nil) :=
      (single m₀ created).2 h1
    have e2 : SaveEvents (SaveEvents m₀ [created]).1 [updated] =
        ({ events := m₀.events ++ [created] ++ [updated]
           index := indexAppend (indexAppend m₀.index created.AggregateID m₀.events.length)
             updated.AggregateID (m₀.events ++ [created]).length }, GoError.nil) := by
      rw [e1]
      exact (single _ updated).2 h2
    have e3 : SaveEvents (SaveEvents (SaveEvents m₀ [created]).1 [updated]).1 [other] =
        ({ events := m₀.events ++ [created] ++ [updated]
           index := indexAppend (indexAppend m₀.index created.AggregateID m₀.events.length)
             updated.AggregateID (m₀.events ++ [created]).length }, ErrVersionConflict) := by
      rw [e2]
      exact (single _ other).1 h3
    refine ⟨by rw [e1], by rw [e2], by rw [e3], ?_⟩
    rw [e3]
    have hinv : Inv { events := m₀.events ++ [created] ++ [updated]
                      index := indexAppend (indexAppend m₀.index created.AggregateID m₀.events.length)
                        updated.AggregateID (m₀.events ++ [created]).length } :=
      inv_append _ updated (inv_append m₀ created (inv_of_reachable hm₀) h1) h2
    show GetEventsByAggregateID
        { events := m₀.events ++ [created] ++ [updated]
          index := indexAppend (indexAppend m₀.index created.AggregateID m₀.events.length)
            updated.AggregateID (m₀.events ++ [created]).length } a = _
    rw [GetEventsByAggregateID_of_inv _ hinv a]
    have hof : ofAggregate m₀.events a = [] := by
      unfold ofAggregate
      rw [List.filter_eq_nil_iff]
      intro e he
      simpa using hfresh e he
    have hlist : ofAggregate (m₀.events ++ [created] ++ [updated]) a = [created, updated] := by
      rw [ofAggregate_append, ofAggregate_append, hof, if_pos hca, if_pos hua]
      rfl
    show some (sortByVersion (ofAggregate (m₀.events ++ [created] ++ [updated]) a), GoError.nil) = _
    rw [hlist]
    have hle : versionLE created updated := by unfold versionLE; omega
    simp [sortByVersion, List.insertionSort, List.orderedInsert, hle]

theorem SaveEvents_single_conflict_witness :
    (SaveEvents (SaveEvents (SaveEvents NewMemoryEventStore [evA1]).1 [evA2]).1 [evA2x]).2
      = ErrVersionConflict ∧
    GetEventsByAggregateID
        (SaveEvents (SaveEvents (SaveEvents NewMemoryEventStore [evA1]).1 [evA2]).1 [evA2x]).1 "A"
      = some ([evA1, evA2], GoError.nil) :=
  let h := SaveEvents_single_conflict NewMemoryEventStore evB1 NewMemoryEventStore "A"
    evA1 evA2 evA2x Reachable.init (by decide) (by decide) (by decide) (by decide)
  ⟨h.2.2.2.2.2.1, h.2.2.2.2.2.2⟩

/-! ## Reads -/

/-- C5: in every reachable state `GetEventsByAggregateID id` returns, with a
nil error, a list that is a permutation of the persisted events whose
`AggregateID` is `id` (so each of them once, and nothing else) and that is
strictly ascending by `Version`. -/
theorem GetEventsByAggregateID_history (m : MemoryEventStore) (h : Reachable m) (id : String) :
    ∃ result, GetEventsByAggregateID m id = some (result, GoError.nil) ∧
      result.Perm (m.events.filter fun e => decide (e.AggregateID = id)) ∧
      result.Pairwise (fun a b => a.Version < b.Version) := by
  have hinv := inv_of_reachable h
  exact ⟨_, GetEventsByAggregateID_of_inv m hinv id, sortByVersion_perm _,
    sortByVersion_strict _ (distinctVersions_ofAggregate _ id hinv.1)⟩

theorem GetEventsByAggregateID_history_witness :
    ∃ result,
      GetEventsByAggregateID
          (SaveEvents (SaveEvents NewMemoryEventStore [evA2, evB1]).1 [evA1]).1 "A"
        = some (result, GoError.nil) ∧
      result.Perm
        ((SaveEvents (SaveEvents NewMemoryEventStore [evA2, evB1]).1 [evA1]).1.events.filter
          fun e => decide (e.AggregateID = "A")) ∧
      result.Pairwise (fun a b => a.Version < b.Version) :=
  GetEventsByAggregateID_history _
    (Reachable.save [evA1] (Reachable.save [evA2, evB1] Reachable.init)) "A"

/-- C6: in every reachable state and for every `v`,
`GetEventsByAggregateIDAndVersion id v` returns, with a nil error, a prefix
of the result of `GetEventsByAggregateID id`, namely exactly its events with
`Version ≤ v`. -/
theorem GetEventsByAggregateIDAndVersion_prefix (m : MemoryEventStore) (h : Reachable m)
    (id : String) (v : Int) :
    ∃ full result,
      GetEventsByAggregateID m id = some (full, GoError.nil) ∧
      GetEventsByAggregateIDAndVersion m id v = some (result, GoError.nil) ∧
      result <+: full ∧
      result = full.filter (fun e => decide (e.Version ≤ v)) := by
  have hinv := inv_of_reachable h
  have hd := distinctVersions_ofAggregate m.events id hinv.1
  have hfull := sortByVersion_strict _ hd
  have heq : sortByVersion ((ofAggregate m.events id).filter fun e => decide (e.Version ≤ v))
      = (sortByVersion (ofAggregate m.events id)).filter (fun e => decide (e.Version ≤ v)) := by
    apply eq_of_perm_of_strict
    · exact (sortByVersion_perm _).trans ((sortByVersion_perm _).filter _).symm
    · exact sortByVersion_strict _ (hd.filter _)
    · exact List.Pairwise.filter _ hfull
  refine ⟨_, _, GetEventsByAggregateID_of_inv m hinv id,
    GetEventsByAggregateIDAndVersion_of_inv m hinv id v, ?_, heq⟩
  rw [heq]
  exact filter_prefix_of_strict v _ hfull

theorem GetEventsByAggregateIDAndVersion_prefix_witness :
    ∃ full result,
      GetEventsByAggregateID
          (SaveEvents (SaveEvents NewMemoryEventStore [evA2, evB1]).1 [evA1, evA3]).1 "A"
        = some (full, GoError.nil) ∧
      GetEventsByAggregateIDAndVersion
          (SaveEvents (SaveEvents NewMemoryEventStore [evA2, evB1]).1 [evA1, evA3]).1 "A" 2
        = some (result, GoError.nil) ∧
      result <+: full ∧
      result = full.filter (fun e => decide (e.Version ≤ 2)) :=
  GetEventsByAggregateIDAndVersion_prefix _
    (Reachable.save [evA1, evA3] (Reachable.save [evA2, evB1] Reachable.init)) "A" 2

/-- C7: in every reachable state, for an aggregate id without any persisted
event, `GetEventsByAggregateID` and `GetEventsByAggregateIDAndVersion` (for
every `v`) return the empty sequence and a nil error. -/
theorem reads_of_unwritten_aggregate (m : MemoryEventStore) (h : Reachable m) (id : String)
    (hnone : ∀ e ∈ m.events, e.AggregateID ≠ id) (v : Int) :
    GetEventsByAggregateID m id = some ([], GoError.nil) ∧
      GetEventsByAggregateIDAndVersion m id v = some ([], GoError.nil) := by
  have hinv := inv_of_reachable h
  have hof : ofAggregate m.events id = [] := by
    unfold ofAggregate
    rw [List.filter_eq_nil_iff]
    intro e he
    simpa using hnone e he
  rw [GetEventsByAggregateID_of_inv m hinv id, GetEventsByAggregateIDAndVersion_of_inv m hinv id v,
    hof]
  exact ⟨rfl, rfl⟩

theorem reads_of_unwritten_aggregate_witness :
    GetEventsByAggregateID (SaveEvents NewMemoryEventStore [evA1, evA2]).1 "B"
        = some ([], GoError.nil) ∧
      GetEventsByAggregateIDAndVersion (SaveEvents NewMemoryEventStore [evA1, evA2]).1 "B" 7
        = some ([], GoError.nil) :=
  reads_of_unwritten_aggregate _ (Reachable.save [evA1, evA2] Reachable.init) "B"
    (by decide) 7

/-- C8: for every store state `GetEventsByType t` returns a nil error and the
persisted events whose `Type` is `t`, from all aggregates, in log order: an
event is in the result exactly when it is in the log and has type `t`. -/
theorem GetEventsByType_spec (m : MemoryEventStore) (t : EventType) :
    (GetEventsByType m t).2 = GoError.nil ∧
      (GetEventsByType m t).1 = m.events.filter (fun e => decide (e.Type_ = t)) ∧
      ∀ e, e ∈ (GetEventsByType m t).1 ↔ e ∈ m.events ∧ e.Type_ = t := by
  refine ⟨rfl, GetEventsByType_eq_filter m t, fun e => ?_⟩
  rw [GetEventsByType_eq_filter]
  simp

/-- With well-formed bounds `GetEventsByTimeRange` keeps, in log order, the
events stamped strictly after `start` and strictly before `end`. -/
theorem GetEventsByTimeRange_eq_filter (parse : String → Option Time) (m : MemoryEventStore)
    (startTime endTime : String) (start end_ : Time)
    (hs : parse startTime = some start) (he : parse endTime = some end_) :
    GetEventsByTimeRange parse m startTime endTime
      = (m.events.filter (fun e => decide (start < e.Timestamp ∧ e.Timestamp < end_)),
          GoError.nil) := by
  unfold GetEventsByTimeRange
  simp only [hs, he]
  have key : ∀ (l acc : List Event),
      l.foldl (fun result event =>
          if event.Timestamp.After start && event.Timestamp.Before end_ then result ++ [event]
          else result) acc
        = acc ++ l.filter (fun e => decide (start < e.Timestamp ∧ e.Timestamp < end_)) := by
    intro l
    induction l with
    | nil => intro acc; simp
    | cons x xs ih =>
      intro acc
      rw [List.foldl_cons, ih]
      by_cases hx : start < x.Timestamp ∧ x.Timestamp < end_
      · simp [Time.After, Time.Before, hx]
      · have hx2 : ¬ (start < x.Timestamp ∧ x.Timestamp < end_) := hx
        rw [not_and] at hx
        simp only [Time.After, Time.Before, Bool.and_eq_true, decide_eq_true_eq]
        rw [if_neg hx2, List.filter_cons_of_neg (by simpa using hx)]
  rw [key m.events []]
  simp

/-- C9 fails on the code: the in-memory range is open at both ends. With
`start = 2024-01-01T00:00:00Z < end = 2024-01-02T00:00:00Z` and a store
holding an event stamped exactly `start`, one stamped at noon in between and
one stamped exactly `end`, only the one in between is returned: neither
boundary event is. -/
theorem GetEventsByTimeRange_excludes_both_bounds :
    parseRFC3339 "2024-01-01T00:00:00Z" = some evStart.Timestamp ∧
      parseRFC3339 "2024-01-02T00:00:00Z" = some evEnd.Timestamp ∧
      evStart.Timestamp < evEnd.Timestamp ∧
      (SaveEvents NewMemoryEventStore [evStart, evNoon, evEnd]).2 = GoError.nil ∧
      (SaveEvents NewMemoryEventStore [evStart, evNoon, evEnd]).1.events
        = [evStart, evNoon, evEnd] ∧
      GetEventsByTimeRange parseRFC3339
          (SaveEvents NewMemoryEventStore [evStart, evNoon, evEnd]).1
          "2024-01-01T00:00:00Z" "2024-01-02T00:00:00Z"
        = ([evNoon], GoError.nil) ∧
      evStart ∉ (GetEventsByTimeRange parseRFC3339
          (SaveEvents NewMemoryEventStore [evStart, evNoon, evEnd]).1
          "2024-01-01T00:00:00Z" "2024-01-02T00:00:00Z").1 ∧
      evEnd ∉ (GetEventsByTimeRange parseRFC3339
          (SaveEvents NewMemoryEventStore [evStart, evNoon, evEnd]).1
          "2024-01-01T00:00:00Z" "2024-01-02T00:00:00Z").1 := by
  decide

/-- C10 fails on the in-memory adapter: when `startTime` or `endTime` is
malformed, `GetEventsByTimeRange` returns the parser's own error, which is
not an `*EventStoreError`, so `GetEventStoreErrorCode` gives the empty string
and not `SERIALIZATION_ERROR`. (The result is empty whatever the log holds.) -/
theorem GetEventsByTimeRange_malformed (parse : String → Option Time) (m : MemoryEventStore)
    (startTime endTime : String) (h : parse startTime = none ∨ parse endTime = none) :
    (GetEventsByTimeRange parse m startTime endTime).1 = [] ∧
      (GetEventsByTimeRange parse m startTime endTime).2 ≠ GoError.nil ∧
      IsEventStoreError (GetEventsByTimeRange parse m startTime endTime).2 = false ∧
      GetEventStoreErrorCode (GetEventsByTimeRange parse m startTime endTime).2 = "" ∧
      GetEventStoreErrorCode (GetEventsByTimeRange parse m startTime endTime).2
        ≠ ErrCodeSerialization := by
  have hne : ("" : String) ≠ ErrCodeSerialization := by decide
  unfold GetEventsByTimeRange
  cases hs : parse startTime with
  | none =>
    exact ⟨rfl, by simp [timeParseError], rfl, rfl, hne⟩
  | some start =>
    cases he : parse endTime with
    | none => exact ⟨rfl, by simp [timeParseError], rfl, rfl, hne⟩
    | some end_ =>
      rcases h with h | h
      · rw [hs] at h; exact Option.noConfusion h
      · rw [he] at h; exact Option.noConfusion h

theorem GetEventsByTimeRange_malformed_witness :
    GetEventStoreErrorCode
        (GetEventsByTimeRange parseRFC3339 (SaveEvents NewMemoryEventStore [evStart]).1
          "yesterday" "2024-01-02T00:00:00Z").2 = "" ∧
      GetEventStoreErrorCode
        (GetEventsByTimeRange parseRFC3339 (SaveEvents NewMemoryEventStore [evStart]).1
          "yesterday" "2024-01-02T00:00:00Z").2 ≠ ErrCodeSerialization :=
  let h := GetEventsByTimeRange_malformed parseRFC3339 (SaveEvents NewMemoryEventStore [evStart]).1
    "yesterday" "2024-01-02T00:00:00Z" (Or.inl (by decide))
  ⟨h.2.2.2.1, h.2.2.2.2⟩

/-! ## Aggregates: loading from history -/

theorem LoadFromHistory_ok : ∀ (eventList : List Event) (a : BaseAggregate),
    (∀ e ∈ eventList, e.AggregateID = a.id) →
    a.LoadFromHistory eventList
      = ({ a with version := (eventList.getLast?.map Event.Version).getD a.version },
          GoError.nil) := by
  intro eventList
  induction eventList with
  | nil => intro a _; rfl
  | cons e rest ih =>
    intro a h
    have he : e.AggregateID = a.id := h e (List.mem_cons_self _ _)
    have hrest : ∀ x ∈ rest, x.AggregateID = ({ a with version := e.Version } : BaseAggregate).id :=
      fun x hx => h x (List.mem_cons_of_mem _ hx)
    unfold BaseAggregate.LoadFromHistory
    rw [if_neg (by simpa using he), ih _ hrest]
    cases rest with
    | nil => rfl
    | cons x xs =>
      have hsome : ∃ y, (x :: xs).getLast? = some y := by
        cases hl : (x :: xs).getLast? with
        | none => simp at hl
        | some y => exact ⟨y, rfl⟩
      obtain ⟨y, hy⟩ := hsome
      simp [List.getLast?_cons_cons, hy]

theorem LoadFromHistory_mismatch : ∀ (eventList : List Event) (a : BaseAggregate),
    (∃ e ∈ eventList, e.AggregateID ≠ a.id) →
    (a.LoadFromHistory eventList).2 = errorsNew "event aggregate ID does not match" := by
  intro eventList
  induction eventList with
  | nil => intro a h; obtain ⟨e, he, _⟩ := h; simp at he
  | cons e rest ih =>
    intro a h
    unfold BaseAggregate.LoadFromHistory
    by_cases he : e.AggregateID = a.id
    · rw [if_neg (by simpa using he)]
      apply ih
      obtain ⟨x, hx, hne⟩ := h
      rcases List.mem_cons.1 hx with hx | hx
      · subst hx; exact absurd he hne
      · exact ⟨x, hx, hne⟩
    · rw [if_pos he]

/-- C14: `BaseAggregate.LoadFromHistory` returns the mismatched-aggregate
error exactly when some event of the list has an `AggregateID` different from
the aggregate's id, and nil otherwise; when it returns nil on a non-empty
list the version is the `Version` of the last event of the list, and on the
empty list the aggregate, so its version, is unchanged. -/
theorem LoadFromHistory_result (a : BaseAggregate) (eventList : List Event) :
    ((a.LoadFromHistory eventList).2 = errorsNew "event aggregate ID does not match" ↔
        ∃ e ∈ eventList, e.AggregateID ≠ a.id) ∧
    ((a.LoadFromHistory eventList).2 = GoError.nil ↔ ∀ e ∈ eventList, e.AggregateID = a.id) ∧
    (∀ last, (a.LoadFromHistory eventList).2 = GoError.nil → eventList.getLast? = some last →
        (a.LoadFromHistory eventList).1.GetVersion = last.Version) ∧
    a.LoadFromHistory [] = (a, GoError.nil) := by
  have hne : errorsNew "event aggregate ID does not match" ≠ GoError.nil := by decide
  by_cases hall : ∀ e ∈ eventList, e.AggregateID = a.id
  · have hok := LoadFromHistory_ok eventList a hall
    refine ⟨?_, ?_, ?_, rfl⟩
    · rw [hok]
      constructor
      · intro h; exact absurd h.symm hne
      · rintro ⟨e, he, hne2⟩; exact absurd (hall e he) hne2
    · rw [hok]; exact ⟨fun _ => hall, fun _ => rfl⟩
    · intro last _ hlast
      rw [hok, hlast]
      rfl
  · have hex : ∃ e ∈ eventList, e.AggregateID ≠ a.id := by
      by_contra hcon
      apply hall
      intro e he
      by_contra hne2
      exact hcon ⟨e, he, hne2⟩
    have hbad := LoadFromHistory_mismatch eventList a hex
    refine ⟨?_, ?_, ?_, rfl⟩
    · rw [hbad]; exact ⟨fun _ => hex, fun _ => rfl⟩
    · rw [hbad]
      constructor
      · intro h; exact absurd h hne
      · intro h; exact absurd h hall
    · intro last h _
      rw [hbad] at h
      exact absurd h hne

/-! ## Aggregates: business operations -/

theorem errorsNew_ne_nil (msg : String) : errorsNew msg ≠ GoError.nil := by
  intro h
  cases h

theorem diary_execute_spec (d : DiaryAggregate) (newID : String) (now : Time) (c : DiaryCommand) :
    (∃ err, err ≠ GoError.nil ∧ d.execute newID now c = (d, err)) ∨
    (∃ e, d.execute newID now c
        = ({ d with toBaseAggregate := d.toBaseAggregate.AddUncommittedEvent e }, GoError.nil) ∧
      e.AggregateID = d.id ∧ e.Version = wrapInt64 (d.version + 1) ∧ e.ID = newID ∧
      e.Timestamp = now ∧
      (e.Type_ = DiaryEntryCreatedEvent ∨ e.Type_ = DiaryEntryUpdatedEvent ∨
        e.Type_ = DiaryEntryDeletedEvent)) := by
  cases c with
  | CreateEntry userID title content tokenCount sessionID tags =>
    by_cases ht : d.title = ""
    · right
      refine ⟨
          ({ ID := newID
             Type_ := DiaryEntryCreatedEvent
             AggregateID := d.id
             Version := wrapInt64 (d.version + 1)
             Timestamp := now
             Payload := RawMessage.document
               ((JSONMarshal.marshalJSON
                 ({ UserID := userID, Title := title, Content := content, TokenCount := tokenCount, SessionID := sessionID, Tags := tags } : DiaryEntryCreatedPayload)).getD JSONValue.null)
             Metadata := [] } : Event),
          ?_, rfl, rfl, rfl, rfl, Or.inl rfl⟩
      simp [DiaryAggregate.execute, DiaryAggregate.CreateEntry, ht, NewEvent,
        JSONMarshal.marshalJSON, DiaryAggregate.stage, BaseAggregate.GetID,
        BaseAggregate.GetVersion]
    · left
      exact ⟨errorsNew "diary entry already exists", errorsNew_ne_nil _, by
        simp [DiaryAggregate.execute, DiaryAggregate.CreateEntry, ht]⟩
  | UpdateEntry title content tokenCount tags =>
    by_cases hd : d.deleted = true
    · left
      exact ⟨errorsNew "diary entry has been deleted", errorsNew_ne_nil _, by
        simp [DiaryAggregate.execute, DiaryAggregate.UpdateEntry, hd]⟩
    · by_cases ht : d.title = ""
      · left
        exact ⟨errorsNew "diary entry does not exist", errorsNew_ne_nil _, by
          simp [DiaryAggregate.execute, DiaryAggregate.UpdateEntry, hd, ht]⟩
      · right
        refine ⟨
          ({ ID := newID
             Type_ := DiaryEntryUpdatedEvent
             AggregateID := d.id
             Version := wrapInt64 (d.version + 1)
             Timestamp := now
             Payload := RawMessage.document
               ((JSONMarshal.marshalJSON
                 ({ Title := title, Content := content, TokenCount := tokenCount, Tags := tags } : DiaryEntryUpdatedPayload)).getD JSONValue.null)
             Metadata := [] } : Event),
          ?_, rfl, rfl, rfl, rfl, Or.inr (Or.inl rfl)⟩
        simp [DiaryAggregate.execute, DiaryAggregate.UpdateEntry, hd, ht, NewEvent,
          JSONMarshal.marshalJSON, DiaryAggregate.stage, BaseAggregate.GetID,
          BaseAggregate.GetVersion]
  | DeleteEntry reason =>
    by_cases hd : d.deleted = true
    · left
      exact ⟨errorsNew "diary entry has already been deleted", errorsNew_ne_nil _, by
        simp [DiaryAggregate.execute, DiaryAggregate.DeleteEntry, hd]⟩
    · by_cases ht : d.title = ""
      · left
        exact ⟨errorsNew "diary entry does not exist", errorsNew_ne_nil _, by
          simp [DiaryAggregate.execute, DiaryAggregate.DeleteEntry, hd, ht]⟩
      · right
        refine ⟨
          ({ ID := newID
             Type_ := DiaryEntryDeletedEvent
             AggregateID := d.id
             Version := wrapInt64 (d.version + 1)
             Timestamp := now
             Payload := RawMessage.document
               ((JSONMarshal.marshalJSON
                 ({ Reason := reason } : DiaryEntryDeletedPayload)).getD JSONValue.null)
             Metadata := [] } : Event),
          ?_, rfl, rfl, rfl, rfl, Or.inr (Or.inr rfl)⟩
        simp [DiaryAggregate.execute, DiaryAggregate.DeleteEntry, hd, ht, NewEvent,
          JSONMarshal.marshalJSON, DiaryAggregate.stage, BaseAggregate.GetID,
          BaseAggregate.GetVersion]

theorem user_execute_spec (u : UserAggregate) (newID : String) (now : Time) (c : UserCommand) :
    (∃ err, err ≠ GoError.nil ∧ u.execute newID now c = (u, err)) ∨
    (∃ e, u.execute newID now c
        = ({ u with toBaseAggregate := u.toBaseAggregate.AddUncommittedEvent e }, GoError.nil) ∧
      e.AggregateID = u.id ∧ e.Version = wrapInt64 (u.version + 1) ∧ e.ID = newID ∧
      e.Timestamp = now ∧
      (e.Type_ = UserRegisteredEvent ∨ e.Type_ = UserProfileUpdatedEvent ∨
        e.Type_ = UserArchetypeAssignedEvent ∨ e.Type_ = UserArchetypeUpdatedEvent ∨
        e.Type_ = UserModalitiesUpdatedEvent)) := by
  have hjson : jsonMarshalError ≠ GoError.nil := by decide
  cases c with
  | CreateUser username email firstName lastName dateOfBirth =>
    by_cases hu : u.username = ""
    · right
      refine ⟨
          ({ ID := newID
             Type_ := UserRegisteredEvent
             AggregateID := u.id
             Version := wrapInt64 (u.version + 1)
             Timestamp := now
             Payload := RawMessage.document
               ((JSONMarshal.marshalJSON
                 ({ Username := username, Email := email, FirstName := firstName, LastName := lastName, DateOfBirth := dateOfBirth } : UserRegisteredPayload)).getD JSONValue.null)
             Metadata := [] } : Event),
          ?_, rfl, rfl, rfl, rfl, Or.inl rfl⟩
      simp [UserAggregate.execute, UserAggregate.CreateUser, hu, NewEvent, JSONMarshal.marshalJSON, UserAggregate.stage, BaseAggregate.GetID,
          BaseAggregate.GetVersion]
    · left
      exact ⟨errorsNew "user already exists", errorsNew_ne_nil _, by
        simp [UserAggregate.execute, UserAggregate.CreateUser, hu]⟩
  | UpdateProfile firstName lastName dateOfBirth avatar bio =>
    by_cases hu : u.username = ""
    · left
      exact ⟨errorsNew "user does not exist", errorsNew_ne_nil _, by
        simp [UserAggregate.execute, UserAggregate.UpdateProfile, hu]⟩
    · right
      refine ⟨
          ({ ID := newID
             Type_ := UserProfileUpdatedEvent
             AggregateID := u.id
             Version := wrapInt64 (u.version + 1)
             Timestamp := now
             Payload := RawMessage.document
               ((JSONMarshal.marshalJSON
                 ({ FirstName := firstName, LastName := lastName, DateOfBirth := dateOfBirth, Avatar := avatar, Bio := bio } : UserProfileUpdatedPayload)).getD JSONValue.null)
             Metadata := [] } : Event),
          ?_, rfl, rfl, rfl, rfl, Or.inr (Or.inl rfl)⟩
      simp [UserAggregate.execute, UserAggregate.UpdateProfile, hu, NewEvent, JSONMarshal.marshalJSON, UserAggregate.stage, BaseAggregate.GetID,
          BaseAggregate.GetVersion]
  | AssignArchetype archetypeID archetypeName confidence description =>
    by_cases hu : u.username = ""
    · left
      exact ⟨errorsNew "user does not exist", errorsNew_ne_nil _, by
        simp [UserAggregate.execute, UserAggregate.AssignArchetype, hu]⟩
    · by_cases hf : confidence.isFinite = true
      · right
        refine ⟨
          ({ ID := newID
             Type_ := UserArchetypeAssignedEvent
             AggregateID := u.id
             Version := wrapInt64 (u.version + 1)
             Timestamp := now
             Payload := RawMessage.document
               ((JSONMarshal.marshalJSON
                 ({ ArchetypeID := archetypeID, ArchetypeName := archetypeName, Confidence := confidence, Description := description } : UserArchetypeAssignedPayload)).getD JSONValue.null)
             Metadata := [] } : Event),
          ?_, rfl, rfl, rfl, rfl, Or.inr (Or.inr (Or.inl rfl))⟩
        simp [UserAggregate.execute, UserAggregate.AssignArchetype, hu, hf,
          marshalArchetypePayload, NewEvent, JSONMarshal.marshalJSON, UserAggregate.stage, BaseAggregate.GetID,
          BaseAggregate.GetVersion]
      · left
        exact ⟨jsonMarshalError, hjson, by
          simp [UserAggregate.execute, UserAggregate.AssignArchetype, hu, hf,
            marshalArchetypePayload, NewEvent, JSONMarshal.marshalJSON, UserAggregate.stage, BaseAggregate.GetID,
          BaseAggregate.GetVersion]⟩
  | UpdateArchetype archetypeID archetypeName confidence description =>
    by_cases hu : u.username = ""
    · left
      exact ⟨errorsNew "user does not exist", errorsNew_ne_nil _, by
        simp [UserAggregate.execute, UserAggregate.UpdateArchetype, hu]⟩
    · by_cases hf : confidence.isFinite = true
      · right
        refine ⟨
          ({ ID := newID
             Type_ := UserArchetypeUpdatedEvent
             AggregateID := u.id
             Version := wrapInt64 (u.version + 1)
             Timestamp := now
             Payload := RawMessage.document
               ((JSONMarshal.marshalJSON
                 ({ ArchetypeID := archetypeID, ArchetypeName := archetypeName, Confidence := confidence, Description := description } : UserArchetypeUpdatedPayload)).getD JSONValue.null)
             Metadata := [] } : Event),
          ?_, rfl, rfl, rfl, rfl, Or.inr (Or.inr (Or.inr (Or.inl rfl)))⟩
        simp [UserAggregate.execute, UserAggregate.UpdateArchetype, hu, hf,
          marshalArchetypePayload, NewEvent, JSONMarshal.marshalJSON, UserAggregate.stage, BaseAggregate.GetID,
          BaseAggregate.GetVersion]
      · left
        exact ⟨jsonMarshalError, hjson, by
          simp [UserAggregate.execute, UserAggregate.UpdateArchetype, hu, hf,
            marshalArchetypePayload, NewEvent, JSONMarshal.marshalJSON, UserAggregate.stage, BaseAggregate.GetID,
          BaseAggregate.GetVersion]⟩
  | UpdateModalities modalities =>
    by_cases hu : u.username = ""
    · left
      exact ⟨errorsNew "user does not exist", errorsNew_ne_nil _, by
        simp [UserAggregate.execute, UserAggregate.UpdateModalities, hu]⟩
    · cases hm : (JSONMarshal.marshalJSON
          ({ Modalities := modalities } : UserModalitiesUpdatedPayload)) with
      | none =>
        left
        exact ⟨jsonMarshalError, hjson, by
          simp only [UserAggregate.execute, UserAggregate.UpdateModalities, if_neg hu, NewEvent, hm,
            UserAggregate.stage]⟩
      | some doc =>
        right
        refine ⟨
          ({ ID := newID
             Type_ := UserModalitiesUpdatedEvent
             AggregateID := u.id
             Version := wrapInt64 (u.version + 1)
             Timestamp := now
             Payload := RawMessage.document
               ((JSONMarshal.marshalJSON
                 ({ Modalities := modalities } : UserModalitiesUpdatedPayload)).getD JSONValue.null)
             Metadata := [] } : Event),
          ?_, rfl, rfl, rfl, rfl, Or.inr (Or.inr (Or.inr (Or.inr (rfl))))⟩
        simp only [UserAggregate.execute, UserAggregate.UpdateModalities, if_neg hu, NewEvent, hm,
          UserAggregate.stage, BaseAggregate.GetID, BaseAggregate.GetVersion, Option.getD_some,
          Option.getD_none]

theorem wrapInt64_of_inRange (n : Int) (h₁ : -(2 ^ 63) ≤ n) (h₂ : n < 2 ^ 63) :
    wrapInt64 n = n := by
  unfold wrapInt64
  norm_num at h₁ h₂ ⊢
  omega

/-- C17: every accepted business operation of a `DiaryAggregate` or a
`UserAggregate` appends exactly one event to the end of the uncommitted
sequence and changes nothing else (id, version and all domain fields are
kept); the event has the aggregate's id as `AggregateID` and the Go value of
`GetVersion() + 1` as `Version`, which is the version plus one unless the
version is the largest `int`. -/
theorem business_operation_stages_one_event (d : DiaryAggregate) (u : UserAggregate)
    (newID : String) (now : Time) (dc : DiaryCommand) (uc : UserCommand) :
    ((d.execute newID now dc).2 = GoError.nil →
      ∃ e,
        (d.execute newID now dc).1
          = { d with toBaseAggregate :=
                { d.toBaseAggregate with uncommittedEvents := d.uncommittedEvents ++ [e] } } ∧
        (d.execute newID now dc).1.GetUncommittedEvents = d.GetUncommittedEvents ++ [e] ∧
        e.AggregateID = d.GetID ∧
        e.Version = wrapInt64 (d.GetVersion + 1) ∧
        (d.GetVersion < 2 ^ 63 - 1 → -(2 ^ 63) ≤ d.GetVersion + 1 → e.Version = d.GetVersion + 1) ∧
        (d.execute newID now dc).1.GetVersion = d.GetVersion ∧
        (d.execute newID now dc).1.GetID = d.GetID ∧
        (d.execute newID now dc).1.domainState = d.domainState) ∧
    ((u.execute newID now uc).2 = GoError.nil →
      ∃ e,
        (u.execute newID now uc).1
          = { u with toBaseAggregate :=
                { u.toBaseAggregate with uncommittedEvents := u.uncommittedEvents ++ [e] } } ∧
        (u.execute newID now uc).1.GetUncommittedEvents = u.GetUncommittedEvents ++ [e] ∧
        e.AggregateID = u.GetID ∧
        e.Version = wrapInt64 (u.GetVersion + 1) ∧
        (u.GetVersion < 2 ^ 63 - 1 → -(2 ^ 63) ≤ u.GetVersion + 1 → e.Version = u.GetVersion + 1) ∧
        (u.execute newID now uc).1.GetVersion = u.GetVersion ∧
        (u.execute newID now uc).1.GetID = u.GetID ∧
        (u.execute newID now uc).1.domainState = u.domainState) := by
  constructor
  · intro hnil
    rcases diary_execute_spec d newID now dc with ⟨err, herr, heq⟩ | ⟨e, heq, ha, hv, _, _, _⟩
    · rw [heq] at hnil; exact absurd hnil herr
    · refine ⟨e, ?_, ?_, ha, hv, ?_, ?_, ?_, ?_⟩
      · rw [heq]; rfl
      · rw [heq]; rfl
      · intro h₁ h₂
        rw [hv]
        exact wrapInt64_of_inRange _ h₂ (by
          have : d.version < 2 ^ 63 - 1 := h₁
          omega)
      · rw [heq]; rfl
      · rw [heq]; rfl
      · rw [heq]; rfl
  · intro hnil
    rcases user_execute_spec u newID now uc with ⟨err, herr, heq⟩ | ⟨e, heq, ha, hv, _, _, _⟩
    · rw [heq] at hnil; exact absurd hnil herr
    · refine ⟨e, ?_, ?_, ha, hv, ?_, ?_, ?_, ?_⟩
      · rw [heq]; rfl
      · rw [heq]; rfl
      · intro h₁ h₂
        rw [hv]
        exact wrapInt64_of_inRange _ h₂ (by
          have : u.version < 2 ^ 63 - 1 := h₁
          omega)
      · rw [heq]; rfl
      · rw [heq]; rfl
      · rw [heq]; rfl

theorem diaryCreated_is_staged :
    ((NewDiaryAggregate "d-1").CreateEntry "00000000-0000-4000-8000-000000000001" 100 "u-1"
        "Hello" "first entry" 2 "s-1" (some ["mood"])).1.GetUncommittedEvents = [diaryCreated] ∧
    ((NewUserAggregate "u-1").CreateUser "00000000-0000-4000-8000-000000000002" 100 "bob"
        "bob@example.org" "Bob" "Ross" "").1.GetUncommittedEvents = [userRegistered] ∧
    userBob.username = "bob" ∧ userBob.GetVersion = 1 ∧
    diaryHello.GetTitle = "Hello" ∧ diaryHello.GetVersion = 1 := by
  decide

theorem business_operation_stages_one_event_witness :
    (∃ e,
      (diaryHello.execute "00000000-0000-4000-8000-000000000003" 200
          (DiaryCommand.DeleteEntry "done")).1.GetUncommittedEvents
        = diaryHello.GetUncommittedEvents ++ [e] ∧
      e.AggregateID = "d-1" ∧ e.Version = 2) ∧
    (∃ e,
      (userBob.execute "00000000-0000-4000-8000-000000000003" 200
          (UserCommand.UpdateProfile "Robert" "" "" "" "")).1.GetUncommittedEvents
        = userBob.GetUncommittedEvents ++ [e] ∧
      e.AggregateID = "u-1" ∧ e.Version = 2) :=
  let h := business_operation_stages_one_event diaryHello userBob
    "00000000-0000-4000-8000-000000000003" 200 (DiaryCommand.DeleteEntry "done")
    (UserCommand.UpdateProfile "Robert" "" "" "" "")
  ⟨(h.1 (by decide)).elim fun e he =>
      ⟨e, he.2.1, he.2.2.1, he.2.2.2.2.1 (by decide) (by decide)⟩,
    (h.2 (by decide)).elim fun e he =>
      ⟨e, he.2.1, he.2.2.1, he.2.2.2.2.1 (by decide) (by decide)⟩⟩

/-- C18 as stated fails: on the user aggregate `u-1`, whose folded username is
`bob`, `AssignArchetype` with a NaN confidence fails (with the error of
`json.Marshal`), and so do `UpdateArchetype` with that confidence and
`UpdateModalities` with a modality of NaN weight. -/
theorem update_operation_fails_on_existing_user :
    userBob.username = "bob" ∧
    (userBob.AssignArchetype "00000000-0000-4000-8000-000000000005" 200 "hero" "Hero"
        float64NaN "the hero").2 = jsonMarshalError ∧
    (userBob.AssignArchetype "00000000-0000-4000-8000-000000000005" 200 "hero" "Hero"
        float64NaN "the hero").2 ≠ GoError.nil ∧
    (userBob.UpdateArchetype "00000000-0000-4000-8000-000000000005" 200 "hero" "Hero"
        float64NaN "the hero").2 ≠ GoError.nil ∧
    (userBob.UpdateModalities "00000000-0000-4000-8000-000000000005" 200
        (some [{ ID := "m-1", Name := "text", Weight := float64NaN }])).2 ≠ GoError.nil := by
  decide

/-- C18, as the code has it: `CreateEntry` fails exactly when the folded title
is non-empty; `UpdateEntry` and `DeleteEntry` fail exactly when the aggregate
is marked deleted or the folded title is empty; `CreateUser` fails exactly
when the folded username is non-empty and `UpdateProfile` exactly when it is
empty; `AssignArchetype` and `UpdateArchetype` fail exactly when the username
is empty or the confidence is NaN or infinite, and `UpdateModalities` exactly
when the username is empty or `json.Marshal` rejects the payload; a failed
operation leaves the aggregate (version, domain fields, uncommitted sequence)
as it was. -/
theorem business_operation_failures (d : DiaryAggregate) (u : UserAggregate) (newID : String)
    (now : Time) :
    (∀ userID title content tokenCount sessionID tags,
      (d.CreateEntry newID now userID title content tokenCount sessionID tags).2 ≠ GoError.nil
        ↔ d.GetTitle ≠ "") ∧
    (∀ title content tokenCount tags,
      (d.UpdateEntry newID now title content tokenCount tags).2 ≠ GoError.nil
        ↔ (d.IsDeleted = true ∨ d.GetTitle = "")) ∧
    (∀ reason,
      (d.DeleteEntry newID now reason).2 ≠ GoError.nil ↔ (d.IsDeleted = true ∨ d.GetTitle = "")) ∧
    (∀ username email firstName lastName dateOfBirth,
      (u.CreateUser newID now username email firstName lastName dateOfBirth).2 ≠ GoError.nil
        ↔ u.username ≠ "") ∧
    (∀ firstName lastName dateOfBirth avatar bio,
      (u.UpdateProfile newID now firstName lastName dateOfBirth avatar bio).2 ≠ GoError.nil
        ↔ u.username = "") ∧
    (∀ archetypeID archetypeName confidence description,
      (u.AssignArchetype newID now archetypeID archetypeName confidence description).2
          ≠ GoError.nil
        ↔ (u.username = "" ∨ confidence.isFinite = false)) ∧
    (∀ archetypeID archetypeName confidence description,
      (u.UpdateArchetype newID now archetypeID archetypeName confidence description).2
          ≠ GoError.nil
        ↔ (u.username = "" ∨ confidence.isFinite = false)) ∧
    (∀ modalities,
      (u.UpdateModalities newID now modalities).2 ≠ GoError.nil
        ↔ (u.username = "" ∨
            JSONMarshal.marshalJSON ({ Modalities := modalities } : UserModalitiesUpdatedPayload)
              = none)) ∧
    (∀ dc, (d.execute newID now dc).2 ≠ GoError.nil → (d.execute newID now dc).1 = d) ∧
    (∀ uc, (u.execute newID now uc).2 ≠ GoError.nil → (u.execute newID now uc).1 = u) := by
  have hjson : jsonMarshalError ≠ GoError.nil := by decide
  refine ⟨?_, ?_, ?_, ?_, ?_, ?_, ?_, ?_, ?_, ?_⟩
  · intro userID title content tokenCount sessionID tags
    by_cases ht : d.title = "" <;>
      simp [DiaryAggregate.CreateEntry, ht, NewEvent, JSONMarshal.marshalJSON,
        DiaryAggregate.stage, errorsNew, DiaryAggregate.GetTitle]
  · intro title content tokenCount tags
    by_cases hd : d.deleted = true <;> by_cases ht : d.title = "" <;>
      simp [DiaryAggregate.UpdateEntry, hd, ht, NewEvent, JSONMarshal.marshalJSON,
        DiaryAggregate.stage, errorsNew, DiaryAggregate.GetTitle, DiaryAggregate.IsDeleted]
  · intro reason
    by_cases hd : d.deleted = true <;> by_cases ht : d.title = "" <;>
      simp [DiaryAggregate.DeleteEntry, hd, ht, NewEvent, JSONMarshal.marshalJSON,
        DiaryAggregate.stage, errorsNew, DiaryAggregate.GetTitle, DiaryAggregate.IsDeleted]
  · intro username email firstName lastName dateOfBirth
    by_cases hu : u.username = "" <;>
      simp [UserAggregate.CreateUser, hu, NewEvent, JSONMarshal.marshalJSON,
        UserAggregate.stage, errorsNew]
  · intro firstName lastName dateOfBirth avatar bio
    by_cases hu : u.username = "" <;>
      simp [UserAggregate.UpdateProfile, hu, NewEvent, JSONMarshal.marshalJSON,
        UserAggregate.stage, errorsNew]
  · intro archetypeID archetypeName confidence description
    by_cases hu : u.username = "" <;> by_cases hf : confidence.isFinite = true <;>
      simp [UserAggregate.AssignArchetype, hu, hf, NewEvent, JSONMarshal.marshalJSON,
        marshalArchetypePayload, UserAggregate.stage, errorsNew, hjson]
  · intro archetypeID archetypeName confidence description
    by_cases hu : u.username = "" <;> by_cases hf : confidence.isFinite = true <;>
      simp [UserAggregate.UpdateArchetype, hu, hf, NewEvent, JSONMarshal.marshalJSON,
        marshalArchetypePayload, UserAggregate.stage, errorsNew, hjson]
  · intro modalities
    by_cases hu : u.username = ""
    · simp [UserAggregate.UpdateModalities, hu, errorsNew]
    · cases hm : (JSONMarshal.marshalJSON
          ({ Modalities := modalities } : UserModalitiesUpdatedPayload)) with
      | none =>
        simp only [UserAggregate.UpdateModalities, if_neg hu, NewEvent, hm, UserAggregate.stage]
        simp [hu, hjson]
      | some doc =>
        simp only [UserAggregate.UpdateModalities, if_neg hu, NewEvent, hm, UserAggregate.stage]
        simp [hu]
  · intro dc hne
    rcases diary_execute_spec d newID now dc with ⟨err, _, heq⟩ | ⟨e, heq, _⟩
    · rw [heq]
    · rw [heq] at hne; exact absurd rfl hne
  · intro uc hne
    rcases user_execute_spec u newID now uc with ⟨err, _, heq⟩ | ⟨e, heq, _⟩
    · rw [heq]
    · rw [heq] at hne; exact absurd rfl hne

theorem business_operation_failures_witness :
    (diaryHello.execute "00000000-0000-4000-8000-000000000006" 300
        (DiaryCommand.CreateEntry "u-1" "Again" "second" 1 "s-1" none)).1 = diaryHello ∧
    (userBob.execute "00000000-0000-4000-8000-000000000006" 300
        (UserCommand.AssignArchetype "hero" "Hero" float64NaN "the hero")).1 = userBob :=
  let h := business_operation_failures diaryHello userBob
    "00000000-0000-4000-8000-000000000006" 300
  ⟨h.2.2.2.2.2.2.2.2.1 (DiaryCommand.CreateEntry "u-1" "Again" "second" 1 "s-1" none)
      (by decide),
    h.2.2.2.2.2.2.2.2.2 (UserCommand.AssignArchetype "hero" "Hero" float64NaN "the hero")
      (by decide)⟩

/-! ## Aggregates: dispatch of `ApplyEvent` -/

/-- C19: for every `DiaryAggregate` and every event whose `Type` is none of
`DiaryEntryCreated`, `DiaryEntryUpdated`, `DiaryEntryDeleted`, and for every
`UserAggregate` and every event whose `Type` is none of the five user event
types, `ApplyEvent` returns the "unknown event type" error and leaves the
aggregate (version, domain fields, uncommitted sequence) as it was. -/
theorem ApplyEvent_unknown_type (d : DiaryAggregate) (u : UserAggregate) (e₁ e₂ : Event)
    (h₁ : e₁.Type_ ≠ DiaryEntryCreatedEvent ∧ e₁.Type_ ≠ DiaryEntryUpdatedEvent ∧
      e₁.Type_ ≠ DiaryEntryDeletedEvent)
    (h₂ : e₂.Type_ ≠ UserRegisteredEvent ∧ e₂.Type_ ≠ UserProfileUpdatedEvent ∧
      e₂.Type_ ≠ UserArchetypeAssignedEvent ∧ e₂.Type_ ≠ UserArchetypeUpdatedEvent ∧
      e₂.Type_ ≠ UserModalitiesUpdatedEvent) :
    d.ApplyEvent e₁ = (d, errorsNew "unknown event type") ∧
    u.ApplyEvent e₂ = (u, errorsNew "unknown event type") := by
  obtain ⟨a1, a2, a3⟩ := h₁
  obtain ⟨b1, b2, b3, b4, b5⟩ := h₂
  constructor
  · unfold DiaryAggregate.ApplyEvent
    rw [if_neg a1, if_neg a2, if_neg a3]
  · unfold UserAggregate.ApplyEvent
    rw [if_neg b1, if_neg b2, if_neg b3, if_neg b4, if_neg b5]

theorem ApplyEvent_unknown_type_witness :
    diaryHello.ApplyEvent userRegistered = (diaryHello, errorsNew "unknown event type") ∧
    userBob.ApplyEvent diaryCreated = (userBob, errorsNew "unknown event type") :=
  ApplyEvent_unknown_type diaryHello userBob userRegistered diaryCreated (by decide) (by decide)

theorem UnmarshalPayload_error {α : Type} [JSONUnmarshal α] (e : Event) (err : GoError)
    (h : (e.UnmarshalPayload : Except GoError α) = Except.error err) :
    err = jsonUnmarshalError := by
  unfold Event.UnmarshalPayload at h
  cases hp : e.Payload with
  | nil =>
    rw [hp] at h
    simp only at h
    injection h with h
    exact h.symm
  | malformed bytes =>
    rw [hp] at h
    simp only at h
    injection h with h
    exact h.symm
  | document doc =>
    rw [hp] at h
    simp only at h
    cases hu : (JSONUnmarshal.unmarshalJSON doc : Option α) with
    | none =>
      rw [hu] at h
      simp only at h
      injection h with h
      exact h.symm
    | some v =>
      rw [hu] at h
      simp only at h
      cases h
  | respelled doc spelling =>
    rw [hp] at h
    simp only at h
    cases hu : (JSONUnmarshal.unmarshalJSON doc : Option α) with
    | none =>
      rw [hu] at h
      simp only at h
      injection h with h
      exact h.symm
    | some v =>
      rw [hu] at h
      simp only at h
      cases h

theorem diary_ApplyEvent_error (d : DiaryAggregate) (e : Event) :
    (d.ApplyEvent e).2 = GoError.nil ∨ (d.ApplyEvent e = (d, jsonUnmarshalError)) ∨
      (d.ApplyEvent e = (d, errorsNew "unknown event type") ∧
        e.Type_ ≠ DiaryEntryCreatedEvent ∧ e.Type_ ≠ DiaryEntryUpdatedEvent ∧
        e.Type_ ≠ DiaryEntryDeletedEvent) := by
  unfold DiaryAggregate.ApplyEvent
  by_cases h1 : e.Type_ = DiaryEntryCreatedEvent
  · rw [if_pos h1]
    unfold DiaryAggregate.applyDiaryEntryCreated
    cases hp : (e.UnmarshalPayload : Except GoError DiaryEntryCreatedPayload) with
    | error err => right; left; simp only; rw [UnmarshalPayload_error e err hp]
    | ok payload => left; rfl
  · rw [if_neg h1]
    by_cases h2 : e.Type_ = DiaryEntryUpdatedEvent
    · rw [if_pos h2]
      unfold DiaryAggregate.applyDiaryEntryUpdated
      cases hp : (e.UnmarshalPayload : Except GoError DiaryEntryUpdatedPayload) with
      | error err => right; left; simp only; rw [UnmarshalPayload_error e err hp]
      | ok payload => left; rfl
    · rw [if_neg h2]
      by_cases h3 : e.Type_ = DiaryEntryDeletedEvent
      · rw [if_pos h3]
        unfold DiaryAggregate.applyDiaryEntryDeleted
        cases hp : (e.UnmarshalPayload : Except GoError DiaryEntryDeletedPayload) with
        | error err => right; left; simp only; rw [UnmarshalPayload_error e err hp]
        | ok payload => left; rfl
      · rw [if_neg h3]
        right; right
        exact ⟨rfl, h1, h2, h3⟩

theorem user_ApplyEvent_error (u : UserAggregate) (e : Event) :
    (u.ApplyEvent e).2 = GoError.nil ∨ (u.ApplyEvent e = (u, jsonUnmarshalError)) ∨
      (u.ApplyEvent e = (u, errorsNew "unknown event type") ∧
        e.Type_ ≠ UserRegisteredEvent ∧ e.Type_ ≠ UserProfileUpdatedEvent ∧
        e.Type_ ≠ UserArchetypeAssignedEvent ∧ e.Type_ ≠ UserArchetypeUpdatedEvent ∧
        e.Type_ ≠ UserModalitiesUpdatedEvent) := by
  unfold UserAggregate.ApplyEvent
  by_cases h1 : e.Type_ = UserRegisteredEvent
  · rw [if_pos h1]
    unfold UserAggregate.applyUserRegistered
    cases hp : (e.UnmarshalPayload : Except GoError UserRegisteredPayload) with
    | error err => right; left; simp only; rw [UnmarshalPayload_error e err hp]
    | ok payload => left; rfl
  · rw [if_neg h1]
    by_cases h2 : e.Type_ = UserProfileUpdatedEvent
    · rw [if_pos h2]
      unfold UserAggregate.applyUserProfileUpdated
      cases hp : (e.UnmarshalPayload : Except GoError UserProfileUpdatedPayload) with
      | error err => right; left; simp only; rw [UnmarshalPayload_error e err hp]
      | ok payload => left; rfl
    · rw [if_neg h2]
      by_cases h3 : e.Type_ = UserArchetypeAssignedEvent
      · rw [if_pos h3]
        unfold UserAggregate.applyUserArchetypeAssigned
        cases hp : (e.UnmarshalPayload : Except GoError UserArchetypeAssignedPayload) with
        | error err => right; left; simp only; rw [UnmarshalPayload_error e err hp]
        | ok payload => left; rfl
      · rw [if_neg h3]
        by_cases h4 : e.Type_ = UserArchetypeUpdatedEvent
        · rw [if_pos h4]
          unfold UserAggregate.applyUserArchetypeUpdated
          cases hp : (e.UnmarshalPayload : Except GoError UserArchetypeUpdatedPayload) with
          | error err => right; left; simp only; rw [UnmarshalPayload_error e err hp]
          | ok payload => left; rfl
        · rw [if_neg h4]
          by_cases h5 : e.Type_ = UserModalitiesUpdatedEvent
          · rw [if_pos h5]
            unfold UserAggregate.applyUserModalitiesUpdated
            cases hp : (e.UnmarshalPayload : Except GoError UserModalitiesUpdatedPayload) with
            | error err => right; left; simp only; rw [UnmarshalPayload_error e err hp]
            | ok payload => left; rfl
          · rw [if_neg h5]
            right; right
            exact ⟨rfl, h1, h2, h3, h4, h5⟩

/-- C20: the event staged by any accepted business operation of a
`DiaryAggregate` (of a `UserAggregate`) is never answered with the "unknown
event type" error by `ApplyEvent` of a `DiaryAggregate` (of a
`UserAggregate`), whatever the state of the aggregate it is applied to. -/
theorem staged_event_is_recognized (d d2 : DiaryAggregate) (u u2 : UserAggregate)
    (newID : String) (now : Time) (dc : DiaryCommand) (uc : UserCommand) (e₁ e₂ : Event) :
    ((d.execute newID now dc).1.GetUncommittedEvents = d.GetUncommittedEvents ++ [e₁] →
      (d2.ApplyEvent e₁).2 ≠ errorsNew "unknown event type") ∧
    ((u.execute newID now uc).1.GetUncommittedEvents = u.GetUncommittedEvents ++ [e₂] →
      (u2.ApplyEvent e₂).2 ≠ errorsNew "unknown event type") := by
  have hnil : GoError.nil ≠ errorsNew "unknown event type" := by decide
  have hjson : jsonUnmarshalError ≠ errorsNew "unknown event type" := by decide
  constructor
  · intro h
    rcases diary_execute_spec d newID now dc with ⟨err, _, heq⟩ | ⟨e, heq, _, _, _, _, ht⟩
    · rw [heq] at h
      have hlen := congrArg List.length h
      simp [BaseAggregate.GetUncommittedEvents] at hlen
    · rw [heq] at h
      have he : e = e₁ := by
        have h2 : d.uncommittedEvents ++ [e] = d.uncommittedEvents ++ [e₁] := h
        simpa using h2
      subst he
      rcases diary_ApplyEvent_error d2 e with h0 | h0 | ⟨_, n1, n2, n3⟩
      · rw [h0]; exact hnil
      · rw [h0]; exact hjson
      · rcases ht with ht | ht | ht
        · exact absurd ht n1
        · exact absurd ht n2
        · exact absurd ht n3
  · intro h
    rcases user_execute_spec u newID now uc with ⟨err, _, heq⟩ | ⟨e, heq, _, _, _, _, ht⟩
    · rw [heq] at h
      have hlen := congrArg List.length h
      simp [BaseAggregate.GetUncommittedEvents] at hlen
    · rw [heq] at h
      have he : e = e₂ := by
        have h2 : u.uncommittedEvents ++ [e] = u.uncommittedEvents ++ [e₂] := h
        simpa using h2
      subst he
      rcases user_ApplyEvent_error u2 e with h0 | h0 | ⟨_, n1, n2, n3, n4, n5⟩
      · rw [h0]; exact hnil
      · rw [h0]; exact hjson
      · rcases ht with ht | ht | ht | ht | ht
        · exact absurd ht n1
        · exact absurd ht n2
        · exact absurd ht n3
        · exact absurd ht n4
        · exact absurd ht n5

theorem staged_event_is_recognized_witness :
    (diaryHello.ApplyEvent diaryCreated).2 ≠ errorsNew "unknown event type" ∧
    (userBob.ApplyEvent
        { userRegistered with ID := "00000000-0000-4000-8000-000000000001" }).2
      ≠ errorsNew "unknown event type" :=
  let h := staged_event_is_recognized (NewDiaryAggregate "d-1") diaryHello
    (NewUserAggregate "u-1") userBob "00000000-0000-4000-8000-000000000001" 100
    (DiaryCommand.CreateEntry "u-1" "Hello" "first entry" 2 "s-1" (some ["mood"]))
    (UserCommand.CreateUser "bob" "bob@example.org" "Bob" "Ross" "")
    diaryCreated { userRegistered with ID := "00000000-0000-4000-8000-000000000001" }
  ⟨h.1 (by decide), h.2 (by decide)⟩

/-! ## Aggregates: replay -/

/-- C15 fails on the code: `LoadFromHistory` of a `DiaryAggregate` or a
`UserAggregate` is the method of the embedded `BaseAggregate`, which never
calls `ApplyEvent`; it leaves every domain field as it was. After loading the
history `[DiaryEntryCreated]` into a fresh diary aggregate the title is still
empty, while `ApplyEvent` of the same event gives the title `Hello`; likewise
for the username of a fresh user aggregate. -/
theorem LoadFromHistory_skips_ApplyEvent :
    (∀ (d : DiaryAggregate) (history : List Event),
      (d.LoadFromHistory history).1.domainState = d.domainState) ∧
    (∀ (u : UserAggregate) (history : List Event),
      (u.LoadFromHistory history).1.domainState = u.domainState) ∧
    ((NewDiaryAggregate "d-1").LoadFromHistory [diaryCreated]).2 = GoError.nil ∧
    ((NewDiaryAggregate "d-1").LoadFromHistory [diaryCreated]).1.GetTitle = "" ∧
    ((NewDiaryAggregate "d-1").LoadFromHistory [diaryCreated]).1.GetVersion = 1 ∧
    ((NewDiaryAggregate "d-1").replay [diaryCreated]).GetTitle = "Hello" ∧
    ((NewDiaryAggregate "d-1").LoadFromHistory [diaryCreated]).1.GetTitle
      ≠ ((NewDiaryAggregate "d-1").replay [diaryCreated]).GetTitle ∧
    ((NewUserAggregate "u-1").LoadFromHistory [userRegistered]).2 = GoError.nil ∧
    ((NewUserAggregate "u-1").LoadFromHistory [userRegistered]).1.username = "" ∧
    ((NewUserAggregate "u-1").replay [userRegistered]).username = "bob" := by
  refine ⟨fun _ _ => rfl, fun _ _ => rfl, ?_⟩
  decide

theorem diary_ApplyEvent_agree (d r : DiaryAggregate) (e : Event) (h : d.Agree r) :
    (d.ApplyEvent e).1.Agree (r.ApplyEvent e).1 ∧
      (d.ApplyEvent e).1.uncommittedEvents = d.uncommittedEvents := by
  obtain ⟨hs, hv⟩ := h
  simp only [DiaryAggregate.domainState, Prod.mk.injEq] at hs
  obtain ⟨h1, h2, h3, h4, h5, h6, h7⟩ := hs
  unfold DiaryAggregate.ApplyEvent
  by_cases t1 : e.Type_ = DiaryEntryCreatedEvent
  · rw [if_pos t1, if_pos t1]
    unfold DiaryAggregate.applyDiaryEntryCreated
    cases hp : (e.UnmarshalPayload : Except GoError DiaryEntryCreatedPayload) with
    | error err =>
      exact ⟨⟨by simp [DiaryAggregate.domainState, *], hv⟩, rfl⟩
    | ok payload =>
      exact ⟨⟨by simp [DiaryAggregate.domainState],
        by simp [BaseAggregate.IncrementVersion, hv]⟩, rfl⟩
  · rw [if_neg t1, if_neg t1]
    by_cases t2 : e.Type_ = DiaryEntryUpdatedEvent
    · rw [if_pos t2, if_pos t2]
      unfold DiaryAggregate.applyDiaryEntryUpdated
      cases hp : (e.UnmarshalPayload : Except GoError DiaryEntryUpdatedPayload) with
      | error err =>
        exact ⟨⟨by simp [DiaryAggregate.domainState, *], hv⟩, rfl⟩
      | ok payload =>
        exact ⟨⟨by simp [DiaryAggregate.domainState, *],
          by simp [BaseAggregate.IncrementVersion, hv]⟩, rfl⟩
    · rw [if_neg t2, if_neg t2]
      by_cases t3 : e.Type_ = DiaryEntryDeletedEvent
      · rw [if_pos t3, if_pos t3]
        unfold DiaryAggregate.applyDiaryEntryDeleted
        cases hp : (e.UnmarshalPayload : Except GoError DiaryEntryDeletedPayload) with
        | error err =>
          exact ⟨⟨by simp [DiaryAggregate.domainState, *], hv⟩, rfl⟩
        | ok payload =>
          exact ⟨⟨by simp [DiaryAggregate.domainState, *],
            by simp [BaseAggregate.IncrementVersion, hv]⟩, rfl⟩
      · rw [if_neg t3, if_neg t3]
        exact ⟨⟨by simp [DiaryAggregate.domainState, *], hv⟩, rfl⟩

theorem diary_executeAndApply_spec (d : DiaryAggregate) (newID : String) (now : Time)
    (c : DiaryCommand) :
    d.executeAndApply newID now c = d ∨
    ∃ e, (d.executeAndApply newID now c).uncommittedEvents = d.uncommittedEvents ++ [e] ∧
      (d.executeAndApply newID now c).Agree (d.ApplyEvent e).1 := by
  unfold DiaryAggregate.executeAndApply
  rcases diary_execute_spec d newID now c with ⟨err, herr, heq⟩ | ⟨e, heq, _⟩
  · left
    rw [heq]
    simp [herr]
  · right
    refine ⟨e, ?_⟩
    rw [heq]
    have hlast : (d.uncommittedEvents ++ [e]).getLast? = some e := by simp
    simp only [BaseAggregate.AddUncommittedEvent, hlast, if_true]
    have hag : DiaryAggregate.Agree
        { d with toBaseAggregate :=
            { d.toBaseAggregate with uncommittedEvents := d.uncommittedEvents ++ [e] } } d :=
      ⟨rfl, rfl⟩
    have := diary_ApplyEvent_agree _ d e hag
    exact ⟨this.2, this.1⟩

theorem diary_runAndApply_agree :
    ∀ (ops : List (String × Time × DiaryCommand)) (d r : DiaryAggregate), d.Agree r →
      ∃ staged, (d.runAndApply ops).uncommittedEvents = d.uncommittedEvents ++ staged ∧
        (d.runAndApply ops).Agree (r.replay staged) := by
  intro ops
  induction ops with
  | nil =>
    intro d r h
    exact ⟨[], by simp [DiaryAggregate.runAndApply], h⟩
  | cons op rest ih =>
    intro d r h
    obtain ⟨newID, now, c⟩ := op
    unfold DiaryAggregate.runAndApply
    rcases diary_executeAndApply_spec d newID now c with hsame | ⟨e, hunc, hag⟩
    · rw [hsame]
      exact ih d r h
    · have hstep : (d.executeAndApply newID now c).Agree (r.ApplyEvent e).1 :=
        ⟨hag.1.trans (diary_ApplyEvent_agree d r e h).1.1,
          hag.2.trans (diary_ApplyEvent_agree d r e h).1.2⟩
      obtain ⟨staged, hs, hfinal⟩ := ih (d.executeAndApply newID now c) (r.ApplyEvent e).1 hstep
      refine ⟨e :: staged, ?_, ?_⟩
      · rw [hs, hunc]; simp
      · exact hfinal

/-- C16 as stated fails: after `CreateEntry` run live on a fresh diary
aggregate the title is still empty and the version still 0 (the operation
only stages its event), while folding the staged event into another fresh
aggregate with `ApplyEvent` gives the title `Hello` and the version 1. -/
theorem live_operations_do_not_fold :
    ((NewDiaryAggregate "d-1").runOperations
        [("00000000-0000-4000-8000-000000000001", 100,
          DiaryCommand.CreateEntry "u-1" "Hello" "first entry" 2 "s-1" (some ["mood"]))]
      ).GetUncommittedEvents = [diaryCreated] ∧
    ((NewDiaryAggregate "d-1").runOperations
        [("00000000-0000-4000-8000-000000000001", 100,
          DiaryCommand.CreateEntry "u-1" "Hello" "first entry" 2 "s-1" (some ["mood"]))]
      ).GetTitle = "" ∧
    ((NewDiaryAggregate "d-1").runOperations
        [("00000000-0000-4000-8000-000000000001", 100,
          DiaryCommand.CreateEntry "u-1" "Hello" "first entry" 2 "s-1" (some ["mood"]))]
      ).GetVersion = 0 ∧
    ((NewDiaryAggregate "d-1").replay [diaryCreated]).GetTitle = "Hello" ∧
    ((NewDiaryAggregate "d-1").replay [diaryCreated]).GetVersion = 1 := by
  decide

/-- C16, as the code has it: the business operations change neither domain
state nor version, they only stage events. For every sequence of business
operations run on a fresh `DiaryAggregate`, each accepted operation being
followed by `ApplyEvent` of the event it staged, the resulting domain state
and version equal those obtained by folding the staged events, in order, into
another fresh aggregate with `ApplyEvent`. -/
theorem replay_equals_run_and_apply (id id2 : String)
    (ops : List (String × Time × DiaryCommand)) :
    ((NewDiaryAggregate id2).replay
        ((NewDiaryAggregate id).runAndApply ops).GetUncommittedEvents).domainState
      = ((NewDiaryAggregate id).runAndApply ops).domainState ∧
    ((NewDiaryAggregate id2).replay
        ((NewDiaryAggregate id).runAndApply ops).GetUncommittedEvents).GetVersion
      = ((NewDiaryAggregate id).runAndApply ops).GetVersion := by
  obtain ⟨staged, hs, hag⟩ :=
    diary_runAndApply_agree ops (NewDiaryAggregate id) (NewDiaryAggregate id2) ⟨rfl, rfl⟩
  have hs2 : ((NewDiaryAggregate id).runAndApply ops).GetUncommittedEvents = staged := by
    have : (NewDiaryAggregate id).uncommittedEvents = [] := rfl
    rw [this] at hs
    simpa [BaseAggregate.GetUncommittedEvents] using hs
  rw [hs2]
  exact ⟨hag.1.symm, hag.2.symm⟩

theorem LoadFromHistory_result_witness :
    ((NewBaseAggregate "A").LoadFromHistory [evA1, evA2]).1.GetVersion = evA2.Version :=
  (LoadFromHistory_result (NewBaseAggregate "A") [evA1, evA2]).2.2.1 evA2 (by decide) (by decide)

/-! ## The stream-database adapter -/

theorem expectedRevision_conflict_iff (existingEvents eventList : List Event)
    (firstEventVersion : Int) (last : Event) (hlast : existingEvents.getLast? = some last) :
    (EventStoreDBEventStore.expectedRevision existingEvents eventList firstEventVersion
        = Except.error ErrVersionConflict ↔
      last.Version ≠ wrapInt64 (firstEventVersion - eventList.length)) ∧
    (EventStoreDBEventStore.expectedRevision [] eventList firstEventVersion
        = Except.error ErrVersionConflict ↔ firstEventVersion ≠ 1) := by
  unfold EventStoreDBEventStore.expectedRevision
  rw [hlast]
  constructor
  · by_cases h : last.Version = wrapInt64 (firstEventVersion - eventList.length) <;> simp [h]
  · by_cases h : firstEventVersion = 1 <;> simp [h]

/-- C11 fails on the code: on an existing stream the pre-check compares the
last persisted version with `firstEventVersion - len(eventList)`, not with
`firstEventVersion - 1`. The stream `metachat-A` holds one event, at version
1 (`L = 1`). The group of two events at versions 2 and 3 (first version
`L + 1`) is rejected with `ErrVersionConflict` before any append; the group at
versions 3 and 4 (first version `L + k`) passes the pre-check and is appended
with expected revision 1; a single event at version 2 passes. -/
theorem SaveEvents_precheck_counts_the_group :
    (EventStoreDBEventStore.GetEventsByAggregateID exampleLibrary exampleStreamStore "A").1.map
        Event.Version = [1] ∧
    EventStoreDBEventStore.SaveEvents exampleLibrary exampleStreamStore [streamA2, streamA3]
      = (ErrVersionConflict, [BackendCall.ReadStream "metachat-A" maxUint64]) ∧
    (EventStoreDBEventStore.expectedRevision
        (EventStoreDBEventStore.GetEventsByAggregateID exampleLibrary exampleStreamStore "A").1
        [streamA3, streamA4] streamA3.Version).toOption
      = some (ExpectedRevision.Revision 1) ∧
    (EventStoreDBEventStore.SaveEvents exampleLibrary exampleStreamStore
        [streamA3, streamA4]).1 = GoError.nil ∧
    (EventStoreDBEventStore.SaveEvents exampleLibrary exampleStreamStore
        [streamA3, streamA4]).2
      = [BackendCall.ReadStream "metachat-A" maxUint64,
         BackendCall.AppendToStream "metachat-A" (ExpectedRevision.Revision 1)
          ((EventStoreDBEventStore.proposedEvents exampleLibrary "A"
            [streamA3, streamA4]).toOption.getD [])] ∧
    ((EventStoreDBEventStore.proposedEvents exampleLibrary "A"
        [streamA3, streamA4]).toOption.getD []).length = 2 ∧
    (EventStoreDBEventStore.SaveEvents exampleLibrary exampleStreamStore [streamA2]).1
      = GoError.nil := by
  decide

theorem proposedEvents_mismatch (lib : Library) (aggregateID : String) :
    ∀ eventList : List Event, (∃ x ∈ eventList, x.AggregateID ≠ aggregateID) →
      ∃ err, EventStoreDBEventStore.proposedEvents lib aggregateID eventList = Except.error err ∧
        GetEventStoreErrorCode err = ErrCodeSerialization := by
  intro eventList
  induction eventList with
  | nil => intro h; obtain ⟨x, hx, _⟩ := h; simp at hx
  | cons event rest ih =>
    intro h
    unfold EventStoreDBEventStore.proposedEvents
    by_cases hid : event.AggregateID = aggregateID
    · rw [if_neg (by simpa using hid)]
      have hrest : ∃ x ∈ rest, x.AggregateID ≠ aggregateID := by
        obtain ⟨x, hx, hne⟩ := h
        rcases List.mem_cons.1 hx with hx | hx
        · subst hx; exact absurd hid hne
        · exact ⟨x, hx, hne⟩
      obtain ⟨err, herr, hcode⟩ := ih hrest
      cases hm : marshalMap (EventStoreDBEventStore.packMetadata lib event) with
      | none => exact ⟨_, rfl, rfl⟩
      | some metadataBytes =>
        cases hu : lib.uuidParse event.ID with
        | none => exact ⟨_, rfl, rfl⟩
        | some eventUUID =>
          simp only [herr]
          exact ⟨err, rfl, hcode⟩
    · rw [if_pos hid]
      exact ⟨_, rfl, rfl⟩

/-- C13: for a non-empty group whose first event has an empty aggregate id,
or one of whose events has an aggregate id different from the first event's,
the stream-database `SaveEvents` returns an error of code
`SERIALIZATION_ERROR` and has issued no request (read or append) to the
backend; for the empty group it returns nil, without any request. -/
theorem SaveEvents_validates_before_backend (lib : Library) (e : EventStoreDBEventStore)
    (first : Event) (rest : List Event)
    (h : first.AggregateID = "" ∨ ∃ x ∈ first :: rest, x.AggregateID ≠ first.AggregateID) :
    GetEventStoreErrorCode (EventStoreDBEventStore.SaveEvents lib e (first :: rest)).1
      = ErrCodeSerialization ∧
    IsEventStoreError (EventStoreDBEventStore.SaveEvents lib e (first :: rest)).1 = true ∧
    (EventStoreDBEventStore.SaveEvents lib e (first :: rest)).2 = [] ∧
    EventStoreDBEventStore.SaveEvents lib e [] = (GoError.nil, []) := by
  have hsave : ∃ err, EventStoreDBEventStore.SaveEvents lib e (first :: rest) = (err, []) ∧
      GetEventStoreErrorCode err = ErrCodeSerialization := by
    unfold EventStoreDBEventStore.SaveEvents
    by_cases hempty : first.AggregateID = ""
    · simp only [if_pos hempty]
      exact ⟨_, rfl, rfl⟩
    · have hex : ∃ x ∈ first :: rest, x.AggregateID ≠ first.AggregateID := by
        rcases h with h | h
        · exact absurd h hempty
        · exact h
      obtain ⟨err, herr, hcode⟩ :=
        proposedEvents_mismatch lib first.AggregateID (first :: rest) hex
      simp only [if_neg hempty, herr]
      exact ⟨err, rfl, hcode⟩
  obtain ⟨err, hs, hcode⟩ := hsave
  rw [hs]
  refine ⟨hcode, ?_, rfl, rfl⟩
  unfold IsEventStoreError
  unfold GetEventStoreErrorCode at hcode
  cases ha : asEventStoreError err with
  | none =>
    rw [ha] at hcode
    exact absurd hcode (by decide)
  | some v => rfl

theorem SaveEvents_validates_before_backend_witness :
    GetEventStoreErrorCode
        (EventStoreDBEventStore.SaveEvents exampleLibrary exampleStreamStore
          [streamA2, streamB1]).1 = ErrCodeSerialization ∧
    (EventStoreDBEventStore.SaveEvents exampleLibrary exampleStreamStore
        [streamA2, streamB1]).2 = [] :=
  let h := SaveEvents_validates_before_backend exampleLibrary exampleStreamStore streamA2
    [streamB1] (Or.inr ⟨streamB1, by decide, by decide⟩)
  ⟨h.1, h.2.2.1⟩

/-! ## The wide-column adapter -/

theorem batchRows_error_code (lib : Library) (c : CassandraEventStore) :
    ∀ (eventList : List Event) (n : Nat) (err : GoError),
      CassandraEventStore.batchRows lib c n eventList = Except.error err →
      GetEventStoreErrorCode err = ErrCodeSerialization := by
  intro eventList
  induction eventList with
  | nil => intro n err h; simp [CassandraEventStore.batchRows] at h
  | cons event rest ih =>
    intro n err h
    unfold CassandraEventStore.batchRows at h
    cases hp : event.Payload.marshal with
    | none =>
      rw [hp] at h
      simp only at h
      injection h with h
      rw [← h]; rfl
    | some payloadJSON =>
      rw [hp] at h
      simp only at h
      cases hm : marshalMap event.Metadata with
      | none =>
        rw [hm] at h
        simp only at h
        injection h with h
        rw [← h]; rfl
      | some metadataJSON =>
        rw [hm] at h
        simp only at h
        cases hu : lib.uuidParse event.AggregateID with
        | none =>
          rw [hu] at h
          simp only at h
          injection h with h
          rw [← h]; rfl
        | some aggregateID =>
          rw [hu] at h
          simp only at h
          cases hr : CassandraEventStore.batchRows lib c (n + 1) rest with
          | error err2 =>
            rw [hr] at h
            simp only at h
            injection h with h
            rw [← h]
            exact ih (n + 1) err2 hr
          | ok rows =>
            rw [hr] at h
            simp only at h
            cases h

/-- C12 fails on the code: the wide-column `SaveEvents` has no pre-check. It
never reads the persisted events and never returns an error of code
`VERSION_CONFLICT`: every error it returns has the code `SERIALIZATION_ERROR`
or `STORAGE_ERROR`. For an aggregate that already holds versions 1 and 2, a
group made of one event at version 2 (first version not `existing_count + 1`)
is submitted as a batch and nil is returned. -/
theorem cassandra_SaveEvents_has_no_precheck :
    (∀ (lib : Library) (c : CassandraEventStore) (eventList : List Event),
      GetEventStoreErrorCode (CassandraEventStore.SaveEvents lib c eventList).1
        ≠ ErrCodeVersionConflict) ∧
    (CassandraEventStore.SaveEvents exampleLibrary exampleCassandraStore [columnA2]).1
      = GoError.nil ∧
    ((CassandraEventStore.SaveEvents exampleLibrary exampleCassandraStore [columnA2]).2.map
        fun batch => batch.map fun row => (row.aggregate_id, row.version, row.payload))
      = [[("11111111-1111-4111-8111-111111111111", 2,
            JSONValue.object [("title", JSONValue.string "overwritten")])]] := by
  refine ⟨?_, by decide, by decide⟩
  intro lib c eventList
  unfold CassandraEventStore.SaveEvents
  cases hb : CassandraEventStore.batchRows lib c 0 eventList with
  | error err =>
    simp only
    rw [batchRows_error_code lib c eventList 0 err hb]
    decide
  | ok batch =>
    simp only
    by_cases hx : c.session.ExecuteBatch batch = GoError.nil
    · rw [if_neg (by simpa using hx)]
      show GetEventStoreErrorCode GoError.nil ≠ ErrCodeVersionConflict
      decide
    · rw [if_pos hx]
      show ErrCodeStorage ≠ ErrCodeVersionConflict
      decide

/-! ## The in-memory log under writes -/

theorem SaveEvents_extends_log : ∀ (eventList : List Event) (m : MemoryEventStore),
    m.events <+: (SaveEvents m eventList).1.events := by
  intro eventList
  induction eventList with
  | nil => intro m; exact List.prefix_refl _
  | cons e rest ih =>
    intro m
    unfold SaveEvents
    by_cases hc : versionConflict m.events e = true
    · rw [if_pos hc]
    · rw [if_neg hc]
      exact (List.prefix_append m.events [e]).trans
        (ih ⟨m.events ++ [e], indexAppend m.index e.AggregateID m.events.length⟩)

theorem SaveEvents_no_collision : ∀ (group : List Event) (m : MemoryEventStore),
    NoCollision m.events group →
    (SaveEvents m group).2 = GoError.nil ∧ (SaveEvents m group).1.events = m.events ++ group := by
  intro group
  induction group with
  | nil => intro m _; exact ⟨rfl, by simp [SaveEvents]⟩
  | cons e rest ih =>
    intro m h
    obtain ⟨hstored, hgroup⟩ := h
    have hfree : ¬ versionConflict m.events e = true := by
      intro hc
      obtain ⟨x, hx, hpair⟩ := (versionConflict_iff _ _).1 hc
      exact hstored e (List.mem_cons_self _ _) x hx hpair
    unfold SaveEvents
    rw [if_neg hfree]
    have hrest : NoCollision (m.events ++ [e]) rest := by
      refine ⟨?_, (List.pairwise_cons.1 hgroup).2⟩
      intro y hy x hx
      rcases List.mem_append.1 hx with hx | hx
      · exact hstored y (List.mem_cons_of_mem _ hy) x hx
      · have hxe : x = e := by simpa using hx
        subst hxe
        exact (List.pairwise_cons.1 hgroup).1 y hy
    obtain ⟨h1, h2⟩ :=
      ih ⟨m.events ++ [e], indexAppend m.index e.AggregateID m.events.length⟩ hrest
    refine ⟨h1, ?_⟩
    rw [h2]
    simp

theorem mem_sortByVersion (l : List Event) (e : Event) : e ∈ sortByVersion l ↔ e ∈ l :=
  (sortByVersion_perm l).mem_iff

/-- C28: for every store state and every `SaveEvents` call, whatever it
returns, the log before the call is a prefix of the log after it, so every
event of the log is still in the log; in every state a store can be in, every
event that `GetEventsByAggregateID` returned before the call is returned by it
after the call. The four read operations are functions of the store that
return no new store: they assign neither to the log nor to the index. -/
theorem log_never_shrinks (m : MemoryEventStore) (eventList : List Event) :
    m.events <+: (SaveEvents m eventList).1.events ∧
    (∀ e ∈ m.events, e ∈ (SaveEvents m eventList).1.events) ∧
    (Reachable m → ∀ id, ∃ before after,
      GetEventsByAggregateID m id = some (before, GoError.nil) ∧
      GetEventsByAggregateID (SaveEvents m eventList).1 id = some (after, GoError.nil) ∧
      ∀ e ∈ before, e ∈ after) := by
  refine ⟨SaveEvents_extends_log eventList m,
    fun e he => (SaveEvents_extends_log eventList m).subset he, ?_⟩
  intro hr id
  have hinv := inv_of_reachable hr
  refine ⟨_, _, GetEventsByAggregateID_of_inv m hinv id,
    GetEventsByAggregateID_of_inv _ (inv_SaveEvents eventList m hinv) id, ?_⟩
  intro e he
  rw [mem_sortByVersion] at he ⊢
  unfold ofAggregate at he ⊢
  rw [List.mem_filter] at he ⊢
  exact ⟨(SaveEvents_extends_log eventList m).subset he.1, he.2⟩

theorem log_never_shrinks_witness :
    (SaveEvents NewMemoryEventStore [evA1, evB1]).1.events
        <+: (SaveEvents (SaveEvents NewMemoryEventStore [evA1, evB1]).1 [evA2, evB1, evA3]).1.events ∧
    ∃ before after,
      GetEventsByAggregateID (SaveEvents NewMemoryEventStore [evA1, evB1]).1 "A"
        = some (before, GoError.nil) ∧
      GetEventsByAggregateID
          (SaveEvents (SaveEvents NewMemoryEventStore [evA1, evB1]).1 [evA2, evB1, evA3]).1 "A"
        = some (after, GoError.nil) ∧
      ∀ e ∈ before, e ∈ after :=
  ⟨(log_never_shrinks (SaveEvents NewMemoryEventStore [evA1, evB1]).1 [evA2, evB1, evA3]).1,
    (log_never_shrinks (SaveEvents NewMemoryEventStore [evA1, evB1]).1 [evA2, evB1, evA3]).2.2
      (Reachable.save _ Reachable.init) "A"⟩

/-- C29: the in-memory `SaveEvents` does not ask for a single aggregate id
per call. For every state a store can be in and every group, of whatever
aggregate ids, in which no `(AggregateID, Version)` pair is the pair of a
stored event or of another event of the group, `SaveEvents` returns nil and
appends the whole group; afterwards each event of the group is returned by
`GetEventsByAggregateID` of its own aggregate id and of no other one. -/
theorem SaveEvents_mixed_group (m : MemoryEventStore) (h : Reachable m) (group : List Event)
    (hfree : NoCollision m.events group) :
    (SaveEvents m group).2 = GoError.nil ∧
    (SaveEvents m group).1.events = m.events ++ group ∧
    ∀ id, ∃ result,
      GetEventsByAggregateID (SaveEvents m group).1 id = some (result, GoError.nil) ∧
      ∀ e ∈ group, (e ∈ result ↔ e.AggregateID = id) := by
  obtain ⟨hnil, hlog⟩ := SaveEvents_no_collision group m hfree
  refine ⟨hnil, hlog, ?_⟩
  intro id
  refine ⟨_, GetEventsByAggregateID_of_inv _ (inv_SaveEvents group m (inv_of_reachable h)) id, ?_⟩
  intro e he
  rw [mem_sortByVersion, hlog]
  unfold ofAggregate
  rw [List.mem_filter]
  constructor
  · intro hx; simpa using hx.2
  · intro hid
    exact ⟨List.mem_append_right _ he, by simpa using hid⟩

theorem SaveEvents_mixed_group_witness :
    (SaveEvents (SaveEvents NewMemoryEventStore [evA1]).1 [evA2, evB1, evA3]).2 = GoError.nil ∧
    (SaveEvents (SaveEvents NewMemoryEventStore [evA1]).1 [evA2, evB1, evA3]).1.events
      = (SaveEvents NewMemoryEventStore [evA1]).1.events ++ [evA2, evB1, evA3] ∧
    ∀ id, ∃ result,
      GetEventsByAggregateID (SaveEvents (SaveEvents NewMemoryEventStore [evA1]).1
        [evA2, evB1, evA3]).1 id = some (result, GoError.nil) ∧
      ∀ e ∈ [evA2, evB1, evA3], (e ∈ result ↔ e.AggregateID = id) :=
  SaveEvents_mixed_group (SaveEvents NewMemoryEventStore [evA1]).1
    (Reachable.save _ Reachable.init) [evA2, evB1, evA3]
    ⟨by decide, by decide⟩

/-- C30: in every state reached from `NewMemoryEventStore()` by `SaveEvents`
calls (whatever they return, whatever the group, groups that repeat a pair
included) and `Clear` calls, no two events at different positions of the log
have the same `(AggregateID, Version)` pair. -/
theorem log_pairs_unique (m : MemoryEventStore) (h : Reachable m) :
    NoDupPairs m.events ∧
    ∀ (i j : Nat) (hi : i < m.events.length) (hj : j < m.events.length), i ≠ j →
      ¬(m.events[i].AggregateID = m.events[j].AggregateID ∧
        m.events[i].Version = m.events[j].Version) := by
  have hnd := (inv_of_reachable h).1
  refine ⟨hnd, ?_⟩
  intro i j hi hj hij
  unfold NoDupPairs at hnd
  rw [List.pairwise_iff_getElem] at hnd
  rcases Nat.lt_or_gt_of_ne hij with hlt | hgt
  · exact hnd i j hi hj hlt
  · intro hp
    exact hnd j i hj hi hgt ⟨hp.1.symm, hp.2.symm⟩

theorem log_pairs_unique_witness :
    NoDupPairs
      (SaveEvents (SaveEvents (Clear (SaveEvents NewMemoryEventStore [evB1]).1)
        [evA1, evA2, evA2x, evA3]).1 [evA3, evA1]).1.events ∧
    ¬((SaveEvents NewMemoryEventStore [evA1, evA2, evA2x]).1.events[0].AggregateID
          = (SaveEvents NewMemoryEventStore [evA1, evA2, evA2x]).1.events[1].AggregateID ∧
        (SaveEvents NewMemoryEventStore [evA1, evA2, evA2x]).1.events[0].Version
          = (SaveEvents NewMemoryEventStore [evA1, evA2, evA2x]).1.events[1].Version) :=
  ⟨(log_pairs_unique _
      (Reachable.save _ (Reachable.save _ (Reachable.clear (Reachable.save _ Reachable.init))))).1,
    (log_pairs_unique (SaveEvents NewMemoryEventStore [evA1, evA2, evA2x]).1
      (Reachable.save _ Reachable.init)).2 0 1 (by decide) (by decide) (by decide)⟩

/-! ## Version bookkeeping of `ApplyEvent` -/

theorem jsonUnmarshalError_ne_nil : jsonUnmarshalError ≠ GoError.nil := by decide

theorem diary_ApplyEvent_version (d : DiaryAggregate) (e : Event) :
    ((d.ApplyEvent e).2 = GoError.nil ∧
        (d.ApplyEvent e).1.version = wrapInt64 (d.version + 1)) ∨
      ((d.ApplyEvent e).2 ≠ GoError.nil ∧ (d.ApplyEvent e).1 = d) := by
  unfold DiaryAggregate.ApplyEvent
  by_cases h1 : e.Type_ = DiaryEntryCreatedEvent
  · rw [if_pos h1]
    unfold DiaryAggregate.applyDiaryEntryCreated
    cases hp : (e.UnmarshalPayload : Except GoError DiaryEntryCreatedPayload) with
    | error err =>
      right; simp only; rw [UnmarshalPayload_error e err hp]
      exact ⟨jsonUnmarshalError_ne_nil, trivial⟩
    | ok payload => left; exact ⟨rfl, rfl⟩
  · rw [if_neg h1]
    by_cases h2 : e.Type_ = DiaryEntryUpdatedEvent
    · rw [if_pos h2]
      unfold DiaryAggregate.applyDiaryEntryUpdated
      cases hp : (e.UnmarshalPayload : Except GoError DiaryEntryUpdatedPayload) with
      | error err =>
        right; simp only; rw [UnmarshalPayload_error e err hp]
        exact ⟨jsonUnmarshalError_ne_nil, trivial⟩
      | ok payload => left; exact ⟨rfl, rfl⟩
    · rw [if_neg h2]
      by_cases h3 : e.Type_ = DiaryEntryDeletedEvent
      · rw [if_pos h3]
        unfold DiaryAggregate.applyDiaryEntryDeleted
        cases hp : (e.UnmarshalPayload : Except GoError DiaryEntryDeletedPayload) with
        | error err =>
          right; simp only; rw [UnmarshalPayload_error e err hp]
          exact ⟨jsonUnmarshalError_ne_nil, trivial⟩
        | ok payload => left; exact ⟨rfl, rfl⟩
      · rw [if_neg h3]
        right
        exact ⟨errorsNew_ne_nil _, rfl⟩

theorem user_ApplyEvent_version (u : UserAggregate) (e : Event) :
    ((u.ApplyEvent e).2 = GoError.nil ∧
        (u.ApplyEvent e).1.version = wrapInt64 (u.version + 1)) ∨
      ((u.ApplyEvent e).2 ≠ GoError.nil ∧ (u.ApplyEvent e).1 = u) := by
  unfold UserAggregate.ApplyEvent
  by_cases h1 : e.Type_ = UserRegisteredEvent
  · rw [if_pos h1]
    unfold UserAggregate.applyUserRegistered
    cases hp : (e.UnmarshalPayload : Except GoError UserRegisteredPayload) with
    | error err =>
      right; simp only; rw [UnmarshalPayload_error e err hp]
      exact ⟨jsonUnmarshalError_ne_nil, trivial⟩
    | ok payload => left; exact ⟨rfl, rfl⟩
  · rw [if_neg h1]
    by_cases h2 : e.Type_ = UserProfileUpdatedEvent
    · rw [if_pos h2]
      unfold UserAggregate.applyUserProfileUpdated
      cases hp : (e.UnmarshalPayload : Except GoError UserProfileUpdatedPayload) with
      | error err =>
        right; simp only; rw [UnmarshalPayload_error e err hp]
        exact ⟨jsonUnmarshalError_ne_nil, trivial⟩
      | ok payload => left; exact ⟨rfl, rfl⟩
    · rw [if_neg h2]
      by_cases h3 : e.Type_ = UserArchetypeAssignedEvent
      · rw [if_pos h3]
        unfold UserAggregate.applyUserArchetypeAssigned
        cases hp : (e.UnmarshalPayload : Except GoError UserArchetypeAssignedPayload) with
        | error err =>
          right; simp only; rw [UnmarshalPayload_error e err hp]
          exact ⟨jsonUnmarshalError_ne_nil, trivial⟩
        | ok payload => left; exact ⟨rfl, rfl⟩
      · rw [if_neg h3]
        by_cases h4 : e.Type_ = UserArchetypeUpdatedEvent
        · rw [if_pos h4]
          unfold UserAggregate.applyUserArchetypeUpdated
          cases hp : (e.UnmarshalPayload : Except GoError UserArchetypeUpdatedPayload) with
          | error err =>
            right; simp only; rw [UnmarshalPayload_error e err hp]
            exact ⟨jsonUnmarshalError_ne_nil, trivial⟩
          | ok payload => left; exact ⟨rfl, rfl⟩
        · rw [if_neg h4]
          by_cases h5 : e.Type_ = UserModalitiesUpdatedEvent
          · rw [if_pos h5]
            unfold UserAggregate.applyUserModalitiesUpdated
            cases hp : (e.UnmarshalPayload : Except GoError UserModalitiesUpdatedPayload) with
            | error err =>
              right; simp only; rw [UnmarshalPayload_error e err hp]
              exact ⟨jsonUnmarshalError_ne_nil, trivial⟩
            | ok payload => left; exact ⟨rfl, rfl⟩
          · rw [if_neg h5]
            right
            exact ⟨errorsNew_ne_nil _, rfl⟩

theorem diary_replay_version : ∀ (history : List Event) (d : DiaryAggregate),
    d.replaySucceeds history = true → 0 ≤ d.version →
    d.version + history.length < 2 ^ 63 →
    (d.replay history).version = d.version + history.length := by
  intro history
  induction history with
  | nil => intro d _ _ _; simp [DiaryAggregate.replay]
  | cons e rest ih =>
    intro d hs h0 hN
    unfold DiaryAggregate.replaySucceeds at hs
    rw [Bool.and_eq_true, decide_eq_true_eq] at hs
    unfold DiaryAggregate.replay
    have hlen : ((e :: rest).length : Int) = rest.length + 1 := by simp
    rw [hlen] at hN ⊢
    rcases diary_ApplyEvent_version d e with ⟨_, hv⟩ | ⟨hne, _⟩
    · rw [wrapInt64_of_inRange _ (by omega) (by omega)] at hv
      rw [ih _ hs.2 (by omega) (by omega), hv]
      omega
    · exact absurd hs.1 hne

theorem user_replay_version : ∀ (history : List Event) (u : UserAggregate),
    u.replaySucceeds history = true → 0 ≤ u.version →
    u.version + history.length < 2 ^ 63 →
    (u.replay history).version = u.version + history.length := by
  intro history
  induction history with
  | nil => intro u _ _ _; simp [UserAggregate.replay]
  | cons e rest ih =>
    intro u hs h0 hN
    unfold UserAggregate.replaySucceeds at hs
    rw [Bool.and_eq_true, decide_eq_true_eq] at hs
    unfold UserAggregate.replay
    have hlen : ((e :: rest).length : Int) = rest.length + 1 := by simp
    rw [hlen] at hN ⊢
    rcases user_ApplyEvent_version u e with ⟨_, hv⟩ | ⟨hne, _⟩
    · rw [wrapInt64_of_inRange _ (by omega) (by omega)] at hv
      rw [ih _ hs.2 (by omega) (by omega), hv]
      omega
    · exact absurd hs.1 hne

/-- A history whose versions are `1, 2, ..., N`, each of them a Go `int`, has
`N` events and `N` is below `2 ^ 63`. -/
theorem history_length_of_versions (history : List Event) (N : Nat)
    (hver : history.map Event.Version = (List.range N).map fun (i : Nat) => (i : Int) + 1)
    (hint : ∀ e ∈ history, e.Version < 2 ^ 63) :
    history.length = N ∧ (N : Int) < 2 ^ 63 ∧
      (0 < N → history.getLast?.map Event.Version = some (N : Int)) := by
  have hlen : history.length = N := by
    have := congrArg List.length hver
    simpa using this
  refine ⟨hlen, ?_, ?_⟩
  · cases N with
    | zero => norm_num
    | succ n =>
      have hmem : ((n : Int) + 1) ∈ history.map Event.Version := by
        rw [hver]
        exact List.mem_map.2 ⟨n, List.mem_range.2 (Nat.lt_succ_self n), rfl⟩
      obtain ⟨e, he, hev⟩ := List.mem_map.1 hmem
      have := hint e he
      push_cast
      omega
  · intro hN
    have h1 : (history.map Event.Version).getLast? = some (N : Int) := by
      rw [hver]
      cases N with
      | zero => omega
      | succ n =>
        rw [List.range_succ, List.map_append]
        simp
    rw [← h1]
    simp [List.getLast?_map]

/-! ## Aggregates: version bookkeeping and `LoadFromHistory` twice -/

/-- C21: a freshly constructed aggregate has version 0; every successful
`ApplyEvent` increases the version by exactly 1 (`version++`: the Go value of
`version + 1`, which is the integer `version + 1` for every version below the
largest `int`) and every failed `ApplyEvent` leaves the aggregate, hence its
version, unchanged; folding with `ApplyEvent` a history whose versions are
`1, 2, ..., N` into a fresh aggregate, every application succeeding, ends
with `GetVersion() = N`, the version of the last applied event. This holds for
`DiaryAggregate` and for `UserAggregate`. -/
theorem version_bookkeeping (id : String) (d : DiaryAggregate) (u : UserAggregate) (e : Event)
    (history : List Event) (N : Nat) :
    (NewBaseAggregate id).GetVersion = 0 ∧ (NewDiaryAggregate id).GetVersion = 0 ∧
    (NewUserAggregate id).GetVersion = 0 ∧
    ((d.ApplyEvent e).2 = GoError.nil →
      (d.ApplyEvent e).1.GetVersion = wrapInt64 (d.GetVersion + 1) ∧
      (-(2 ^ 63) ≤ d.GetVersion → d.GetVersion < 2 ^ 63 - 1 →
        (d.ApplyEvent e).1.GetVersion = d.GetVersion + 1)) ∧
    ((d.ApplyEvent e).2 ≠ GoError.nil → (d.ApplyEvent e).1 = d) ∧
    ((u.ApplyEvent e).2 = GoError.nil →
      (u.ApplyEvent e).1.GetVersion = wrapInt64 (u.GetVersion + 1) ∧
      (-(2 ^ 63) ≤ u.GetVersion → u.GetVersion < 2 ^ 63 - 1 →
        (u.ApplyEvent e).1.GetVersion = u.GetVersion + 1)) ∧
    ((u.ApplyEvent e).2 ≠ GoError.nil → (u.ApplyEvent e).1 = u) ∧
    ((history.map Event.Version = (List.range N).map fun (i : Nat) => (i : Int) + 1) →
      (∀ x ∈ history, x.Version < 2 ^ 63) →
      ((NewDiaryAggregate id).replaySucceeds history = true →
        ((NewDiaryAggregate id).replay history).GetVersion = N) ∧
      ((NewUserAggregate id).replaySucceeds history = true →
        ((NewUserAggregate id).replay history).GetVersion = N) ∧
      (0 < N → history.getLast?.map Event.Version = some (N : Int))) := by
  refine ⟨rfl, rfl, rfl, ?_, ?_, ?_, ?_, ?_⟩
  · intro hok
    rcases diary_ApplyEvent_version d e with ⟨_, hv⟩ | ⟨hne, _⟩
    · refine ⟨hv, fun h1 h2 => ?_⟩
      have hv2 : (d.ApplyEvent e).1.GetVersion = wrapInt64 (d.GetVersion + 1) := hv
      rw [hv2]
      exact wrapInt64_of_inRange _ (by omega) (by omega)
    · exact absurd hok hne
  · intro hne
    rcases diary_ApplyEvent_version d e with ⟨hok, _⟩ | ⟨_, hsame⟩
    · exact absurd hok hne
    · exact hsame
  · intro hok
    rcases user_ApplyEvent_version u e with ⟨_, hv⟩ | ⟨hne, _⟩
    · refine ⟨hv, fun h1 h2 => ?_⟩
      have hv2 : (u.ApplyEvent e).1.GetVersion = wrapInt64 (u.GetVersion + 1) := hv
      rw [hv2]
      exact wrapInt64_of_inRange _ (by omega) (by omega)
    · exact absurd hok hne
  · intro hne
    rcases user_ApplyEvent_version u e with ⟨hok, _⟩ | ⟨_, hsame⟩
    · exact absurd hok hne
    · exact hsame
  · intro hver hint
    obtain ⟨hlen, hN, hlast⟩ := history_length_of_versions history N hver hint
    refine ⟨?_, ?_, hlast⟩
    · intro hs
      have h := diary_replay_version history (NewDiaryAggregate id) hs (le_refl _)
        (by rw [hlen]; show (0 : Int) + N < 2 ^ 63; omega)
      rw [hlen] at h
      show ((NewDiaryAggregate id).replay history).version = N
      rw [h]
      show (0 : Int) + N = N
      omega
    · intro hs
      have h := user_replay_version history (NewUserAggregate id) hs (le_refl _)
        (by rw [hlen]; show (0 : Int) + N < 2 ^ 63; omega)
      rw [hlen] at h
      show ((NewUserAggregate id).replay history).version = N
      rw [h]
      show (0 : Int) + N = N
      omega

theorem version_bookkeeping_witness :
    ((NewDiaryAggregate "d-1").ApplyEvent diaryCreated).1.GetVersion
      = (NewDiaryAggregate "d-1").GetVersion + 1 ∧
    (diaryHello.ApplyEvent userRegistered).1 = diaryHello ∧
    ((NewUserAggregate "u-1").ApplyEvent userRegistered).1.GetVersion
      = (NewUserAggregate "u-1").GetVersion + 1 ∧
    (userBob.ApplyEvent diaryCreated).1 = userBob ∧
    ((NewDiaryAggregate "d-1").replay
        [diaryCreated, { diaryCreated with Type_ := DiaryEntryDeletedEvent, Version := 2 }]).GetVersion
      = (2 : Nat) ∧
    ((NewUserAggregate "u-1").replay [userRegistered]).GetVersion = (1 : Nat) ∧
    [userRegistered].getLast?.map Event.Version = some ((1 : Nat) : Int) :=
  let h := version_bookkeeping "d-1" (NewDiaryAggregate "d-1") (NewUserAggregate "u-1")
    diaryCreated [diaryCreated, { diaryCreated with Type_ := DiaryEntryDeletedEvent, Version := 2 }]
    2
  let m := version_bookkeeping "u-1" (NewDiaryAggregate "d-1") (NewUserAggregate "u-1")
    diaryCreated [userRegistered] 1
  let k := version_bookkeeping "u-1" diaryHello userBob userRegistered [] 0
  let l := version_bookkeeping "u-1" diaryHello (NewUserAggregate "u-1") userRegistered [] 0
  let j := version_bookkeeping "u-1" diaryHello userBob diaryCreated [] 0
  ⟨(h.2.2.2.1 (by decide)).2 (by decide) (by decide),
    k.2.2.2.2.1 (by decide),
    (l.2.2.2.2.2.1 (by decide)).2 (by decide) (by decide),
    j.2.2.2.2.2.2.1 (by decide),
    (h.2.2.2.2.2.2.2 (by decide) (by decide)).1 (by decide),
    (m.2.2.2.2.2.2.2 (by decide) (by decide)).2.1 (by decide),
    (m.2.2.2.2.2.2.2 (by decide) (by decide)).2.2 (by decide)⟩

/-- C22: for every aggregate and every history all of whose events belong to
it, `LoadFromHistory(history)` called twice in a row leaves the aggregate in
the state one call leaves it in (and returns nil both times); two fresh
aggregates with the same id given the same history end in equal states. This
holds for `BaseAggregate` and for the two aggregates that embed it. -/
theorem LoadFromHistory_idempotent (a : BaseAggregate) (d : DiaryAggregate) (u : UserAggregate)
    (history : List Event) :
    ((∀ e ∈ history, e.AggregateID = a.GetID) →
      (a.LoadFromHistory history).2 = GoError.nil ∧
      (a.LoadFromHistory history).1.LoadFromHistory history = a.LoadFromHistory history) ∧
    ((∀ e ∈ history, e.AggregateID = d.GetID) →
      (d.LoadFromHistory history).2 = GoError.nil ∧
      (d.LoadFromHistory history).1.LoadFromHistory history = d.LoadFromHistory history) ∧
    ((∀ e ∈ history, e.AggregateID = u.GetID) →
      (u.LoadFromHistory history).2 = GoError.nil ∧
      (u.LoadFromHistory history).1.LoadFromHistory history = u.LoadFromHistory history) ∧
    (∀ (id : String) (a₁ a₂ : BaseAggregate), a₁ = NewBaseAggregate id → a₂ = NewBaseAggregate id →
      a₁.LoadFromHistory history = a₂.LoadFromHistory history) ∧
    (∀ (id : String) (d₁ d₂ : DiaryAggregate), d₁ = NewDiaryAggregate id →
      d₂ = NewDiaryAggregate id → d₁.LoadFromHistory history = d₂.LoadFromHistory history) ∧
    (∀ (id : String) (u₁ u₂ : UserAggregate), u₁ = NewUserAggregate id →
      u₂ = NewUserAggregate id → u₁.LoadFromHistory history = u₂.LoadFromHistory history) := by
  have base : ∀ b : BaseAggregate, (∀ e ∈ history, e.AggregateID = b.id) →
      (b.LoadFromHistory history).2 = GoError.nil ∧
      (b.LoadFromHistory history).1.LoadFromHistory history = b.LoadFromHistory history := by
    intro b hb
    have h1 := LoadFromHistory_ok history b hb
    have h2 := LoadFromHistory_ok history
      { b with version := (history.getLast?.map Event.Version).getD b.version } hb
    refine ⟨by rw [h1], ?_⟩
    rw [h1]
    simp only
    rw [h2]
    cases history.getLast? with
    | none => rfl
    | some last => rfl
  refine ⟨base a, ?_, ?_, ?_, ?_, ?_⟩
  · intro hd
    obtain ⟨h1, h2⟩ := base d.toBaseAggregate hd
    refine ⟨h1, ?_⟩
    unfold DiaryAggregate.LoadFromHistory
    simp only
    rw [h2]
  · intro hu
    obtain ⟨h1, h2⟩ := base u.toBaseAggregate hu
    refine ⟨h1, ?_⟩
    unfold UserAggregate.LoadFromHistory
    simp only
    rw [h2]
  · intro id a₁ a₂ h₁ h₂; rw [h₁, h₂]
  · intro id d₁ d₂ h₁ h₂; rw [h₁, h₂]
  · intro id u₁ u₂ h₁ h₂; rw [h₁, h₂]

theorem LoadFromHistory_idempotent_witness :
    ((NewBaseAggregate "d-1").LoadFromHistory
        [diaryCreated, { diaryCreated with Version := 2 }]).1.LoadFromHistory
        [diaryCreated, { diaryCreated with Version := 2 }]
      = (NewBaseAggregate "d-1").LoadFromHistory
        [diaryCreated, { diaryCreated with Version := 2 }] ∧
    (((NewDiaryAggregate "d-1").LoadFromHistory
        [diaryCreated, { diaryCreated with Version := 2 }]).1.LoadFromHistory
        [diaryCreated, { diaryCreated with Version := 2 }])
      = (NewDiaryAggregate "d-1").LoadFromHistory
        [diaryCreated, { diaryCreated with Version := 2 }] ∧
    (userBob.LoadFromHistory [userRegistered]).1.LoadFromHistory [userRegistered]
      = userBob.LoadFromHistory [userRegistered] ∧
    (NewBaseAggregate "d-1").LoadFromHistory [diaryCreated, { diaryCreated with Version := 2 }]
      = (NewBaseAggregate "d-1").LoadFromHistory
        [diaryCreated, { diaryCreated with Version := 2 }] :=
  let h := LoadFromHistory_idempotent (NewBaseAggregate "d-1") (NewDiaryAggregate "d-1")
    (NewUserAggregate "d-1") [diaryCreated, { diaryCreated with Version := 2 }]
  let k := LoadFromHistory_idempotent (NewBaseAggregate "u-1") (NewDiaryAggregate "u-1")
    userBob [userRegistered]
  ⟨(h.1 (by decide)).2, (h.2.1 (by decide)).2, (k.2.2.1 (by decide)).2,
    h.2.2.2.1 "d-1" _ _ rfl rfl⟩

/-! ## Error kinds and stream names -/

/-- C27: for every error value `err`, `IsEventStoreError(err)` is true exactly
when an `*EventStoreError` occurs in the unwrap chain of `err`
(`err`, `errors.Unwrap(err)`, ...); `GetEventStoreErrorCode(err)` is the `Code`
of the first such error and the empty string when there is none; the five
predefined errors carry the five codes, which are pairwise distinct and not
empty; the code extracted from `NewEventStoreError(code, msg, cause)` is
`code`, whatever the cause. -/
theorem error_kind_extraction (err : GoError) :
    (err ≠ GoError.nil → unwrapChain err = err :: unwrapChain err.Unwrap) ∧
    unwrapChain GoError.nil = [] ∧
    (IsEventStoreError err = true ↔ ∃ x ∈ unwrapChain err, isEventStoreErrorValue x = true) ∧
    GetEventStoreErrorCode err
      = (((unwrapChain err).find? isEventStoreErrorValue).map codeOf).getD "" ∧
    ((∀ x ∈ unwrapChain err, isEventStoreErrorValue x = false) →
      GetEventStoreErrorCode err = "") ∧
    GetEventStoreErrorCode ErrConnectionFailed = ErrCodeConnectionFailed ∧
    GetEventStoreErrorCode ErrEventNotFound = ErrCodeEventNotFound ∧
    GetEventStoreErrorCode ErrVersionConflict = ErrCodeVersionConflict ∧
    GetEventStoreErrorCode ErrSerialization = ErrCodeSerialization ∧
    GetEventStoreErrorCode ErrStorage = ErrCodeStorage ∧
    [ErrCodeConnectionFailed, ErrCodeEventNotFound, ErrCodeVersionConflict,
      ErrCodeSerialization, ErrCodeStorage].Nodup ∧
    (∀ c ∈ [ErrCodeConnectionFailed, ErrCodeEventNotFound, ErrCodeVersionConflict,
      ErrCodeSerialization, ErrCodeStorage], c ≠ "") ∧
    (∀ (code msg : String) (cause : GoError),
      IsEventStoreError (NewEventStoreError code msg cause) = true ∧
      GetEventStoreErrorCode (NewEventStoreError code msg cause) = code) := by
  have hcode : ∀ e : GoError, GetEventStoreErrorCode e
      = (((unwrapChain e).find? isEventStoreErrorValue).map codeOf).getD "" := by
    intro e
    induction e with
    | nil => rfl
    | native msg => rfl
    | eventStore c m e _ => rfl
    | wrapped msg e ih =>
      have h1 : GetEventStoreErrorCode (GoError.wrapped msg e) = GetEventStoreErrorCode e := rfl
      rw [h1, ih]
      rfl
  have his : ∀ e : GoError, IsEventStoreError e = true
      ↔ ∃ x ∈ unwrapChain e, isEventStoreErrorValue x = true := by
    intro e
    induction e with
    | nil => simp [IsEventStoreError, asEventStoreError, unwrapChain]
    | native msg =>
      simp [IsEventStoreError, asEventStoreError, unwrapChain, isEventStoreErrorValue]
    | eventStore c m e _ =>
      simp [IsEventStoreError, asEventStoreError, unwrapChain, isEventStoreErrorValue]
    | wrapped msg e ih =>
      have h1 : IsEventStoreError (GoError.wrapped msg e) = IsEventStoreError e := rfl
      rw [h1, ih]
      simp [unwrapChain, isEventStoreErrorValue]
  refine ⟨?_, rfl, his err, hcode err, ?_, rfl, rfl, rfl, rfl, rfl, by decide, by decide, ?_⟩
  · intro hne
    cases err with
    | nil => exact absurd rfl hne
    | native msg => rfl
    | eventStore c m e => rfl
    | wrapped msg e => rfl
  · intro hnone
    rw [hcode err]
    have : (unwrapChain err).find? isEventStoreErrorValue = none := by
      rw [List.find?_eq_none]
      intro x hx
      rw [hnone x hx]
      exact Bool.false_ne_true
    rw [this]
    rfl
  · intro code msg cause
    exact ⟨rfl, rfl⟩

theorem error_kind_extraction_witness :
    unwrapChain (GoError.wrapped "save failed" ErrStorage)
      = [GoError.wrapped "save failed" ErrStorage, ErrStorage] ∧
    GetEventStoreErrorCode
        (GoError.wrapped "save failed" (NewEventStoreError ErrCodeStorage "failed to save events"
          ErrVersionConflict)) = ErrCodeStorage ∧
    GetEventStoreErrorCode (GoError.wrapped "outer" (GoError.native "inner")) = "" :=
  ⟨(error_kind_extraction (GoError.wrapped "save failed" ErrStorage)).1 (by decide),
    ((error_kind_extraction
      (GoError.wrapped "save failed" (NewEventStoreError ErrCodeStorage "failed to save events"
        ErrVersionConflict))).2.2.2.1).trans (by decide),
    (error_kind_extraction (GoError.wrapped "outer" (GoError.native "inner"))).2.2.2.2.1
      (by decide)⟩

theorem string_append_left_cancel (p a b : String) (h : p ++ a = p ++ b) : a = b := by
  have h2 := congrArg String.data h
  simp only [String.data_append] at h2
  have h3 := List.append_cancel_left h2
  exact String.ext h3

/-- C25: for every store and aggregate id, `getStreamName(id)` is exactly
`streamPrefix` followed by `-` followed by `id`; the `streamPrefix` of a store
made by `NewEventStoreDBEventStore` is the constructor argument, or
`metachat` when that argument is empty (the constructor returns a store
whenever the connection string parses and the client is created);
consequently, for a fixed store, distinct aggregate ids have distinct stream
names. -/
theorem stream_naming {Configuration : Type}
    (ParseConnectionString : String → Except GoError Configuration)
    (NewClient : Configuration → Except GoError Client)
    (connectionString streamPrefix : String) (e : EventStoreDBEventStore) :
    (∀ id, e.getStreamName id = e.streamPrefix ++ "-" ++ id) ∧
    (∀ id₁ id₂, id₁ ≠ id₂ → e.getStreamName id₁ ≠ e.getStreamName id₂) ∧
    (∀ config dbClient, ParseConnectionString connectionString = Except.ok config →
      NewClient config = Except.ok dbClient →
      ∃ store, NewEventStoreDBEventStore ParseConnectionString NewClient connectionString
          streamPrefix = Except.ok store) ∧
    (∀ store, NewEventStoreDBEventStore ParseConnectionString NewClient connectionString
        streamPrefix = Except.ok store →
      store.streamPrefix = (if streamPrefix = "" then "metachat" else streamPrefix) ∧
      (streamPrefix ≠ "" → ∀ id, store.getStreamName id = streamPrefix ++ "-" ++ id) ∧
      (streamPrefix = "" → ∀ id, store.getStreamName id = "metachat-" ++ id) ∧
      ∀ id₁ id₂, id₁ ≠ id₂ → store.getStreamName id₁ ≠ store.getStreamName id₂) := by
  have hinj : ∀ (s : EventStoreDBEventStore) (id₁ id₂ : String), id₁ ≠ id₂ →
      s.getStreamName id₁ ≠ s.getStreamName id₂ := by
    intro s id₁ id₂ hne heq
    unfold EventStoreDBEventStore.getStreamName at heq
    exact hne (string_append_left_cancel _ _ _ heq)
  refine ⟨fun _ => rfl, hinj e, ?_, ?_⟩
  · intro config dbClient hp hc
    refine ⟨⟨dbClient, if streamPrefix = "" then "metachat" else streamPrefix⟩, ?_⟩
    unfold NewEventStoreDBEventStore
    rw [hp]
    simp only
    rw [hc]
  · intro store hstore
    have hpre : store.streamPrefix = (if streamPrefix = "" then "metachat" else streamPrefix) := by
      unfold NewEventStoreDBEventStore at hstore
      cases hp : ParseConnectionString connectionString with
      | error err => rw [hp] at hstore; simp only at hstore; cases hstore
      | ok config =>
        rw [hp] at hstore
        simp only at hstore
        cases hc : NewClient config with
        | error err => rw [hc] at hstore; simp only at hstore; cases hstore
        | ok dbClient =>
          rw [hc] at hstore
          simp only at hstore
          injection hstore with hstore
          rw [← hstore]
    refine ⟨hpre, ?_, ?_, hinj store⟩
    · intro hne id
      unfold EventStoreDBEventStore.getStreamName
      rw [hpre, if_neg hne]
    · intro hempty id
      unfold EventStoreDBEventStore.getStreamName
      rw [hpre, if_pos hempty]
      rfl

theorem stream_naming_witness :
    (∀ id, exampleStreamStore.getStreamName id = "metachat-" ++ id) ∧
    exampleStreamStore.getStreamName "A" ≠ exampleStreamStore.getStreamName "B" ∧
    (∃ store, NewEventStoreDBEventStore (fun _ => Except.ok ())
        (fun _ => Except.ok exampleClient) "esdb://localhost:2113?tls=false" "orders"
        = Except.ok store) ∧
    (∀ id, ({ client := exampleClient, streamPrefix := "orders" } :
        EventStoreDBEventStore).getStreamName id = "orders" ++ "-" ++ id) :=
  let h := stream_naming (fun _ => Except.ok ()) (fun _ => Except.ok exampleClient)
    "esdb://localhost:2113?tls=false" "" exampleStreamStore
  let k := stream_naming (fun _ => Except.ok ()) (fun _ => Except.ok exampleClient)
    "esdb://localhost:2113?tls=false" "orders" exampleStreamStore
  ⟨(h.2.2.2 exampleStreamStore rfl).2.2.1 rfl, h.2.1 "A" "B" (by decide),
    k.2.2.1 () exampleClient rfl rfl,
    (k.2.2.2 { client := exampleClient, streamPrefix := "orders" } rfl).2.1 (by decide)⟩

/-! ## Integers as `float64` -/

theorem bitLengthAux_spec : ∀ (fuel m : Nat), m ≤ fuel → 0 < m →
    2 ^ (bitLengthAux fuel m - 1) ≤ m ∧ m < 2 ^ bitLengthAux fuel m ∧ 0 < bitLengthAux fuel m := by
  intro fuel
  induction fuel with
  | zero => intro m h1 h2; omega
  | succ fuel ih =>
    intro m hle hpos
    unfold bitLengthAux
    rw [if_neg (by omega)]
    by_cases h1 : m / 2 = 0
    · have hm : m = 1 := by omega
      subst hm
      have h0 : bitLengthAux fuel (1 / 2) = 0 := by
        show bitLengthAux fuel 0 = 0
        cases fuel with
        | zero => rfl
        | succ k => rfl
      rw [h0]
      norm_num
    · obtain ⟨ha, hb, hc⟩ := ih (m / 2) (by omega) (by omega)
      refine ⟨?_, ?_, by omega⟩
      · have e1 : bitLengthAux fuel (m / 2) + 1 - 1 = (bitLengthAux fuel (m / 2) - 1) + 1 := by
          omega
        rw [e1, pow_succ]
        omega
      · rw [pow_succ]
        omega

theorem bitLength_spec (m : Nat) (h : 0 < m) :
    2 ^ (bitLength m - 1) ≤ m ∧ m < 2 ^ bitLength m ∧ 0 < bitLength m :=
  bitLengthAux_spec m m (le_refl m) h

theorem bitLength_le (m k : Nat) (h : 0 < m) (hk : m < 2 ^ k) : bitLength m ≤ k := by
  obtain ⟨ha, _, hc⟩ := bitLength_spec m h
  by_contra hgt
  have h1 : k ≤ bitLength m - 1 := by omega
  have h2 : 2 ^ k ≤ 2 ^ (bitLength m - 1) := Nat.pow_le_pow_right (by norm_num) h1
  omega

/-- The nearest `float64` is finite for every integer of magnitude below
`2 ^ 1023`. -/
theorem ofInt_isSome (n : Int) (h : n.natAbs < float64IntegerBound) :
    (Float64.ofInt n).isSome = true := by
  unfold Float64.ofInt Float64.ofMagnitude
  by_cases h0 : n.natAbs = 0
  · rw [if_pos h0]; rfl
  · rw [if_neg h0]
    have hlen := bitLength_le n.natAbs 1023 (by omega) h
    simp only
    by_cases h53 : bitLength n.natAbs ≤ 53
    · rw [if_pos h53]; rfl
    · rw [if_neg h53]
      split_ifs <;> first | rfl | omega

/-- The bits of a positive integer below `2 ^ 53`, converted to `float64`. -/
theorem ofMagnitude_small (neg : Bool) (m : Nat) (h0 : 0 < m) (h : m < 2 ^ 53) :
    ∃ len F, 1 ≤ len ∧ len ≤ 53 ∧ F < 2 ^ 52 ∧ (2 ^ 52 + F) = m * 2 ^ (53 - len) ∧
      Float64.ofMagnitude neg m
        = some ⟨(if neg then 2 ^ 63 else 0) + (len - 1 + 1023) * 2 ^ 52 + F⟩ := by
  obtain ⟨ha, hb, hc⟩ := bitLength_spec m h0
  have hlen : bitLength m ≤ 53 := bitLength_le m 53 h0 h
  refine ⟨bitLength m, m * 2 ^ (53 - bitLength m) - 2 ^ 52, hc, hlen, ?_, ?_, ?_⟩
  · have h1 : m * 2 ^ (53 - bitLength m) < 2 ^ bitLength m * 2 ^ (53 - bitLength m) :=
      Nat.mul_lt_mul_of_pos_right hb (Nat.pow_pos (by norm_num))
    rw [← pow_add] at h1
    have e : bitLength m + (53 - bitLength m) = 53 := by omega
    rw [e] at h1
    omega
  · have h1 : 2 ^ (bitLength m - 1) * 2 ^ (53 - bitLength m) ≤ m * 2 ^ (53 - bitLength m) :=
      Nat.mul_le_mul_right _ ha
    rw [← pow_add] at h1
    have e : bitLength m - 1 + (53 - bitLength m) = 52 := by omega
    rw [e] at h1
    omega
  · unfold Float64.ofMagnitude
    rw [if_neg (by omega)]
    simp only
    rw [if_pos hlen]

theorem toGoInt_of_bits (len F : Nat) (m : Nat) (h1 : 1 ≤ len) (h2 : len ≤ 53) (hF : F < 2 ^ 52)
    (hm : 2 ^ 52 + F = m * 2 ^ (53 - len)) (hm63 : m < 2 ^ 53) :
    Float64.toGoInt ⟨(len - 1 + 1023) * 2 ^ 52 + F⟩ = (m : Int) ∧
    Float64.toGoInt ⟨2 ^ 63 + (len - 1 + 1023) * 2 ^ 52 + F⟩ = -(m : Int) := by
  have hexp : ∀ s : Nat, s = 0 ∨ s = 2 ^ 63 →
      (Float64.exponent ⟨s + (len - 1 + 1023) * 2 ^ 52 + F⟩) = len + 1022 := by
    intro s hs
    unfold Float64.exponent
    simp only
    rcases hs with hs | hs <;> subst hs <;> omega
  have hfrac : ∀ s : Nat, s = 0 ∨ s = 2 ^ 63 →
      (Float64.fraction ⟨s + (len - 1 + 1023) * 2 ^ 52 + F⟩) = F := by
    intro s hs
    unfold Float64.fraction
    simp only
    rcases hs with hs | hs <;> subst hs <;> omega
  have hneg0 : Float64.negative ⟨0 + (len - 1 + 1023) * 2 ^ 52 + F⟩ = false := by
    unfold Float64.negative
    simp only
    rw [decide_eq_false_iff_not]
    omega
  have hneg1 : Float64.negative ⟨2 ^ 63 + (len - 1 + 1023) * 2 ^ 52 + F⟩ = true := by
    unfold Float64.negative
    simp only
    rw [decide_eq_true_eq]
    omega
  have hmag : (if 1075 ≤ len + 1022 then (2 ^ 52 + F) * 2 ^ (len + 1022 - 1075)
      else (2 ^ 52 + F) / 2 ^ (1075 - (len + 1022))) = m := by
    by_cases h53 : len = 53
    · subst h53
      rw [if_pos (by omega)]
      rw [hm]
      norm_num
    · rw [if_neg (by omega), hm]
      have e : 1075 - (len + 1022) = 53 - len := by omega
      rw [e]
      exact Nat.mul_div_cancel _ (Nat.pow_pos (by norm_num))
  constructor
  · have e0 : (len - 1 + 1023) * 2 ^ 52 + F = 0 + (len - 1 + 1023) * 2 ^ 52 + F := by omega
    rw [e0]
    unfold Float64.toGoInt
    rw [hexp 0 (Or.inl rfl), hfrac 0 (Or.inl rfl), hneg0]
    rw [if_neg (by omega), if_neg (by omega)]
    simp only
    rw [hmag]
    simp only [Bool.false_eq_true, if_false]
    rw [if_pos]
    constructor <;> omega
  · unfold Float64.toGoInt
    rw [hexp (2 ^ 63) (Or.inr rfl), hfrac (2 ^ 63) (Or.inr rfl), hneg1]
    rw [if_neg (by omega), if_neg (by omega)]
    simp only
    rw [hmag]
    simp only [if_true]
    rw [if_pos]
    constructor <;> omega

/-- Converting an integer of magnitude at most `2 ^ 53` to `float64` and back
to `int` gives the integer. -/
theorem toGoInt_ofInt (n : Int) (h : n.natAbs ≤ 2 ^ 53) :
    ((Float64.ofInt n).getD ⟨0⟩).toGoInt = n := by
  by_cases h0 : n = 0
  · subst h0; decide
  by_cases hmax : n.natAbs = 2 ^ 53
  · rcases Int.natAbs_eq n with hn | hn
    · rw [hn, hmax]; decide
    · rw [hn, hmax]; decide
  have hpos : 0 < n.natAbs := Int.natAbs_pos.2 h0
  have hlt : n.natAbs < 2 ^ 53 := by omega
  unfold Float64.ofInt
  obtain ⟨len, F, h1, h2, hF, hm, hof⟩ := ofMagnitude_small (decide (n < 0)) n.natAbs hpos hlt
  rw [hof]
  obtain ⟨ha, hb⟩ := toGoInt_of_bits len F n.natAbs h1 h2 hF hm hlt
  simp only [Option.getD_some]
  by_cases hneg : n < 0
  · simp only [hneg, decide_True, if_true]
    rw [hb]
    omega
  · simp only [hneg, decide_False, Bool.false_eq_true, if_false]
    have e0 : 0 + (len - 1 + 1023) * 2 ^ 52 + F = (len - 1 + 1023) * 2 ^ 52 + F := by omega
    rw [e0, ha]
    omega

/-! ## Go maps as association lists -/

theorem mapGet_mapSet {α : Type} (m : List (String × α)) (k k' : String) (v : α) :
    mapGet (mapSet m k v) k' = if k = k' then some v else mapGet m k' := by
  induction m with
  | nil => simp [mapSet, mapGet]
  | cons x rest ih =>
    obtain ⟨a, w⟩ := x
    unfold mapSet
    by_cases hak : a = k
    · rw [if_pos hak]
      subst hak
      by_cases hk : a = k'
      · simp [mapGet, hk]
      · simp [mapGet, hk]
    · rw [if_neg hak]
      unfold mapGet
      rw [ih]
      by_cases hk : a = k'
      · have : ¬ k = k' := fun h => hak (hk.trans h.symm)
        simp [hk, this]
      · simp [hk]

theorem mem_mapSet {α : Type} (m : List (String × α)) (k : String) (v : α) (x : String × α)
    (h : x ∈ mapSet m k v) : x = (k, v) ∨ x ∈ m := by
  induction m with
  | nil => left; simpa [mapSet] using h
  | cons y rest ih =>
    obtain ⟨a, w⟩ := y
    unfold mapSet at h
    by_cases hak : a = k
    · rw [if_pos hak] at h
      rcases List.mem_cons.1 h with h | h
      · exact Or.inl h
      · exact Or.inr (List.mem_cons_of_mem _ h)
    · rw [if_neg hak] at h
      rcases List.mem_cons.1 h with h | h
      · exact Or.inr (h ▸ List.mem_cons_self _ _)
      · rcases ih h with h | h
        · exact Or.inl h
        · exact Or.inr (List.mem_cons_of_mem _ h)

theorem mem_foldl_mapSet {α : Type} : ∀ (l acc : List (String × α)) (x : String × α),
    x ∈ l.foldl (fun m kv => mapSet m kv.1 kv.2) acc → x ∈ acc ∨ x ∈ l := by
  intro l
  induction l with
  | nil => intro acc x h; exact Or.inl h
  | cons y rest ih =>
    intro acc x h
    rw [List.foldl_cons] at h
    rcases ih _ x h with h | h
    · rcases mem_mapSet acc y.1 y.2 x h with h | h
      · exact Or.inr (h ▸ List.mem_cons_self _ _)
      · exact Or.inl h
    · exact Or.inr (List.mem_cons_of_mem _ h)

theorem mapGet_eq_none_iff {α : Type} (m : List (String × α)) (k : String) :
    mapGet m k = none ↔ k ∉ m.map Prod.fst := by
  induction m with
  | nil => simp [mapGet]
  | cons x rest ih =>
    obtain ⟨a, w⟩ := x
    unfold mapGet
    by_cases hak : a = k
    · simp [hak]
    · rw [if_neg hak, ih]
      simp only [List.map_cons, List.mem_cons, not_or]
      constructor
      · intro h; exact ⟨fun hka => hak hka.symm, h⟩
      · intro h; exact h.2

theorem mapGet_mem {α : Type} (m : List (String × α)) (k : String) (v : α)
    (h : mapGet m k = some v) : (k, v) ∈ m := by
  induction m with
  | nil => simp [mapGet] at h
  | cons x rest ih =>
    obtain ⟨a, w⟩ := x
    unfold mapGet at h
    by_cases hak : a = k
    · rw [if_pos hak] at h
      injection h with h
      rw [hak, h]
      exact List.mem_cons_self _ _
    · rw [if_neg hak] at h
      exact List.mem_cons_of_mem _ (ih h)

theorem mapGet_of_mem {α : Type} (m : List (String × α)) (hd : DistinctKeys m) (k : String)
    (v : α) (h : (k, v) ∈ m) : mapGet m k = some v := by
  induction m with
  | nil => simp at h
  | cons x rest ih =>
    obtain ⟨a, w⟩ := x
    unfold DistinctKeys at hd
    rw [List.map_cons, List.nodup_cons] at hd
    unfold mapGet
    rcases List.mem_cons.1 h with h | h
    · injection h with h1 h2
      rw [if_pos h1.symm, h2]
    · have hak : ¬ a = k := by
        intro hak
        apply hd.1
        rw [hak]
        exact List.mem_map.2 ⟨(k, v), h, rfl⟩
      rw [if_neg hak]
      exact ih hd.2 h

theorem mapGet_perm {α : Type} (m m' : List (String × α)) (hp : m.Perm m')
    (hd : DistinctKeys m) (k : String) : mapGet m' k = mapGet m k := by
  have hd' : DistinctKeys m' := (hp.map Prod.fst).nodup_iff.1 hd
  cases h : mapGet m k with
  | none =>
    rw [mapGet_eq_none_iff] at h ⊢
    intro hk
    exact h ((hp.map Prod.fst).mem_iff.2 hk)
  | some v => exact mapGet_of_mem m' hd' k v (hp.mem_iff.1 (mapGet_mem m k v h))

theorem distinctKeys_mapSet {α : Type} (m : List (String × α)) (hd : DistinctKeys m)
    (k : String) (v : α) : DistinctKeys (mapSet m k v) := by
  induction m with
  | nil => simp [mapSet, DistinctKeys]
  | cons x rest ih =>
    obtain ⟨a, w⟩ := x
    unfold DistinctKeys at hd ⊢
    rw [List.map_cons, List.nodup_cons] at hd
    unfold mapSet
    by_cases hak : a = k
    · rw [if_pos hak, List.map_cons, List.nodup_cons]
      exact ⟨hak ▸ hd.1, hd.2⟩
    · rw [if_neg hak, List.map_cons, List.nodup_cons]
      refine ⟨?_, ih hd.2⟩
      intro hmem
      obtain ⟨y, hy, hya⟩ := List.mem_map.1 hmem
      rcases mem_mapSet rest k v y hy with h | h
      · rw [h] at hya
        exact hak hya.symm
      · exact hd.1 (List.mem_map.2 ⟨y, h, hya⟩)

theorem distinctKeys_foldl_mapSet {α : Type} : ∀ (l acc : List (String × α)),
    DistinctKeys acc → DistinctKeys (l.foldl (fun m kv => mapSet m kv.1 kv.2) acc) := by
  intro l
  induction l with
  | nil => intro acc h; exact h
  | cons y rest ih =>
    intro acc h
    rw [List.foldl_cons]
    exact ih _ (distinctKeys_mapSet acc h y.1 y.2)

/-- Reading a map built by assignments: the entry assigned for the key, or the
entry of the initial map. -/
theorem mapGet_foldl_mapSet {α : Type} : ∀ (l acc : List (String × α)), DistinctKeys l →
    ∀ k, mapGet (l.foldl (fun m kv => mapSet m kv.1 kv.2) acc) k
      = (mapGet l k).or (mapGet acc k) := by
  intro l
  induction l with
  | nil => intro acc _ k; rfl
  | cons y rest ih =>
    intro acc hd k
    obtain ⟨a, w⟩ := y
    have hd2 : DistinctKeys rest := by
      unfold DistinctKeys at hd ⊢
      rw [List.map_cons, List.nodup_cons] at hd
      exact hd.2
    rw [List.foldl_cons, ih _ hd2 k, mapGet_mapSet]
    by_cases hak : a = k
    · have hnone : mapGet rest k = none := by
        rw [mapGet_eq_none_iff]
        unfold DistinctKeys at hd
        rw [List.map_cons, List.nodup_cons] at hd
        exact hak ▸ hd.1
      simp [mapGet, hak, hnone]
    · simp [mapGet, hak]

theorem mapGet_mapDelete {α : Type} (m : List (String × α)) (k k' : String) :
    mapGet (mapDelete m k') k = if k = k' then none else mapGet m k := by
  induction m with
  | nil => simp [mapDelete, mapGet]
  | cons x rest ih =>
    obtain ⟨a, w⟩ := x
    unfold mapDelete at ih ⊢
    by_cases hak : a = k'
    · rw [List.filter_cons_of_neg (by simpa using hak), ih]
      by_cases hk : k = k'
      · simp [hk]
      · have : ¬ a = k := fun h => hk (h.symm.trans hak)
        simp [hk, mapGet, this]
    · rw [List.filter_cons_of_pos (by simpa using hak)]
      unfold mapGet
      rw [ih]
      by_cases hk : a = k
      · have : ¬ k = k' := fun h => hak (hk.trans h)
        simp [hk, this]
      · simp [hk]

theorem insertMember_perm {α : Type} (kv : String × α) :
    ∀ l : List (String × α), (insertMember kv l).Perm (kv :: l) := by
  intro l
  induction l with
  | nil => exact List.Perm.refl _
  | cons x xs ih =>
    unfold insertMember
    by_cases h : keyLT kv.1 x.1 = true
    · rw [if_pos h]
    · rw [if_neg h]
      exact (List.Perm.cons x ih).trans (List.Perm.swap kv x xs)

theorem sortMembers_perm {α : Type} (m : List (String × α)) : (sortMembers m).Perm m := by
  unfold sortMembers
  induction m with
  | nil => exact List.Perm.refl _
  | cons x xs ih =>
    rw [List.foldr_cons]
    exact (insertMember_perm x _).trans (List.Perm.cons x ih)

/-! ## `json.Marshal` and `json.Unmarshal` on the entries of a map -/

theorem marshalEntries_forall₂ : ∀ (m docs : List (String × JSONValue)),
    marshalEntries m = some docs →
    List.Forall₂ (fun a b => a.1 = b.1 ∧ marshalValue a.2 = some b.2) m docs := by
  intro m
  induction m with
  | nil =>
    intro docs h
    unfold marshalEntries at h
    injection h with h
    rw [← h]
    exact List.Forall₂.nil
  | cons x rest ih =>
    intro docs h
    obtain ⟨k, v⟩ := x
    unfold marshalEntries at h
    cases hv : marshalValue v with
    | none => rw [hv] at h; simp at h
    | some d =>
      cases hr : marshalEntries rest with
      | none => rw [hv, hr] at h; simp at h
      | some ds =>
        rw [hv, hr] at h
        simp only at h
        injection h with h
        rw [← h]
        exact List.Forall₂.cons ⟨rfl, hv⟩ (ih ds hr)

theorem marshalEntries_isSome : ∀ (m : List (String × JSONValue)),
    (∀ x ∈ m, (marshalValue x.2).isSome = true) → ∃ docs, marshalEntries m = some docs := by
  intro m
  induction m with
  | nil => intro _; exact ⟨[], by unfold marshalEntries; rfl⟩
  | cons x rest ih =>
    intro h
    obtain ⟨k, v⟩ := x
    obtain ⟨ds, hds⟩ := ih (fun y hy => h y (List.mem_cons_of_mem _ hy))
    have hv := h (k, v) (List.mem_cons_self _ _)
    obtain ⟨d, hd⟩ := Option.isSome_iff_exists.1 hv
    refine ⟨(k, d) :: ds, ?_⟩
    unfold marshalEntries
    simp only at hd
    rw [hd, hds]

theorem unmarshalMembers_forall₂ : ∀ (m es : List (String × JSONValue)),
    unmarshalMembers m = some es →
    List.Forall₂ (fun a b => a.1 = b.1 ∧ unmarshalValue a.2 = some b.2) m es := by
  intro m
  induction m with
  | nil =>
    intro es h
    unfold unmarshalMembers at h
    injection h with h
    rw [← h]
    exact List.Forall₂.nil
  | cons x rest ih =>
    intro es h
    obtain ⟨k, v⟩ := x
    unfold unmarshalMembers at h
    cases hv : unmarshalValue v with
    | none => rw [hv] at h; simp at h
    | some d =>
      cases hr : unmarshalMembers rest with
      | none => rw [hv, hr] at h; simp at h
      | some ds =>
        rw [hv, hr] at h
        simp only at h
        injection h with h
        rw [← h]
        exact List.Forall₂.cons ⟨rfl, hv⟩ (ih ds hr)

theorem unmarshalMembers_isSome : ∀ (m : List (String × JSONValue)),
    (∀ x ∈ m, (unmarshalValue x.2).isSome = true) → ∃ es, unmarshalMembers m = some es := by
  intro m
  induction m with
  | nil => intro _; exact ⟨[], by unfold unmarshalMembers; rfl⟩
  | cons x rest ih =>
    intro h
    obtain ⟨k, v⟩ := x
    obtain ⟨ds, hds⟩ := ih (fun y hy => h y (List.mem_cons_of_mem _ hy))
    have hv := h (k, v) (List.mem_cons_self _ _)
    obtain ⟨d, hd⟩ := Option.isSome_iff_exists.1 hv
    refine ⟨(k, d) :: ds, ?_⟩
    unfold unmarshalMembers
    simp only at hd
    rw [hd, hds]

/-- Entries related key by key: same keys, and reading a key on the right
gives the image of what reading it on the left gives. -/
theorem forall₂_mapGet (f : JSONValue → Option JSONValue) :
    ∀ (m m' : List (String × JSONValue)),
      List.Forall₂ (fun a b => a.1 = b.1 ∧ f a.2 = some b.2) m m' →
      m'.map Prod.fst = m.map Prod.fst ∧
      (∀ k, mapGet m' k = (mapGet m k).bind f) ∧
      ∀ y ∈ m', ∃ x ∈ m, x.1 = y.1 ∧ f x.2 = some y.2 := by
  intro m
  induction m with
  | nil =>
    intro m' h
    cases h
    exact ⟨rfl, fun _ => rfl, fun y hy => by simp at hy⟩
  | cons a rest ih =>
    intro m' h
    rcases List.forall₂_cons_left_iff.1 h with ⟨b, l₂, hab, htail, rfl⟩
    obtain ⟨h1, h2, h3⟩ := ih l₂ htail
    obtain ⟨a1, a2⟩ := a
    obtain ⟨b1, b2⟩ := b
    simp only at hab
    obtain ⟨hk, hv⟩ := hab
    subst hk
    refine ⟨by simp [h1], ?_, ?_⟩
    · intro k
      unfold mapGet
      by_cases hak : a1 = k
      · simp [hak, hv]
      · simp [hak, h2 k]
    · intro y hy
      rcases List.mem_cons.1 hy with hy | hy
      · exact ⟨(a1, a2), List.mem_cons_self _ _, by rw [hy], by rw [hy]; exact hv⟩
      · obtain ⟨x, hx, hx2⟩ := h3 y hy
        exact ⟨x, List.mem_cons_of_mem _ hx, hx2⟩

/-! ## Values that `encoding/json` reads back -/

theorem integersInRangeEntries_iff : ∀ (m : List (String × JSONValue)),
    integersInRangeEntries m = true ↔ ∀ x ∈ m, integersInRange x.2 = true := by
  intro m
  induction m with
  | nil => simp [integersInRangeEntries]
  | cons x rest ih =>
    obtain ⟨k, v⟩ := x
    simp [integersInRangeEntries, ih]

mutual
theorem unmarshalValue_isSome : ∀ d : JSONValue, integersInRange d = true →
    (unmarshalValue d).isSome = true
  | JSONValue.null, _ => by simp [unmarshalValue]
  | JSONValue.bool _, _ => by simp [unmarshalValue]
  | JSONValue.int n, h => by
    have hn : n.natAbs < float64IntegerBound := by
      simpa only [integersInRange, decide_eq_true_eq] using h
    obtain ⟨f, hf⟩ := Option.isSome_iff_exists.1 (ofInt_isSome n hn)
    simp [unmarshalValue, hf]
  | JSONValue.float _, _ => by simp [unmarshalValue]
  | JSONValue.string _, _ => by simp [unmarshalValue]
  | JSONValue.array items, h => by
    have h2 : integersInRangeList items = true := by simpa [integersInRange] using h
    obtain ⟨vs, hvs⟩ := Option.isSome_iff_exists.1 (unmarshalValues_isSome items h2)
    simp [unmarshalValue, hvs]
  | JSONValue.object members, h => by
    have h2 : integersInRangeEntries members = true := by simpa [integersInRange] using h
    obtain ⟨es, hes⟩ := Option.isSome_iff_exists.1 (unmarshalMembers_isSome_of_range members h2)
    simp [unmarshalValue, hes]
theorem unmarshalValues_isSome : ∀ ds : List JSONValue, integersInRangeList ds = true →
    (unmarshalValues ds).isSome = true
  | [], _ => by simp [unmarshalValues]
  | d :: rest, h => by
    have h2 : integersInRange d = true ∧ integersInRangeList rest = true := by
      simpa [integersInRangeList] using h
    obtain ⟨v, hv⟩ := Option.isSome_iff_exists.1 (unmarshalValue_isSome d h2.1)
    obtain ⟨vs, hvs⟩ := Option.isSome_iff_exists.1 (unmarshalValues_isSome rest h2.2)
    simp [unmarshalValues, hv, hvs]
theorem unmarshalMembers_isSome_of_range : ∀ ms : List (String × JSONValue),
    integersInRangeEntries ms = true → (unmarshalMembers ms).isSome = true
  | [], _ => by simp [unmarshalMembers]
  | (k, d) :: rest, h => by
    have h2 : integersInRange d = true ∧ integersInRangeEntries rest = true := by
      simpa [integersInRangeEntries] using h
    obtain ⟨v, hv⟩ := Option.isSome_iff_exists.1 (unmarshalValue_isSome d h2.1)
    obtain ⟨vs, hvs⟩ := Option.isSome_iff_exists.1 (unmarshalMembers_isSome_of_range rest h2.2)
    simp [unmarshalMembers, hv, hvs]
end

theorem pow_two_mono (j k : Nat) (h : j ≤ k) : (2 : Nat) ^ j ≤ 2 ^ k :=
  Nat.pow_le_pow_right (Nat.succ_pos 1) h

theorem marshalFloat_inRange (f : Float64) : integersInRange (marshalFloat f) = true := by
  unfold marshalFloat
  cases f.toInt? with
  | none => rfl
  | some n =>
    simp only
    by_cases h : n.natAbs < 10 ^ 21 ∧ ¬(n = 0 ∧ f.negative = true)
    · rw [if_pos h]
      simp only [integersInRange, decide_eq_true_eq]
      have h1 : (10 : Nat) ^ 21 < 2 ^ 70 := by norm_num
      have h2 : (2 : Nat) ^ 70 ≤ float64IntegerBound := pow_two_mono 70 1023 (by omega)
      exact Nat.lt_of_lt_of_le (Nat.lt_trans h.1 h1) h2
    · rw [if_neg h]
      rfl

mutual
theorem marshalValue_inRange : ∀ (v d : JSONValue), integersInRange v = true →
    marshalValue v = some d → integersInRange d = true
  | JSONValue.null, d, _, hm => by
    simp only [marshalValue, Option.some.injEq] at hm
    rw [← hm]; rfl
  | JSONValue.bool _, d, _, hm => by
    simp only [marshalValue, Option.some.injEq] at hm
    rw [← hm]; rfl
  | JSONValue.int n, d, h, hm => by
    simp only [marshalValue, Option.some.injEq] at hm
    rw [← hm]; exact h
  | JSONValue.float f, d, _, hm => by
    unfold marshalValue at hm
    by_cases hf : f.isFinite = true
    · rw [if_pos hf] at hm
      injection hm with hm
      rw [← hm]
      exact marshalFloat_inRange f
    · rw [if_neg hf] at hm
      cases hm
  | JSONValue.string _, d, _, hm => by
    simp only [marshalValue, Option.some.injEq] at hm
    rw [← hm]; rfl
  | JSONValue.array items, d, h, hm => by
    unfold marshalValue at hm
    cases hds : marshalValues items with
    | none => rw [hds] at hm; cases hm
    | some docs =>
      rw [hds] at hm
      injection hm with hm
      rw [← hm]
      simp only [integersInRange] at h ⊢
      exact marshalValues_inRange items docs h hds
  | JSONValue.object entries, d, h, hm => by
    unfold marshalValue at hm
    cases hds : marshalEntries entries with
    | none => rw [hds] at hm; cases hm
    | some docs =>
      rw [hds] at hm
      injection hm with hm
      rw [← hm]
      simp only [integersInRange] at h ⊢
      have h1 := marshalEntries_inRange entries docs h hds
      rw [integersInRangeEntries_iff] at h1 ⊢
      intro x hx
      exact h1 x ((sortMembers_perm docs).mem_iff.1 hx)
theorem marshalValues_inRange : ∀ (vs ds : List JSONValue), integersInRangeList vs = true →
    marshalValues vs = some ds → integersInRangeList ds = true
  | [], ds, _, hm => by
    simp only [marshalValues, Option.some.injEq] at hm
    rw [← hm]; rfl
  | v :: rest, ds, h, hm => by
    have h2 : integersInRange v = true ∧ integersInRangeList rest = true := by
      simpa [integersInRangeList] using h
    unfold marshalValues at hm
    cases hv : marshalValue v with
    | none => rw [hv] at hm; simp at hm
    | some d =>
      cases hr : marshalValues rest with
      | none => rw [hv, hr] at hm; simp at hm
      | some rs =>
        rw [hv, hr] at hm
        simp only at hm
        injection hm with hm
        rw [← hm]
        unfold integersInRangeList
        rw [marshalValue_inRange v d h2.1 hv, marshalValues_inRange rest rs h2.2 hr]
        rfl
theorem marshalEntries_inRange : ∀ (ms ds : List (String × JSONValue)),
    integersInRangeEntries ms = true → marshalEntries ms = some ds →
    integersInRangeEntries ds = true
  | [], ds, _, hm => by
    simp only [marshalEntries, Option.some.injEq] at hm
    rw [← hm]; rfl
  | (k, v) :: rest, ds, h, hm => by
    have h2 : integersInRange v = true ∧ integersInRangeEntries rest = true := by
      simpa [integersInRangeEntries] using h
    unfold marshalEntries at hm
    cases hv : marshalValue v with
    | none => rw [hv] at hm; simp at hm
    | some d =>
      cases hr : marshalEntries rest with
      | none => rw [hv, hr] at hm; simp at hm
      | some rs =>
        rw [hv, hr] at hm
        simp only at hm
        injection hm with hm
        rw [← hm]
        unfold integersInRangeEntries
        rw [marshalValue_inRange v d h2.1 hv, marshalEntries_inRange rest rs h2.2 hr]
        rfl
end

/-- A value whose integers are in range and that `json.Marshal` accepts is
read back by `json.Unmarshal`. -/
theorem jsonRoundTrip_isSome (v : JSONValue) (h : integersInRange v = true)
    (hm : (marshalValue v).isSome = true) : (jsonRoundTrip v).isSome = true := by
  obtain ⟨d, hd⟩ := Option.isSome_iff_exists.1 hm
  unfold jsonRoundTrip
  rw [hd]
  exact unmarshalValue_isSome d (marshalValue_inRange v d h hd)

theorem jsonRoundTrip_plain (v : JSONValue) (h : isPlainValue v = true) :
    jsonRoundTrip v = some v := by
  cases v with
  | null => rfl
  | bool b => rfl
  | string s => rfl
  | int n => cases h
  | float f => cases h
  | array xs => cases h
  | object ms => cases h

/-- What `json.Unmarshal` into a nil map reads from the text that
`json.Marshal` writes for a Go map: every value as `encoding/json` reads it
back. -/
theorem map_round_trip (m : List (String × JSONValue)) (doc : JSONValue)
    (hd : DistinctKeys m) (hr : integersInRangeEntries m = true)
    (hm : marshalMap m = some doc) :
    ∃ m', stepMap none doc = some (some m') ∧ DistinctKeys m' ∧
      ∀ k, mapGet m' k = (mapGet m k).bind jsonRoundTrip := by
  unfold marshalMap marshalValue at hm
  cases hds : marshalEntries m with
  | none => rw [hds] at hm; cases hm
  | some docs =>
    rw [hds] at hm
    injection hm with hm
    subst hm
    obtain ⟨hk1, hg1, _⟩ := forall₂_mapGet marshalValue m docs (marshalEntries_forall₂ m docs hds)
    have hrd : integersInRangeEntries (sortMembers docs) = true := by
      have h1 := marshalEntries_inRange m docs hr hds
      rw [integersInRangeEntries_iff] at h1 ⊢
      intro x hx
      exact h1 x ((sortMembers_perm docs).mem_iff.1 hx)
    obtain ⟨es, hes⟩ := Option.isSome_iff_exists.1
      (unmarshalMembers_isSome_of_range (sortMembers docs) hrd)
    obtain ⟨hk2, hg2, _⟩ := forall₂_mapGet unmarshalValue (sortMembers docs) es
      (unmarshalMembers_forall₂ _ es hes)
    have hdd : DistinctKeys docs := by
      unfold DistinctKeys
      rw [hk1]
      exact hd
    have hds2 : DistinctKeys (sortMembers docs) :=
      (((sortMembers_perm docs).map Prod.fst).nodup_iff).2 hdd
    have hde : DistinctKeys es := by
      unfold DistinctKeys
      rw [hk2]
      exact hds2
    refine ⟨es.foldl (fun m kv => mapSet m kv.1 kv.2) [], ?_, ?_, ?_⟩
    · unfold stepMap
      simp only [hes, Option.getD_none]
    · exact distinctKeys_foldl_mapSet es [] (by simp [DistinctKeys])
    · intro k
      rw [mapGet_foldl_mapSet es [] hde k]
      have e1 : mapGet es k = (mapGet m k).bind jsonRoundTrip := by
        rw [hg2 k, mapGet_perm docs (sortMembers docs) (sortMembers_perm docs).symm hdd k, hg1 k]
        unfold jsonRoundTrip
        cases mapGet m k with
        | none => rfl
        | some v => rfl
      rw [← e1]
      cases mapGet es k with
      | none => rfl
      | some v => rfl

/-! ## The stream-database adapter: reconstruction of events -/

theorem convert_of_aggregate_id (lib : Library) (event : RecordedEvent) (doc : JSONValue)
    (metadata : List (String × JSONValue)) (aggregateID : String)
    (htext : event.UserMetadata = RawMessage.document doc ∨
      ∃ n, event.UserMetadata = RawMessage.respelled doc n)
    (hobj : stepMap none doc = some (some metadata))
    (hagg : mapGet metadata "aggregate_id" = some (JSONValue.string aggregateID)) :
    EventStoreDBEventStore.convertFromEventStoreEvent lib event
      = Except.ok
          { ID := event.EventID
            Type_ := event.EventType
            AggregateID := aggregateID
            Version :=
              (match mapGet metadata "version" with
                | some (JSONValue.float f) => f
                | _ => (Float64.ofInt event.EventNumber).getD ⟨0⟩).toGoInt
            Timestamp :=
              match mapGet metadata "timestamp" with
              | some (JSONValue.string timestampStr) =>
                match lib.timeParse timestampStr with
                | some t => t
                | none => event.CreatedDate
              | _ => event.CreatedDate
            Payload := event.Data
            Metadata :=
              mapDelete (mapDelete (mapDelete (mapDelete metadata "type") "aggregate_id")
                "version") "timestamp" } := by
  unfold EventStoreDBEventStore.convertFromEventStoreEvent
  rcases htext with htext | ⟨n, htext⟩
  · rw [htext]
    simp only [hobj, Option.getD_some, hagg]
    try rfl
  · rw [htext]
    simp only [hobj, Option.getD_some, hagg]
    try rfl

/-- C24 as stated fails: a recorded event without packed metadata is not
reconstructed. For a recorded event whose user metadata is nil, is empty, or
is an object without `aggregate_id`, `convertFromEventStoreEvent` returns the
error `aggregate_id not found in metadata`. -/
theorem convert_fails_without_aggregate_id :
    errorOf (EventStoreDBEventStore.convertFromEventStoreEvent exampleLibrary
        { recordedA1 with UserMetadata := RawMessage.nil })
      = GoError.native "aggregate_id not found in metadata" ∧
    errorOf (EventStoreDBEventStore.convertFromEventStoreEvent exampleLibrary
        { recordedA1 with UserMetadata := RawMessage.malformed [] })
      = GoError.native "aggregate_id not found in metadata" ∧
    errorOf (EventStoreDBEventStore.convertFromEventStoreEvent exampleLibrary
        { recordedA1 with
          UserMetadata := RawMessage.document
            (JSONValue.object
              [("timestamp", JSONValue.string "2024-01-01T00:00:00Z"),
               ("type", JSONValue.string "DiaryEntryCreated"),
               ("version", JSONValue.int 1)]) })
      = GoError.native "aggregate_id not found in metadata" ∧
    (EventStoreDBEventStore.convertFromEventStoreEvent exampleLibrary
        { recordedA1 with UserMetadata := RawMessage.nil }).toOption = none := by
  decide

/-- C24, amended: the fallback covers the version and the timestamp, not the
aggregate id. For every recorded event whose user metadata is a JSON object
(in whatever text) holding a string `aggregate_id`, `convertFromEventStoreEvent` succeeds; when
the metadata holds no number under `version` the version is the sequence
number of the backend (`int(float64(EventNumber))`, equal to `EventNumber` up
to `2 ^ 53`); when it holds no string under `timestamp`, or one that does not
parse, the timestamp is the created date of the backend. When the user
metadata is absent (nil or empty), or is an object without a string
`aggregate_id`, the result is the error `aggregate_id not found in metadata`. -/
theorem convert_fallback (lib : Library) (event : RecordedEvent) (doc : JSONValue)
    (metadata : List (String × JSONValue)) :
    ((event.UserMetadata = RawMessage.nil ∨ event.UserMetadata = RawMessage.malformed []) →
      EventStoreDBEventStore.convertFromEventStoreEvent lib event
        = Except.error (GoError.native "aggregate_id not found in metadata")) ∧
    ((event.UserMetadata = RawMessage.document doc ∨
        ∃ n, event.UserMetadata = RawMessage.respelled doc n) →
      stepMap none doc = some (some metadata) →
      ((∀ a, mapGet metadata "aggregate_id" ≠ some (JSONValue.string a)) →
        EventStoreDBEventStore.convertFromEventStoreEvent lib event
          = Except.error (GoError.native "aggregate_id not found in metadata")) ∧
      (∀ aggregateID, mapGet metadata "aggregate_id" = some (JSONValue.string aggregateID) →
        ∃ e, EventStoreDBEventStore.convertFromEventStoreEvent lib event = Except.ok e ∧
          e.ID = event.EventID ∧ e.Type_ = event.EventType ∧ e.AggregateID = aggregateID ∧
          e.Payload = event.Data ∧
          ((∀ f, mapGet metadata "version" ≠ some (JSONValue.float f)) →
            e.Version = ((Float64.ofInt event.EventNumber).getD ⟨0⟩).toGoInt ∧
            (event.EventNumber ≤ 2 ^ 53 → e.Version = event.EventNumber)) ∧
          ((∀ s, mapGet metadata "timestamp" ≠ some (JSONValue.string s)) →
            e.Timestamp = event.CreatedDate) ∧
          (∀ s, mapGet metadata "timestamp" = some (JSONValue.string s) →
            lib.timeParse s = none → e.Timestamp = event.CreatedDate))) := by
  refine ⟨?_, ?_⟩
  · intro h
    unfold EventStoreDBEventStore.convertFromEventStoreEvent
    rcases h with h | h <;> rw [h] <;> rfl
  · intro htext hobj
    refine ⟨?_, ?_⟩
    · intro hno
      unfold EventStoreDBEventStore.convertFromEventStoreEvent
      have hcase : ∀ v, mapGet metadata "aggregate_id" = some v →
          ∀ a, v ≠ JSONValue.string a := by
        intro v hv a hva
        exact hno a (by rw [hv, hva])
      rcases htext with htext | ⟨n, htext⟩
      · rw [htext]
        cases hg : mapGet metadata "aggregate_id" with
        | none => simp only [hobj, Option.getD_some, hg]
        | some v =>
          cases v with
          | string a => exact absurd rfl (hcase _ hg a)
          | null => simp only [hobj, Option.getD_some, hg]
          | bool b => simp only [hobj, Option.getD_some, hg]
          | int n => simp only [hobj, Option.getD_some, hg]
          | float f => simp only [hobj, Option.getD_some, hg]
          | array xs => simp only [hobj, Option.getD_some, hg]
          | object ms => simp only [hobj, Option.getD_some, hg]
      · rw [htext]
        cases hg : mapGet metadata "aggregate_id" with
        | none => simp only [hobj, Option.getD_some, hg]
        | some v =>
          cases v with
          | string a => exact absurd rfl (hcase _ hg a)
          | null => simp only [hobj, Option.getD_some, hg]
          | bool b => simp only [hobj, Option.getD_some, hg]
          | int n => simp only [hobj, Option.getD_some, hg]
          | float f => simp only [hobj, Option.getD_some, hg]
          | array xs => simp only [hobj, Option.getD_some, hg]
          | object ms => simp only [hobj, Option.getD_some, hg]
    · intro aggregateID hagg
      refine ⟨_, convert_of_aggregate_id lib event doc metadata aggregateID htext hobj hagg,
        rfl, rfl, rfl, rfl, ?_, ?_, ?_⟩
      · intro hv
        have hver : (match mapGet metadata "version" with
            | some (JSONValue.float f) => f
            | _ => (Float64.ofInt event.EventNumber).getD ⟨0⟩)
            = (Float64.ofInt event.EventNumber).getD ⟨0⟩ := by
          cases hg : mapGet metadata "version" with
          | none => rfl
          | some v =>
            cases v with
            | float f => exact absurd hg (hv f)
            | null => rfl
            | bool b => rfl
            | int n => rfl
            | string a => rfl
            | array xs => rfl
            | object ms => rfl
        simp only [hver]
        refine ⟨trivial, fun hle => ?_⟩
        exact toGoInt_ofInt event.EventNumber (by simpa using hle)
      · intro hts
        show (match mapGet metadata "timestamp" with
            | some (JSONValue.string timestampStr) =>
              match lib.timeParse timestampStr with
              | some t => t
              | none => event.CreatedDate
            | _ => event.CreatedDate) = event.CreatedDate
        cases hg : mapGet metadata "timestamp" with
        | none => rfl
        | some v =>
          cases v with
          | string a => exact absurd hg (hts a)
          | null => rfl
          | bool b => rfl
          | int n => rfl
          | float f => rfl
          | array xs => rfl
          | object ms => rfl
      · intro s hs hparse
        show (match mapGet metadata "timestamp" with
            | some (JSONValue.string timestampStr) =>
              match lib.timeParse timestampStr with
              | some t => t
              | none => event.CreatedDate
            | _ => event.CreatedDate) = event.CreatedDate
        rw [hs]
        simp only [hparse]

theorem convert_fallback_witness :
    EventStoreDBEventStore.convertFromEventStoreEvent exampleLibrary
        { recordedA1 with UserMetadata := RawMessage.nil }
      = Except.error (GoError.native "aggregate_id not found in metadata") ∧
    EventStoreDBEventStore.convertFromEventStoreEvent exampleLibrary
        { recordedA1 with
          UserMetadata := RawMessage.document (JSONValue.object [("version", JSONValue.int 1)]) }
      = Except.error (GoError.native "aggregate_id not found in metadata") ∧
    (∃ e, EventStoreDBEventStore.convertFromEventStoreEvent exampleLibrary recordedBare
        = Except.ok e ∧
      e.AggregateID = "A" ∧ e.Version = 3 ∧ e.Timestamp = 1704153600000000000) ∧
    ∃ e, EventStoreDBEventStore.convertFromEventStoreEvent exampleLibrary recordedUndated
        = Except.ok e ∧
      e.Timestamp = 1704153600000000000 :=
  ⟨(convert_fallback exampleLibrary { recordedA1 with UserMetadata := RawMessage.nil }
      JSONValue.null []).1 (Or.inl rfl),
    ((convert_fallback exampleLibrary
      { recordedA1 with
        UserMetadata := RawMessage.document (JSONValue.object [("version", JSONValue.int 1)]) }
      (JSONValue.object [("version", JSONValue.int 1)])
      [("version", JSONValue.float ⟨4607182418800017408⟩)]).2 (Or.inl rfl) (by decide)).1
      (fun a h => by simp [mapGet] at h),
    match ((convert_fallback exampleLibrary recordedBare
      (JSONValue.object [("aggregate_id", JSONValue.string "A")])
      [("aggregate_id", JSONValue.string "A")]).2 (Or.inl rfl) (by decide)).2 "A"
      (by decide) with
    | ⟨e, he, _, _, ha, _, hv, ht, _⟩ =>
      ⟨e, he, ha, (hv (fun f h => by simp [mapGet] at h)).2 (by decide),
        ht (fun s h => by simp [mapGet] at h)⟩,
    match ((convert_fallback exampleLibrary recordedUndated
      (JSONValue.object
        [("aggregate_id", JSONValue.string "A"), ("timestamp", JSONValue.string "yesterday")])
      [("aggregate_id", JSONValue.string "A"), ("timestamp", JSONValue.string "yesterday")]).2
      (Or.inr ⟨1, rfl⟩) (by decide)).2 "A" (by decide) with
    | ⟨e, he, _, _, _, _, _, _, hp⟩ => ⟨e, he, hp "yesterday" (by decide) (by decide)⟩⟩

/-! ## The stream-database adapter: packing, then reconstruction -/

theorem distinctKeys_mapDelete {α : Type} (m : List (String × α)) (hd : DistinctKeys m)
    (k : String) : DistinctKeys (mapDelete m k) := by
  unfold DistinctKeys mapDelete at *
  exact hd.sublist (List.Sublist.map Prod.fst (List.filter_sublist m))

/-- C23 as stated fails. The event `streamA2Tagged` (aggregate `A`, version 2)
carries the caller metadata `aggregate_id: B`, `version: 1.0`, `note: kept`.
`SaveEvents` accepts it; packed and reconstructed from position 1 of the
stream, it comes back with aggregate id `B`, version 1 and the metadata
`note: kept` alone. A caller value that is a Go `int` comes back as a
`float64`. -/
theorem reserved_keys_break_round_trip :
    (EventStoreDBEventStore.SaveEvents exampleLibrary exampleStreamStore [streamA2Tagged]).1
      = GoError.nil ∧
    streamA2Tagged.AggregateID = "A" ∧ streamA2Tagged.Version = 2 ∧
    (EventStoreDBEventStore.packThenConvert exampleLibrary streamA2Tagged 1 1704110400000000000).map
        (fun e => (e.AggregateID, e.Version, e.Metadata))
      = some ("B", 1, [("note", JSONValue.string "kept")]) ∧
    (EventStoreDBEventStore.packThenConvert exampleLibrary streamA2Counted 1 1704110400000000000).map
        Event.Metadata
      = some [("attempt", JSONValue.float ⟨4613937818241073152⟩)] ∧
    (EventStoreDBEventStore.packThenConvert exampleLibrary streamA2Counted 1 1704110400000000000).map
        Event.Metadata
      ≠ some streamA2Counted.Metadata := by
  decide

theorem mapGet_structural (a b c d : JSONValue) (k : String) (hk : k ∉ structuralKeys) :
    mapGet [("type", a), ("aggregate_id", b), ("version", c), ("timestamp", d)] k = none := by
  rw [mapGet_eq_none_iff]
  exact hk

/-- C23, amended: the four keys are reserved. For every event whose ID is a
valid UUID, whose version has magnitude at most `2 ^ 53`, and whose caller
metadata is a map that `json.Marshal` accepts and that uses none of the keys
`type`, `aggregate_id`, `version`, `timestamp`: packing the event as
`SaveEvents` does and reconstructing it with `convertFromEventStoreEvent`
succeeds and yields an event with the same Type, AggregateID and Version,
whose Metadata holds the keys of the caller metadata and, under each key, the
value that `encoding/json` reads back from the caller's value: the value
itself when it is a string, a boolean or nil. -/
theorem pack_then_convert (lib : Library) (e : Event) (eventUUID : String) (n : Nat)
    (created : Time)
    (huuid : lib.uuidParse e.ID = some eventUUID)
    (hver : e.Version.natAbs ≤ 2 ^ 53)
    (hd : DistinctKeys e.Metadata)
    (hfree : ∀ k ∈ structuralKeys, mapGet e.Metadata k = none)
    (hr : integersInRangeEntries e.Metadata = true)
    (hm : ∀ x ∈ e.Metadata, (marshalValue x.2).isSome = true) :
    ∃ e', EventStoreDBEventStore.packThenConvert lib e n created = some e' ∧
      e'.ID = eventUUID ∧ e'.Type_ = e.Type_ ∧ e'.AggregateID = e.AggregateID ∧
      e'.Version = e.Version ∧ e'.Payload = e.Payload ∧
      e'.Timestamp = (lib.timeParse (lib.timeFormat e.Timestamp)).getD created ∧
      DistinctKeys e'.Metadata ∧
      (∀ k, mapGet e'.Metadata k = (mapGet e.Metadata k).bind jsonRoundTrip) ∧
      ((∀ x ∈ e.Metadata, isPlainValue x.2 = true) →
        ∀ k, mapGet e'.Metadata k = mapGet e.Metadata k) := by
  have hbound : e.Version.natAbs < float64IntegerBound :=
    Nat.lt_of_le_of_lt hver (Nat.lt_of_lt_of_le (by norm_num) (pow_two_mono 54 1023 (by omega)))
  obtain ⟨f, hf⟩ := Option.isSome_iff_exists.1 (ofInt_isSome e.Version hbound)
  have hfv : f.toGoInt = e.Version := by
    have := toGoInt_ofInt e.Version hver
    rw [hf] at this
    exact this
  have hbase : DistinctKeys
      [("type", JSONValue.string e.Type_), ("aggregate_id", JSONValue.string e.AggregateID),
       ("version", JSONValue.int e.Version),
       ("timestamp", JSONValue.string (lib.timeFormat e.Timestamp))] := by
    show ["type", "aggregate_id", "version", "timestamp"].Nodup
    decide
  have hpd : DistinctKeys (EventStoreDBEventStore.packMetadata lib e) :=
    distinctKeys_foldl_mapSet e.Metadata _ hbase
  have hget : ∀ k, mapGet (EventStoreDBEventStore.packMetadata lib e) k
      = (mapGet e.Metadata k).or
          (mapGet [("type", JSONValue.string e.Type_),
            ("aggregate_id", JSONValue.string e.AggregateID),
            ("version", JSONValue.int e.Version),
            ("timestamp", JSONValue.string (lib.timeFormat e.Timestamp))] k) :=
    mapGet_foldl_mapSet e.Metadata _ hd
  have hmem : ∀ x ∈ EventStoreDBEventStore.packMetadata lib e,
      x ∈ [("type", JSONValue.string e.Type_), ("aggregate_id", JSONValue.string e.AggregateID),
        ("version", JSONValue.int e.Version),
        ("timestamp", JSONValue.string (lib.timeFormat e.Timestamp))] ∨ x ∈ e.Metadata :=
    fun x hx => mem_foldl_mapSet e.Metadata _ x hx
  have hpm : ∀ x ∈ EventStoreDBEventStore.packMetadata lib e,
      (marshalValue x.2).isSome = true := by
    intro x hx
    rcases hmem x hx with hb | hc
    · simp only [List.mem_cons, List.mem_singleton, List.not_mem_nil, or_false] at hb
      rcases hb with hb | hb | hb | hb <;> rw [hb] <;> rfl
    · exact hm x hc
  have hpr : integersInRangeEntries (EventStoreDBEventStore.packMetadata lib e) = true := by
    rw [integersInRangeEntries_iff] at hr ⊢
    intro x hx
    rcases hmem x hx with hb | hc
    · simp only [List.mem_cons, List.mem_singleton, List.not_mem_nil, or_false] at hb
      rcases hb with hb | hb | hb | hb <;> rw [hb]
      · rfl
      · rfl
      · simp only [integersInRange, decide_eq_true_eq]
        exact hbound
      · rfl
    · exact hr x hc
  obtain ⟨docs, hdocs⟩ := marshalEntries_isSome _ hpm
  have hmm : marshalMap (EventStoreDBEventStore.packMetadata lib e)
      = some (JSONValue.object (sortMembers docs)) := by
    unfold marshalMap marshalValue
    rw [hdocs]
  obtain ⟨m', hstep, hdm', hgm'⟩ := map_round_trip _ _ hpd hpr hmm
  have hprop : EventStoreDBEventStore.proposedEvents lib e.AggregateID [e]
      = Except.ok [{ EventID := eventUUID, ContentType := "application/json",
                     EventType := e.Type_, Data := e.Payload,
                     Metadata := JSONValue.object (sortMembers docs) }] := by
    unfold EventStoreDBEventStore.proposedEvents
    rw [if_neg (by simp)]
    simp only [hmm, huuid]
    unfold EventStoreDBEventStore.proposedEvents
    rfl
  have hk : ∀ k ∈ structuralKeys, mapGet m' k
      = (mapGet [("type", JSONValue.string e.Type_),
          ("aggregate_id", JSONValue.string e.AggregateID),
          ("version", JSONValue.int e.Version),
          ("timestamp", JSONValue.string (lib.timeFormat e.Timestamp))] k).bind
          jsonRoundTrip := by
    intro k hk
    rw [hgm' k, hget k, hfree k hk]
    rfl
  have hagg : mapGet m' "aggregate_id" = some (JSONValue.string e.AggregateID) := by
    rw [hk "aggregate_id" (by decide)]
    rfl
  have hversion : mapGet m' "version" = some (JSONValue.float f) := by
    rw [hk "version" (by decide)]
    show (jsonRoundTrip (JSONValue.int e.Version)) = some (JSONValue.float f)
    unfold jsonRoundTrip
    simp only [marshalValue, Option.some_bind, unmarshalValue, hf]
  have htime : mapGet m' "timestamp"
      = some (JSONValue.string (lib.timeFormat e.Timestamp)) := by
    rw [hk "timestamp" (by decide)]
    rfl
  have hconv := convert_of_aggregate_id lib
    (EventData.recorded { EventID := eventUUID, ContentType := "application/json",
                          EventType := e.Type_, Data := e.Payload,
                          Metadata := JSONValue.object (sortMembers docs) } n created)
    (JSONValue.object (sortMembers docs)) m' e.AggregateID (Or.inl rfl) hstep hagg
  have hmeta : ∀ k, mapGet (mapDelete (mapDelete (mapDelete (mapDelete m' "type") "aggregate_id")
      "version") "timestamp") k = (mapGet e.Metadata k).bind jsonRoundTrip := by
    intro k
    simp only [mapGet_mapDelete]
    by_cases hks : k ∈ structuralKeys
    · rw [hfree k hks]
      simp only [structuralKeys, List.mem_cons, List.mem_singleton, List.not_mem_nil,
        or_false] at hks
      rcases hks with h | h | h | h <;> subst h <;> simp
    · have h1 : ¬ k = "type" := fun h => hks (by rw [h]; decide)
      have h2 : ¬ k = "aggregate_id" := fun h => hks (by rw [h]; decide)
      have h3 : ¬ k = "version" := fun h => hks (by rw [h]; decide)
      have h4 : ¬ k = "timestamp" := fun h => hks (by rw [h]; decide)
      rw [if_neg h4, if_neg h3, if_neg h2, if_neg h1, hgm' k, hget k,
        mapGet_structural _ _ _ _ k hks]
      cases mapGet e.Metadata k with
      | none => rfl
      | some v => rfl
  refine ⟨{ ID := eventUUID
            Type_ := e.Type_
            AggregateID := e.AggregateID
            Version :=
              (match mapGet m' "version" with
                | some (JSONValue.float f) => f
                | _ => (Float64.ofInt n).getD ⟨0⟩).toGoInt
            Timestamp :=
              match mapGet m' "timestamp" with
              | some (JSONValue.string timestampStr) =>
                match lib.timeParse timestampStr with
                | some t => t
                | none => created
              | _ => created
            Payload := e.Payload
            Metadata :=
              mapDelete (mapDelete (mapDelete (mapDelete m' "type") "aggregate_id")
                "version") "timestamp" },
    ?_, rfl, rfl, rfl, ?_, rfl, ?_, ?_, hmeta, ?_⟩
  · unfold EventStoreDBEventStore.packThenConvert
    rw [hprop]
    simp only
    rw [hconv]
    rfl
  · show (match mapGet m' "version" with
        | some (JSONValue.float f) => f
        | _ => (Float64.ofInt n).getD ⟨0⟩).toGoInt
      = e.Version
    rw [hversion]
    exact hfv
  · show (match mapGet m' "timestamp" with
        | some (JSONValue.string timestampStr) =>
          match lib.timeParse timestampStr with
          | some t => t
          | none => created
        | _ => created) = (lib.timeParse (lib.timeFormat e.Timestamp)).getD created
    rw [htime]
    simp only
    cases lib.timeParse (lib.timeFormat e.Timestamp) with
    | none => rfl
    | some t => rfl
  · exact distinctKeys_mapDelete _ (distinctKeys_mapDelete _ (distinctKeys_mapDelete _
      (distinctKeys_mapDelete _ hdm' _) _) _) _
  · intro hplain k
    rw [hmeta k]
    cases hg : mapGet e.Metadata k with
    | none => rfl
    | some v =>
      exact jsonRoundTrip_plain v (hplain (k, v) (mapGet_mem e.Metadata k v hg))

theorem pack_then_convert_witness :
    ∃ e', EventStoreDBEventStore.packThenConvert exampleLibrary streamA2Traced 1
        1704153600000000000 = some e' ∧
      e'.Type_ = streamA2Traced.Type_ ∧ e'.AggregateID = "A" ∧ e'.Version = 2 ∧
      ∀ k, mapGet e'.Metadata k = mapGet streamA2Traced.Metadata k :=
  match pack_then_convert exampleLibrary streamA2Traced "00000000-0000-4000-8000-0000000000a2" 1
      1704153600000000000 (by decide) (by decide) (by decide) (by decide) (by decide)
      (by decide) with
  | ⟨e', h0, _, h2, h3, h4, _, _, _, _, h9⟩ => ⟨e', h0, h2, h3, h4, h9 (by decide)⟩

/-! ## The serializer -/

/-- C26 as stated fails. `json.Marshal` writes the compact text of a raw
message, whatever text it holds: the payload of `streamA2Spaced`, written
with whitespace and with `<` and `&` as they are, comes back as the compact
text of its document, which is another byte string. A Go `int` of the
metadata comes back as a `float64`, and a nil payload comes back as the four
bytes `null`. -/
theorem serializer_rewrites_payload_text :
    (NewJSONSerializer.roundTrip exampleTimeMarshalJSON exampleTimeUnmarshalJSON
        (fun _ v => RawMessage.document v) streamA2Spaced).map Event.Payload
      = some (RawMessage.document (JSONValue.object [("title", JSONValue.string "a < b & c")])) ∧
    (NewJSONSerializer.roundTrip exampleTimeMarshalJSON exampleTimeUnmarshalJSON
        (fun _ v => RawMessage.document v) streamA2Spaced).map Event.Payload
      ≠ some streamA2Spaced.Payload ∧
    (NewJSONSerializer.roundTrip exampleTimeMarshalJSON exampleTimeUnmarshalJSON
        (fun _ v => RawMessage.document v) streamA2Counted).map Event.Metadata
      = some [("attempt", JSONValue.float ⟨4613937818241073152⟩)] ∧
    (NewJSONSerializer.roundTrip exampleTimeMarshalJSON exampleTimeUnmarshalJSON
        (fun _ v => RawMessage.document v) streamA2Counted).map Event.Metadata
      ≠ some streamA2Counted.Metadata ∧
    evA1.Payload = RawMessage.nil ∧
    (NewJSONSerializer.roundTrip exampleTimeMarshalJSON exampleTimeUnmarshalJSON
        (fun _ v => RawMessage.document v) { evA1 with Timestamp := 1704067200000000000 }).map
        Event.Payload
      = some (RawMessage.document JSONValue.null) := by
  decide

theorem foldKey_event_tags :
    foldKey "id" = "id" ∧ foldKey "type" = "type" ∧ foldKey "aggregate_id" = "aggregate_id" ∧
    foldKey "version" = "version" ∧ foldKey "timestamp" = "timestamp" ∧
    foldKey "payload" = "payload" ∧ foldKey "metadata" = "metadata" := by
  decide

theorem unmarshalEvent_members (timeUnmarshalJSON : String → Option Time)
    (raw : JSONValue → RawMessage) (id type aggregateID : String) (version : Int)
    (timestamp : String) (payload metadata : JSONValue) (t : Time)
    (m' : List (String × JSONValue))
    (hv : -(2 ^ 63) ≤ version ∧ version < 2 ^ 63)
    (ht : timeUnmarshalJSON timestamp = some t)
    (hm : stepMap none metadata = some (some m')) :
    unmarshalEvent timeUnmarshalJSON raw
        (JSONValue.object
          [("id", JSONValue.string id), ("type", JSONValue.string type),
           ("aggregate_id", JSONValue.string aggregateID), ("version", JSONValue.int version),
           ("timestamp", JSONValue.string timestamp), ("payload", payload),
           ("metadata", metadata)])
      = some { ID := id, Type_ := type, AggregateID := aggregateID, Version := version,
               Timestamp := t, Payload := raw payload, Metadata := m' } := by
  obtain ⟨k1, k2, k3, k4, k5, k6, k7⟩ := foldKey_event_tags
  unfold unmarshalEvent
  simp +decide only [decodeField, List.foldl_cons, List.foldl_nil, k1, k2, k3, k4, k5, k6, k7,
    if_true, if_false, Option.some_bind, Option.bind_some, stepString, stepInt, stepTime,
    stepRaw, hv, ht, hm, and_self, Option.getD_some]

/-- C26, amended: for every event that `Serialize` accepts (its version a Go
`int`, its metadata a Go map, its timestamp one that `UnmarshalJSON` reads
back from what `MarshalJSON` writes), `Deserialize(Serialize(e))` succeeds and
returns an event equal to `e` in id, type, aggregate id, version and
timestamp. Its payload is the compact text of the document of the payload of
`e`: byte-for-byte the payload of `e` when that is already compact, and
`null` for a nil payload. Its metadata holds the keys of the metadata of `e`
and, under each key, the value that `encoding/json` reads back: the value
itself when it is a string, a boolean or nil. -/
theorem serializer_round_trip (j : JSONSerializer) (timeMarshalJSON : Time → Option String)
    (timeUnmarshalJSON : String → Option Time) (payloadText : Nat → JSONValue → RawMessage)
    (e : Event) (data : RawMessage)
    (hser : j.Serialize timeMarshalJSON e = Except.ok data)
    (htime : ∀ s, timeMarshalJSON e.Timestamp = some s → timeUnmarshalJSON s = some e.Timestamp)
    (hver : -(2 ^ 63) ≤ e.Version ∧ e.Version < 2 ^ 63)
    (hd : DistinctKeys e.Metadata) (hr : integersInRangeEntries e.Metadata = true) :
    ∃ e', j.Deserialize timeUnmarshalJSON payloadText data = Except.ok e' ∧
      j.roundTrip timeMarshalJSON timeUnmarshalJSON payloadText e = some e' ∧
      e'.ID = e.ID ∧ e'.Type_ = e.Type_ ∧ e'.AggregateID = e.AggregateID ∧
      e'.Version = e.Version ∧ e'.Timestamp = e.Timestamp ∧
      (∃ doc, e.Payload.marshal = some doc ∧ e'.Payload = RawMessage.document doc) ∧
      (∀ doc, e.Payload = RawMessage.document doc → e'.Payload = e.Payload) ∧
      DistinctKeys e'.Metadata ∧
      (∀ k, mapGet e'.Metadata k = (mapGet e.Metadata k).bind jsonRoundTrip) ∧
      ((∀ x ∈ e.Metadata, isPlainValue x.2 = true) →
        ∀ k, mapGet e'.Metadata k = mapGet e.Metadata k) := by
  unfold JSONSerializer.Serialize at hser
  cases hdoc : marshalEvent timeMarshalJSON e with
  | none => rw [hdoc] at hser; cases hser
  | some doc =>
    rw [hdoc] at hser
    injection hser with hser
    unfold marshalEvent at hdoc
    cases hts : timeMarshalJSON e.Timestamp with
    | none => rw [hts] at hdoc; simp at hdoc
    | some timestamp =>
      cases hp : e.Payload.marshal with
      | none => rw [hts, hp] at hdoc; simp at hdoc
      | some payload =>
        cases hmd : marshalMap e.Metadata with
        | none => rw [hts, hp, hmd] at hdoc; simp at hdoc
        | some metadata =>
          rw [hts, hp, hmd] at hdoc
          simp only at hdoc
          injection hdoc with hdoc
          obtain ⟨m', hstep, hdm', hgm'⟩ := map_round_trip e.Metadata metadata hd hr hmd
          have hun := unmarshalEvent_members timeUnmarshalJSON RawMessage.document e.ID e.Type_
            e.AggregateID e.Version timestamp payload metadata e.Timestamp m' hver
            (htime timestamp hts) hstep
          have hdes : j.Deserialize timeUnmarshalJSON payloadText data
              = Except.ok { ID := e.ID, Type_ := e.Type_, AggregateID := e.AggregateID,
                            Version := e.Version, Timestamp := e.Timestamp,
                            Payload := RawMessage.document payload, Metadata := m' } := by
            rw [← hser, ← hdoc]
            unfold JSONSerializer.Deserialize
            simp only [hun]
          refine ⟨_, hdes, ?_, rfl, rfl, rfl, rfl, rfl, ⟨payload, rfl, rfl⟩, ?_, hdm', hgm', ?_⟩
          · unfold JSONSerializer.roundTrip JSONSerializer.Serialize
            unfold marshalEvent
            simp only [hts, hp, hmd]
            rw [hdoc, hser, hdes]
            rfl
          · intro d hde
            rw [hde] at hp
            injection hp with hp
            rw [hde, hp]
          · intro hplain k
            rw [hgm' k]
            cases hg : mapGet e.Metadata k with
            | none => rfl
            | some v =>
              exact jsonRoundTrip_plain v (hplain (k, v) (mapGet_mem e.Metadata k v hg))

theorem serializer_round_trip_witness :
    ∃ e', NewJSONSerializer.roundTrip exampleTimeMarshalJSON exampleTimeUnmarshalJSON
        (fun _ v => RawMessage.document v) streamA2Compact = some e' ∧
      e'.ID = streamA2Compact.ID ∧ e'.Version = 2 ∧
      e'.Timestamp = streamA2Compact.Timestamp ∧
      e'.Payload = streamA2Compact.Payload ∧
      ∀ k, mapGet e'.Metadata k = mapGet streamA2Compact.Metadata k :=
  match serializer_round_trip NewJSONSerializer exampleTimeMarshalJSON exampleTimeUnmarshalJSON
      (fun _ v => RawMessage.document v) streamA2Compact
      (RawMessage.document
        ((marshalEvent exampleTimeMarshalJSON streamA2Compact).getD JSONValue.null))
      rfl
      (fun s hs => by
        have h : formatRFC3339 streamA2Compact.Timestamp = s := Option.some.inj hs
        rw [← h]
        decide)
      (by decide) (by decide) (by decide) with
  | ⟨e', _, h1, h2, _, _, h5, h6, _, h8, _, _, h11⟩ =>
    ⟨e', h1, h2, h5, h6, h8 _ rfl, h11 (by decide)⟩

/-! ## Aggregates: `LoadFromHistory` on a history with a foreign event -/

theorem LoadFromHistory_cons_own (a : BaseAggregate) (x : Event) (rest : List Event)
    (hx : x.AggregateID = a.id) :
    a.LoadFromHistory (x :: rest)
      = BaseAggregate.LoadFromHistory { a with version := x.Version } rest := by
  conv => lhs; unfold BaseAggregate.LoadFromHistory
  rw [if_neg (by simpa using hx)]

theorem LoadFromHistory_append : ∀ (pre rest : List Event) (a : BaseAggregate),
    (∀ e ∈ pre, e.AggregateID = a.id) →
    a.LoadFromHistory (pre ++ rest)
      = BaseAggregate.LoadFromHistory
          { a with version := (pre.getLast?.map Event.Version).getD a.version } rest := by
  intro pre
  induction pre with
  | nil => intro rest a _; rfl
  | cons x xs ih =>
    intro rest a h
    have hx : x.AggregateID = a.id := h x (List.mem_cons_self _ _)
    have hxs : ∀ e ∈ xs, e.AggregateID = a.id := fun e he => h e (List.mem_cons_of_mem _ he)
    rw [List.cons_append, LoadFromHistory_cons_own a x (xs ++ rest) hx,
      ih rest { a with version := x.Version } hxs]
    cases xs with
    | nil => rfl
    | cons y ys =>
      obtain ⟨z, hz⟩ : ∃ z, (y :: ys).getLast? = some z := by
        cases h2 : (y :: ys).getLast? with
        | none => simp at h2
        | some z => exact ⟨z, rfl⟩
      simp [List.getLast?_cons_cons, hz]

theorem LoadFromHistory_frame : ∀ (eventList : List Event) (a : BaseAggregate),
    (a.LoadFromHistory eventList).1.id = a.id ∧
    (a.LoadFromHistory eventList).1.uncommittedEvents = a.uncommittedEvents := by
  intro eventList
  induction eventList with
  | nil => intro a; exact ⟨rfl, rfl⟩
  | cons x xs ih =>
    intro a
    unfold BaseAggregate.LoadFromHistory
    by_cases hx : x.AggregateID ≠ a.id
    · rw [if_pos hx]; exact ⟨rfl, rfl⟩
    · rw [if_neg hx]
      exact ih { a with version := x.Version }

/-- C37: for every aggregate and every event list whose first event of
another aggregate is at position `i` (after `pre`, the `i` events before it),
`LoadFromHistory` returns the error; the events after position `i` are not
examined (the result is the same whatever follows); the version is the
`Version` of the event at position `i - 1`, the last of `pre`, and the
original version when `i = 0`; no earlier assignment is rolled back. In every
case, error or not, the id and the uncommitted sequence are unchanged, and so
are the domain fields of a `DiaryAggregate` and of a `UserAggregate`. -/
theorem LoadFromHistory_stops_at_foreign (a : BaseAggregate) (d : DiaryAggregate)
    (u : UserAggregate) (pre post : List Event) (x : Event) (eventList : List Event) :
    ((∀ e ∈ pre, e.AggregateID = a.GetID) → x.AggregateID ≠ a.GetID →
      (a.LoadFromHistory (pre ++ x :: post)).2 = errorsNew "event aggregate ID does not match" ∧
      (∀ other, a.LoadFromHistory (pre ++ x :: other) = a.LoadFromHistory (pre ++ x :: post)) ∧
      (pre = [] → (a.LoadFromHistory (pre ++ x :: post)).1.GetVersion = a.GetVersion) ∧
      (∀ last, pre.getLast? = some last →
        (a.LoadFromHistory (pre ++ x :: post)).1.GetVersion = last.Version)) ∧
    (a.LoadFromHistory eventList).1.GetID = a.GetID ∧
    (a.LoadFromHistory eventList).1.GetUncommittedEvents = a.GetUncommittedEvents ∧
    (d.LoadFromHistory eventList).1.GetID = d.GetID ∧
    (d.LoadFromHistory eventList).1.GetUncommittedEvents = d.GetUncommittedEvents ∧
    (d.LoadFromHistory eventList).1.domainState = d.domainState ∧
    (u.LoadFromHistory eventList).1.GetID = u.GetID ∧
    (u.LoadFromHistory eventList).1.GetUncommittedEvents = u.GetUncommittedEvents ∧
    (u.LoadFromHistory eventList).1.domainState = u.domainState := by
  refine ⟨?_, (LoadFromHistory_frame eventList a).1, (LoadFromHistory_frame eventList a).2,
    (LoadFromHistory_frame eventList d.toBaseAggregate).1,
    (LoadFromHistory_frame eventList d.toBaseAggregate).2, rfl,
    (LoadFromHistory_frame eventList u.toBaseAggregate).1,
    (LoadFromHistory_frame eventList u.toBaseAggregate).2, rfl⟩
  intro hpre hx
  have key : ∀ other, a.LoadFromHistory (pre ++ x :: other)
      = ({ a with version := (pre.getLast?.map Event.Version).getD a.version },
          errorsNew "event aggregate ID does not match") := by
    intro other
    rw [LoadFromHistory_append pre (x :: other) a hpre]
    conv => lhs; unfold BaseAggregate.LoadFromHistory
    exact if_pos hx
  refine ⟨by rw [key post], fun other => by rw [key other, key post], ?_, ?_⟩
  · intro hnil
    rw [key post, hnil]
    rfl
  · intro last hlast
    rw [key post, hlast]
    rfl

theorem LoadFromHistory_stops_at_foreign_witness :
    ((NewBaseAggregate "d-1").LoadFromHistory
        ([diaryCreated, { diaryCreated with Version := 2 }] ++ userRegistered :: [evA1])).2
      = errorsNew "event aggregate ID does not match" ∧
    ((NewBaseAggregate "d-1").LoadFromHistory
        ([diaryCreated, { diaryCreated with Version := 2 }] ++ userRegistered :: [evA1])).1.GetVersion
      = 2 ∧
    ((NewBaseAggregate "d-1").LoadFromHistory ([] ++ userRegistered :: [evA1])).1.GetVersion
      = (NewBaseAggregate "d-1").GetVersion :=
  let h := LoadFromHistory_stops_at_foreign (NewBaseAggregate "d-1") (NewDiaryAggregate "d-1")
    (NewUserAggregate "u-1") [diaryCreated, { diaryCreated with Version := 2 }] [evA1]
    userRegistered []
  let k := LoadFromHistory_stops_at_foreign (NewBaseAggregate "d-1") (NewDiaryAggregate "d-1")
    (NewUserAggregate "u-1") [] [evA1] userRegistered []
  ⟨(h.1 (by decide) (by decide)).1,
    (h.1 (by decide) (by decide)).2.2.2 { diaryCreated with Version := 2 } rfl,
    (k.1 (by decide) (by decide)).2.2.1 rfl⟩

/-! ## Aggregates: the partial update of `DiaryEntryUpdated` -/

theorem applyDiaryEntryUpdated_fields (d : DiaryAggregate) (e : Event) :
    ((d.applyDiaryEntryUpdated e).1.title = d.title ∨
      ((d.applyDiaryEntryUpdated e).1.title ≠ "" ∧ (d.applyDiaryEntryUpdated e).2 = GoError.nil)) ∧
    (d.applyDiaryEntryUpdated e).1.userID = d.userID ∧
    (d.applyDiaryEntryUpdated e).1.sessionID = d.sessionID ∧
    (d.applyDiaryEntryUpdated e).1.deleted = d.deleted := by
  unfold DiaryAggregate.applyDiaryEntryUpdated
  cases hp : (e.UnmarshalPayload : Except GoError DiaryEntryUpdatedPayload) with
  | error err => exact ⟨Or.inl rfl, rfl, rfl, rfl⟩
  | ok payload =>
    refine ⟨?_, rfl, rfl, rfl⟩
    simp only
    by_cases ht : payload.Title ≠ ""
    · right
      rw [if_pos ht]
      exact ⟨ht, trivial⟩
    · left
      rw [if_neg ht]

theorem replay_updated_keeps : ∀ (history : List Event) (d : DiaryAggregate),
    (∀ x ∈ history, x.Type_ = DiaryEntryUpdatedEvent) →
    (d.title ≠ "" → (d.replay history).title ≠ "") ∧
    (d.replay history).userID = d.userID ∧ (d.replay history).sessionID = d.sessionID ∧
    (d.replay history).deleted = d.deleted := by
  intro history
  induction history with
  | nil => intro d _; exact ⟨fun h => h, rfl, rfl, rfl⟩
  | cons x xs ih =>
    intro d h
    have hx : x.Type_ = DiaryEntryUpdatedEvent := h x (List.mem_cons_self _ _)
    have happ : d.ApplyEvent x = d.applyDiaryEntryUpdated x := by
      unfold DiaryAggregate.ApplyEvent
      rw [if_neg (by rw [hx]; decide), if_pos hx]
    obtain ⟨i1, i2, i3, i4⟩ := ih (d.ApplyEvent x).1 (fun y hy => h y (List.mem_cons_of_mem _ hy))
    obtain ⟨f1, f2, f3, f4⟩ := applyDiaryEntryUpdated_fields d x
    rw [happ] at i1 i2 i3 i4
    unfold DiaryAggregate.replay
    rw [happ]
    refine ⟨?_, i2.trans f2, i3.trans f3, i4.trans f4⟩
    intro ht
    apply i1
    rcases f1 with f1 | f1
    · rw [f1]; exact ht
    · exact f1.1

/-- C34: applying a `DiaryEntryUpdated` event whose payload decodes replaces
the title, the content, the token count and the tags by the value of the
payload exactly when that value is, respectively, a non-empty string, a
non-empty string, a positive integer, a non-nil tag list, and leaves the field
as it was otherwise; the user id, the session id and the deleted flag are not
changed (nor are the id and the uncommitted events), and nothing is changed
when the payload does not decode. Consequently a non-empty title is not empty
after any sequence of `DiaryEntryUpdated` events has been folded in. -/
theorem updated_is_a_partial_update (d : DiaryAggregate) (e : Event)
    (payload : DiaryEntryUpdatedPayload) (history : List Event) :
    ((e.UnmarshalPayload : Except GoError DiaryEntryUpdatedPayload) = Except.ok payload →
      (d.applyDiaryEntryUpdated e).2 = GoError.nil ∧
      (payload.Title ≠ "" → (d.applyDiaryEntryUpdated e).1.title = payload.Title) ∧
      (payload.Title = "" → (d.applyDiaryEntryUpdated e).1.title = d.title) ∧
      (payload.Content ≠ "" → (d.applyDiaryEntryUpdated e).1.content = payload.Content) ∧
      (payload.Content = "" → (d.applyDiaryEntryUpdated e).1.content = d.content) ∧
      (0 < payload.TokenCount →
        (d.applyDiaryEntryUpdated e).1.tokenCount = payload.TokenCount) ∧
      (payload.TokenCount ≤ 0 → (d.applyDiaryEntryUpdated e).1.tokenCount = d.tokenCount) ∧
      (payload.Tags ≠ none → (d.applyDiaryEntryUpdated e).1.tags = payload.Tags) ∧
      (payload.Tags = none → (d.applyDiaryEntryUpdated e).1.tags = d.tags)) ∧
    (∀ err, (e.UnmarshalPayload : Except GoError DiaryEntryUpdatedPayload) = Except.error err →
      d.applyDiaryEntryUpdated e = (d, err)) ∧
    (d.applyDiaryEntryUpdated e).1.userID = d.userID ∧
    (d.applyDiaryEntryUpdated e).1.sessionID = d.sessionID ∧
    (d.applyDiaryEntryUpdated e).1.deleted = d.deleted ∧
    (d.applyDiaryEntryUpdated e).1.GetID = d.GetID ∧
    (d.applyDiaryEntryUpdated e).1.GetUncommittedEvents = d.GetUncommittedEvents ∧
    (e.Type_ = DiaryEntryUpdatedEvent → d.ApplyEvent e = d.applyDiaryEntryUpdated e) ∧
    ((∀ x ∈ history, x.Type_ = DiaryEntryUpdatedEvent) → d.GetTitle ≠ "" →
      (d.replay history).GetTitle ≠ "") := by
  refine ⟨?_, ?_, (applyDiaryEntryUpdated_fields d e).2.1, (applyDiaryEntryUpdated_fields d e).2.2.1,
    (applyDiaryEntryUpdated_fields d e).2.2.2, ?_, ?_, ?_, ?_⟩
  · intro hp
    unfold DiaryAggregate.applyDiaryEntryUpdated
    rw [hp]
    simp only
    refine ⟨trivial, ?_, ?_, ?_, ?_, ?_, ?_, ?_, ?_⟩
    · intro h; rw [if_pos h]
    · intro h; rw [if_neg (by simpa using h)]
    · intro h; rw [if_pos h]
    · intro h; rw [if_neg (by simpa using h)]
    · intro h; rw [if_pos h]
    · intro h; rw [if_neg (by omega)]
    · intro h; rw [if_pos h]
    · intro h; rw [if_neg (by simpa using h)]
  · intro err hp
    unfold DiaryAggregate.applyDiaryEntryUpdated
    rw [hp]
  · unfold DiaryAggregate.applyDiaryEntryUpdated
    cases (e.UnmarshalPayload : Except GoError DiaryEntryUpdatedPayload) with
    | error err => rfl
    | ok p => rfl
  · unfold DiaryAggregate.applyDiaryEntryUpdated
    cases (e.UnmarshalPayload : Except GoError DiaryEntryUpdatedPayload) with
    | error err => rfl
    | ok p => rfl
  · intro ht
    unfold DiaryAggregate.ApplyEvent
    rw [if_neg (by rw [ht]; decide), if_pos ht]
  · intro hall ht
    exact (replay_updated_keeps history d hall).1 ht

theorem updated_is_a_partial_update_witness :
    ((diaryHello.applyDiaryEntryUpdated columnA2).2 = GoError.nil ∧
      (diaryHello.applyDiaryEntryUpdated columnA2).1.title = "overwritten" ∧
      (diaryHello.applyDiaryEntryUpdated columnA2).1.content = "first entry" ∧
      (diaryHello.applyDiaryEntryUpdated columnA2).1.tokenCount = 2 ∧
      (diaryHello.applyDiaryEntryUpdated columnA2).1.tags = some ["mood"]) ∧
    diaryHello.applyDiaryEntryUpdated { columnA2 with Payload := RawMessage.document (JSONValue.int 3) }
      = (diaryHello, jsonUnmarshalError) ∧
    diaryHello.ApplyEvent columnA2 = diaryHello.applyDiaryEntryUpdated columnA2 ∧
    (diaryHello.replay [columnA2, columnA2]).GetTitle ≠ "" :=
  let payload : DiaryEntryUpdatedPayload := { Title := "overwritten" }
  let h := updated_is_a_partial_update diaryHello columnA2 payload [columnA2, columnA2]
  let k := updated_is_a_partial_update diaryHello
    { columnA2 with Payload := RawMessage.document (JSONValue.int 3) } payload []
  ⟨⟨(h.1 rfl).1, (h.1 rfl).2.1 (by decide),
      (h.1 rfl).2.2.2.2.1 (by decide), (h.1 rfl).2.2.2.2.2.2.1 (by decide),
      (h.1 rfl).2.2.2.2.2.2.2.2 (by decide)⟩,
    k.2.1 _ rfl, h.2.2.2.2.2.2.2.1 (by decide), h.2.2.2.2.2.2.2.2 (by decide) (by decide)⟩

/-! ## Events: `EventMetadata.ToMap` -/

/-- C38, as stated, fails: an `Extra` entry under the key `correlation_id`
replaces the correlation id of the metadata in the result of `ToMap`. -/
theorem ToMap_extra_overrides :
    mapGet (EventMetadata.ToMap
        { CorrelationID := "c-1", CausationID := "c-0", UserID := "u-1",
          Extra := [("correlation_id", JSONValue.string "spoofed")] }) "correlation_id"
      = some (JSONValue.string "spoofed") ∧
    mapGet (EventMetadata.ToMap
        { CorrelationID := "c-1", CausationID := "c-0", UserID := "u-1",
          Extra := [("correlation_id", JSONValue.string "spoofed")] }) "correlation_id"
      ≠ some (JSONValue.string "c-1") := by
  decide

theorem ToMap_lookup (m : EventMetadata) (hd : DistinctKeys m.Extra) (k : String) :
    mapGet m.ToMap k
      = (mapGet m.Extra k).or
          (if k = "correlation_id" then some (JSONValue.string m.CorrelationID)
           else if k = "causation_id" then some (JSONValue.string m.CausationID)
           else if k = "user_id" ∧ m.UserID ≠ "" then some (JSONValue.string m.UserID)
           else none) := by
  unfold EventMetadata.ToMap
  rw [mapGet_foldl_mapSet _ _ hd]
  congr 1
  by_cases hu : m.UserID ≠ ""
  · rw [if_pos hu, mapGet_mapSet]
    simp only [mapGet]
    by_cases h1 : k = "correlation_id"
    · subst h1; simp
    · by_cases h2 : k = "causation_id"
      · subst h2; simp
      · by_cases h3 : k = "user_id"
        · subst h3; simp [hu]
        · simp [h1, h2, h3, Ne.symm h1, Ne.symm h2, Ne.symm h3, eq_comm]
  · rw [if_neg hu]
    simp only [mapGet]
    by_cases h1 : k = "correlation_id"
    · subst h1; simp
    · by_cases h2 : k = "causation_id"
      · subst h2; simp
      · simp [h1, h2, hu, Ne.symm h1, Ne.symm h2, eq_comm]

/-- C38 (amended): for every metadata value whose `Extra` map has none of the
keys `correlation_id`, `causation_id`, `user_id`, `ToMap` maps
`correlation_id` to the correlation id, `causation_id` to the causation id,
and `user_id` to the user id when that is non-empty; for every metadata value
the result contains every entry of `Extra`, has distinct keys, and has no key
besides `correlation_id`, `causation_id`, `user_id` (only for a non-empty user
id) and the keys of `Extra`. -/
theorem ToMap_keeps_fields (m : EventMetadata) (hd : DistinctKeys m.Extra) :
    (mapGet m.Extra "correlation_id" = none →
      mapGet m.ToMap "correlation_id" = some (JSONValue.string m.CorrelationID)) ∧
    (mapGet m.Extra "causation_id" = none →
      mapGet m.ToMap "causation_id" = some (JSONValue.string m.CausationID)) ∧
    (mapGet m.Extra "user_id" = none → m.UserID ≠ "" →
      mapGet m.ToMap "user_id" = some (JSONValue.string m.UserID)) ∧
    (∀ k v, (k, v) ∈ m.Extra → mapGet m.ToMap k = some v) ∧
    DistinctKeys m.ToMap ∧
    (∀ k, k ≠ "correlation_id" → k ≠ "causation_id" → (k ≠ "user_id" ∨ m.UserID = "") →
      mapGet m.Extra k = none → mapGet m.ToMap k = none) := by
  refine ⟨?_, ?_, ?_, ?_, ?_, ?_⟩
  · intro h
    rw [ToMap_lookup m hd, h]
    rfl
  · intro h
    rw [ToMap_lookup m hd, h]
    rfl
  · intro h hu
    rw [ToMap_lookup m hd, h]
    simp [hu]
  · intro k v hkv
    rw [ToMap_lookup m hd, mapGet_of_mem m.Extra hd k v hkv]
    rfl
  · unfold EventMetadata.ToMap
    apply distinctKeys_foldl_mapSet
    by_cases hu : m.UserID ≠ ""
    · rw [if_pos hu]
      apply distinctKeys_mapSet
      simp +decide [DistinctKeys]
    · rw [if_neg hu]
      simp +decide [DistinctKeys]
  · intro k h1 h2 h3 h
    rw [ToMap_lookup m hd, h, if_neg h1, if_neg h2, if_neg (by tauto)]
    rfl

theorem ToMap_keeps_fields_witness :
    mapGet (EventMetadata.ToMap
        { CorrelationID := "c-1", CausationID := "c-0", UserID := "u-1",
          Extra := [("tenant", JSONValue.string "t-9")] }) "correlation_id"
      = some (JSONValue.string "c-1") ∧
    mapGet (EventMetadata.ToMap
        { CorrelationID := "c-1", CausationID := "c-0", UserID := "u-1",
          Extra := [("tenant", JSONValue.string "t-9")] }) "causation_id"
      = some (JSONValue.string "c-0") ∧
    mapGet (EventMetadata.ToMap
        { CorrelationID := "c-1", CausationID := "c-0", UserID := "u-1",
          Extra := [("tenant", JSONValue.string "t-9")] }) "user_id"
      = some (JSONValue.string "u-1") ∧
    mapGet (EventMetadata.ToMap
        { CorrelationID := "c-1", CausationID := "c-0", UserID := "u-1",
          Extra := [("tenant", JSONValue.string "t-9")] }) "tenant"
      = some (JSONValue.string "t-9") ∧
    mapGet (EventMetadata.ToMap
        { CorrelationID := "c-1", CausationID := "c-0", UserID := "u-1",
          Extra := [("tenant", JSONValue.string "t-9")] }) "type" = none :=
  let h := ToMap_keeps_fields
    { CorrelationID := "c-1", CausationID := "c-0", UserID := "u-1",
      Extra := [("tenant", JSONValue.string "t-9")] } (by decide)
  ⟨h.1 (by decide), h.2.1 (by decide), h.2.2.1 (by decide) (by decide),
    h.2.2.2.1 _ _ (by decide), h.2.2.2.2.2 "type" (by decide) (by decide) (by decide) (by decide)⟩

/-! ## In-memory store: the index lists the positions of each aggregate -/

theorem mem_positionsOf (l : List Event) (id : String) (i : Nat) :
    i ∈ positionsOf l id ↔ ∃ e, l[i]? = some e ∧ e.AggregateID = id := by
  unfold positionsOf
  rw [List.mem_filter, List.mem_range]
  constructor
  · rintro ⟨hi, h⟩
    rw [List.getElem?_eq_getElem hi] at h
    refine ⟨l[i], List.getElem?_eq_getElem hi, ?_⟩
    simpa using h
  · rintro ⟨e, he, hid⟩
    have hi : i < l.length := by
      by_contra hn
      rw [List.getElem?_eq_none (by omega)] at he
      cases he
    refine ⟨hi, ?_⟩
    rw [he]
    simp [hid]

theorem positionsOf_append (l : List Event) (e : Event) (id : String) :
    positionsOf (l ++ [e]) id
      = positionsOf l id ++ (if e.AggregateID = id then [l.length] else []) := by
  unfold positionsOf
  rw [List.length_append, List.length_singleton, List.range_succ, List.filter_append]
  congr 1
  · apply List.filter_congr
    intro i hi
    rw [List.mem_range] at hi
    rw [List.getElem?_append_left hi]
  · by_cases h : e.AggregateID = id
    · simp [h]
    · simp [h]

theorem positionsOf_sorted (l : List Event) (id : String) :
    (positionsOf l id).Pairwise (· < ·) := by
  unfold positionsOf
  exact List.Pairwise.filter _ (List.pairwise_lt_range _)

theorem length_positionsOf (l : List Event) (id : String) :
    (positionsOf l id).length = (l.map Event.AggregateID).count id := by
  induction l using List.reverseRecOn with
  | nil => rfl
  | append_singleton l e ih =>
    rw [positionsOf_append, List.length_append, ih, List.map_append, List.count_append]
    by_cases h : e.AggregateID = id
    · simp [h]
    · simp [h, List.count_singleton]

theorem indexExact_append (m : MemoryEventStore) (e : Event) (h : IndexExact m) :
    IndexExact ⟨m.events ++ [e], indexAppend m.index e.AggregateID m.events.length⟩ := by
  intro id
  have hid := h id
  show match indexAppend m.index e.AggregateID m.events.length id with
    | none => positionsOf (m.events ++ [e]) id = []
    | some indices => indices = positionsOf (m.events ++ [e]) id ∧ indices ≠ []
  rw [positionsOf_append]
  unfold indexAppend
  by_cases hk : id = e.AggregateID
  · subst hk
    rw [if_pos rfl, if_pos rfl]
    show (m.index e.AggregateID).getD [] ++ [m.events.length]
        = positionsOf m.events e.AggregateID ++ [m.events.length] ∧ _
    refine ⟨?_, by simp⟩
    cases hi : m.index e.AggregateID with
    | none => rw [hi] at hid; simp only at hid; rw [hid]; rfl
    | some indices => rw [hi] at hid; simp only at hid; rw [← hid.1]; rfl
  · rw [if_neg hk, if_neg (fun h' => hk h'.symm), List.append_nil]
    exact hid

theorem indexExact_SaveEvents : ∀ (eventList : List Event) (m : MemoryEventStore),
    IndexExact m → IndexExact (SaveEvents m eventList).1 := by
  intro eventList
  induction eventList with
  | nil => intro m h; exact h
  | cons e rest ih =>
    intro m h
    unfold SaveEvents
    by_cases hc : versionConflict m.events e = true
    · rw [if_pos hc]; exact h
    · rw [if_neg hc]
      exact ih _ (indexExact_append m e h)

theorem indexExact_new : IndexExact NewMemoryEventStore := by
  intro id
  show positionsOf [] id = []
  rfl

theorem indexExact_of_reachable {m : MemoryEventStore} (h : Reachable m) : IndexExact m := by
  induction h with
  | init => exact indexExact_new
  | save eventList _ ih => exact indexExact_SaveEvents eventList _ ih
  | clear _ _ => exact indexExact_new

theorem index_getD_of_exact (m : MemoryEventStore) (h : IndexExact m) (id : String) :
    (m.index id).getD [] = positionsOf m.events id := by
  have hid := h id
  cases hi : m.index id with
  | none => rw [hi] at hid; simp only at hid; rw [hid]; rfl
  | some indices => rw [hi] at hid; simp only at hid; rw [← hid.1]; rfl

/-- C31: in every state reachable from `NewMemoryEventStore` by `SaveEvents`
and `Clear` calls, the index entry of every aggregate id lists, in increasing
order and without repetition, exactly the positions `i` of the log with
`events[i].AggregateID = id` (an id has no entry exactly when the log holds no
event of it); every listed position is below the length of the log, the read
operations never index out of range, and `Len()` is the total number of
positions listed in the index. -/
theorem index_consistency (m : MemoryEventStore) (h : Reachable m) :
    (∀ id indices, m.index id = some indices →
      indices.Pairwise (· < ·) ∧ indices.Nodup ∧
      (∀ i, i ∈ indices ↔ ∃ e, m.events[i]? = some e ∧ e.AggregateID = id) ∧
      (∀ i ∈ indices, i < m.events.length) ∧ indices ≠ []) ∧
    (∀ id, m.index id = none ↔ ∀ e ∈ m.events, e.AggregateID ≠ id) ∧
    (∀ id, (GetEventsByAggregateID m id).isSome = true) ∧
    (∀ id v, (GetEventsByAggregateIDAndVersion m id v).isSome = true) ∧
    Len m = (((m.events.map Event.AggregateID).dedup).map
      fun id => ((m.index id).getD []).length).sum := by
  have hex := indexExact_of_reachable h
  have hinv := inv_of_reachable h
  refine ⟨?_, ?_, ?_, ?_, ?_⟩
  · intro id indices hi
    have hid := hex id
    rw [hi] at hid
    simp only at hid
    obtain ⟨heq, hne⟩ := hid
    subst heq
    have hs := positionsOf_sorted m.events id
    refine ⟨hs, ?_, mem_positionsOf m.events id, ?_, hne⟩
    · exact hs.imp (fun hab => Nat.ne_of_lt hab)
    · intro i hi'
      unfold positionsOf at hi'
      rw [List.mem_filter, List.mem_range] at hi'
      exact hi'.1
  · intro id
    have hid := hex id
    constructor
    · intro hi e he heid
      rw [hi] at hid
      simp only at hid
      obtain ⟨i, hlt, hget⟩ := List.getElem_of_mem he
      have : i ∈ positionsOf m.events id :=
        (mem_positionsOf m.events id i).2 ⟨e, by rw [List.getElem?_eq_getElem hlt, hget], heid⟩
      rw [hid] at this
      cases this
    · intro hall
      cases hi : m.index id with
      | none => rfl
      | some indices =>
        rw [hi] at hid
        simp only at hid
        obtain ⟨heq, hne⟩ := hid
        exfalso
        apply hne
        rw [heq, List.eq_nil_iff_forall_not_mem]
        intro i hi'
        obtain ⟨e, he, heid⟩ := (mem_positionsOf m.events id i).1 hi'
        exact hall e (List.mem_iff_getElem?.2 ⟨i, he⟩) heid
  · intro id
    rw [GetEventsByAggregateID_of_inv m hinv id]
    rfl
  · intro id v
    rw [GetEventsByAggregateIDAndVersion_of_inv m hinv id v]
    rfl
  · unfold Len
    have hfun : (fun id => ((m.index id).getD []).length)
        = fun id => (m.events.map Event.AggregateID).count id := by
      funext id
      rw [index_getD_of_exact m hex id, length_positionsOf]
    rw [hfun, List.sum_map_count_dedup_eq_length, List.length_map]

theorem index_consistency_witness :
    ((SaveEvents NewMemoryEventStore [evA1, evB1, evA2]).1.index "A" = some [0, 2] ∧
      [0, 2].Pairwise (· < ·) ∧ (2 ∈ [0, 2] ↔
        ∃ e, (SaveEvents NewMemoryEventStore [evA1, evB1, evA2]).1.events[2]? = some e ∧
          e.AggregateID = "A")) ∧
    (GetEventsByAggregateID (SaveEvents NewMemoryEventStore [evA1, evB1, evA2]).1 "A").isSome
      = true ∧
    Len (SaveEvents NewMemoryEventStore [evA1, evB1, evA2]).1 = 3 :=
  let h := index_consistency (SaveEvents NewMemoryEventStore [evA1, evB1, evA2]).1
    (Reachable.save [evA1, evB1, evA2] Reachable.init)
  ⟨⟨by decide, (h.1 "A" [0, 2] (by decide)).1, (h.1 "A" [0, 2] (by decide)).2.2.1 2⟩,
    h.2.2.1 "A", h.2.2.2.2.trans (by decide)⟩

/-! ## Stream database: conversion of a recorded event that names its aggregate -/

theorem convert_ok_inv (lib : Library) (event : RecordedEvent) (e : Event)
    (h : EventStoreDBEventStore.convertFromEventStoreEvent lib event = Except.ok e) :
    ∃ doc metadata a,
      (event.UserMetadata = RawMessage.document doc ∨
        ∃ n, event.UserMetadata = RawMessage.respelled doc n) ∧
      stepMap none doc = some (some metadata) ∧
      mapGet metadata "aggregate_id" = some (JSONValue.string a) := by
  have hdoc : ∀ doc, (event.UserMetadata = RawMessage.document doc ∨
      ∃ n, event.UserMetadata = RawMessage.respelled doc n) →
      ∃ doc metadata a,
        (event.UserMetadata = RawMessage.document doc ∨
          ∃ n, event.UserMetadata = RawMessage.respelled doc n) ∧
        stepMap none doc = some (some metadata) ∧
        mapGet metadata "aggregate_id" = some (JSONValue.string a) := by
    intro doc htext
    cases hs : stepMap none doc with
    | none =>
      exfalso
      unfold EventStoreDBEventStore.convertFromEventStoreEvent at h
      rcases htext with ht | ⟨n, ht⟩ <;> rw [ht] at h <;> simp only [hs] at h <;> cases h
    | some om =>
      cases om with
      | none =>
        exfalso
        unfold EventStoreDBEventStore.convertFromEventStoreEvent at h
        rcases htext with ht | ⟨n, ht⟩ <;> rw [ht] at h <;>
          simp only [hs, Option.getD_none, mapGet] at h <;> cases h
      | some metadata =>
        by_cases hex : ∃ a, mapGet metadata "aggregate_id" = some (JSONValue.string a)
        · obtain ⟨a, ha⟩ := hex
          exact ⟨doc, metadata, a, htext, hs, ha⟩
        · exfalso
          have hno : ∀ a, mapGet metadata "aggregate_id" ≠ some (JSONValue.string a) :=
            fun a ha => hex ⟨a, ha⟩
          unfold EventStoreDBEventStore.convertFromEventStoreEvent at h
          rcases htext with ht | ⟨n, ht⟩ <;> rw [ht] at h <;>
            simp only [hs, Option.getD_some] at h <;> cases h
  cases hu : event.UserMetadata with
  | nil =>
    exfalso
    unfold EventStoreDBEventStore.convertFromEventStoreEvent at h
    rw [hu] at h
    simp only [Option.getD_none, mapGet] at h
    cases h
  | malformed bytes =>
    exfalso
    unfold EventStoreDBEventStore.convertFromEventStoreEvent at h
    rw [hu] at h
    cases bytes with
    | nil => simp only [Option.getD_none, mapGet] at h; cases h
    | cons b bs => simp only at h; cases h
  | document doc =>
    obtain ⟨d, m, a, ht, r⟩ := hdoc doc (Or.inl hu)
    rw [hu] at ht
    exact ⟨d, m, a, ht, r⟩
  | respelled doc n =>
    obtain ⟨d, m, a, ht, r⟩ := hdoc doc (Or.inr ⟨n, hu⟩)
    rw [hu] at ht
    exact ⟨d, m, a, ht, r⟩

/-- C35: a recorded event whose metadata parses (with `json.Unmarshal`, into
the metadata map) as a JSON object that holds a string under `aggregate_id` is
converted successfully. The version of the result is the number under
`version` of the parsed object, converted with `int(·)` (so an integer of
magnitude up to `2 ^ 53` is itself), and the sequence number of the backend
when there is no number there; its timestamp is the parsed `timestamp` string
when there is one in RFC 3339 form and the created date of the backend
otherwise; its type is the event type of the backend, its payload the data of
the backend, and its metadata the parsed object without the keys `type`,
`aggregate_id`, `version`, `timestamp` and with every other key as parsed.
The conversion succeeds in no other case. -/
theorem convert_with_aggregate_id (lib : Library) (event : RecordedEvent) :
    (∀ doc metadata a,
      (event.UserMetadata = RawMessage.document doc ∨
        ∃ n, event.UserMetadata = RawMessage.respelled doc n) →
      stepMap none doc = some (some metadata) →
      mapGet metadata "aggregate_id" = some (JSONValue.string a) →
      ∃ e, EventStoreDBEventStore.convertFromEventStoreEvent lib event = Except.ok e ∧
        e.ID = event.EventID ∧ e.Type_ = event.EventType ∧ e.AggregateID = a ∧
        e.Payload = event.Data ∧
        (∀ f, mapGet metadata "version" = some (JSONValue.float f) → e.Version = f.toGoInt) ∧
        (∀ n : Int, n.natAbs ≤ 2 ^ 53 →
          mapGet metadata "version" = some (JSONValue.float ((Float64.ofInt n).getD ⟨0⟩)) →
          e.Version = n) ∧
        ((∀ f, mapGet metadata "version" ≠ some (JSONValue.float f)) →
          e.Version = ((Float64.ofInt event.EventNumber).getD ⟨0⟩).toGoInt ∧
          (event.EventNumber ≤ 2 ^ 53 → e.Version = event.EventNumber)) ∧
        (∀ s t, mapGet metadata "timestamp" = some (JSONValue.string s) →
          lib.timeParse s = some t → e.Timestamp = t) ∧
        ((∀ s, mapGet metadata "timestamp" = some (JSONValue.string s) →
            lib.timeParse s = none) → e.Timestamp = event.CreatedDate) ∧
        e.Metadata
          = mapDelete (mapDelete (mapDelete (mapDelete metadata "type") "aggregate_id")
              "version") "timestamp" ∧
        (∀ k, mapGet e.Metadata k = if k ∈ structuralKeys then none else mapGet metadata k)) ∧
    ((EventStoreDBEventStore.convertFromEventStoreEvent lib event).toOption = none ↔
      ¬ ∃ doc metadata a,
        (event.UserMetadata = RawMessage.document doc ∨
          ∃ n, event.UserMetadata = RawMessage.respelled doc n) ∧
        stepMap none doc = some (some metadata) ∧
        mapGet metadata "aggregate_id" = some (JSONValue.string a)) := by
  refine ⟨?_, ?_⟩
  · intro doc metadata a htext hobj hagg
    refine ⟨_, convert_of_aggregate_id lib event doc metadata a htext hobj hagg,
      rfl, rfl, rfl, rfl, ?_, ?_, ?_, ?_, ?_, rfl, ?_⟩
    · intro f hf
      simp only [hf]
    · intro n hn hf
      simp only [hf]
      exact toGoInt_ofInt n hn
    · intro hv
      have hver : (match mapGet metadata "version" with
          | some (JSONValue.float f) => f
          | _ => (Float64.ofInt event.EventNumber).getD ⟨0⟩)
          = (Float64.ofInt event.EventNumber).getD ⟨0⟩ := by
        cases hg : mapGet metadata "version" with
        | none => rfl
        | some v =>
          cases v with
          | float f => exact absurd hg (hv f)
          | null => rfl
          | bool b => rfl
          | int n => rfl
          | string a => rfl
          | array xs => rfl
          | object ms => rfl
      simp only [hver]
      refine ⟨trivial, fun hle => ?_⟩
      exact toGoInt_ofInt event.EventNumber (by simpa using hle)
    · intro s t hs ht
      simp only [hs, ht]
    · intro hts
      show (match mapGet metadata "timestamp" with
          | some (JSONValue.string timestampStr) =>
            match lib.timeParse timestampStr with
            | some t => t
            | none => event.CreatedDate
          | _ => event.CreatedDate) = event.CreatedDate
      cases hg : mapGet metadata "timestamp" with
      | none => rfl
      | some v =>
        cases v with
        | string s => simp only [hts s hg]
        | null => rfl
        | bool b => rfl
        | int n => rfl
        | float f => rfl
        | array xs => rfl
        | object ms => rfl
    · intro k
      simp only [mapGet_mapDelete, structuralKeys, List.mem_cons, List.mem_singleton,
        List.mem_nil_iff, or_false]
      by_cases h1 : k = "type"
      · simp [h1]
      · by_cases h2 : k = "aggregate_id"
        · simp [h2]
        · by_cases h3 : k = "version"
          · simp [h3]
          · by_cases h4 : k = "timestamp"
            · simp [h4]
            · simp [h1, h2, h3, h4]
  · constructor
    · intro hnone hex
      obtain ⟨doc, metadata, a, htext, hobj, hagg⟩ := hex
      rw [convert_of_aggregate_id lib event doc metadata a htext hobj hagg] at hnone
      cases hnone
    · intro hno
      cases hc : EventStoreDBEventStore.convertFromEventStoreEvent lib event with
      | error err => rfl
      | ok e => exact absurd (convert_ok_inv lib event e hc) hno

theorem convert_with_aggregate_id_witness :
    ∃ e, EventStoreDBEventStore.convertFromEventStoreEvent exampleLibrary recordedA1
        = Except.ok e ∧
      e.AggregateID = "A" ∧ e.Type_ = "DiaryEntryCreated" ∧ e.Version = 1 ∧
      e.Timestamp = 1704067200000000000 ∧ mapGet e.Metadata "version" = none :=
  match (convert_with_aggregate_id exampleLibrary recordedA1).1
      (JSONValue.object
        [("aggregate_id", JSONValue.string "A"),
         ("timestamp", JSONValue.string "2024-01-01T00:00:00Z"),
         ("type", JSONValue.string "DiaryEntryCreated"),
         ("version", JSONValue.int 1)])
      [("aggregate_id", JSONValue.string "A"),
       ("timestamp", JSONValue.string "2024-01-01T00:00:00Z"),
       ("type", JSONValue.string "DiaryEntryCreated"),
       ("version", JSONValue.float ⟨4607182418800017408⟩)]
      "A" (Or.inl rfl) (by decide) (by decide) with
  | ⟨e, he, _, hty, ha, _, _, hv, _, ht, _, _, hk⟩ =>
    ⟨e, he, ha, hty, hv 1 (by decide) (by decide),
      ht "2024-01-01T00:00:00Z" 1704067200000000000 (by decide) (by decide),
      (hk "version").trans (by decide)⟩

/-! ## Stream database: the bounded read against the full read -/

theorem convertUpTo_of_convertAll (lib : Library) (version : Int) :
    ∀ (entries : List (Option RecordedEvent)) (events : List Event),
      EventStoreDBEventStore.convertAll lib entries = Except.ok events →
      EventStoreDBEventStore.convertUpTo lib version entries
        = Except.ok (events.filter fun x => decide (x.Version ≤ version)) := by
  intro entries
  induction entries with
  | nil =>
    intro events h
    unfold EventStoreDBEventStore.convertAll at h
    injection h with h
    subst h
    rfl
  | cons entry rest ih =>
    intro events h
    cases entry with
    | none =>
      unfold EventStoreDBEventStore.convertAll at h
      unfold EventStoreDBEventStore.convertUpTo
      exact ih events h
    | some event =>
      unfold EventStoreDBEventStore.convertAll at h
      unfold EventStoreDBEventStore.convertUpTo
      cases hc : EventStoreDBEventStore.convertFromEventStoreEvent lib event with
      | error err => rw [hc] at h; cases h
      | ok domainEvent =>
        rw [hc] at h
        simp only at h ⊢
        cases hr : EventStoreDBEventStore.convertAll lib rest with
        | error err => rw [hr] at h; cases h
        | ok result =>
          rw [hr] at h
          simp only at h
          injection h with h
          subst h
          rw [ih result hr]
          simp only [List.filter_cons, decide_eq_true_eq]

theorem convertAll_take (lib : Library) :
    ∀ (stream : List RecordedEvent) (events : List Event) (n : Nat),
      EventStoreDBEventStore.convertAll lib (stream.map some) = Except.ok events →
      EventStoreDBEventStore.convertAll lib ((stream.take n).map some)
        = Except.ok (events.take n) := by
  intro stream
  induction stream with
  | nil =>
    intro events n h
    simp only [List.map_nil] at h
    unfold EventStoreDBEventStore.convertAll at h
    injection h with h
    subst h
    simp only [List.take_nil, List.map_nil]
    rfl
  | cons event rest ih =>
    intro events n h
    simp only [List.map_cons] at h
    unfold EventStoreDBEventStore.convertAll at h
    cases hc : EventStoreDBEventStore.convertFromEventStoreEvent lib event with
    | error err => rw [hc] at h; cases h
    | ok domainEvent =>
      rw [hc] at h
      simp only at h
      cases hr : EventStoreDBEventStore.convertAll lib (rest.map some) with
      | error err => rw [hr] at h; cases h
      | ok result =>
        rw [hr] at h
        simp only at h
        injection h with h
        subst h
        cases n with
        | zero => simp only [List.take_zero, List.map_nil]; rfl
        | succ k =>
          simp only [List.take_succ_cons, List.map_cons]
          unfold EventStoreDBEventStore.convertAll
          rw [hc]
          simp only
          rw [ih result k hr]

theorem filter_take_of_increasing (v : Int) :
    ∀ (events : List Event) (k : Int) (n : Nat),
      (events.map Event.Version).Pairwise (· < ·) →
      (∀ x ∈ events, k ≤ x.Version) → v < k + n →
      (events.take n).filter (fun x => decide (x.Version ≤ v))
        = events.filter fun x => decide (x.Version ≤ v) := by
  intro events
  induction events with
  | nil => intro k n _ _ _; simp
  | cons x xs ih =>
    intro k n hinc hlow hv
    rw [List.map_cons, List.pairwise_cons] at hinc
    have hxs : ∀ y ∈ xs, k + 1 ≤ y.Version := by
      intro y hy
      have h1 := hinc.1 y.Version (List.mem_map_of_mem _ hy)
      have h2 := hlow x (List.mem_cons_self _ _)
      omega
    cases n with
    | zero =>
      rw [List.take_zero, List.filter_nil]
      symm
      rw [List.filter_eq_nil_iff]
      intro y hy
      have h1 := hlow y hy
      simp only [decide_eq_true_eq]
      simp only [Nat.cast_zero, add_zero] at hv
      omega
    | succ m =>
      rw [List.take_succ_cons, List.filter_cons, List.filter_cons]
      rw [ih (k + 1) m hinc.2 hxs (by push_cast at hv; omega)]

theorem boundedReadCount_eq (v : Int) (h0 : 0 ≤ v) (h1 : v < 2 ^ 63) :
    ((boundedReadCount v : Nat) : Int) = v + 1 := by
  unfold boundedReadCount wrapInt64
  by_cases hv : v + 1 < 2 ^ 63
  · have e1 : (v + 1 + 2 ^ 63) % 2 ^ 64 = v + 1 + 2 ^ 63 :=
      Int.emod_eq_of_lt (by omega) (by omega)
    rw [e1]
    have e2 : (v + 1 + 2 ^ 63 - 2 ^ 63) % 2 ^ 64 = v + 1 := by
      rw [show v + 1 + 2 ^ 63 - 2 ^ 63 = v + 1 by ring]
      exact Int.emod_eq_of_lt (by omega) (by omega)
    rw [e2]
    exact Int.toNat_of_nonneg (by omega)
  · have hv' : v = 2 ^ 63 - 1 := by omega
    subst hv'
    decide

/-- C36: let the stream of `aggregateID` hold the recorded events `stream`,
so that the full read receives them all and the bounded read for `v` receives
the first `v + 1` of them, let every one of them be reconstructed, and let
the reconstructed versions be strictly increasing and at least 0 in stream
order. Then for every `v` with `0 ≤ v` (a Go `int`),
`GetEventsByAggregateIDAndVersion(id, v)` returns exactly the events of the
result of `GetEventsByAggregateID(id)` that have a version `≤ v`, in the same
order, and both calls return the same error (nil for a non-empty id). -/
theorem bounded_read_is_filtered_full_read (lib : Library) (e : EventStoreDBEventStore)
    (aggregateID : String) (v : Int) (stream : List RecordedEvent) (events : List Event)
    (hfull : e.client.ReadStream (e.getStreamName aggregateID) maxUint64
      = Except.ok (stream.map some))
    (hbounded : e.client.ReadStream (e.getStreamName aggregateID) (boundedReadCount v)
      = Except.ok ((stream.take (boundedReadCount v)).map some))
    (hconv : EventStoreDBEventStore.convertAll lib (stream.map some) = Except.ok events)
    (hinc : (events.map Event.Version).Pairwise (· < ·))
    (hlow : ∀ x ∈ events, 0 ≤ x.Version)
    (h0 : 0 ≤ v) (h1 : v < 2 ^ 63) :
    (EventStoreDBEventStore.GetEventsByAggregateIDAndVersion lib e aggregateID v).1
      = (EventStoreDBEventStore.GetEventsByAggregateID lib e aggregateID).1.filter
          (fun x => decide (x.Version ≤ v)) ∧
    (EventStoreDBEventStore.GetEventsByAggregateIDAndVersion lib e aggregateID v).2.1
      = (EventStoreDBEventStore.GetEventsByAggregateID lib e aggregateID).2.1 ∧
    (aggregateID ≠ "" →
      (EventStoreDBEventStore.GetEventsByAggregateID lib e aggregateID).1 = events ∧
      (EventStoreDBEventStore.GetEventsByAggregateID lib e aggregateID).2.1 = GoError.nil) := by
  unfold EventStoreDBEventStore.GetEventsByAggregateIDAndVersion
    EventStoreDBEventStore.GetEventsByAggregateID
  by_cases hid : aggregateID = ""
  · rw [if_pos hid, if_pos hid]
    exact ⟨rfl, rfl, fun h => absurd hid h⟩
  · rw [if_neg hid, if_neg hid, hfull, hbounded]
    simp only [hconv]
    have htake := convertAll_take lib stream events (boundedReadCount v) hconv
    rw [convertUpTo_of_convertAll lib v _ _ htake]
    simp only
    refine ⟨?_, trivial, fun _ => ⟨trivial, trivial⟩⟩
    apply filter_take_of_increasing v events 0 (boundedReadCount v) hinc hlow
    rw [boundedReadCount_eq v h0 h1]
    omega

theorem bounded_read_is_filtered_full_read_witness :
    ((EventStoreDBEventStore.GetEventsByAggregateIDAndVersion exampleLibrary
        exampleCountingStore "A" 1).1.map Event.Version = [1]) ∧
    (EventStoreDBEventStore.GetEventsByAggregateID exampleLibrary
        exampleCountingStore "A").1.map Event.Version = [1, 2, 3] ∧
    (EventStoreDBEventStore.GetEventsByAggregateIDAndVersion exampleLibrary
        exampleCountingStore "A" 1).1
      = (EventStoreDBEventStore.GetEventsByAggregateID exampleLibrary
          exampleCountingStore "A").1.filter (fun x => decide (x.Version ≤ 1)) :=
  ⟨by decide, by decide,
    (bounded_read_is_filtered_full_read exampleLibrary exampleCountingStore "A" 1
      [recordedA 0, recordedA 1, recordedA 2]
      (EventStoreDBEventStore.GetEventsByAggregateID exampleLibrary exampleCountingStore "A").1
      rfl rfl rfl (by decide) (by decide) (by decide) (by decide)).1⟩

/-! ## Aggregates: what `ApplyEvent` leaves alone -/

theorem diary_ApplyEvent_frame (d : DiaryAggregate) (e : Event) :
    (d.ApplyEvent e).1.id = d.id ∧
    (d.ApplyEvent e).1.uncommittedEvents = d.uncommittedEvents := by
  unfold DiaryAggregate.ApplyEvent
  by_cases h1 : e.Type_ = DiaryEntryCreatedEvent
  · rw [if_pos h1]
    unfold DiaryAggregate.applyDiaryEntryCreated
    cases (e.UnmarshalPayload : Except GoError DiaryEntryCreatedPayload) with
    | error err => exact ⟨rfl, rfl⟩
    | ok payload => exact ⟨rfl, rfl⟩
  · rw [if_neg h1]
    by_cases h2 : e.Type_ = DiaryEntryUpdatedEvent
    · rw [if_pos h2]
      unfold DiaryAggregate.applyDiaryEntryUpdated
      cases (e.UnmarshalPayload : Except GoError DiaryEntryUpdatedPayload) with
      | error err => exact ⟨rfl, rfl⟩
      | ok payload => exact ⟨rfl, rfl⟩
    · rw [if_neg h2]
      by_cases h3 : e.Type_ = DiaryEntryDeletedEvent
      · rw [if_pos h3]
        unfold DiaryAggregate.applyDiaryEntryDeleted
        cases (e.UnmarshalPayload : Except GoError DiaryEntryDeletedPayload) with
        | error err => exact ⟨rfl, rfl⟩
        | ok payload => exact ⟨rfl, rfl⟩
      · rw [if_neg h3]
        exact ⟨rfl, rfl⟩

theorem user_ApplyEvent_frame (u : UserAggregate) (e : Event) :
    (u.ApplyEvent e).1.id = u.id ∧
    (u.ApplyEvent e).1.uncommittedEvents = u.uncommittedEvents := by
  unfold UserAggregate.ApplyEvent
  by_cases h1 : e.Type_ = UserRegisteredEvent
  · rw [if_pos h1]
    unfold UserAggregate.applyUserRegistered
    cases (e.UnmarshalPayload : Except GoError UserRegisteredPayload) with
    | error err => exact ⟨rfl, rfl⟩
    | ok payload => exact ⟨rfl, rfl⟩
  · rw [if_neg h1]
    by_cases h2 : e.Type_ = UserProfileUpdatedEvent
    · rw [if_pos h2]
      unfold UserAggregate.applyUserProfileUpdated
      cases (e.UnmarshalPayload : Except GoError UserProfileUpdatedPayload) with
      | error err => exact ⟨rfl, rfl⟩
      | ok payload => exact ⟨rfl, rfl⟩
    · rw [if_neg h2]
      by_cases h3 : e.Type_ = UserArchetypeAssignedEvent
      · rw [if_pos h3]
        unfold UserAggregate.applyUserArchetypeAssigned
        cases (e.UnmarshalPayload : Except GoError UserArchetypeAssignedPayload) with
        | error err => exact ⟨rfl, rfl⟩
        | ok payload => exact ⟨rfl, rfl⟩
      · rw [if_neg h3]
        by_cases h4 : e.Type_ = UserArchetypeUpdatedEvent
        · rw [if_pos h4]
          unfold UserAggregate.applyUserArchetypeUpdated
          cases (e.UnmarshalPayload : Except GoError UserArchetypeUpdatedPayload) with
          | error err => exact ⟨rfl, rfl⟩
          | ok payload => exact ⟨rfl, rfl⟩
        · rw [if_neg h4]
          by_cases h5 : e.Type_ = UserModalitiesUpdatedEvent
          · rw [if_pos h5]
            unfold UserAggregate.applyUserModalitiesUpdated
            cases (e.UnmarshalPayload : Except GoError UserModalitiesUpdatedPayload) with
            | error err => exact ⟨rfl, rfl⟩
            | ok payload => exact ⟨rfl, rfl⟩
          · rw [if_neg h5]
            exact ⟨rfl, rfl⟩

/-! ## Aggregates: versions of the staged events -/

theorem wrapInt64_succ (v : Int) (h0 : -2 ^ 63 ≤ v) (h1 : v + 1 < 2 ^ 63) :
    wrapInt64 (v + 1) = v + 1 := by
  unfold wrapInt64
  rw [Int.emod_eq_of_lt (by omega) (by omega)]
  omega

theorem contiguousFrom_spec (id : String) : ∀ (l : List Event) (v : Int),
    contiguousFrom id v l = true →
    (∀ e ∈ l, e.AggregateID = id ∧ v ≤ e.Version) ∧
    l.Pairwise (fun a b => a.Version < b.Version) ∧
    l.map Event.Version = (List.range l.length).map (fun (i : Nat) => v + (i : Int)) := by
  intro l
  induction l with
  | nil => intro v _; exact ⟨by simp, List.Pairwise.nil, rfl⟩
  | cons e rest ih =>
    intro v h
    simp only [contiguousFrom, Bool.and_eq_true, beq_iff_eq] at h
    obtain ⟨⟨hid, hv⟩, hrest⟩ := h
    obtain ⟨h1, h2, h3⟩ := ih (v + 1) hrest
    refine ⟨?_, ?_, ?_⟩
    · intro x hx
      rcases List.mem_cons.1 hx with hx | hx
      · subst hx; exact ⟨hid, by omega⟩
      · exact ⟨(h1 x hx).1, by have := (h1 x hx).2; omega⟩
    · rw [List.pairwise_cons]
      refine ⟨?_, h2⟩
      intro x hx
      have := (h1 x hx).2
      omega
    · rw [List.length_cons, List.range_succ_eq_map, List.map_cons, List.map_cons, List.map_map,
        h3, hv]
      simp only [Nat.cast_zero, add_zero, List.cons.injEq, true_and]
      apply List.map_congr_left
      intro i _
      simp only [Function.comp, Nat.cast_succ]
      omega

theorem contiguousFrom_append (id : String) : ∀ (l : List Event) (v : Int) (e : Event),
    contiguousFrom id v l = true → e.AggregateID = id → e.Version = v + l.length →
    contiguousFrom id v (l ++ [e]) = true := by
  intro l
  induction l with
  | nil =>
    intro v e _ hid hv
    simp [contiguousFrom, hid, hv]
  | cons x rest ih =>
    intro v e h hid hv
    simp only [contiguousFrom, Bool.and_eq_true, beq_iff_eq] at h
    simp only [List.cons_append, contiguousFrom, Bool.and_eq_true, beq_iff_eq]
    refine ⟨h.1, ih (v + 1) e h.2 hid ?_⟩
    rw [hv, List.length_cons]
    push_cast
    omega

theorem SaveEvents_of_contiguous (id : String) (v : Int) (l : List Event)
    (h : contiguousFrom id v l = true) :
    (SaveEvents NewMemoryEventStore l).2 = GoError.nil ∧
    (SaveEvents NewMemoryEventStore l).1.events = l := by
  obtain ⟨_, h2, _⟩ := contiguousFrom_spec id l v h
  have hnc : NoCollision NewMemoryEventStore.events l := by
    constructor
    · intro e _ x hx
      cases hx
    · exact h2.imp (fun hab hpair => by omega)
  have := SaveEvents_no_collision l NewMemoryEventStore hnc
  exact ⟨this.1, by rw [this.2]; rfl⟩

theorem diary_executeAndApply_cases (d : DiaryAggregate) (newID : String) (now : Time)
    (c : DiaryCommand) :
    ((d.execute newID now c).2 ≠ GoError.nil ∧ (d.execute newID now c).1 = d ∧
      d.executeAndApply newID now c = d) ∨
    ∃ e, d.execute newID now c
        = ({ d with toBaseAggregate := d.toBaseAggregate.AddUncommittedEvent e }, GoError.nil) ∧
      e.AggregateID = d.id ∧ e.Version = wrapInt64 (d.version + 1) ∧
      (d.execute newID now c).1.uncommittedEvents.getLast? = some e ∧
      d.executeAndApply newID now c = ((d.execute newID now c).1.ApplyEvent e).1 := by
  rcases diary_execute_spec d newID now c with ⟨err, herr, heq⟩ | ⟨e, heq, hid, hv, _⟩
  · left
    unfold DiaryAggregate.executeAndApply
    rw [heq]
    exact ⟨herr, rfl, if_neg herr⟩
  · right
    have hlast : (d.execute newID now c).1.uncommittedEvents.getLast? = some e := by
      rw [heq]
      show (d.uncommittedEvents ++ [e]).getLast? = some e
      simp
    refine ⟨e, heq, hid, hv, hlast, ?_⟩
    unfold DiaryAggregate.executeAndApply
    rw [hlast, heq]
    exact if_pos rfl

theorem user_executeAndApply_cases (u : UserAggregate) (newID : String) (now : Time)
    (c : UserCommand) :
    ((u.execute newID now c).2 ≠ GoError.nil ∧ (u.execute newID now c).1 = u ∧
      u.executeAndApply newID now c = u) ∨
    ∃ e, u.execute newID now c
        = ({ u with toBaseAggregate := u.toBaseAggregate.AddUncommittedEvent e }, GoError.nil) ∧
      e.AggregateID = u.id ∧ e.Version = wrapInt64 (u.version + 1) ∧
      (u.execute newID now c).1.uncommittedEvents.getLast? = some e ∧
      u.executeAndApply newID now c = ((u.execute newID now c).1.ApplyEvent e).1 := by
  rcases user_execute_spec u newID now c with ⟨err, herr, heq⟩ | ⟨e, heq, hid, hv, _⟩
  · left
    unfold UserAggregate.executeAndApply
    rw [heq]
    exact ⟨herr, rfl, if_neg herr⟩
  · right
    have hlast : (u.execute newID now c).1.uncommittedEvents.getLast? = some e := by
      rw [heq]
      show (u.uncommittedEvents ++ [e]).getLast? = some e
      simp
    refine ⟨e, heq, hid, hv, hlast, ?_⟩
    unfold UserAggregate.executeAndApply
    rw [hlast, heq]
    exact if_pos rfl

theorem diary_run_versions : ∀ (ops : List (String × Time × DiaryCommand)) (d : DiaryAggregate),
    -2 ^ 63 ≤ d.version → d.version + ops.length < 2 ^ 63 →
    d.appliesSucceed ops = true →
    ∃ staged, (d.runAndApply ops).uncommittedEvents = d.uncommittedEvents ++ staged ∧
      contiguousFrom d.id (d.version + 1) staged = true ∧
      (d.runAndApply ops).version = d.version + staged.length ∧
      (d.runAndApply ops).id = d.id ∧ staged.length ≤ ops.length := by
  intro ops
  induction ops with
  | nil =>
    intro d _ _ _
    exact ⟨[], by simp [DiaryAggregate.runAndApply], rfl, by simp [DiaryAggregate.runAndApply],
      rfl, Nat.le_refl _⟩
  | cons op rest ih =>
    intro d h0 h1 hs
    obtain ⟨newID, now, c⟩ := op
    rw [List.length_cons] at h1
    push_cast at h1
    unfold DiaryAggregate.appliesSucceed at hs
    rw [Bool.and_eq_true] at hs
    obtain ⟨hstep, hrest⟩ := hs
    unfold DiaryAggregate.runAndApply
    rcases diary_executeAndApply_cases d newID now c with ⟨_, _, hsame⟩ | ⟨e, heq, hid, hv, hlast, hrun⟩
    · rw [hsame] at hrest ⊢
      obtain ⟨staged, a1, a2, a3, a4, a5⟩ := ih d h0 (by omega) hrest
      exact ⟨staged, a1, a2, a3, a4, by rw [List.length_cons]; omega⟩
    · have hnil : (d.execute newID now c).2 = GoError.nil := by rw [heq]
      rw [if_pos hnil, hlast] at hstep
      simp only [decide_eq_true_eq] at hstep
      have hver : ((d.execute newID now c).1.ApplyEvent e).1.version = d.version + 1 := by
        rcases diary_ApplyEvent_version (d.execute newID now c).1 e with ⟨_, hv2⟩ | ⟨hne, _⟩
        · rw [hv2, heq]
          exact wrapInt64_succ d.version h0 (by omega)
        · exact absurd hstep hne
      obtain ⟨f1, f2⟩ := diary_ApplyEvent_frame (d.execute newID now c).1 e
      have hid2 : ((d.execute newID now c).1.ApplyEvent e).1.id = d.id := by
        rw [f1, heq]; rfl
      have hunc : ((d.execute newID now c).1.ApplyEvent e).1.uncommittedEvents
          = d.uncommittedEvents ++ [e] := by
        rw [f2, heq]; rfl
      rw [hrun] at hrest ⊢
      obtain ⟨staged, a1, a2, a3, a4, a5⟩ :=
        ih ((d.execute newID now c).1.ApplyEvent e).1 (by rw [hver]; omega)
          (by rw [hver]; omega) hrest
      refine ⟨e :: staged, ?_, ?_, ?_, ?_, ?_⟩
      · rw [a1, hunc]; simp
      · rw [hid2, hver] at a2
        simp only [contiguousFrom, Bool.and_eq_true, beq_iff_eq]
        exact ⟨⟨hid, by rw [hv]; exact wrapInt64_succ d.version h0 (by omega)⟩, a2⟩
      · rw [a3, hver, List.length_cons]; push_cast; omega
      · rw [a4, hid2]
      · rw [List.length_cons, List.length_cons]; omega

theorem user_run_versions : ∀ (ops : List (String × Time × UserCommand)) (u : UserAggregate),
    -2 ^ 63 ≤ u.version → u.version + ops.length < 2 ^ 63 →
    u.appliesSucceed ops = true →
    ∃ staged, (u.runAndApply ops).uncommittedEvents = u.uncommittedEvents ++ staged ∧
      contiguousFrom u.id (u.version + 1) staged = true ∧
      (u.runAndApply ops).version = u.version + staged.length ∧
      (u.runAndApply ops).id = u.id ∧ staged.length ≤ ops.length := by
  intro ops
  induction ops with
  | nil =>
    intro u _ _ _
    exact ⟨[], by simp [UserAggregate.runAndApply], rfl, by simp [UserAggregate.runAndApply],
      rfl, Nat.le_refl _⟩
  | cons op rest ih =>
    intro u h0 h1 hs
    obtain ⟨newID, now, c⟩ := op
    rw [List.length_cons] at h1
    push_cast at h1
    unfold UserAggregate.appliesSucceed at hs
    rw [Bool.and_eq_true] at hs
    obtain ⟨hstep, hrest⟩ := hs
    unfold UserAggregate.runAndApply
    rcases user_executeAndApply_cases u newID now c with ⟨_, _, hsame⟩ | ⟨e, heq, hid, hv, hlast, hrun⟩
    · rw [hsame] at hrest ⊢
      obtain ⟨staged, a1, a2, a3, a4, a5⟩ := ih u h0 (by omega) hrest
      exact ⟨staged, a1, a2, a3, a4, by rw [List.length_cons]; omega⟩
    · have hnil : (u.execute newID now c).2 = GoError.nil := by rw [heq]
      rw [if_pos hnil, hlast] at hstep
      simp only [decide_eq_true_eq] at hstep
      have hver : ((u.execute newID now c).1.ApplyEvent e).1.version = u.version + 1 := by
        rcases user_ApplyEvent_version (u.execute newID now c).1 e with ⟨_, hv2⟩ | ⟨hne, _⟩
        · rw [hv2, heq]
          exact wrapInt64_succ u.version h0 (by omega)
        · exact absurd hstep hne
      obtain ⟨f1, f2⟩ := user_ApplyEvent_frame (u.execute newID now c).1 e
      have hid2 : ((u.execute newID now c).1.ApplyEvent e).1.id = u.id := by
        rw [f1, heq]; rfl
      have hunc : ((u.execute newID now c).1.ApplyEvent e).1.uncommittedEvents
          = u.uncommittedEvents ++ [e] := by
        rw [f2, heq]; rfl
      rw [hrun] at hrest ⊢
      obtain ⟨staged, a1, a2, a3, a4, a5⟩ :=
        ih ((u.execute newID now c).1.ApplyEvent e).1 (by rw [hver]; omega)
          (by rw [hver]; omega) hrest
      refine ⟨e :: staged, ?_, ?_, ?_, ?_, ?_⟩
      · rw [a1, hunc]; simp
      · rw [hid2, hver] at a2
        simp only [contiguousFrom, Bool.and_eq_true, beq_iff_eq]
        exact ⟨⟨hid, by rw [hv]; exact wrapInt64_succ u.version h0 (by omega)⟩, a2⟩
      · rw [a3, hver, List.length_cons]; push_cast; omega
      · rw [a4, hid2]
      · rw [List.length_cons, List.length_cons]; omega

/-- C32, as stated, fails: the business operations stage an event at
`GetVersion() + 1` and leave the version as it is, so two operations accepted
in a row, no `ApplyEvent` between them, stage two events of the same version.
On a fresh diary aggregate two `CreateEntry` calls are both accepted and stage
events of the versions 1 and 1 (also after the first of them has then been
applied), and the in-memory `SaveEvents` of an empty store answers the
uncommitted sequence with the version conflict. -/
theorem staged_versions_repeat :
    ((NewDiaryAggregate "d-1").execute "00000000-0000-4000-8000-000000000001" 100
        (DiaryCommand.CreateEntry "u-1" "Hello" "first entry" 2 "s-1" (some ["mood"]))).2
      = GoError.nil ∧
    (((NewDiaryAggregate "d-1").execute "00000000-0000-4000-8000-000000000001" 100
        (DiaryCommand.CreateEntry "u-1" "Hello" "first entry" 2 "s-1" (some ["mood"]))).1.execute
        "00000000-0000-4000-8000-000000000003" 300
        (DiaryCommand.CreateEntry "u-1" "Again" "second entry" 2 "s-1" none)).2 = GoError.nil ∧
    ((NewDiaryAggregate "d-1").runOperations twoCreates).GetUncommittedEvents.map Event.Version
      = [1, 1] ∧
    ((NewDiaryAggregate "d-1").runOperations twoCreates).GetVersion = 0 ∧
    ((((NewDiaryAggregate "d-1").runOperations twoCreates).ApplyEvent
        diaryCreated).1.GetUncommittedEvents.map Event.Version = [1, 1]) ∧
    (SaveEvents NewMemoryEventStore
        ((NewDiaryAggregate "d-1").runOperations twoCreates).GetUncommittedEvents).2
      = ErrVersionConflict := by
  decide

/-- C32 (amended): take a `DiaryAggregate` or a `UserAggregate` without
uncommitted events (a fresh one in particular) and run business operations on
it, every accepted operation being followed by a successful `ApplyEvent` of
the event it staged. Then the events in `GetUncommittedEvents()` have, in
staging order, the versions `v + 1`, `v + 2`, ... where `v` is the version
before the run; these are pairwise distinct (strictly increasing), the version
after the run is `v` plus the number of staged events, every staged event has
the id of the aggregate, and the in-memory `SaveEvents` of an empty store
accepts the whole uncommitted sequence. Versions are Go `int`s: the run is
taken to stay below `2 ^ 63`. -/
theorem staged_versions_contiguous (d : DiaryAggregate) (u : UserAggregate)
    (dops : List (String × Time × DiaryCommand)) (uops : List (String × Time × UserCommand)) :
    (d.GetUncommittedEvents = [] → -2 ^ 63 ≤ d.GetVersion →
      d.GetVersion + dops.length < 2 ^ 63 → d.appliesSucceed dops = true →
      (d.runAndApply dops).GetUncommittedEvents.map Event.Version
        = (List.range (d.runAndApply dops).GetUncommittedEvents.length).map
            (fun (i : Nat) => d.GetVersion + 1 + (i : Int)) ∧
      (d.runAndApply dops).GetUncommittedEvents.Pairwise (fun a b => a.Version < b.Version) ∧
      (d.runAndApply dops).GetVersion
        = d.GetVersion + (d.runAndApply dops).GetUncommittedEvents.length ∧
      (∀ e ∈ (d.runAndApply dops).GetUncommittedEvents, e.AggregateID = d.GetID) ∧
      (SaveEvents NewMemoryEventStore (d.runAndApply dops).GetUncommittedEvents).2
        = GoError.nil ∧
      (SaveEvents NewMemoryEventStore (d.runAndApply dops).GetUncommittedEvents).1.events
        = (d.runAndApply dops).GetUncommittedEvents) ∧
    (u.GetUncommittedEvents = [] → -2 ^ 63 ≤ u.GetVersion →
      u.GetVersion + uops.length < 2 ^ 63 → u.appliesSucceed uops = true →
      (u.runAndApply uops).GetUncommittedEvents.map Event.Version
        = (List.range (u.runAndApply uops).GetUncommittedEvents.length).map
            (fun (i : Nat) => u.GetVersion + 1 + (i : Int)) ∧
      (u.runAndApply uops).GetUncommittedEvents.Pairwise (fun a b => a.Version < b.Version) ∧
      (u.runAndApply uops).GetVersion
        = u.GetVersion + (u.runAndApply uops).GetUncommittedEvents.length ∧
      (∀ e ∈ (u.runAndApply uops).GetUncommittedEvents, e.AggregateID = u.GetID) ∧
      (SaveEvents NewMemoryEventStore (u.runAndApply uops).GetUncommittedEvents).2
        = GoError.nil ∧
      (SaveEvents NewMemoryEventStore (u.runAndApply uops).GetUncommittedEvents).1.events
        = (u.runAndApply uops).GetUncommittedEvents) := by
  constructor
  · intro hempty h0 h1 hs
    obtain ⟨staged, a1, a2, a3, _, _⟩ := diary_run_versions dops d h0 h1 hs
    have hunc : (d.runAndApply dops).GetUncommittedEvents = staged := by
      show (d.runAndApply dops).uncommittedEvents = staged
      rw [a1]
      have : d.uncommittedEvents = [] := hempty
      rw [this, List.nil_append]
    rw [hunc]
    obtain ⟨b1, b2, b3⟩ := contiguousFrom_spec d.id staged (d.version + 1) a2
    obtain ⟨c1, c2⟩ := SaveEvents_of_contiguous d.id (d.version + 1) staged a2
    exact ⟨b3, b2, a3, fun e he => (b1 e he).1, c1, c2⟩
  · intro hempty h0 h1 hs
    obtain ⟨staged, a1, a2, a3, _, _⟩ := user_run_versions uops u h0 h1 hs
    have hunc : (u.runAndApply uops).GetUncommittedEvents = staged := by
      show (u.runAndApply uops).uncommittedEvents = staged
      rw [a1]
      have : u.uncommittedEvents = [] := hempty
      rw [this, List.nil_append]
    rw [hunc]
    obtain ⟨b1, b2, b3⟩ := contiguousFrom_spec u.id staged (u.version + 1) a2
    obtain ⟨c1, c2⟩ := SaveEvents_of_contiguous u.id (u.version + 1) staged a2
    exact ⟨b3, b2, a3, fun e he => (b1 e he).1, c1, c2⟩

theorem staged_versions_contiguous_witness :
    ((NewDiaryAggregate "d-1").runAndApply diaryLife).GetUncommittedEvents.map Event.Version
      = [1, 2, 3] ∧
    ((NewDiaryAggregate "d-1").runAndApply diaryLife).GetVersion = 3 ∧
    (SaveEvents NewMemoryEventStore
        ((NewDiaryAggregate "d-1").runAndApply diaryLife).GetUncommittedEvents).2
      = GoError.nil ∧
    ((NewUserAggregate "u-1").runAndApply userLife).GetUncommittedEvents.map Event.Version
      = [1, 2] ∧
    (SaveEvents NewMemoryEventStore
        ((NewUserAggregate "u-1").runAndApply userLife).GetUncommittedEvents).2
      = GoError.nil :=
  let h := staged_versions_contiguous (NewDiaryAggregate "d-1") (NewUserAggregate "u-1")
    diaryLife userLife
  ⟨(h.1 (by decide) (by decide) (by decide) (by decide)).1.trans (by decide),
    (h.1 (by decide) (by decide) (by decide) (by decide)).2.2.1.trans (by decide),
    (h.1 (by decide) (by decide) (by decide) (by decide)).2.2.2.2.1,
    (h.2 (by decide) (by decide) (by decide) (by decide)).1.trans (by decide),
    (h.2 (by decide) (by decide) (by decide) (by decide)).2.2.2.2.1⟩

/-! ## Aggregates: a deleted diary entry -/

theorem diary_rejects_when_deleted (d : DiaryAggregate) (hd : d.deleted = true)
    (ht : d.title ≠ "") (newID : String) (now : Time) :
    (∀ userID title content tokenCount sessionID tags,
      d.CreateEntry newID now userID title content tokenCount sessionID tags
        = (d, errorsNew "diary entry already exists")) ∧
    (∀ title content tokenCount tags,
      d.UpdateEntry newID now title content tokenCount tags
        = (d, errorsNew "diary entry has been deleted")) ∧
    (∀ reason, d.DeleteEntry newID now reason
        = (d, errorsNew "diary entry has already been deleted")) := by
  refine ⟨?_, ?_, ?_⟩
  · intro userID title content tokenCount sessionID tags
    unfold DiaryAggregate.CreateEntry
    rw [if_pos ht]
  · intro title content tokenCount tags
    unfold DiaryAggregate.UpdateEntry
    rw [if_pos hd]
  · intro reason
    unfold DiaryAggregate.DeleteEntry
    rw [if_pos hd]

theorem diary_execute_when_deleted (d : DiaryAggregate) (hd : d.deleted = true)
    (ht : d.title ≠ "") (newID : String) (now : Time) (c : DiaryCommand) :
    (d.execute newID now c).2 ≠ GoError.nil ∧ (d.execute newID now c).1 = d ∧
      d.executeAndApply newID now c = d := by
  obtain ⟨h1, h2, h3⟩ := diary_rejects_when_deleted d hd ht newID now
  have key : ∃ msg, d.execute newID now c = (d, errorsNew msg) := by
    cases c with
    | CreateEntry userID title content tokenCount sessionID tags =>
      exact ⟨_, h1 userID title content tokenCount sessionID tags⟩
    | UpdateEntry title content tokenCount tags => exact ⟨_, h2 title content tokenCount tags⟩
    | DeleteEntry reason => exact ⟨_, h3 reason⟩
  obtain ⟨msg, hmsg⟩ := key
  unfold DiaryAggregate.executeAndApply
  rw [hmsg]
  exact ⟨errorsNew_ne_nil msg, rfl, if_neg (errorsNew_ne_nil msg)⟩

theorem diary_runAndApply_when_deleted : ∀ (ops : List (String × Time × DiaryCommand))
    (d : DiaryAggregate), d.deleted = true → d.title ≠ "" → d.runAndApply ops = d := by
  intro ops
  induction ops with
  | nil => intro d _ _; rfl
  | cons op rest ih =>
    intro d hd ht
    obtain ⟨newID, now, c⟩ := op
    unfold DiaryAggregate.runAndApply
    rw [(diary_execute_when_deleted d hd ht newID now c).2.2]
    exact ih d hd ht

theorem diary_runAndApply_append : ∀ (ops later : List (String × Time × DiaryCommand))
    (d : DiaryAggregate), d.runAndApply (ops ++ later) = (d.runAndApply ops).runAndApply later := by
  intro ops
  induction ops with
  | nil => intro later d; rfl
  | cons op rest ih =>
    intro later d
    obtain ⟨newID, now, c⟩ := op
    show (d.executeAndApply newID now c).runAndApply (rest ++ later)
      = ((d.executeAndApply newID now c).runAndApply rest).runAndApply later
    exact ih later _

theorem diary_staged_type_of_empty_title (d : DiaryAggregate) (newID : String) (now : Time)
    (c : DiaryCommand) (e : Event) (ht : d.title = "")
    (heq : d.execute newID now c
      = ({ d with toBaseAggregate := d.toBaseAggregate.AddUncommittedEvent e }, GoError.nil)) :
    e.Type_ = DiaryEntryCreatedEvent := by
  cases c with
  | CreateEntry userID title content tokenCount sessionID tags =>
    have h := congrArg (fun r => r.1.uncommittedEvents.getLast?) heq
    simp [DiaryAggregate.execute, DiaryAggregate.CreateEntry, ht, NewEvent,
      JSONMarshal.marshalJSON, DiaryAggregate.stage, BaseAggregate.AddUncommittedEvent] at h
    rw [← h]
  | UpdateEntry title content tokenCount tags =>
    exfalso
    have h := congrArg Prod.snd heq
    by_cases hd : d.deleted = true
    · simp [DiaryAggregate.execute, DiaryAggregate.UpdateEntry, hd, errorsNew] at h
    · simp [DiaryAggregate.execute, DiaryAggregate.UpdateEntry, hd, ht, errorsNew] at h
  | DeleteEntry reason =>
    exfalso
    have h := congrArg Prod.snd heq
    by_cases hd : d.deleted = true
    · simp [DiaryAggregate.execute, DiaryAggregate.DeleteEntry, hd, errorsNew] at h
    · simp [DiaryAggregate.execute, DiaryAggregate.DeleteEntry, hd, ht, errorsNew] at h

theorem diary_ApplyEvent_keeps_title (d : DiaryAggregate) (e : Event)
    (hI : d.deleted = true → d.title ≠ "")
    (hty : d.title = "" → e.Type_ = DiaryEntryCreatedEvent) :
    (d.ApplyEvent e).1.deleted = true → (d.ApplyEvent e).1.title ≠ "" := by
  unfold DiaryAggregate.ApplyEvent
  by_cases h1 : e.Type_ = DiaryEntryCreatedEvent
  · rw [if_pos h1]
    unfold DiaryAggregate.applyDiaryEntryCreated
    cases (e.UnmarshalPayload : Except GoError DiaryEntryCreatedPayload) with
    | error err => exact hI
    | ok payload => intro h; cases h
  · have ht : d.title ≠ "" := fun h => h1 (hty h)
    rw [if_neg h1]
    by_cases h2 : e.Type_ = DiaryEntryUpdatedEvent
    · rw [if_pos h2]
      obtain ⟨f1, _, _, _⟩ := applyDiaryEntryUpdated_fields d e
      intro _
      rcases f1 with f1 | f1
      · rw [f1]; exact ht
      · exact f1.1
    · rw [if_neg h2]
      by_cases h3 : e.Type_ = DiaryEntryDeletedEvent
      · rw [if_pos h3]
        unfold DiaryAggregate.applyDiaryEntryDeleted
        cases (e.UnmarshalPayload : Except GoError DiaryEntryDeletedPayload) with
        | error err => exact hI
        | ok payload => intro _; exact ht
      · rw [if_neg h3]
        exact hI

theorem diary_executeAndApply_keeps_title (d : DiaryAggregate) (newID : String) (now : Time)
    (c : DiaryCommand) (hI : d.deleted = true → d.title ≠ "") :
    (d.executeAndApply newID now c).deleted = true →
      (d.executeAndApply newID now c).title ≠ "" := by
  rcases diary_executeAndApply_cases d newID now c with ⟨_, _, hsame⟩ | ⟨e, heq, _, _, _, hrun⟩
  · rw [hsame]; exact hI
  · rw [hrun]
    apply diary_ApplyEvent_keeps_title
    · rw [heq]; exact hI
    · rw [heq]
      intro ht
      exact diary_staged_type_of_empty_title d newID now c e ht heq

theorem diary_runAndApply_keeps_title : ∀ (ops : List (String × Time × DiaryCommand))
    (d : DiaryAggregate), (d.deleted = true → d.title ≠ "") →
    (d.runAndApply ops).deleted = true → (d.runAndApply ops).title ≠ "" := by
  intro ops
  induction ops with
  | nil => intro d h; exact h
  | cons op rest ih =>
    intro d h
    obtain ⟨newID, now, c⟩ := op
    unfold DiaryAggregate.runAndApply
    exact ih _ (diary_executeAndApply_keeps_title d newID now c h)

/-- C33: deletion is terminal for a diary entry. Take a state reached from a
fresh `DiaryAggregate` by business operations, every accepted one being
followed by `ApplyEvent` of the event it staged. If `IsDeleted()` is true in
it, then `CreateEntry`, `UpdateEntry` and `DeleteEntry` are rejected, whatever
their arguments, and leave the aggregate as it is; hence whatever operations
follow, the state stays the same, `IsDeleted()` stays true, and the three
operations are still rejected. -/
theorem deletion_is_terminal (id : String) (ops later : List (String × Time × DiaryCommand))
    (newID : String) (now : Time)
    (h : ((NewDiaryAggregate id).runAndApply ops).IsDeleted = true) :
    ((NewDiaryAggregate id).runAndApply (ops ++ later)).IsDeleted = true ∧
    (NewDiaryAggregate id).runAndApply (ops ++ later) = (NewDiaryAggregate id).runAndApply ops ∧
    (∀ userID title content tokenCount sessionID tags,
      ((NewDiaryAggregate id).runAndApply (ops ++ later)).CreateEntry newID now userID title
          content tokenCount sessionID tags
        = ((NewDiaryAggregate id).runAndApply (ops ++ later),
            errorsNew "diary entry already exists")) ∧
    (∀ title content tokenCount tags,
      ((NewDiaryAggregate id).runAndApply (ops ++ later)).UpdateEntry newID now title content
          tokenCount tags
        = ((NewDiaryAggregate id).runAndApply (ops ++ later),
            errorsNew "diary entry has been deleted")) ∧
    (∀ reason,
      ((NewDiaryAggregate id).runAndApply (ops ++ later)).DeleteEntry newID now reason
        = ((NewDiaryAggregate id).runAndApply (ops ++ later),
            errorsNew "diary entry has already been deleted")) ∧
    (∀ c, (((NewDiaryAggregate id).runAndApply (ops ++ later)).execute newID now c).2
      ≠ GoError.nil) := by
  have hd : ((NewDiaryAggregate id).runAndApply ops).deleted = true := h
  have ht : ((NewDiaryAggregate id).runAndApply ops).title ≠ "" :=
    diary_runAndApply_keeps_title ops (NewDiaryAggregate id) (fun hfalse => by cases hfalse) hd
  have hsame : (NewDiaryAggregate id).runAndApply (ops ++ later)
      = (NewDiaryAggregate id).runAndApply ops := by
    rw [diary_runAndApply_append]
    exact diary_runAndApply_when_deleted later _ hd ht
  rw [hsame]
  obtain ⟨r1, r2, r3⟩ := diary_rejects_when_deleted _ hd ht newID now
  exact ⟨h, rfl, r1, r2, r3, fun c => (diary_execute_when_deleted _ hd ht newID now c).1⟩

theorem deletion_is_terminal_witness :
    ((NewDiaryAggregate "d-1").runAndApply diaryLife).IsDeleted = true ∧
    ((NewDiaryAggregate "d-1").runAndApply (diaryLife ++ twoCreates)).IsDeleted = true ∧
    (((NewDiaryAggregate "d-1").runAndApply (diaryLife ++ twoCreates)).UpdateEntry
        "00000000-0000-4000-8000-000000000009" 900 "Back" "" 0 none).2
      = errorsNew "diary entry has been deleted" :=
  let h := deletion_is_terminal "d-1" diaryLife twoCreates
    "00000000-0000-4000-8000-000000000009" 900 (by decide)
  ⟨by decide, h.1, congrArg Prod.snd (h.2.2.2.1 "Back" "" 0 none)⟩

end EventSourcing
